import Mathlib

/-!
# shady: IR passes and the SPIR-V emitter

The development embeds, one namespace per source file,

* `OptStack`  : `src/shady/passes/opt_stack.c` (push/pop elision), on first
  visits, and `OptStack.Memo`, the same pass with the rewriter map,
* `LowerMask` : `src/passes/lower_mask.c` (mask primops to 64-bit integer code),
* `Emit`      : `src/emit/emit.c` (SPIR-V emission),
* `MapEntrypointArgs` : `src/shady/passes/spirv_map_entrypoint_args.c`
  (entry-point arguments to push constants),

and proves properties of the embedded functions.  The files belong to
different revisions of the IR, so every namespace carries the node shapes its
file reads.  Definitions come first, theorems after them.
-/

set_option autoImplicit false

namespace OptStack

/-! ## Node model read by `opt_stack.c` -/

/-- The primitive operations.  `process` inspects `push_stack_op` and
`pop_stack_op` only; `quote_op` is what `unit` and `quote_single` build;
every further operation is `other_op`. -/
inductive Op
  | push_stack_op
  | pop_stack_op
  | quote_op
  | add_op
  | other_op (code : Nat)
  deriving DecidableEq, Repr

/-- Values: the leaves of the instruction chain. -/
inductive Value
  | int_literal (value : Int)
  | true_lit
  | false_lit
  | variable (id : Nat)
  | fn_addr (name : String)
  deriving DecidableEq, Repr

mutual
/-- Instructions (`is_instruction`): a primop, the two calls, and the four
structured constructs, whose bodies are lambdas. -/
inductive Instruction
  | PrimOp (op : Op) (operands : List Value)
  | LeafCall (callee : Value) (args : List Value)
  | IndirectCall (callee : Value) (args : List Value)
  | If (condition : Value) (if_true : AnonLambda) (if_false : Option AnonLambda)
  | Match (inspect : Value) (literals : List Value) (cases : List AnonLambda)
      (default_case : AnonLambda)
  | Loop (initial_args : List Value) (body : AnonLambda)
  | Control (inside : AnonLambda)
/-- Terminators (`is_terminator`): `Let` chains an instruction to its tail. -/
inductive Terminator
  | Let (instruction : Instruction) (tail : AnonLambda)
  | Return (values : List Value)
  | Unreachable
  | TailCall (target : Value) (args : List Value)
  | Join (join_point : Value) (args : List Value)
  | MergeSelection (args : List Value)
  | MergeContinue (args : List Value)
  | MergeBreak (args : List Value)
/-- An anonymous lambda: the variables it binds and its body. -/
inductive AnonLambda
  | mk (params : List Nat) (body : Terminator)
end

/-- A function declaration. -/
structure Function where
  name : String
  params : List Nat
  body : Terminator

/-! ## The rewriter, as far as `process` uses it -/

/-- Modelled from the spec: the entries for values of the rewriter's
memoization map (`rewrite.c` is not part of the sources), which are all a
first visit reads: `process` below is the pass on a chain none of whose
terminators and lambdas has been rewritten before, so that their lookups
miss.  `OptStack.Memo.Rewriter` is the map over every kind of node the pass
looks up, and `OptStack.Memo.process` the pass with the lookups. -/
structure Rewriter where
  map : List (Value × Value)

/-- Modelled from the spec: `search_processed` looks the old node up in the
rewriter map. -/
def search_processed (r : Rewriter) (old : Value) : Option Value :=
  r.map.lookup old

/-- `process` on a value: `search_processed` first; a value is neither a
terminator nor a function, so a miss ends in `recreate_node_identity`, which
for a leaf re-interns the same payload in the destination arena. -/
def rewrite_node (r : Rewriter) (node : Value) : Value :=
  match search_processed r node with
  | some found => found
  | none => node

/-- Elementwise `rewrite_node` (`rewrite_nodes`). -/
def rewrite_nodes (r : Rewriter) (nodes : List Value) : List Value :=
  nodes.map (rewrite_node r)

/-- `first(nodes)` is `nodes.nodes[0]`.  A `push_stack` always carries its
operand; on the empty list the C reads past the array and the model returns a
fixed literal. -/
def first (nodes : List Value) : Value :=
  nodes.headD (.int_literal 0)

/-- One frame of the abstract stack (`struct StackState_`).  The `prev` link is
the rest of the list the frame sits in.  The source only ever builds `VALUE`
frames, so `type`, `count` and `values` are not represented and the assertion
at the pop site cannot fail. -/
structure StackState where
  leaks : Bool
  value : Value
  deriving DecidableEq, Repr

/-- `tag_leaks`: set `leaks` on every frame up the chain. -/
def tag_leaks (state : List StackState) : List StackState :=
  state.map fun s => { s with leaks := true }

/-- Modelled from the spec: `unit(arena)`, the no-op instruction, a `quote`
of no value. -/
def unit : Instruction := .PrimOp .quote_op []

/-- Modelled from the spec: `quote_single(arena, value)`, the instruction that
binds `value` directly. -/
def quote_single (value : Value) : Instruction := .PrimOp .quote_op [value]

/-- The `leaks` bit of the frame `child_ctx.state` points at. -/
def top_leaks (state : List StackState) : Bool :=
  match state with
  | s :: _ => s.leaks
  | [] => false

/-! ## `process`

`ctx->state` is a linked list of frames living on the C stack, and `leaks`
is written through the pointers; the embedding passes the list in and
returns it with the bits as they are when the call returns. -/

mutual
/-- `process` on a terminator (lines 30-124), on a first visit: the lookup of
line 31 misses for the terminator and for the terminators and lambdas below
it, see `Rewriter`, so the function starts at the switch of line 41.  What a
second visit of a node does is `OptStack.Memo.process`. -/
def process (r : Rewriter) : List StackState → Terminator → Terminator × List StackState
  | state, .Let old_instruction tail =>
    match old_instruction with
    | .PrimOp .push_stack_op operands =>
      let value := rewrite_node r (first operands)
      let entry : StackState := { leaks := false, value := value }
      let ntail := process_lambda r (entry :: state) tail
      let ninstruction :=
        if !(top_leaks ntail.2) then unit
        else Instruction.PrimOp .push_stack_op (rewrite_nodes r operands)
      (.Let ninstruction ntail.1, ntail.2.tail)
    | .PrimOp .pop_stack_op operands =>
      match state with
      | top :: prev =>
        let ntail := process_lambda r prev tail
        (.Let (quote_single top.value) ntail.1, top :: ntail.2)
      | [] =>
        let ntail := process_lambda r [] tail
        (.Let (.PrimOp .pop_stack_op (rewrite_nodes r operands)) ntail.1, ntail.2)
    | .PrimOp op operands =>
      let ntail := process_lambda r state tail
      (.Let (.PrimOp op (rewrite_nodes r operands)) ntail.1, ntail.2)
    | old_instruction =>
      let ntail := process_lambda r [] tail
      let ninstruction := recreate_node_identity r (tag_leaks state) old_instruction
      (.Let ninstruction.1 ntail.1, ninstruction.2)
  | state, .Unreachable => (.Unreachable, state)
  | state, .Return values => (.Return (rewrite_nodes r values), tag_leaks state)
  | state, .TailCall target args =>
    (.TailCall (rewrite_node r target) (rewrite_nodes r args), tag_leaks state)
  | state, .Join join_point args =>
    (.Join (rewrite_node r join_point) (rewrite_nodes r args), tag_leaks state)
  | state, .MergeSelection args => (.MergeSelection (rewrite_nodes r args), tag_leaks state)
  | state, .MergeContinue args => (.MergeContinue (rewrite_nodes r args), tag_leaks state)
  | state, .MergeBreak args => (.MergeBreak (rewrite_nodes r args), tag_leaks state)
/-- `process` on a lambda: not a terminator, not a function, so it is
recreated with `child_ctx`, a copy of `ctx`; the body is rewritten under the
same state. -/
def process_lambda (r : Rewriter) : List StackState → AnonLambda → AnonLambda × List StackState
  | state, .mk params body =>
    let nbody := process r state body
    (.mk params nbody.1, nbody.2)
/-- `process` on an optional lambda (`if_false` may be null). -/
def process_opt_lambda (r : Rewriter) :
    List StackState → Option AnonLambda → Option AnonLambda × List StackState
  | state, none => (none, state)
  | state, some l =>
    let nl := process_lambda r state l
    (some nl.1, nl.2)
/-- `rewrite_nodes` over a list of lambdas, in order. -/
def process_lambdas (r : Rewriter) :
    List StackState → List AnonLambda → List AnonLambda × List StackState
  | state, [] => ([], state)
  | state, l :: ls =>
    let nl := process_lambda r state l
    let nls := process_lambdas r nl.2 ls
    (nl.1 :: nls.1, nls.2)
/-- Modelled from the spec: `recreate_node_identity` on an instruction
rewrites every node-typed payload field with the rewriter it is given and
re-interns under the same tag.  The rewriter given at line 100 is `ctx`, so the
lambdas of an instruction are processed under `ctx->state`. -/
def recreate_node_identity (r : Rewriter) :
    List StackState → Instruction → Instruction × List StackState
  | state, .PrimOp op operands => (.PrimOp op (rewrite_nodes r operands), state)
  | state, .LeafCall callee args =>
    (.LeafCall (rewrite_node r callee) (rewrite_nodes r args), state)
  | state, .IndirectCall callee args =>
    (.IndirectCall (rewrite_node r callee) (rewrite_nodes r args), state)
  | state, .If condition if_true if_false =>
    let t := process_lambda r state if_true
    let f := process_opt_lambda r t.2 if_false
    (.If (rewrite_node r condition) t.1 f.1, f.2)
  | state, .Match inspect literals cases default_case =>
    let cs := process_lambdas r state cases
    let d := process_lambda r cs.2 default_case
    (.Match (rewrite_node r inspect) (rewrite_nodes r literals) cs.1 d.1, d.2)
  | state, .Loop initial_args body =>
    let b := process_lambda r state body
    (.Loop (rewrite_nodes r initial_args) b.1, b.2)
  | state, .Control inside =>
    let b := process_lambda r state inside
    (.Control b.1, b.2)
end

/-- `process` on a `Function` node (lines 115-121): the header is recreated,
`child_ctx.state` is set to null and the body is recreated under it.  The
frames of the caller's state are not reachable from the body. -/
def process_function (r : Rewriter) (state : List StackState) (node : Function) :
    Function × List StackState :=
  ({ node with body := (process r [] node.body).1 }, state)

/-- `opt_stack` on one function: `rewrite_module` reaches every declaration
with the context built at line 127, whose state is null. -/
def opt_stack (r : Rewriter) (f : Function) : Function :=
  (process_function r [] f).1

/-! ## A concrete stack semantics, to compare a function with its rewrite

The reference semantics below follows the words of the behaviour property:
`push_stack` pushes its operand, `pop_stack` pops, `unit` does nothing and
`quote` binds its value; the stack is shown at every call, at every
structured construct (bodies included) and at every terminator except
`Unreachable`.  The IR is in SSA form, so a value stands for itself: the stack
holds the operands that were pushed, and a binding is shown with the operand
bound. -/

/-- What an execution shows. -/
inductive Event
  | bound (params : List Nat) (values : List Value)
  | at_call (stack : List Value)
  | at_control (stack : List Value)
  | at_terminator (stack : List Value)
  deriving DecidableEq, Repr

/-- How the execution of a body ends: it hands over to the code after the
enclosing construct, or it leaves the function. -/
inductive Outcome
  | merged (stack : List Value)
  | stopped
  deriving DecidableEq, Repr

/-- The index of the case a `Match` selects, if a literal equals the
inspected value. -/
def select_case (inspect : Value) (literals : List Value) : Option Nat :=
  match literals.indexOf inspect with
  | i => if i < literals.length then some i else none

/-- After a structured construct: the tail runs from the stack the body left,
unless the body left the function. -/
def after_construct (stack : List Value) (inner : List Event × Outcome)
    (tail : List Value → List Event × Outcome) : List Event × Outcome :=
  match inner.2 with
  | .merged stack1 =>
    let rest := tail stack1
    (.at_control stack :: (inner.1 ++ rest.1), rest.2)
  | .stopped => (.at_control stack :: inner.1, .stopped)

mutual
/-- Run a chain from a stack; the result is what it shows and how it ends. -/
def exec : List Value → Terminator → List Event × Outcome
  | stack, .Let instruction tail =>
    match instruction with
    | .PrimOp .push_stack_op operands => exec_lambda (first operands :: stack) [] tail
    | .PrimOp .pop_stack_op _ => exec_lambda stack.tail stack.head?.toList tail
    | .PrimOp .quote_op operands => exec_lambda stack operands tail
    | .PrimOp _ _ => exec_lambda stack [] tail
    | .LeafCall _ _ =>
      let rest := exec_lambda stack [] tail
      (.at_call stack :: rest.1, rest.2)
    | .IndirectCall _ _ =>
      let rest := exec_lambda stack [] tail
      (.at_call stack :: rest.1, rest.2)
    | .If condition if_true if_false =>
      after_construct stack
        (if condition = .true_lit then exec_lambda stack [] if_true
          else exec_opt_lambda stack if_false)
        (fun stack1 => exec_lambda stack1 [] tail)
    | .Match inspect literals cases default_case =>
      after_construct stack
        (match exec_case stack (select_case inspect literals) cases with
          | some res => res
          | none => exec_lambda stack [] default_case)
        (fun stack1 => exec_lambda stack1 [] tail)
    | .Loop _ body =>
      after_construct stack (exec_lambda stack [] body)
        (fun stack1 => exec_lambda stack1 [] tail)
    | .Control inside =>
      after_construct stack (exec_lambda stack [] inside)
        (fun stack1 => exec_lambda stack1 [] tail)
  | _, .Unreachable => ([], .stopped)
  | stack, .Return _ => ([.at_terminator stack], .stopped)
  | stack, .TailCall _ _ => ([.at_terminator stack], .stopped)
  | stack, .Join _ _ => ([.at_terminator stack], .merged stack)
  | stack, .MergeSelection _ => ([.at_terminator stack], .merged stack)
  | stack, .MergeContinue _ => ([.at_terminator stack], .merged stack)
  | stack, .MergeBreak _ => ([.at_terminator stack], .merged stack)
/-- Enter a lambda with the results of the instruction before it; results
that are bound are shown. -/
def exec_lambda : List Value → List Value → AnonLambda → List Event × Outcome
  | stack, results, .mk params body =>
    let inner := exec stack body
    match results with
    | [] => inner
    | _ :: _ => (.bound params results :: inner.1, inner.2)
/-- An absent branch hands over at once. -/
def exec_opt_lambda : List Value → Option AnonLambda → List Event × Outcome
  | stack, none => ([], .merged stack)
  | stack, some l => exec_lambda stack [] l
/-- Run the selected case of a `Match`. -/
def exec_case : List Value → Option Nat → List AnonLambda → Option (List Event × Outcome)
  | _, none, _ => none
  | _, some _, [] => none
  | stack, some 0, l :: _ => some (exec_lambda stack [] l)
  | stack, some (i + 1), _ :: ls => exec_case stack (some i) ls
end

/-- The behaviour of a function entered with a given stack: everything its
execution shows. -/
def behavior (stack : List Value) (f : Function) : List Event :=
  (exec stack f.body).1

/-- No structured construct in a chain: its instructions are primops and
calls. -/
def is_straight_line : Terminator → Bool
  | .Let (.PrimOp _ _) (.mk _ body) => is_straight_line body
  | .Let (.LeafCall _ _) (.mk _ body) => is_straight_line body
  | .Let (.IndirectCall _ _) (.mk _ body) => is_straight_line body
  | .Let _ _ => false
  | _ => true

/-- The values of the frames of a state, top first. -/
def frame_values (state : List StackState) : List Value :=
  state.map fun s => s.value

/-- The values of the frames whose push is kept, top first. -/
def kept_values (state : List StackState) : List Value :=
  (state.filter fun s => s.leaks).map fun s => s.value

/-! ## Straight-line regions -/

/-- A chain of `Let`s in front of a terminator: each instruction with the
parameters its tail binds. -/
def chain : List (Instruction × List Nat) → Terminator → Terminator
  | [], t => t
  | (i, ps) :: region, t => .Let i (.mk ps (chain region t))

/-- Walk a region from stack depth `d`: primops only, every pop matched by a
push of the region or by one of the `d` frames below.  The result is the depth
at the end. -/
def balanced_from : Nat → List (Instruction × List Nat) → Option Nat
  | d, [] => some d
  | d, (.PrimOp .push_stack_op _, _) :: region => balanced_from (d + 1) region
  | 0, (.PrimOp .pop_stack_op _, _) :: _ => none
  | d + 1, (.PrimOp .pop_stack_op _, _) :: region => balanced_from d region
  | d, (.PrimOp _ _, _) :: region => balanced_from d region
  | _, _ :: _ => none

/-- The frames of `b` are those of `a`, with the same values and every bit
that is set in `a` still set. -/
def covers (a b : List StackState) : Prop :=
  List.Forall₂ (fun x y => y.value = x.value ∧ (x.leaks = true → y.leaks = true)) a b

/-- The frames above the floor when a region has been walked: a push adds a
frame, a pop removes the top one. -/
def frames_after (r : Rewriter) :
    List StackState → List (Instruction × List Nat) → List StackState
  | pend, [] => pend
  | pend, (.PrimOp .push_stack_op operands, _) :: region =>
    frames_after r ({ leaks := false, value := rewrite_node r (first operands) } :: pend) region
  | pend, (.PrimOp .pop_stack_op _, _) :: region => frames_after r pend.tail region
  | pend, _ :: region => frames_after r pend region

/-- A terminator that is no `Let` and not `Unreachable`: it tags every frame. -/
def is_leaking_terminator : Terminator → Bool
  | .Let _ _ => false
  | .Unreachable => false
  | _ => true

/-- The function of the failing scenario: a push, then an `If` whose body pops. -/
def pop_inside_if : Function :=
  { name := "f", params := [],
    body := .Let (.PrimOp .push_stack_op [.int_literal 7]) (.mk []
      (.Let (.If .true_lit
          (.mk [] (.Let (.PrimOp .pop_stack_op []) (.mk [1] (.MergeSelection []))))
          none) (.mk []
        (.Return [])))) }

/-! ## Stack-free code and its identity rewrite -/

mutual
/-- No `push_stack` and no `pop_stack` in a chain, the bodies of its
structured constructs included. -/
def Terminator.stack_free : Terminator → Bool
  | .Let instruction tail => instruction.stack_free && tail.stack_free
  | _ => true
/-- No `push_stack` and no `pop_stack` in an instruction. -/
def Instruction.stack_free : Instruction → Bool
  | .PrimOp .push_stack_op _ => false
  | .PrimOp .pop_stack_op _ => false
  | .PrimOp _ _ => true
  | .LeafCall _ _ => true
  | .IndirectCall _ _ => true
  | .If _ if_true if_false => if_true.stack_free && opt_lambda_stack_free if_false
  | .Match _ _ cases default_case => lambdas_stack_free cases && default_case.stack_free
  | .Loop _ body => body.stack_free
  | .Control inside => inside.stack_free
/-- No `push_stack` and no `pop_stack` in a lambda. -/
def AnonLambda.stack_free : AnonLambda → Bool
  | .mk _ body => body.stack_free
/-- No `push_stack` and no `pop_stack` in an optional lambda. -/
def opt_lambda_stack_free : Option AnonLambda → Bool
  | none => true
  | some l => l.stack_free
/-- No `push_stack` and no `pop_stack` in a list of lambdas. -/
def lambdas_stack_free : List AnonLambda → Bool
  | [] => true
  | l :: ls => l.stack_free && lambdas_stack_free ls
end

mutual
/-- Modelled from the spec: the identity-style recreation of a terminator,
every node-typed field rewritten and the node rebuilt under the same tag. -/
def recreate_terminator (r : Rewriter) : Terminator → Terminator
  | .Let instruction tail => .Let (recreate_instruction r instruction) (recreate_lambda r tail)
  | .Return values => .Return (rewrite_nodes r values)
  | .Unreachable => .Unreachable
  | .TailCall target args => .TailCall (rewrite_node r target) (rewrite_nodes r args)
  | .Join join_point args => .Join (rewrite_node r join_point) (rewrite_nodes r args)
  | .MergeSelection args => .MergeSelection (rewrite_nodes r args)
  | .MergeContinue args => .MergeContinue (rewrite_nodes r args)
  | .MergeBreak args => .MergeBreak (rewrite_nodes r args)
/-- Modelled from the spec: the identity-style recreation of an instruction. -/
def recreate_instruction (r : Rewriter) : Instruction → Instruction
  | .PrimOp op operands => .PrimOp op (rewrite_nodes r operands)
  | .LeafCall callee args => .LeafCall (rewrite_node r callee) (rewrite_nodes r args)
  | .IndirectCall callee args => .IndirectCall (rewrite_node r callee) (rewrite_nodes r args)
  | .If condition if_true if_false =>
    .If (rewrite_node r condition) (recreate_lambda r if_true) (recreate_opt_lambda r if_false)
  | .Match inspect literals cases default_case =>
    .Match (rewrite_node r inspect) (rewrite_nodes r literals) (recreate_lambdas r cases)
      (recreate_lambda r default_case)
  | .Loop initial_args body => .Loop (rewrite_nodes r initial_args) (recreate_lambda r body)
  | .Control inside => .Control (recreate_lambda r inside)
/-- Modelled from the spec: the identity-style recreation of a lambda. -/
def recreate_lambda (r : Rewriter) : AnonLambda → AnonLambda
  | .mk params body => .mk params (recreate_terminator r body)
/-- Modelled from the spec: the identity-style recreation of an optional
lambda. -/
def recreate_opt_lambda (r : Rewriter) : Option AnonLambda → Option AnonLambda
  | none => none
  | some l => some (recreate_lambda r l)
/-- Modelled from the spec: the identity-style recreation of a list of
lambdas, in order. -/
def recreate_lambdas (r : Rewriter) : List AnonLambda → List AnonLambda
  | [] => []
  | l :: ls => recreate_lambda r l :: recreate_lambdas r ls
end

/-- The instructions of a region, each recreated identity-style, in order. -/
def recreate_chain (r : Rewriter) (region : List (Instruction × List Nat)) :
    List (Instruction × List Nat) :=
  region.map fun p => (recreate_instruction r p.1, p.2)

/-- A stack-free function for the examples: a primop, a call, an `If` with a
primop in its body, then `Return`. -/
def stack_free_sample : Terminator :=
  .Let (.PrimOp .add_op [.variable 1, .int_literal 2]) (.mk [3]
    (.Let (.LeafCall (.fn_addr "g") [.variable 3]) (.mk [4]
      (.Let (.If .true_lit
          (.mk [] (.Let (.PrimOp .add_op [.variable 4, .variable 4])
            (.mk [5] (.MergeSelection [.variable 5]))))
          none) (.mk [6]
        (.Return [.variable 6]))))))

end OptStack

namespace OptStack

/-! ## The memoization map

`rewrite_node` looks every node up before it hands it to `process`, and
registers what `process` returns; `process` looks the node up again at line
31.  A node met a second time is returned from the map, and nothing of lines
34-123 runs for it.  The functions of `OptStack.Memo` carry the map through
the pass; `OptStack.process` above is `process` on a first visit, where the
lookups on terminators and lambdas miss.

The arena interns nodes, so two structurally equal nodes are one node and the
map, keyed by node, finds one under the other: keys are compared by
structure. -/

mutual
/-- Two instructions are the same node. -/
def Instruction.beq : Instruction → Instruction → Bool
  | .PrimOp op operands, other =>
    match other with
    | .PrimOp op1 operands1 => op == op1 && operands == operands1
    | _ => false
  | .LeafCall callee args, other =>
    match other with
    | .LeafCall callee1 args1 => callee == callee1 && args == args1
    | _ => false
  | .IndirectCall callee args, other =>
    match other with
    | .IndirectCall callee1 args1 => callee == callee1 && args == args1
    | _ => false
  | .If condition if_true if_false, other =>
    match other with
    | .If condition1 if_true1 if_false1 =>
      condition == condition1 && if_true.beq if_true1 && opt_lambda_beq if_false if_false1
    | _ => false
  | .Match inspect literals cases default_case, other =>
    match other with
    | .Match inspect1 literals1 cases1 default_case1 =>
      inspect == inspect1 && literals == literals1 && lambdas_beq cases cases1
        && default_case.beq default_case1
    | _ => false
  | .Loop initial_args body, other =>
    match other with
    | .Loop initial_args1 body1 => initial_args == initial_args1 && body.beq body1
    | _ => false
  | .Control inside, other =>
    match other with
    | .Control inside1 => inside.beq inside1
    | _ => false
termination_by structural node => node
/-- Two terminators are the same node. -/
def Terminator.beq : Terminator → Terminator → Bool
  | .Let instruction tail, other =>
    match other with
    | .Let instruction1 tail1 => instruction.beq instruction1 && tail.beq tail1
    | _ => false
  | .Return values, other =>
    match other with
    | .Return values1 => values == values1
    | _ => false
  | .Unreachable, other =>
    match other with
    | .Unreachable => true
    | _ => false
  | .TailCall target args, other =>
    match other with
    | .TailCall target1 args1 => target == target1 && args == args1
    | _ => false
  | .Join join_point args, other =>
    match other with
    | .Join join_point1 args1 => join_point == join_point1 && args == args1
    | _ => false
  | .MergeSelection args, other =>
    match other with
    | .MergeSelection args1 => args == args1
    | _ => false
  | .MergeContinue args, other =>
    match other with
    | .MergeContinue args1 => args == args1
    | _ => false
  | .MergeBreak args, other =>
    match other with
    | .MergeBreak args1 => args == args1
    | _ => false
termination_by structural node => node
/-- Two lambdas are the same node. -/
def AnonLambda.beq : AnonLambda → AnonLambda → Bool
  | .mk params body, .mk params1 body1 => params == params1 && body.beq body1
termination_by structural node => node
/-- Two optional lambdas are the same. -/
def opt_lambda_beq : Option AnonLambda → Option AnonLambda → Bool
  | none, other => other.isNone
  | some l, other =>
    match other with
    | some l1 => l.beq l1
    | none => false
termination_by structural node => node
/-- Two lists of lambdas are the same. -/
def lambdas_beq : List AnonLambda → List AnonLambda → Bool
  | [], other => other.isEmpty
  | l :: ls, other =>
    match other with
    | l1 :: ls1 => l.beq l1 && lambdas_beq ls ls1
    | [] => false
termination_by structural node => node
end

instance : BEq Terminator := ⟨Terminator.beq⟩

instance : BEq AnonLambda := ⟨AnonLambda.beq⟩

namespace Memo

/-- Modelled from the spec: the rewriter's memoization map `old-node ->
new-node` (`rewrite.c` is not part of the sources), split by the kind of its
keys: values, lambdas and terminators, the kinds of node `rewrite_node` is
called on in this pass.  Instructions are never looked up: `process` reads
the instruction of a `Let` itself and recreates it with
`recreate_node_identity`. -/
structure Rewriter where
  value_map : List (Value × Value)
  lambda_map : List (AnonLambda × AnonLambda)
  terminator_map : List (Terminator × Terminator)

/-- Modelled from the spec: `create_rewriter` starts with an empty map. -/
def create_rewriter : Rewriter := { value_map := [], lambda_map := [], terminator_map := [] }

/-- Modelled from the spec: `search_processed` on a value. -/
def search_processed_value (r : Rewriter) (old : Value) : Option Value :=
  r.value_map.lookup old

/-- Modelled from the spec: `search_processed` on a lambda. -/
def search_processed_lambda (r : Rewriter) (old : AnonLambda) : Option AnonLambda :=
  r.lambda_map.lookup old

/-- Modelled from the spec: `search_processed` on a terminator. -/
def search_processed_terminator (r : Rewriter) (old : Terminator) : Option Terminator :=
  r.terminator_map.lookup old

/-- Modelled from the spec: `register_processed` on a value adds `old -> new`;
a mapping is never overwritten, and registering a different new node for an
old one that is already mapped is an invariant violation. -/
def register_processed_value (r : Rewriter) (old new : Value) : Except String Rewriter :=
  match search_processed_value r old with
  | none => .ok { r with value_map := (old, new) :: r.value_map }
  | some found => if found = new then .ok r else .error "InvariantViolated"

/-- Modelled from the spec: `register_processed` on a lambda. -/
def register_processed_lambda (r : Rewriter) (old new : AnonLambda) : Except String Rewriter :=
  match search_processed_lambda r old with
  | none => .ok { r with lambda_map := (old, new) :: r.lambda_map }
  | some found => if found == new then .ok r else .error "InvariantViolated"

/-- Modelled from the spec: `register_processed` on a terminator. -/
def register_processed_terminator (r : Rewriter) (old new : Terminator) :
    Except String Rewriter :=
  match search_processed_terminator r old with
  | none => .ok { r with terminator_map := (old, new) :: r.terminator_map }
  | some found => if found == new then .ok r else .error "InvariantViolated"

/-- Modelled from the spec: `rewrite_node` on a value.  A hit of the map is
returned.  On a miss the value goes to `process`, which misses again at line
31, finds neither a terminator nor a function and ends in
`recreate_node_identity`, for a leaf the same payload in the destination
arena; the result is registered. -/
def rewrite_node (r : Rewriter) (node : Value) : Except String (Value × Rewriter) :=
  match search_processed_value r node with
  | some found => .ok (found, r)
  | none => do
    let r1 ← register_processed_value r node node
    .ok (node, r1)

/-- Modelled from the spec: `rewrite_nodes` on values, `rewrite_node` on every
element, in order. -/
def rewrite_nodes : Rewriter → List Value → Except String (List Value × Rewriter)
  | r, [] => .ok ([], r)
  | r, v :: vs => do
    let (v1, r1) ← rewrite_node r v
    let (vs1, r2) ← rewrite_nodes r1 vs
    .ok (v1 :: vs1, r2)

/-- Modelled from the spec: `rewrite_node` on a lambda, given what `process`
returns for it.  A hit of the map is returned as it is, and the state is not
touched; on a miss the result of `process` is registered. -/
def rewrite_lambda_with (r : Rewriter) (state : List StackState) (old : AnonLambda)
    (processed : Except String (AnonLambda × List StackState × Rewriter)) :
    Except String (AnonLambda × List StackState × Rewriter) :=
  match search_processed_lambda r old with
  | some found => .ok (found, state, r)
  | none => do
    let (new, state1, r1) ← processed
    let r2 ← register_processed_lambda r1 old new
    .ok (new, state1, r2)

/-- Modelled from the spec: `rewrite_node` on a terminator, given what
`process` returns for it (lines 34-123).  A hit of the map is returned as it
is: `process` returns at line 32, before any frame is tagged. -/
def rewrite_terminator_with (r : Rewriter) (state : List StackState) (old : Terminator)
    (processed : Except String (Terminator × List StackState × Rewriter)) :
    Except String (Terminator × List StackState × Rewriter) :=
  match search_processed_terminator r old with
  | some found => .ok (found, state, r)
  | none => do
    let (new, state1, r1) ← processed
    let r2 ← register_processed_terminator r1 old new
    .ok (new, state1, r2)

mutual
/-- `rewrite_node` on a terminator: the lookup, `process` (lines 30-124) on a
miss, and the registration of its result.  `ctx` and `child_ctx` hold copies
of the rewriter that point at one map. -/
def process : Rewriter → List StackState → Terminator →
    Except String (Terminator × List StackState × Rewriter)
  | r, state, .Let old_instruction tail =>
    rewrite_terminator_with r state (.Let old_instruction tail)
      (match old_instruction with
      | .PrimOp .push_stack_op operands => do
        let (value, r1) ← rewrite_node r (first operands)
        let entry : StackState := { leaks := false, value := value }
        let (ntail, state1, r2) ← process_lambda r1 (entry :: state) tail
        if !(top_leaks state1) then .ok (.Let unit ntail, state1.tail, r2)
        else do
          let (noperands, r3) ← rewrite_nodes r2 operands
          .ok (.Let (.PrimOp .push_stack_op noperands) ntail, state1.tail, r3)
      | .PrimOp .pop_stack_op operands =>
        match state with
        | top :: prev => do
          let (ntail, state1, r1) ← process_lambda r prev tail
          .ok (.Let (quote_single top.value) ntail, top :: state1, r1)
        | [] => do
          let (ntail, state1, r1) ← process_lambda r [] tail
          let (noperands, r2) ← rewrite_nodes r1 operands
          .ok (.Let (.PrimOp .pop_stack_op noperands) ntail, state1, r2)
      | .PrimOp op operands => do
        let (ntail, state1, r1) ← process_lambda r state tail
        let (noperands, r2) ← rewrite_nodes r1 operands
        .ok (.Let (.PrimOp op noperands) ntail, state1, r2)
      | old_instruction => do
        let (ntail, _, r1) ← process_lambda r [] tail
        let (ninstruction, state1, r2) ←
          recreate_node_identity r1 (tag_leaks state) old_instruction
        .ok (.Let ninstruction ntail, state1, r2))
  | r, state, .Unreachable =>
    rewrite_terminator_with r state .Unreachable (.ok (.Unreachable, state, r))
  | r, state, .Return values =>
    rewrite_terminator_with r state (.Return values) do
      let (nvalues, r1) ← rewrite_nodes r values
      .ok (.Return nvalues, tag_leaks state, r1)
  | r, state, .TailCall target args =>
    rewrite_terminator_with r state (.TailCall target args) do
      let (ntarget, r1) ← rewrite_node r target
      let (nargs, r2) ← rewrite_nodes r1 args
      .ok (.TailCall ntarget nargs, tag_leaks state, r2)
  | r, state, .Join join_point args =>
    rewrite_terminator_with r state (.Join join_point args) do
      let (njoin_point, r1) ← rewrite_node r join_point
      let (nargs, r2) ← rewrite_nodes r1 args
      .ok (.Join njoin_point nargs, tag_leaks state, r2)
  | r, state, .MergeSelection args =>
    rewrite_terminator_with r state (.MergeSelection args) do
      let (nargs, r1) ← rewrite_nodes r args
      .ok (.MergeSelection nargs, tag_leaks state, r1)
  | r, state, .MergeContinue args =>
    rewrite_terminator_with r state (.MergeContinue args) do
      let (nargs, r1) ← rewrite_nodes r args
      .ok (.MergeContinue nargs, tag_leaks state, r1)
  | r, state, .MergeBreak args =>
    rewrite_terminator_with r state (.MergeBreak args) do
      let (nargs, r1) ← rewrite_nodes r args
      .ok (.MergeBreak nargs, tag_leaks state, r1)
/-- `rewrite_node` on a lambda: the lookup; on a miss `process` finds neither
a terminator nor a function and recreates the lambda with `child_ctx`, a copy
of `ctx`, so the body is rewritten under the same state; the result is
registered. -/
def process_lambda : Rewriter → List StackState → AnonLambda →
    Except String (AnonLambda × List StackState × Rewriter)
  | r, state, .mk params body =>
    rewrite_lambda_with r state (.mk params body) do
      let (nbody, state1, r1) ← process r state body
      .ok (.mk params nbody, state1, r1)
/-- `rewrite_node` on an optional lambda (`if_false` may be null). -/
def process_opt_lambda : Rewriter → List StackState → Option AnonLambda →
    Except String (Option AnonLambda × List StackState × Rewriter)
  | r, state, none => .ok (none, state, r)
  | r, state, some l => do
    let (nl, state1, r1) ← process_lambda r state l
    .ok (some nl, state1, r1)
/-- `rewrite_nodes` over a list of lambdas, in order. -/
def process_lambdas : Rewriter → List StackState → List AnonLambda →
    Except String (List AnonLambda × List StackState × Rewriter)
  | r, state, [] => .ok ([], state, r)
  | r, state, l :: ls => do
    let (nl, state1, r1) ← process_lambda r state l
    let (nls, state2, r2) ← process_lambdas r1 state1 ls
    .ok (nl :: nls, state2, r2)
/-- Modelled from the spec: `recreate_node_identity` on an instruction
rewrites every node-typed payload field, in order, with the rewriter it is
given, and re-interns under the same tag.  The rewriter given at line 100 is
`ctx`, so the lambdas of an instruction are rewritten under `ctx->state`. -/
def recreate_node_identity : Rewriter → List StackState → Instruction →
    Except String (Instruction × List StackState × Rewriter)
  | r, state, .PrimOp op operands => do
    let (noperands, r1) ← rewrite_nodes r operands
    .ok (.PrimOp op noperands, state, r1)
  | r, state, .LeafCall callee args => do
    let (ncallee, r1) ← rewrite_node r callee
    let (nargs, r2) ← rewrite_nodes r1 args
    .ok (.LeafCall ncallee nargs, state, r2)
  | r, state, .IndirectCall callee args => do
    let (ncallee, r1) ← rewrite_node r callee
    let (nargs, r2) ← rewrite_nodes r1 args
    .ok (.IndirectCall ncallee nargs, state, r2)
  | r, state, .If condition if_true if_false => do
    let (ncondition, r1) ← rewrite_node r condition
    let (t, state1, r2) ← process_lambda r1 state if_true
    let (f, state2, r3) ← process_opt_lambda r2 state1 if_false
    .ok (.If ncondition t f, state2, r3)
  | r, state, .Match inspect literals cases default_case => do
    let (ninspect, r1) ← rewrite_node r inspect
    let (nliterals, r2) ← rewrite_nodes r1 literals
    let (cs, state1, r3) ← process_lambdas r2 state cases
    let (d, state2, r4) ← process_lambda r3 state1 default_case
    .ok (.Match ninspect nliterals cs d, state2, r4)
  | r, state, .Loop initial_args body => do
    let (ninitial_args, r1) ← rewrite_nodes r initial_args
    let (b, state1, r2) ← process_lambda r1 state body
    .ok (.Loop ninitial_args b, state1, r2)
  | r, state, .Control inside => do
    let (b, state1, r1) ← process_lambda r state inside
    .ok (.Control b, state1, r1)
end

/-- `process` on a `Function` node (lines 115-121): the header is recreated,
`child_ctx.state` is set to null and the body is rewritten under it. -/
def process_function (r : Rewriter) (state : List StackState) (node : Function) :
    Except String (Function × List StackState × Rewriter) := do
  let (nbody, _, r1) ← process r [] node.body
  .ok ({ node with body := nbody }, state, r1)

/-- `opt_stack` on one function (lines 126-134): a fresh rewriter, the state
null. -/
def opt_stack (f : Function) : Except String Function :=
  match process_function create_rewriter [] f with
  | .ok (fun1, _, _) => .ok fun1
  | .error e => .error e

end Memo

/-! ## Shared tails -/

/-- A function whose body is an `If` with a push in each branch:
`If c { push_stack 7; MergeSelection } else { push_stack 8; MergeSelection };
Return`. -/
def push_in_both_branches : Function :=
  { name := "f", params := [0],
    body := .Let (.If (.variable 0)
        (.mk [] (.Let (.PrimOp .push_stack_op [.int_literal 7]) (.mk [] (.MergeSelection []))))
        (some
          (.mk [] (.Let (.PrimOp .push_stack_op [.int_literal 8])
            (.mk [] (.MergeSelection [])))))) (.mk []
      (.Return [])) }

/-- A function that returns early: `If c { push_stack 8; Return }; Return`. -/
def push_before_early_return : Function :=
  { name := "g", params := [0],
    body := .Let (.If (.variable 0)
        (.mk [] (.Let (.PrimOp .push_stack_op [.int_literal 8]) (.mk [] (.Return []))))
        none) (.mk []
      (.Return [])) }

/-! ## First visits

A run that meets no terminator and no lambda twice registers each of them
once. -/

mutual
/-- The number of terminators and lambdas of a chain, the bodies of its
structured constructs included. -/
def Terminator.count_nodes : Terminator → Nat
  | .Let instruction tail => instruction.count_nodes + tail.count_nodes + 1
  | _ => 1
/-- The number of terminators and lambdas inside an instruction. -/
def Instruction.count_nodes : Instruction → Nat
  | .If _ if_true if_false => if_true.count_nodes + opt_lambda_count_nodes if_false
  | .Match _ _ cases default_case => lambdas_count_nodes cases + default_case.count_nodes
  | .Loop _ body => body.count_nodes
  | .Control inside => inside.count_nodes
  | _ => 0
/-- The number of terminators and lambdas of a lambda, itself included. -/
def AnonLambda.count_nodes : AnonLambda → Nat
  | .mk _ body => body.count_nodes + 1
/-- The number of terminators and lambdas of an optional lambda. -/
def opt_lambda_count_nodes : Option AnonLambda → Nat
  | none => 0
  | some l => l.count_nodes
/-- The number of terminators and lambdas of a list of lambdas. -/
def lambdas_count_nodes : List AnonLambda → Nat
  | [] => 0
  | l :: ls => l.count_nodes + lambdas_count_nodes ls
end

/-- The number of lambdas and terminators the map holds. -/
def Memo.Rewriter.size (m : Memo.Rewriter) : Nat :=
  m.lambda_map.length + m.terminator_map.length

/-- The entries for values of the map `m` rewrite every value as the value
map `r` does: a value registered to itself is rewritten as a value that is
not registered. -/
def Memo.same_values (m : Memo.Rewriter) (r : OptStack.Rewriter) : Prop :=
  ∀ v, (Memo.search_processed_value m v).getD v = OptStack.rewrite_node r v

end OptStack
namespace LowerMask

/-! ## Node model read by `lower_mask.c`

The nodes are split by kind (types, values, instructions, terminators,
blocks, declarations), so that every tree is a well-formed program. -/

/-- The primitive operations: the four mask operations the pass removes or
lowers, the integer operations it generates, and two it leaves alone. -/
inductive Op
  | add_op
  | and_op
  | or_op
  | eq_op
  | lshift_op
  | rshift_logical_op
  | extract_op
  | reinterpret_op
  | load_op
  | empty_mask_op
  | subgroup_active_mask_op
  | subgroup_ballot_op
  | mask_is_thread_active_op
  deriving DecidableEq, Repr

/-- Integer widths. -/
inductive IntSizes
  | IntTy8
  | IntTy16
  | IntTy32
  | IntTy64
  deriving DecidableEq, Repr

/-- Address spaces. -/
inductive AddressSpace
  | AsGeneric
  | AsPrivate
  | AsShared
  | AsGlobal
  | AsExternal
  | AsPushConstant
  deriving DecidableEq, Repr

/-- The two mask representations the arena configuration recognises. -/
inductive SubgroupMaskRepresentation
  | SubgroupMaskSpvKHRBallot
  | SubgroupMaskI64
  deriving DecidableEq, Repr

mutual
/-- Type nodes. -/
inductive Ty
  | Int (width : IntSizes)
  | Bool
  | MaskType
  | PtrType (address_space : AddressSpace) (pointed_type : Ty)
  | RecordType (members : Tys)
  | FnType (param_types : Tys) (return_types : Tys)
  | QualifiedType (is_uniform : Bool) (type : Ty)
  deriving DecidableEq, Repr
/-- A list of type nodes. -/
inductive Tys
  | nil
  | cons (head : Ty) (tail : Tys)
  deriving DecidableEq, Repr
end

/-- Value nodes. -/
inductive Value
  | Variable (name : String) (id : Nat) (type : Ty)
  | IntLiteral (width : IntSizes) (value : Int)
  | True
  | False
  deriving DecidableEq, Repr

/-- An operand of a primop: a value, or a type (the first operand of
`reinterpret`). -/
inductive Operand
  | type (t : Ty)
  | value (v : Value)
  deriving DecidableEq, Repr

/-- Terminators; their payloads are values. -/
inductive Terminator
  | Return (values : List Value)
  | Unreachable
  | Merge (args : List Value)
  deriving DecidableEq, Repr

mutual
/-- What `old_actual_instruction` can be: a primop, a call, or a structured
construct with nested blocks. -/
inductive ActualInstruction
  | PrimOp (op : Op) (operands : List Operand)
  | Call (callee : Value) (args : List Value)
  | If (condition : Value) (if_true : Block) (if_false : Block)
  | Loop (initial_args : List Value) (body : Block)
/-- What a block lists (`old_instruction`): an instruction wrapped in a `Let`
that binds its results, or the instruction itself. -/
inductive Instruction
  | Let (vars : List Value) (instruction : ActualInstruction)
  | Plain (instruction : ActualInstruction)
/-- A block: instructions in order, then a terminator. -/
inductive Block
  | mk (instructions : List Instruction) (terminator : Terminator)
end

/-- Declarations (`is_declaration`). -/
inductive Declaration
  | Function (name : String) (params : List Value) (return_types : List Ty) (block : Block)
  | GlobalVariable (name : String) (type : Ty) (address_space : AddressSpace)
  | Constant (name : String) (value : Value)

/-- The root of a program: its declarations. -/
structure Root where
  declarations : List Declaration

/-- The destination arena, as far as the pass reads it: its configuration
and, taken as a parameter because `type.c` is not part of the sources, the
type its checker gives the result of a primop. -/
structure IrArena where
  subgroup_mask_representation : SubgroupMaskRepresentation
  check_type : Op → List Operand → Ty

/-- The state the pass threads: the rewriter's `processed` map and the next
free variable id of the destination arena.  The pass registers variables
only, and the framework registers binders and declaration headers, so the
keys are values. -/
structure Context where
  processed : List (Value × Value)
  next_id : Nat
  deriving DecidableEq, Repr

/-- A block under construction: the instructions appended so far, in order. -/
abbrev BlockBuilder := List Instruction

/-- `int64_type(arena)`. -/
def int64_type : Ty := .Int .IntTy64

/-- `int_literal(arena, ...)`. -/
def int_literal (width : IntSizes) (value : Int) : Value := .IntLiteral width value

/-- `true_lit(arena)`. -/
def true_lit : Value := .True

/-- Modelled from the spec: `search_processed` looks the old node up in the
memoization map. -/
def search_processed (ctx : Context) (old : Value) : Option Value :=
  ctx.processed.lookup old

/-- Modelled from the spec: `register_processed` adds `old -> new`; a mapping
is never overwritten, and registering a different new node for an old one
that is already mapped is an invariant violation. -/
def register_processed (ctx : Context) (old new : Value) : Option Context :=
  match search_processed ctx old with
  | none => some { ctx with processed := (old, new) :: ctx.processed }
  | some found => if found = new then some ctx else none

/-- Modelled from the spec: `begin_block`. -/
def begin_block : BlockBuilder := []

/-- Modelled from the spec: `append_block` pushes an instruction; order is
preserved. -/
def append_block (bb : BlockBuilder) (instruction : Instruction) : BlockBuilder :=
  bb ++ [instruction]

/-- Modelled from the spec: `finish_block` yields the block of the appended
instructions and the terminator. -/
def finish_block (bb : BlockBuilder) (terminator : Terminator) : Block :=
  .mk bb terminator

/-- Modelled from the spec: `gen_primop` appends a `Let` of the primop and
returns the fresh, typed variable it binds.  Every primop this pass generates
yields one value; the pass reads `.nodes[0]` of the result. -/
def gen_primop (arena : IrArena) (ctx : Context) (bb : BlockBuilder) (op : Op)
    (operands : List Operand) : Value × Context × BlockBuilder :=
  let v := Value.Variable "" ctx.next_id (arena.check_type op operands)
  (v, { ctx with next_id := ctx.next_id + 1 },
    append_block bb (.Let [v] (.PrimOp op operands)))

mutual
/-- `process` on a type: the map holds no type, `MaskType` becomes
`int64_type`, every other type is recreated from its rewritten fields. -/
def process_type : Ty → Ty
  | .MaskType => int64_type
  | .Int width => .Int width
  | .Bool => .Bool
  | .PtrType address_space pointed_type => .PtrType address_space (process_type pointed_type)
  | .RecordType members => .RecordType (process_types members)
  | .FnType param_types return_types =>
    .FnType (process_types param_types) (process_types return_types)
  | .QualifiedType is_uniform type => .QualifiedType is_uniform (process_type type)
/-- `rewrite_nodes` on a list of types. -/
def process_types : Tys → Tys
  | .nil => .nil
  | .cons t ts => .cons (process_type t) (process_types ts)
end

/-- Modelled from the spec: `recreate_node_identity` on a value rewrites its
node-typed fields and re-interns it under the same tag. -/
def recreate_value : Value → Value
  | .Variable name id type => .Variable name id (process_type type)
  | .IntLiteral width value => .IntLiteral width value
  | .True => .True
  | .False => .False

/-- `process` on a value (`rewrite_node`): a hit in the map is returned, a
miss is recreated. -/
def process_value (ctx : Context) (node : Value) : Value :=
  match search_processed ctx node with
  | some found => found
  | none => recreate_value node

/-- `process` on an operand. -/
def process_operand (ctx : Context) : Operand → Operand
  | .type t => .type (process_type t)
  | .value v => .value (process_value ctx v)

/-- `process` on a terminator: recreated from its rewritten values. -/
def process_terminator (ctx : Context) : Terminator → Terminator
  | .Return values => .Return (values.map (process_value ctx))
  | .Unreachable => .Unreachable
  | .Merge args => .Merge (args.map (process_value ctx))

/-- Lines 73-111: the ballot is generated from the rewritten operands, its
result is unpacked when the arena packs masks as four 32-bit lanes, and the
first variable of the `Let` is registered to the result. -/
def lower_ballot (arena : IrArena) (ctx : Context) (bb : BlockBuilder) (vars : List Value)
    (operands : List Operand) : Option (Context × BlockBuilder) :=
  let (packed_result, ctx, bb) := gen_primop arena ctx bb .subgroup_ballot_op operands
  let (result, ctx, bb) :=
    match arena.subgroup_mask_representation with
    | .SubgroupMaskSpvKHRBallot =>
      let (lo, ctx, bb) := gen_primop arena ctx bb .extract_op
        [.value packed_result, .value (int_literal .IntTy32 0)]
      let (hi, ctx, bb) := gen_primop arena ctx bb .extract_op
        [.value packed_result, .value (int_literal .IntTy32 1)]
      let (lo, ctx, bb) := gen_primop arena ctx bb .reinterpret_op
        [.type int64_type, .value lo]
      let (hi, ctx, bb) := gen_primop arena ctx bb .reinterpret_op
        [.type int64_type, .value hi]
      let (hi, ctx, bb) := gen_primop arena ctx bb .lshift_op
        [.value hi, .value (int_literal .IntTy64 32)]
      gen_primop arena ctx bb .or_op [.value lo, .value hi]
    | .SubgroupMaskI64 => (packed_result, ctx, bb)
  match vars with
  | r :: _ =>
    match register_processed ctx r result with
    | some ctx => some (ctx, bb)
    | none => none
  | [] => none

/-- Lines 40-62: the two operands are rewritten, the four primops are
generated, and the first variable of the `Let` is registered to the last
result. -/
def lower_is_thread_active (arena : IrArena) (ctx : Context) (bb : BlockBuilder)
    (vars : List Value) (old_nodes : List Operand) : Option (Context × BlockBuilder) :=
  match old_nodes with
  | n0 :: n1 :: _ =>
    let mask := process_operand ctx n0
    let index := process_operand ctx n1
    let (index, ctx, bb) := gen_primop arena ctx bb .reinterpret_op [.type int64_type, index]
    let acc := mask
    let (acc, ctx, bb) := gen_primop arena ctx bb .rshift_logical_op [acc, .value index]
    let (acc, ctx, bb) := gen_primop arena ctx bb .and_op
      [.value acc, .value (int_literal .IntTy64 1)]
    let (acc, ctx, bb) := gen_primop arena ctx bb .eq_op
      [.value acc, .value (int_literal .IntTy64 1)]
    match vars with
    | r :: _ =>
      match register_processed ctx r acc with
      | some ctx => some (ctx, bb)
      | none => none
    | [] => none
  | _ => none

mutual
/-- `process` on an instruction that is no block of its own: recreated from
its rewritten fields; nested blocks go through `process_block`. -/
def recreate_instruction (arena : IrArena) :
    Context → ActualInstruction → Option (ActualInstruction × Context)
  | ctx, .PrimOp op operands => some (.PrimOp op (operands.map (process_operand ctx)), ctx)
  | ctx, .Call callee args =>
    some (.Call (process_value ctx callee) (args.map (process_value ctx)), ctx)
  | ctx, .If condition if_true if_false => do
    let (if_true, ctx1) ← process_block arena ctx if_true
    let (if_false, ctx2) ← process_block arena ctx1 if_false
    some (.If (process_value ctx condition) if_true if_false, ctx2)
  | ctx, .Loop initial_args body => do
    let (body, ctx1) ← process_block arena ctx body
    some (.Loop (initial_args.map (process_value ctx)) body, ctx1)
/-- `rewrite_node` on a block instruction: a `Let` is recreated from its
rewritten variables and instruction. -/
def rewrite_instruction (arena : IrArena) :
    Context → Instruction → Option (Instruction × Context)
  | ctx, .Let vars instruction => do
    let (instruction, ctx1) ← recreate_instruction arena ctx instruction
    some (.Let (vars.map (process_value ctx)) instruction, ctx1)
  | ctx, .Plain instruction => do
    let (instruction, ctx1) ← recreate_instruction arena ctx instruction
    some (.Plain instruction, ctx1)
/-- `process_block` (lines 16-122). -/
def process_block (arena : IrArena) : Context → Block → Option (Block × Context)
  | ctx, .mk old_instructions terminator => do
    let (ctx1, bb) ← process_instructions arena ctx begin_block old_instructions
    some (finish_block bb (process_terminator ctx1 terminator), ctx1)
/-- The loop of `process_block` (lines 21-119) from the instruction it has
reached: what is left of `old_instructions` is consumed in order, `bb` grows. -/
def process_instructions (arena : IrArena) :
    Context → BlockBuilder → List Instruction → Option (Context × BlockBuilder)
  | ctx, bb, [] => some (ctx, bb)
  | ctx, bb, old_instruction :: rest =>
    match old_instruction with
    | .Let vars (.PrimOp .empty_mask_op _) =>
      match vars with
      | m :: _ =>
        match register_processed ctx m (int_literal .IntTy64 0) with
        | some ctx => process_instructions arena ctx bb rest
        | none => none
      | [] => none
    | .Let vars (.PrimOp .mask_is_thread_active_op old_nodes) =>
      match lower_is_thread_active arena ctx bb vars old_nodes with
      | some (ctx, bb) => process_instructions arena ctx bb rest
      | none => none
    | .Let vars (.PrimOp .subgroup_active_mask_op _) =>
      match lower_ballot arena ctx bb vars [.value (process_value ctx true_lit)] with
      | some (ctx, bb) => process_instructions arena ctx bb rest
      | none => none
    | .Let vars (.PrimOp .subgroup_ballot_op old_nodes) =>
      match lower_ballot arena ctx bb vars (old_nodes.map (process_operand ctx)) with
      | some (ctx, bb) => process_instructions arena ctx bb rest
      | none => none
    | .Plain (.PrimOp .empty_mask_op _) => none
    | .Plain (.PrimOp .mask_is_thread_active_op _) => none
    | .Plain (.PrimOp .subgroup_active_mask_op _) => process_instructions arena ctx bb rest
    | .Plain (.PrimOp .subgroup_ballot_op _) => process_instructions arena ctx bb rest
    | old_instruction =>
      match rewrite_instruction arena ctx old_instruction with
      | some (instruction, ctx) =>
        process_instructions arena ctx (append_block bb instruction) rest
      | none => none
end

/-- `process` on a declaration (lines 130-133): header, then body. -/
def process_declaration (arena : IrArena) (ctx : Context) :
    Declaration → Option (Declaration × Context)
  | .Function name params return_types block =>
    match process_block arena ctx block with
    | some (block, ctx1) =>
      some (.Function name (params.map (process_value ctx)) (return_types.map process_type)
        block, ctx1)
    | none => none
  | .GlobalVariable name type address_space =>
    some (.GlobalVariable name (process_type type) address_space, ctx)
  | .Constant name value => some (.Constant name (process_value ctx value), ctx)

/-- `rewrite_nodes` over the declarations of the root, in order. -/
def process_declarations (arena : IrArena) :
    Context → List Declaration → Option (List Declaration × Context)
  | ctx, [] => some ([], ctx)
  | ctx, d :: ds =>
    match process_declaration arena ctx d with
    | some (d, ctx) =>
      match process_declarations arena ctx ds with
      | some (ds, ctx) => some (d :: ds, ctx)
      | none => none
    | none => none

/-- `lower_mask` (lines 142-159): a fresh `processed` map, then
`rewrite_node` on the program.  `next_id` is the next free id of the
destination arena. -/
def lower_mask (dst_arena : IrArena) (next_id : Nat) (src_program : Root) : Option Root :=
  match process_declarations dst_arena { processed := [], next_id := next_id }
      src_program.declarations with
  | some (ds, _) => some { declarations := ds }
  | none => none

/-! ## Predicates of the properties -/

/-- The three mask operations the pass is to remove. -/
def is_mask_op : Op → Bool
  | .empty_mask_op => true
  | .mask_is_thread_active_op => true
  | .subgroup_active_mask_op => true
  | _ => false

mutual
/-- No `MaskType` node in a type. -/
def Ty.mask_free : Ty → Bool
  | .MaskType => false
  | .Int _ => true
  | .Bool => true
  | .PtrType _ pointed_type => pointed_type.mask_free
  | .RecordType members => members.mask_free
  | .FnType param_types return_types => param_types.mask_free && return_types.mask_free
  | .QualifiedType _ type => type.mask_free
/-- No `MaskType` node in a list of types. -/
def Tys.mask_free : Tys → Bool
  | .nil => true
  | .cons t ts => t.mask_free && ts.mask_free
end

/-- No `MaskType` node in a value. -/
def Value.mask_free : Value → Bool
  | .Variable _ _ type => type.mask_free
  | _ => true

/-- No `MaskType` node in an operand. -/
def Operand.mask_free : Operand → Bool
  | .type t => t.mask_free
  | .value v => v.mask_free

/-- No `MaskType` node in a terminator. -/
def Terminator.mask_free : Terminator → Bool
  | .Return values => values.all Value.mask_free
  | .Unreachable => true
  | .Merge args => args.all Value.mask_free

mutual
/-- No `MaskType` node and no mask operation in an instruction. -/
def ActualInstruction.mask_free : ActualInstruction → Bool
  | .PrimOp op operands => !is_mask_op op && operands.all Operand.mask_free
  | .Call callee args => callee.mask_free && args.all Value.mask_free
  | .If condition if_true if_false =>
    condition.mask_free && if_true.mask_free && if_false.mask_free
  | .Loop initial_args body => initial_args.all Value.mask_free && body.mask_free
/-- No `MaskType` node and no mask operation in a block instruction. -/
def Instruction.mask_free : Instruction → Bool
  | .Let vars instruction => vars.all Value.mask_free && instruction.mask_free
  | .Plain instruction => instruction.mask_free
/-- No `MaskType` node and no mask operation in a block. -/
def Block.mask_free : Block → Bool
  | .mk instructions terminator => instructions_mask_free instructions && terminator.mask_free
/-- No `MaskType` node and no mask operation in a list of block
instructions. -/
def instructions_mask_free : List Instruction → Bool
  | [] => true
  | i :: is => i.mask_free && instructions_mask_free is
end

/-- No `MaskType` node and no mask operation in a declaration. -/
def Declaration.mask_free : Declaration → Bool
  | .Function _ params return_types block =>
    params.all Value.mask_free && return_types.all Ty.mask_free && block.mask_free
  | .GlobalVariable _ type _ => type.mask_free
  | .Constant _ value => value.mask_free

/-- No `MaskType` node and no mask operation in a program. -/
def Root.mask_free (root : Root) : Bool :=
  root.declarations.all Declaration.mask_free

/-- Every new node of the `processed` map is free of masks. -/
def Context.mask_free (ctx : Context) : Prop :=
  ∀ p ∈ ctx.processed, p.2.mask_free = true

/-- Every mapping of `ctx` is a mapping of `ctx1`. -/
def Context.includes (ctx1 ctx : Context) : Prop :=
  ∀ old new, search_processed ctx old = some new → search_processed ctx1 old = some new

/-- A primop with one of the three mask operations. -/
def ActualInstruction.is_mask_primop : ActualInstruction → Bool
  | .PrimOp op _ => is_mask_op op
  | _ => false

/-- A block instruction that is, or wraps, a primop with one of the three
mask operations. -/
def Instruction.is_mask_primop : Instruction → Bool
  | .Let _ instruction => instruction.is_mask_primop
  | .Plain instruction => instruction.is_mask_primop

/-- An arena for the examples: the checker gives `eq` a boolean, `extract` a
32-bit lane, the ballot four lanes or a 64-bit integer as the representation
says, and every other primop a 64-bit integer. -/
def sample_arena (representation : SubgroupMaskRepresentation) : IrArena :=
  { subgroup_mask_representation := representation
    check_type := fun op _ =>
      match op with
      | .eq_op => .Bool
      | .extract_op => .Int .IntTy32
      | .subgroup_ballot_op =>
        match representation with
        | .SubgroupMaskSpvKHRBallot =>
          .RecordType (.cons (.Int .IntTy32) (.cons (.Int .IntTy32)
            (.cons (.Int .IntTy32) (.cons (.Int .IntTy32) .nil))))
        | .SubgroupMaskI64 => int64_type
      | _ => int64_type }

/-- A program for the examples: a function over masks that uses the four
mask operations, and a global of pointer-to-mask type. -/
def sample_program : Root :=
  { declarations :=
      [.Function "f" [.Variable "m0" 1 .MaskType, .Variable "idx" 2 (.Int .IntTy32)]
        [.MaskType]
        (.mk
          [.Let [.Variable "e" 3 .MaskType] (.PrimOp .empty_mask_op []),
            .Let [.Variable "a" 4 .MaskType] (.PrimOp .subgroup_active_mask_op []),
            .Let [.Variable "t" 5 .Bool] (.PrimOp .mask_is_thread_active_op
              [.value (.Variable "m0" 1 .MaskType), .value (.Variable "idx" 2 (.Int .IntTy32))]),
            .Plain (.PrimOp .subgroup_ballot_op [.value (.Variable "t" 5 .Bool)]),
            .Let [.Variable "o" 6 .MaskType] (.PrimOp .or_op
              [.value (.Variable "e" 3 .MaskType), .value (.Variable "a" 4 .MaskType)])]
          (.Return [.Variable "o" 6 .MaskType])),
        .GlobalVariable "g" (.PtrType .AsGlobal .MaskType) .AsGlobal] }

/-- What `lower_mask` makes of `sample_program` when masks are 64-bit
integers and the next free id is 10. -/
def sample_lowered : Root :=
  { declarations :=
      [.Function "f" [.Variable "m0" 1 int64_type, .Variable "idx" 2 (.Int .IntTy32)]
        [int64_type]
        (.mk
          [.Let [.Variable "" 10 int64_type] (.PrimOp .subgroup_ballot_op [.value .True]),
            .Let [.Variable "" 11 int64_type] (.PrimOp .reinterpret_op
              [.type int64_type, .value (.Variable "idx" 2 (.Int .IntTy32))]),
            .Let [.Variable "" 12 int64_type] (.PrimOp .rshift_logical_op
              [.value (.Variable "m0" 1 int64_type), .value (.Variable "" 11 int64_type)]),
            .Let [.Variable "" 13 int64_type] (.PrimOp .and_op
              [.value (.Variable "" 12 int64_type), .value (int_literal .IntTy64 1)]),
            .Let [.Variable "" 14 .Bool] (.PrimOp .eq_op
              [.value (.Variable "" 13 int64_type), .value (int_literal .IntTy64 1)]),
            .Let [.Variable "o" 6 int64_type] (.PrimOp .or_op
              [.value (int_literal .IntTy64 0), .value (.Variable "" 10 int64_type)])]
          (.Return [.Variable "o" 6 int64_type])),
        .GlobalVariable "g" (.PtrType .AsGlobal int64_type) .AsGlobal] }

/-- The four operations the switch of `process_block` has a case for. -/
def is_lowered_op : Op → Bool
  | .empty_mask_op => true
  | .mask_is_thread_active_op => true
  | .subgroup_active_mask_op => true
  | .subgroup_ballot_op => true
  | _ => false

/-- `old_actual_instruction` (lines 23-25): the instruction of a `Let`, or
the instruction itself. -/
def Instruction.actual : Instruction → ActualInstruction
  | .Let _ instruction => instruction
  | .Plain instruction => instruction

/-- An instruction the switch of `process_block` leaves to line 118: its
actual instruction is no primop, or a primop of another operation. -/
def Instruction.is_other (i : Instruction) : Bool :=
  match i.actual with
  | .PrimOp op _ => !is_lowered_op op
  | _ => true

/-- `rewrite_node` on every instruction of a list, in order, the context
passed along. -/
def rewrite_instructions (arena : IrArena) :
    Context → List Instruction → Option (List Instruction × Context)
  | ctx, [] => some ([], ctx)
  | ctx, i :: rest =>
    match rewrite_instruction arena ctx i with
    | some (i1, ctx1) =>
      match rewrite_instructions arena ctx1 rest with
      | some (rest1, ctx2) => some (i1 :: rest1, ctx2)
      | none => none
    | none => none

/-! ## The lowered code as 64-bit arithmetic

The interpretation the bit-test property names: `rshift_logical`, `and` and
`eq` (and the widening `reinterpret`) as operations on 64-bit unsigned
integers, a variable standing for the integer assigned to its id. -/

/-- The id of a variable. -/
def Value.variable_id : Value → Option Nat
  | .Variable _ id _ => some id
  | _ => none

/-- The integer a value stands for under an assignment of the variables. -/
def eval_value (env : Nat → Nat) : Value → Nat
  | .Variable _ id _ => env id
  | .IntLiteral _ value => value.toNat
  | .True => 1
  | .False => 0

/-- The primops of the bit test on 64-bit unsigned integers; `eq` yields 1
for true and 0 for false. -/
def eval_primop (env : Nat → Nat) : Op → List Operand → Option Nat
  | .reinterpret_op, [.type _, .value v] => some (eval_value env v % 2 ^ 64)
  | .rshift_logical_op, [.value a, .value b] =>
    some ((eval_value env a >>> eval_value env b) % 2 ^ 64)
  | .and_op, [.value a, .value b] => some ((eval_value env a &&& eval_value env b) % 2 ^ 64)
  | .eq_op, [.value a, .value b] => some (if eval_value env a = eval_value env b then 1 else 0)
  | _, _ => none

/-- Run a list of `Let`s of such primops: each binds its variable to the
result. -/
def eval_instructions (env : Nat → Nat) : List Instruction → Option (Nat → Nat)
  | [] => some env
  | .Let [.Variable _ id _] (.PrimOp op operands) :: rest =>
    match eval_primop env op operands with
    | some v => eval_instructions (Function.update env id v) rest
    | none => none
  | _ :: _ => none

end LowerMask

namespace Emit

/-! ## Node model read by `emit.c`

`emit.c` dispatches on `node->tag` and rejects the tags it does not know, so
the nodes are one type with one constructor per tag. -/

/-- The primitive operations of this revision. -/
inductive Op
  | add_op
  | sub_op
  | mul_op
  | load_op
  | store_op
  deriving DecidableEq, Repr

/-- Address spaces. -/
inductive AddressSpace
  | AsGeneric
  | AsPrivate
  | AsShared
  | AsGlobal
  | AsExternal
  | AsPushConstant
  deriving DecidableEq, Repr

/-- Divergence qualifiers (`strip_qualifier` reports one). -/
inductive DivergenceQualifier
  | Unknown
  | Uniform
  | Varying
  deriving DecidableEq, Repr

mutual
/-- IR nodes. -/
inductive Node
  | Int
  | Float
  | PtrType (address_space : AddressSpace) (pointed_type : Node)
  | RecordType (members : Nodes)
  | FnType (param_types : Nodes) (return_types : Nodes)
  | QualifiedType (is_uniform : Bool) (type : Node)
  | Variable (name : String) (id : Nat) (type : Node)
  | IntLiteral (value : Nat) (yields : Node)
  | Function (params : Vars) (return_types : Nodes) (instructions : Nodes)
  | Let (vars : Vars) (target : Node)
  | PrimOp (op : Op) (args : Nodes)
  | Call (callee : Node) (args : Nodes)
  | Return (values : Nodes)
  | StructuredSelection (condition : Node) (if_true : Nodes) (if_false : Nodes)
  deriving DecidableEq, Repr
/-- A list of nodes (`Nodes`). -/
inductive Nodes
  | nil
  | cons (head : Node) (tail : Nodes)
  deriving DecidableEq, Repr
/-- A list of `Variable` nodes, each given by its payload: the binders of a
`Let`, the parameters of a function, the top-level variables.  The C reads
`payload.var` of these nodes without looking at the tag. -/
inductive Vars
  | nil
  | cons (name : String) (id : Nat) (type : Node) (tail : Vars)
  deriving DecidableEq, Repr
end

/-- `nodes(arena, n, ...)`: the `Nodes` of a list. -/
def nodes : List Node → Nodes
  | [] => .nil
  | n :: ns => .cons n (nodes ns)

/-- The elements of a `Nodes`, in order. -/
def Nodes.toList : Nodes → List Node
  | .nil => []
  | .cons n ns => n :: ns.toList

/-- `nodes.count`. -/
def Nodes.count (ns : Nodes) : Nat := ns.toList.length

/-- The `Variable` nodes of a `Vars`, in order. -/
def Vars.toList : Vars → List Node
  | .nil => []
  | .cons name id type vs => .Variable name id type :: vs.toList

/-- The binders of a list of variables given by name, id and type. -/
def vars_of : List (String × Nat × Node) → Vars
  | [] => .nil
  | (name, id, type) :: vs => .cons name id type (vars_of vs)

/-- The root: the top-level variables and, index by index, their definitions
(a null definition is `none`). -/
structure Root where
  vars : Vars
  definitions : List (Option Node)

/-! ## The SPIR-V builder

`spirv_builder.c` is not part of the sources; the builder is modelled by the
instruction each call appends and the fresh id it draws. -/

/-- A SPIR-V result id. -/
abbrev SpvId := Nat

/-- Storage classes. -/
inductive SpvStorageClass
  | SpvStorageClassGeneric
  | SpvStorageClassPrivate
  | SpvStorageClassCrossWorkgroup
  | SpvStorageClassStorageBuffer
  | SpvStorageClassPhysicalStorageBuffer
  deriving DecidableEq, Repr

/-- Capabilities. -/
inductive SpvCapability
  | SpvCapabilityShader
  | SpvCapabilityLinkage
  | SpvCapabilityPhysicalStorageBufferAddresses
  deriving DecidableEq, Repr

/-- The SPIR-V instructions the emitter produces. -/
inductive SpvInstruction
  | OpCapability (capability : SpvCapability)
  | OpName (target : SpvId) (name : String)
  | OpTypeVoid (result : SpvId)
  | OpTypeInt (result : SpvId) (width : Nat) (signed : Bool)
  | OpTypePointer (result : SpvId) (storage_class : SpvStorageClass) (pointee : SpvId)
  | OpTypeStruct (result : SpvId) (members : List SpvId)
  | OpTypeFunction (result : SpvId) (return_type : SpvId) (params : List SpvId)
  | OpConstant (result : SpvId) (type : SpvId) (words : List Nat)
  | OpVariable (result : SpvId) (type : SpvId) (storage_class : SpvStorageClass)
  | OpFunction (result : SpvId) (fn_type : SpvId) (return_type : SpvId)
  | OpFunctionParameter (result : SpvId) (type : SpvId)
  | OpLabel (result : SpvId)
  | OpIAdd (result : SpvId) (type : SpvId) (lhs : SpvId) (rhs : SpvId)
  | OpCompositeConstruct (result : SpvId) (type : SpvId) (constituents : List SpvId)
  | OpReturn
  | OpReturnValue (value : SpvId)
  | OpFunctionEnd
  deriving DecidableEq, Repr

/-- Modelled from the spec: the file builder, the id bound and the
instructions written so far, in order. -/
structure SpvFileBuilder where
  bound : SpvId
  words : List SpvInstruction
  deriving DecidableEq, Repr

/-- Modelled from the spec: a basic block under construction. -/
structure SpvBasicBlockBuilder where
  label : SpvId
  instructions : List SpvInstruction
  deriving DecidableEq, Repr

/-- Modelled from the spec: a function under construction. -/
structure SpvFnBuilder where
  fn_id : SpvId
  fn_type : SpvId
  fn_ret_type : SpvId
  params : List SpvInstruction
  bbs : List SpvBasicBlockBuilder
  deriving DecidableEq, Repr

/-- `struct SpvEmitter`: the file builder, the void type id and the
`node -> id` dictionary. -/
structure SpvEmitter where
  file_builder : SpvFileBuilder
  void_t : SpvId
  node_ids : List (Node × SpvId)
  deriving DecidableEq, Repr

/-- Modelled from the spec: `spvb_fresh_id` draws the next id. -/
def spvb_fresh_id (fb : SpvFileBuilder) : SpvId × SpvFileBuilder :=
  (fb.bound, { fb with bound := fb.bound + 1 })

/-- Append one instruction to the file. -/
def SpvFileBuilder.write (fb : SpvFileBuilder) (i : SpvInstruction) : SpvFileBuilder :=
  { fb with words := fb.words ++ [i] }

/-- Modelled from the spec: `spvb_name`. -/
def spvb_name (fb : SpvFileBuilder) (id : SpvId) (name : String) : SpvFileBuilder :=
  fb.write (.OpName id name)

/-- Modelled from the spec: `spvb_capability`. -/
def spvb_capability (fb : SpvFileBuilder) (cap : SpvCapability) : SpvFileBuilder :=
  fb.write (.OpCapability cap)

/-- Modelled from the spec: `spvb_void_type`. -/
def spvb_void_type (fb : SpvFileBuilder) : SpvId × SpvFileBuilder :=
  let (id, fb) := spvb_fresh_id fb
  (id, fb.write (.OpTypeVoid id))

/-- Modelled from the spec: `spvb_int_type`. -/
def spvb_int_type (fb : SpvFileBuilder) (width : Nat) (signed : Bool) :
    SpvId × SpvFileBuilder :=
  let (id, fb) := spvb_fresh_id fb
  (id, fb.write (.OpTypeInt id width signed))

/-- Modelled from the spec: `spvb_ptr_type`. -/
def spvb_ptr_type (fb : SpvFileBuilder) (sc : SpvStorageClass) (pointee : SpvId) :
    SpvId × SpvFileBuilder :=
  let (id, fb) := spvb_fresh_id fb
  (id, fb.write (.OpTypePointer id sc pointee))

/-- Modelled from the spec: `spvb_struct_type`. -/
def spvb_struct_type (fb : SpvFileBuilder) (members : List SpvId) : SpvId × SpvFileBuilder :=
  let (id, fb) := spvb_fresh_id fb
  (id, fb.write (.OpTypeStruct id members))

/-- Modelled from the spec: `spvb_fn_type`. -/
def spvb_fn_type (fb : SpvFileBuilder) (params : List SpvId) (codom : SpvId) :
    SpvId × SpvFileBuilder :=
  let (id, fb) := spvb_fresh_id fb
  (id, fb.write (.OpTypeFunction id codom params))

/-- Modelled from the spec: `spvb_constant` defines `result`. -/
def spvb_constant (fb : SpvFileBuilder) (result type : SpvId) (words : List Nat) :
    SpvFileBuilder :=
  fb.write (.OpConstant result type words)

/-- Modelled from the spec: `spvb_global_variable` defines `id`. -/
def spvb_global_variable (fb : SpvFileBuilder) (id type : SpvId) (sc : SpvStorageClass) :
    SpvFileBuilder :=
  fb.write (.OpVariable id type sc)

/-- Modelled from the spec: `spvb_begin_fn`. -/
def spvb_begin_fn (fn_id fn_type fn_ret_type : SpvId) : SpvFnBuilder :=
  { fn_id := fn_id, fn_type := fn_type, fn_ret_type := fn_ret_type, params := [], bbs := [] }

/-- `fn_ret_type_id`. -/
def fn_ret_type_id (fnb : SpvFnBuilder) : SpvId := fnb.fn_ret_type

/-- Modelled from the spec: `spvb_parameter` draws an id for a parameter. -/
def spvb_parameter (fb : SpvFileBuilder) (fnb : SpvFnBuilder) (type : SpvId) :
    SpvId × SpvFileBuilder × SpvFnBuilder :=
  let (id, fb) := spvb_fresh_id fb
  (id, fb, { fnb with params := fnb.params ++ [.OpFunctionParameter id type] })

/-- Modelled from the spec: `spvb_begin_bb`. -/
def spvb_begin_bb (label : SpvId) : SpvBasicBlockBuilder :=
  { label := label, instructions := [] }

/-- Append one instruction to a basic block. -/
def SpvBasicBlockBuilder.write (bbb : SpvBasicBlockBuilder) (i : SpvInstruction) :
    SpvBasicBlockBuilder :=
  { bbb with instructions := bbb.instructions ++ [i] }

/-- Modelled from the spec: `spvb_binop` draws the result id and appends the
operation to the basic block. -/
def spvb_binop (fb : SpvFileBuilder) (bbb : SpvBasicBlockBuilder)
    (mk : SpvId → SpvId → SpvId → SpvId → SpvInstruction) (type lhs rhs : SpvId) :
    SpvId × SpvFileBuilder × SpvBasicBlockBuilder :=
  let (id, fb) := spvb_fresh_id fb
  (id, fb, bbb.write (mk id type lhs rhs))

/-- Modelled from the spec: `spvb_composite`. -/
def spvb_composite (fb : SpvFileBuilder) (bbb : SpvBasicBlockBuilder) (type : SpvId)
    (constituents : List SpvId) : SpvId × SpvFileBuilder × SpvBasicBlockBuilder :=
  let (id, fb) := spvb_fresh_id fb
  (id, fb, bbb.write (.OpCompositeConstruct id type constituents))

/-- Modelled from the spec: `spvb_return_void`. -/
def spvb_return_void (bbb : SpvBasicBlockBuilder) : SpvBasicBlockBuilder :=
  bbb.write .OpReturn

/-- Modelled from the spec: `spvb_return_value`. -/
def spvb_return_value (bbb : SpvBasicBlockBuilder) (value : SpvId) : SpvBasicBlockBuilder :=
  bbb.write (.OpReturnValue value)

/-- Modelled from the spec: `spvb_define_function` writes the function: its
header, parameters, blocks and end. -/
def spvb_define_function (fb : SpvFileBuilder) (fnb : SpvFnBuilder) : SpvFileBuilder :=
  { fb with words := fb.words ++
      [.OpFunction fnb.fn_id fnb.fn_type fnb.fn_ret_type] ++ fnb.params ++
      (fnb.bbs.map fun bb => SpvInstruction.OpLabel bb.label :: bb.instructions).flatten ++
      [.OpFunctionEnd] }

/-- Modelled from the spec: `find_value_dict`. -/
def find_value_dict (node_ids : List (Node × SpvId)) (node : Node) : Option SpvId :=
  node_ids.lookup node

/-- Modelled from the spec: `insert_dict_and_get_result` adds the entry when
the key is absent and leaves the dictionary alone when it is present. -/
def insert_dict (node_ids : List (Node × SpvId)) (node : Node) (id : SpvId) :
    List (Node × SpvId) :=
  match find_value_dict node_ids node with
  | some _ => node_ids
  | none => (node, id) :: node_ids

/-- Record `node -> id` in the emitter's dictionary. -/
def SpvEmitter.insert (emitter : SpvEmitter) (node : Node) (id : SpvId) : SpvEmitter :=
  { emitter with node_ids := insert_dict emitter.node_ids node id }

/-! ## The emitter -/

/-- `emit_addr_space` (lines 25-33). -/
def emit_addr_space (address_space : AddressSpace) (is_for_variable_decl : Bool) :
    Except String SpvStorageClass :=
  match address_space with
  | .AsGeneric => .ok .SpvStorageClassGeneric
  | .AsPrivate => .ok .SpvStorageClassPrivate
  | .AsShared => .ok .SpvStorageClassCrossWorkgroup
  | .AsGlobal =>
    .ok (if is_for_variable_decl then .SpvStorageClassStorageBuffer
      else .SpvStorageClassPhysicalStorageBuffer)
  | _ => .error "unreachable"

mutual
/-- `emit_type` (lines 150-192): the dictionary is searched first, whatever
the tag; on a miss the type is emitted by tag and recorded. -/
def emit_type : SpvEmitter → Node → Except String (SpvId × SpvEmitter)
  | emitter, .Int =>
    match find_value_dict emitter.node_ids .Int with
    | some existing => .ok (existing, emitter)
    | none =>
      let (new, fb) := spvb_int_type emitter.file_builder 32 true
      .ok (new, ({ emitter with file_builder := fb }).insert .Int new)
  | emitter, .PtrType address_space pointed_type =>
    match find_value_dict emitter.node_ids (.PtrType address_space pointed_type) with
    | some existing => .ok (existing, emitter)
    | none => do
      let (pointee, emitter) ← emit_type emitter pointed_type
      let sc ← emit_addr_space address_space false
      let (new, fb) := spvb_ptr_type emitter.file_builder sc pointee
      .ok (new, ({ emitter with file_builder := fb }).insert
        (.PtrType address_space pointed_type) new)
  | emitter, .RecordType members =>
    match find_value_dict emitter.node_ids (.RecordType members) with
    | some existing => .ok (existing, emitter)
    | none => do
      let (ids, emitter) ← emit_types emitter members
      let (new, fb) := spvb_struct_type emitter.file_builder ids
      .ok (new, ({ emitter with file_builder := fb }).insert (.RecordType members) new)
  | emitter, .FnType param_types return_types =>
    match find_value_dict emitter.node_ids (.FnType param_types return_types) with
    | some existing => .ok (existing, emitter)
    | none => do
      let (params, emitter) ← emit_types emitter param_types
      let (codom, emitter) ← nodes2codom emitter return_types
      let (new, fb) := spvb_fn_type emitter.file_builder params codom
      .ok (new, ({ emitter with file_builder := fb }).insert
        (.FnType param_types return_types) new)
  | emitter, .QualifiedType is_uniform inner =>
    match find_value_dict emitter.node_ids (.QualifiedType is_uniform inner) with
    | some existing => .ok (existing, emitter)
    | none => do
      let (new, emitter) ← emit_type emitter inner
      .ok (new, emitter.insert (.QualifiedType is_uniform inner) new)
  | emitter, type =>
    match find_value_dict emitter.node_ids type with
    | some existing => .ok (existing, emitter)
    | none => .error "Don't know how to emit type"
/-- The member loops of `emit_type`: `emit_type` on every element, in order. -/
def emit_types : SpvEmitter → Nodes → Except String (List SpvId × SpvEmitter)
  | emitter, .nil => .ok ([], emitter)
  | emitter, .cons t ts => do
    let (id, emitter) ← emit_type emitter t
    let (ids, emitter) ← emit_types emitter ts
    .ok (id :: ids, emitter)
/-- `nodes2codom` (lines 104-113).  For two or more return types the C
builds `record_type(arena, {.members = return_types})` and calls `emit_type`
on it; the third equation is that call, unfolded once. -/
def nodes2codom : SpvEmitter → Nodes → Except String (SpvId × SpvEmitter)
  | emitter, .nil => .ok (emitter.void_t, emitter)
  | emitter, .cons t .nil => emit_type emitter t
  | emitter, .cons t (.cons t1 ts) =>
    match find_value_dict emitter.node_ids (.RecordType (.cons t (.cons t1 ts))) with
    | some existing => .ok (existing, emitter)
    | none => do
      let (id, emitter) ← emit_type emitter t
      let (ids, emitter) ← emit_types emitter (.cons t1 ts)
      let (new, fb) := spvb_struct_type emitter.file_builder (id :: ids)
      .ok (new, ({ emitter with file_builder := fb }).insert
        (.RecordType (.cons t (.cons t1 ts))) new)
end

/-- `int_type(arena)`. -/
def int_type : Node := .Int

/-- The types of the parameters of a function. -/
def param_types : Vars → Nodes
  | .nil => .nil
  | .cons _ _ type ps => .cons type (param_types ps)

/-- Modelled from the spec: `derive_fn_type` builds the `FnType` matching a
function's parameters and returns. -/
def derive_fn_type (params : Vars) (return_types : Nodes) : Node :=
  .FnType (param_types params) return_types

/-- The parameter loop of `emit_value` (lines 136-139). -/
def emit_params : SpvEmitter → SpvFnBuilder → Vars → Except String (SpvEmitter × SpvFnBuilder)
  | emitter, fnb, .nil => .ok (emitter, fnb)
  | emitter, fnb, .cons name id type ps => do
    let (type_id, emitter) ← emit_type emitter type
    let (param_id, fb, fnb) := spvb_parameter emitter.file_builder fnb type_id
    emit_params (({ emitter with file_builder := fb }).insert (.Variable name id type) param_id)
      fnb ps

/-- `arr[i]`: element `i` of an array of `arr.length` ids; past its end the
C reads whatever the stack holds there. -/
def read_ids (indeterminate : Nat → SpvId) (arr : List SpvId) (i : Nat) : SpvId :=
  arr.getD i (indeterminate i)

/-- The loop of lines 68-71: variable `i` is named `out[i]` and recorded
under it.  `out[0]` is the only slot a primop call writes; the others hold
what the stack held. -/
def register_outputs (indeterminate : Nat → SpvId) (out0 : SpvId) :
    SpvEmitter → Nat → Vars → SpvEmitter
  | emitter, _, .nil => emitter
  | emitter, i, .cons name id type vs =>
    let out_i := if i = 0 then out0 else indeterminate i
    let fb := spvb_name emitter.file_builder out_i name
    register_outputs indeterminate out0
      (({ emitter with file_builder := fb }).insert (.Variable name id type) out_i) (i + 1) vs

/-- Lines 120-121 of `emit_value`: the id of the node, `*use_id` or a fresh
one, is recorded before the node is emitted. -/
def emit_value_id (emitter : SpvEmitter) (node : Node) (use_id : Option SpvId) :
    SpvId × SpvEmitter :=
  let (new, fb) :=
    match use_id with
    | some id => (id, emitter.file_builder)
    | none => spvb_fresh_id emitter.file_builder
  (new, ({ emitter with file_builder := fb }).insert node new)

mutual
/-- `emit_value` (lines 115-148): the dictionary is searched first, whatever
the tag; on a miss the id is recorded and the node emitted by tag.  In the
`Function` case the arguments of `spvb_begin_fn` are evaluated left to right,
and the body of `emit_block` is written out. -/
def emit_value (indeterminate : Nat → SpvId) :
    SpvEmitter → Node → Option SpvId → Except String (SpvId × SpvEmitter)
  | emitter, .IntLiteral value yields, use_id =>
    match find_value_dict emitter.node_ids (.IntLiteral value yields) with
    | some existing => .ok (existing, emitter)
    | none =>
      let (new, emitter) := emit_value_id emitter (.IntLiteral value yields) use_id
      do
        let (ty, emitter) ← emit_type emitter yields
        let fb := spvb_constant emitter.file_builder new ty [value]
        .ok (new, { emitter with file_builder := fb })
  | emitter, .Function params return_types instructions, use_id =>
    match find_value_dict emitter.node_ids (.Function params return_types instructions) with
    | some existing => .ok (existing, emitter)
    | none =>
      let (new, emitter) :=
        emit_value_id emitter (.Function params return_types instructions) use_id
      do
        let fn_type := derive_fn_type params return_types
        let (fn_type_id, emitter) ← emit_type emitter fn_type
        let (codom, emitter) ← nodes2codom emitter return_types
        let fn_builder := spvb_begin_fn new fn_type_id codom
        let (emitter, fn_builder) ← emit_params emitter fn_builder params
        let (bbid, fb) := spvb_fresh_id emitter.file_builder
        let bbb := spvb_begin_bb bbid
        let (emitter, bbb) ←
          emit_instructions indeterminate { emitter with file_builder := fb } fn_builder bbb
            instructions
        let fn_builder := { fn_builder with bbs := fn_builder.bbs ++ [bbb] }
        let fb := spvb_define_function emitter.file_builder fn_builder
        .ok (new, { emitter with file_builder := fb })
  | emitter, .Variable name id type, _ =>
    match find_value_dict emitter.node_ids (.Variable name id type) with
    | some existing => .ok (existing, emitter)
    | none => .error "this variable should have been resolved already"
  | emitter, node, _ =>
    match find_value_dict emitter.node_ids node with
    | some existing => .ok (existing, emitter)
    | none => .error "don't know hot to emit value"
/-- The argument loops: `emit_value(emitter, node, NULL)` on every element. -/
def emit_values (indeterminate : Nat → SpvId) :
    SpvEmitter → Nodes → Except String (List SpvId × SpvEmitter)
  | emitter, .nil => .ok ([], emitter)
  | emitter, .cons n ns => do
    let (id, emitter) ← emit_value indeterminate emitter n none
    let (ids, emitter) ← emit_values indeterminate emitter ns
    .ok (id :: ids, emitter)
/-- `emit_primop_call` (lines 39-60); the result is `out[0]`. -/
def emit_primop_call (indeterminate : Nat → SpvId) :
    SpvEmitter → SpvBasicBlockBuilder → Node →
      Except String (SpvId × SpvEmitter × SpvBasicBlockBuilder)
  | _, _, .Call _ _ => .error "not implemented"
  | emitter, bbb, .PrimOp op args => do
    let (arr, emitter) ← emit_values indeterminate emitter args
    let (i32_t, emitter) ← emit_type emitter int_type
    match op with
    | .add_op =>
      let (out0, fb, bbb) := spvb_binop emitter.file_builder bbb .OpIAdd i32_t
        (read_ids indeterminate arr 0) (read_ids indeterminate arr 1)
      .ok (out0, { emitter with file_builder := fb }, bbb)
    | _ => .error "TODO: unhandled op"
  | _, _, _ => .error "neither a primop nor a call"
/-- `emit_instruction` (lines 62-91). -/
def emit_instruction (indeterminate : Nat → SpvId) :
    SpvEmitter → SpvFnBuilder → SpvBasicBlockBuilder → Node →
      Except String (SpvEmitter × SpvBasicBlockBuilder)
  | emitter, _, bbb, .Let vars target => do
    let (out0, emitter, bbb) ← emit_primop_call indeterminate emitter bbb target
    .ok (register_outputs indeterminate out0 emitter 0 vars, bbb)
  | emitter, fnb, bbb, .Return ret_values =>
    match ret_values with
    | .nil => .ok (emitter, spvb_return_void bbb)
    | .cons v .nil => do
      let (id, emitter) ← emit_value indeterminate emitter v none
      .ok (emitter, spvb_return_value bbb id)
    | .cons v (.cons v1 vs) => do
      let (id, emitter) ← emit_value indeterminate emitter v none
      let (ids, emitter) ← emit_values indeterminate emitter (.cons v1 vs)
      let (return_that, fb, bbb) :=
        spvb_composite emitter.file_builder bbb (fn_ret_type_id fnb) (id :: ids)
      .ok ({ emitter with file_builder := fb }, spvb_return_value bbb return_that)
  | _, _, _, _ => .error "TODO: emit instruction"
/-- The loop of `emit_block` (lines 98-99). -/
def emit_instructions (indeterminate : Nat → SpvId) :
    SpvEmitter → SpvFnBuilder → SpvBasicBlockBuilder → Nodes →
      Except String (SpvEmitter × SpvBasicBlockBuilder)
  | emitter, _, bbb, .nil => .ok (emitter, bbb)
  | emitter, fnb, bbb, .cons i rest => do
    let (emitter, bbb) ← emit_instruction indeterminate emitter fnb bbb i
    emit_instructions indeterminate emitter fnb bbb rest
end

/-- `emit_block` (lines 93-102).  The `Function` case of `emit_value` is this
call, written out. -/
def emit_block (indeterminate : Nat → SpvId) (emitter : SpvEmitter) (fnb : SpvFnBuilder)
    (block : Nodes) : Except String (SpvId × SpvEmitter × SpvFnBuilder) :=
  let (bbid, fb) := spvb_fresh_id emitter.file_builder
  let bbb := spvb_begin_bb bbid
  match emit_instructions indeterminate { emitter with file_builder := fb } fnb bbb block with
  | .ok (emitter, bbb) => .ok (bbid, emitter, { fnb with bbs := fnb.bbs ++ [bbb] })
  | .error e => .error e

/-- Modelled from the spec: `strip_qualifier` gives the inner type and the
divergence of a qualified type. -/
def strip_qualifier : Node → Node × DivergenceQualifier
  | .QualifiedType is_uniform type => (type, if is_uniform then .Uniform else .Varying)
  | type => (type, .Unknown)

/-- Modelled from the spec: `spvb_begin`, an empty file whose first free id
is 1. -/
def spvb_begin : SpvFileBuilder := { bound := 1, words := [] }

/-- The first loop of `emit` (lines 212-218): one fresh id per top-level
variable, recorded and named. -/
def reserve_ids : SpvEmitter → Vars → List SpvId × SpvEmitter
  | emitter, .nil => ([], emitter)
  | emitter, .cons name id type vs =>
    let (new, fb) := spvb_fresh_id emitter.file_builder
    let emitter := ({ emitter with file_builder := fb }).insert (.Variable name id type) new
    let emitter := { emitter with file_builder := spvb_name emitter.file_builder new name }
    let rest := reserve_ids emitter vs
    (new :: rest.1, rest.2)

/-- The second loop of `emit` (lines 220-234), over the top-level variables,
their reserved ids and their definitions. -/
def emit_definitions (indeterminate : Nat → SpvId) :
    SpvEmitter → Vars → List SpvId → List (Option Node) → Except String SpvEmitter
  | emitter, .nil, _, _ => .ok emitter
  | emitter, .cons _ _ var_type vs, id :: ids, definition :: definitions =>
    let (type, qual) := strip_qualifier var_type
    match definition with
    | none =>
      if qual ≠ .Uniform then .error "assertion failed: qual == Uniform"
      else
        match type with
        | .PtrType address_space _ => do
          let (type_id, emitter) ← emit_type emitter type
          let sc ← emit_addr_space address_space true
          let fb := spvb_global_variable emitter.file_builder id type_id sc
          emit_definitions indeterminate { emitter with file_builder := fb } vs ids definitions
        | _ => .error "assertion failed: type->tag == PtrType_TAG"
    | some definition => do
      let (_, emitter) ← emit_value indeterminate emitter definition (some id)
      emit_definitions indeterminate emitter vs ids definitions
  | _, .cons _ _ _ _, _, _ => .error "definitions out of bounds"

/-- `emit` (lines 194-242), up to `spvb_finish`: the file builder when every
declaration is emitted. -/
def emit (indeterminate : Nat → SpvId) (root : Root) : Except String SpvFileBuilder :=
  let file_builder := spvb_begin
  let (void_t, file_builder) := spvb_void_type file_builder
  let file_builder := spvb_capability file_builder .SpvCapabilityShader
  let file_builder := spvb_capability file_builder .SpvCapabilityLinkage
  let file_builder :=
    spvb_capability file_builder .SpvCapabilityPhysicalStorageBufferAddresses
  let emitter : SpvEmitter :=
    { file_builder := file_builder, void_t := void_t, node_ids := [] }
  let (ids, emitter) := reserve_ids emitter root.vars
  match emit_definitions indeterminate emitter root.vars ids root.definitions with
  | .ok emitter => .ok emitter.file_builder
  | .error e => .error e

/-! ## Predicates of the properties -/

/-- The instructions `emit_instruction` has a case for: a `Return`, and a
`Let` of an `add` primop. -/
def is_supported_instruction : Node → Bool
  | .Return _ => true
  | .Let _ (.PrimOp .add_op _) => true
  | _ => false

/-- Every entry of the dictionary of `emitter1` is an entry of the dictionary
of `emitter` or has a key smaller than `bound`. -/
def adds_below (emitter emitter1 : SpvEmitter) (bound : Nat) : Prop :=
  ∀ k, find_value_dict emitter1.node_ids k ≠ none →
    find_value_dict emitter.node_ids k ≠ none ∨ sizeOf k < bound

/-- The emitter of the examples: an empty dictionary, the void type at id 1,
the next free id 2, nothing indeterminate but zero. -/
def sample_emitter : SpvEmitter :=
  { file_builder := { bound := 2, words := [.OpTypeVoid 1] }, void_t := 1, node_ids := [] }

/-- The function builder of the examples. -/
def sample_fn_builder : SpvFnBuilder :=
  { fn_id := 100, fn_type := 101, fn_ret_type := 102, params := [], bbs := [] }

/-- The emitter of the examples once the literals 5 and 6 are emitted. -/
def sample_emitter_after_literals : SpvEmitter :=
  { file_builder :=
      { bound := 5,
        words := [.OpTypeVoid 1, .OpTypeInt 3 32 true, .OpConstant 2 3 [5],
          .OpConstant 4 3 [6]] },
    void_t := 1,
    node_ids := [(.IntLiteral 6 .Int, 4), (.Int, 3), (.IntLiteral 5 .Int, 2)] }

/-- The emitter of the examples once the type of pointers to `Int` in the
global address space is emitted. -/
def sample_emitter_after_pointer : SpvEmitter :=
  { file_builder :=
      { bound := 4,
        words := [.OpTypeVoid 1, .OpTypeInt 2 32 true,
          .OpTypePointer 3 .SpvStorageClassPhysicalStorageBuffer 2] },
    void_t := 1,
    node_ids := [(.PtrType .AsGlobal .Int, 3), (.Int, 2)] }

/-- The instruction defines `id`: an `OpConstant`, an `OpFunction` or an
`OpVariable` whose result id is `id`. -/
def SpvInstruction.defines (id : SpvId) : SpvInstruction → Bool
  | .OpConstant result _ _ => result == id
  | .OpFunction result _ _ => result == id
  | .OpVariable result _ _ => result == id
  | _ => false

/-- Two top-level constants `a` and `b`, both defined as the literal
`value`. -/
def twin_constants (value : Nat) : Root :=
  { vars := .cons "a" 0 (.QualifiedType true .Int)
      (.cons "b" 1 (.QualifiedType true .Int) .nil),
    definitions := [some (.IntLiteral value .Int), some (.IntLiteral value .Int)] }

/-- One top-level global `args` without definition: a uniform pointer to an
`Int` in the external address space. -/
def external_global : Root :=
  { vars := .cons "args" 0 (.QualifiedType true (.PtrType .AsExternal .Int)) .nil,
    definitions := [none] }

/-- One top-level global `buffer` without definition: a uniform pointer to an
`Int` in the global address space. -/
def global_buffer : Vars :=
  .cons "buffer" 0 (.QualifiedType true (.PtrType .AsGlobal .Int)) .nil

/-- A module of the one global `buffer`, without definition. -/
def global_buffer_root : Root := { vars := global_buffer, definitions := [none] }

/-- What the dictionary records for a list of return types: the void type
for none, the type itself for one, the record of them for two or more. -/
def recorded_codom (emitter : SpvEmitter) : Nodes → Option SpvId
  | .nil => some emitter.void_t
  | .cons t .nil => find_value_dict emitter.node_ids t
  | .cons t (.cons t1 ts) =>
    find_value_dict emitter.node_ids (.RecordType (.cons t (.cons t1 ts)))

/-- Every function type the dictionary records has its `OpTypeFunction` in
the instruction stream, with the return type the dictionary records for its
return types. -/
def fn_types_consistent (emitter : SpvEmitter) : Prop :=
  ∀ ps rs fid, find_value_dict emitter.node_ids (.FnType ps rs) = some fid →
    ∃ codom params,
      SpvInstruction.OpTypeFunction fid codom params ∈ emitter.file_builder.words ∧
      recorded_codom emitter rs = some codom

/-- An `OpFunction`. -/
def SpvInstruction.is_function : SpvInstruction → Bool
  | .OpFunction _ _ _ => true
  | _ => false

/-- Every `OpFunction` of the stream comes with the `OpTypeFunction` of its
function type, and its result type is the return type of that
`OpTypeFunction`. -/
def functions_typed (words : List SpvInstruction) : Prop :=
  ∀ f ft ret, SpvInstruction.OpFunction f ft ret ∈ words →
    ∃ params, SpvInstruction.OpTypeFunction ft ret params ∈ words

/-- The emitter `emitter1` is `emitter` some emissions later: what was
recorded is recorded, what was written is written, the void type is the
same, the function types stay consistent if they were, and then the
functions stay typed if they were. -/
def grows (emitter emitter1 : SpvEmitter) : Prop :=
  (∀ k v, find_value_dict emitter.node_ids k = some v →
    find_value_dict emitter1.node_ids k = some v) ∧
  (∀ w ∈ emitter.file_builder.words, w ∈ emitter1.file_builder.words) ∧
  emitter1.void_t = emitter.void_t ∧
  (fn_types_consistent emitter → fn_types_consistent emitter1) ∧
  (fn_types_consistent emitter → functions_typed emitter.file_builder.words →
    functions_typed emitter1.file_builder.words)

/-- No `OpFunction` among the instructions of a basic block under
construction. -/
def SpvBasicBlockBuilder.clean (bbb : SpvBasicBlockBuilder) : Prop :=
  ∀ w ∈ bbb.instructions, w.is_function = false

/-- No `OpFunction` among the parameters and the blocks of a function under
construction. -/
def SpvFnBuilder.clean (fnb : SpvFnBuilder) : Prop :=
  (∀ w ∈ fnb.params, w.is_function = false) ∧ ∀ bb ∈ fnb.bbs, bb.clean

/-- A module of one function `pair` that returns the two literals 5 and 6. -/
def pair_function_root : Root :=
  { vars := .cons "pair" 0 (.FnType .nil (.cons .Int (.cons .Int .nil))) .nil,
    definitions := [some (.Function .nil (.cons .Int (.cons .Int .nil))
      (.cons (.Return (.cons (.IntLiteral 5 .Int) (.cons (.IntLiteral 6 .Int) .nil))) .nil))] }

/-- What `emit` writes for `pair_function_root`. -/
def pair_function_module : SpvFileBuilder :=
  { bound := 10,
    words := [.OpTypeVoid 1, .OpCapability .SpvCapabilityShader,
      .OpCapability .SpvCapabilityLinkage,
      .OpCapability .SpvCapabilityPhysicalStorageBufferAddresses,
      .OpName 2 "pair", .OpTypeInt 3 32 true, .OpTypeStruct 4 [3, 3],
      .OpTypeFunction 5 4 [], .OpConstant 7 3 [5], .OpConstant 8 3 [6],
      .OpFunction 2 5 4, .OpLabel 6, .OpCompositeConstruct 9 4 [7, 8], .OpReturnValue 9,
      .OpFunctionEnd] }

end Emit

namespace MapEntrypointArgs

/-! ## Node model read by `spirv_map_entrypoint_args.c`

The pass meets three kinds of node: types, annotations and declarations.
`process` is one C function over all of them; the embedding has one function
per kind. -/

/-- Address spaces. -/
inductive AddressSpace
  | AsGeneric
  | AsPrivate
  | AsShared
  | AsGlobal
  | AsExternal
  | AsPushConstant
  deriving DecidableEq, Repr

/-- The `special` field of a record type. -/
inductive RecordSpecialFlag
  | NotSpecial
  | DecorateBlock
  deriving DecidableEq, Repr

mutual
/-- Types. -/
inductive Ty
  | Int
  | MaskType
  | PtrType (address_space : AddressSpace) (pointed_type : Ty)
  | RecordType (members : Tys) (names : List String) (special : RecordSpecialFlag)
  | FnType (param_types : Tys) (return_types : Tys)
  | QualifiedType (is_uniform : Bool) (type : Ty)
  deriving DecidableEq, Repr
/-- A list of types (`Nodes`). -/
inductive Tys
  | nil
  | cons (head : Ty) (tail : Tys)
  deriving DecidableEq, Repr
end

/-- An annotation node; its payload is its name. -/
structure Annotation where
  name : String
  deriving DecidableEq, Repr

/-- Declarations: global variables, and constants standing for every other
kind of declaration, which the pass does not look into. -/
inductive Declaration
  | GlobalVariable (annotations : List Annotation) (type : Ty) (name : String)
      (address_space : AddressSpace)
  | Constant (annotations : List Annotation) (name : String) (type_hint : Ty) (value : Nat)
  deriving DecidableEq, Repr

/-- The annotations of a declaration. -/
def Declaration.annotations : Declaration → List Annotation
  | .GlobalVariable annotations _ _ _ => annotations
  | .Constant annotations _ _ _ => annotations

/-! ## The rewriter -/

/-- The maps of `struct Rewriter_` (`rewrite.h` lines 39-40).  `map` is split
by the kind of its keys, types and annotations; `decls_map` holds the
declarations. -/
structure Rewriter where
  map : List (Ty × Ty)
  annotation_map : List ( Annotation × Annotation)
  decls_map : List (Declaration × Declaration)
  deriving DecidableEq, Repr

/-- Modelled from the spec: `create_rewriter` starts with empty maps. -/
def create_rewriter : Rewriter := { map := [], annotation_map := [], decls_map := [] }

/-- Modelled from the spec: `search_processed` on a type. -/
def search_processed_type (r : Rewriter) (old : Ty) : Option Ty :=
  r.map.lookup old

/-- Modelled from the spec: `search_processed` on a declaration. -/
def search_processed (r : Rewriter) (old : Declaration) : Option Declaration :=
  r.decls_map.lookup old

/-- Modelled from the spec: `register_processed` on a type adds `old -> new`;
a mapping is never overwritten, and registering a different new node for an
old one that is already mapped is an invariant violation. -/
def register_processed_type (r : Rewriter) (old new : Ty) : Except String Rewriter :=
  match search_processed_type r old with
  | none => .ok { r with map := (old, new) :: r.map }
  | some found => if found = new then .ok r else .error "InvariantViolated"

/-- Modelled from the spec: `register_processed` on a declaration. -/
def register_processed (r : Rewriter) (old new : Declaration) : Except String Rewriter :=
  match search_processed r old with
  | none => .ok { r with decls_map := (old, new) :: r.decls_map }
  | some found => if found = new then .ok r else .error "InvariantViolated"

/-- Modelled from the spec: `rewrite_node` on a type, given what `process`
returns for it: a hit of `search_processed` is returned as it is; on a miss
the node goes to `process` and the result is memoized. -/
def rewrite_node_with (r : Rewriter) (old : Ty) (processed : Except String (Ty × Rewriter)) :
    Except String (Ty × Rewriter) :=
  match search_processed_type r old with
  | some found => .ok (found, r)
  | none => do
    let (new, r1) ← processed
    let r2 ← register_processed_type r1 old new
    .ok (new, r2)

mutual
/-- `rewrite_node` on a type.  `process` (lines 46-75) searches the map
again, misses, finds no `GlobalVariable` tag and ends in
`recreate_node_identity`, modelled from the spec: every node-typed field is
rewritten and the node rebuilt with the same tag. -/
def rewrite_type : Rewriter → Ty → Except String (Ty × Rewriter)
  | r, .Int => rewrite_node_with r .Int (.ok (.Int, r))
  | r, .MaskType => rewrite_node_with r .MaskType (.ok (.MaskType, r))
  | r, .PtrType address_space pointed_type =>
    rewrite_node_with r (.PtrType address_space pointed_type) do
      let (pointed_type1, r1) ← rewrite_type r pointed_type
      .ok (.PtrType address_space pointed_type1, r1)
  | r, .RecordType members names special =>
    rewrite_node_with r (.RecordType members names special) do
      let (members1, r1) ← rewrite_types r members
      .ok (.RecordType members1 names special, r1)
  | r, .FnType param_types return_types =>
    rewrite_node_with r (.FnType param_types return_types) do
      let (param_types1, r1) ← rewrite_types r param_types
      let (return_types1, r2) ← rewrite_types r1 return_types
      .ok (.FnType param_types1 return_types1, r2)
  | r, .QualifiedType is_uniform type =>
    rewrite_node_with r (.QualifiedType is_uniform type) do
      let (type1, r1) ← rewrite_type r type
      .ok (.QualifiedType is_uniform type1, r1)
/-- `rewrite_nodes` on types: `rewrite_node` on every element, in order. -/
def rewrite_types : Rewriter → Tys → Except String (Tys × Rewriter)
  | r, .nil => .ok (.nil, r)
  | r, .cons t ts => do
    let (t1, r1) ← rewrite_type r t
    let (ts1, r2) ← rewrite_types r1 ts
    .ok (.cons t1 ts1, r2)
end

/-- `rewrite_node` on an annotation: a hit of the map is returned; on a miss
`process` ends in `recreate_node_identity`, which copies the name, and the
copy is memoized. -/
def rewrite_annotation (r : Rewriter) (old : Annotation) : Annotation × Rewriter :=
  match r.annotation_map.lookup old with
  | some found => (found, r)
  | none => (old, { r with annotation_map := (old, old) :: r.annotation_map })

/-- `rewrite_nodes` on annotations. -/
def rewrite_annotations : Rewriter → List Annotation → List Annotation × Rewriter
  | r, [] => ([], r)
  | r, a :: rest =>
    let (a1, r1) := rewrite_annotation r a
    let (rest1, r2) := rewrite_annotations r1 rest
    (a1 :: rest1, r2)

/-- Modelled from the spec: `lookup_annotation(decl, name)` finds the
annotation of that name on the declaration. -/
def lookup_annotation (decl : Declaration) (name : String) : Option Annotation :=
  decl.annotations.find? fun a => a.name == name

/-! ## The pass -/

/-- `rewrite_args_type` (lines 29-44). -/
def rewrite_args_type (r : Rewriter) (old_type : Ty) : Except String (Ty × Rewriter) :=
  match old_type with
  | .RecordType members names .NotSpecial => do
    let (members1, r1) ← rewrite_types r members
    let new_type := Ty.RecordType members1 names .DecorateBlock
    let r2 ← register_processed_type r1 old_type new_type
    .ok (new_type, r2)
  | _ => .error "EntryPointArgs type must be a plain record type"

/-- Modelled from the spec: `recreate_node_identity` on a declaration rewrites
its annotations and its type, rebuilds it with the same tag, name and address
space, and registers it. -/
def recreate_node_identity (r : Rewriter) (node : Declaration) :
    Except String (Declaration × Rewriter) :=
  match node with
  | .GlobalVariable annotations type name address_space => do
    let (annotations1, r1) := rewrite_annotations r annotations
    let (type1, r2) ← rewrite_type r1 type
    let new := Declaration.GlobalVariable annotations1 type1 name address_space
    let r3 ← register_processed r2 node new
    .ok (new, r3)
  | .Constant annotations name type_hint value => do
    let (annotations1, r1) := rewrite_annotations r annotations
    let (type_hint1, r2) ← rewrite_type r1 type_hint
    let new := Declaration.Constant annotations1 name type_hint1 value
    let r3 ← register_processed r2 node new
    .ok (new, r3)

/-- `process` (lines 46-75) on a declaration. -/
def process (r : Rewriter) (node : Declaration) : Except String (Declaration × Rewriter) :=
  match search_processed r node with
  | some found => .ok (found, r)
  | none =>
    match node with
    | .GlobalVariable annotations type name address_space =>
      if ( lookup_annotation node "EntryPointArgs").isSome then
        if address_space ≠ .AsExternal then
          .error "EntryPointArgs address space must be extern"
        else do
          let (annotations1, r1) := rewrite_annotations r annotations
          let (type1, r2) ← rewrite_args_type r1 type
          let new_var := Declaration.GlobalVariable annotations1 type1 name .AsPushConstant
          let r3 ← register_processed r2 node new_var
          .ok (new_var, r3)
      else recreate_node_identity r node
    | _ => recreate_node_identity r node

/-- Modelled from the spec: the loop of `rewrite_module` over the top-level
declarations. -/
def rewrite_declarations : Rewriter → List Declaration →
    Except String (List Declaration × Rewriter)
  | r, [] => .ok ([], r)
  | r, d :: ds => do
    let (d1, r1) ← process r d
    let (ds1, r2) ← rewrite_declarations r1 ds
    .ok (d1 :: ds1, r2)

/-- `spirv_map_entrypoint_args` (lines 77-84): the declarations of `dst`. -/
def spirv_map_entrypoint_args (src : List Declaration) : Except String (List Declaration) :=
  match rewrite_declarations create_rewriter src with
  | .ok (dst, _) => .ok dst
  | .error e => .error e

/-! ## Predicates of the properties -/

/-- The declaration is a global variable annotated `EntryPointArgs`. -/
def is_entry_point_args (node : Declaration) : Bool :=
  match node with
  | .GlobalVariable _ _ _ _ => ( lookup_annotation node "EntryPointArgs").isSome
  | _ => false

/-- The address space of a global variable. -/
def Declaration.address_space : Declaration → Option AddressSpace
  | .GlobalVariable _ _ _ address_space => some address_space
  | _ => none

/-- The type of a declaration. -/
def Declaration.type : Declaration → Ty
  | .GlobalVariable _ type _ _ => type
  | .Constant _ _ type_hint _ => type_hint

/-- Every type registered in `r1` is registered in `r` or is smaller than
`bound`; the other maps are those of `r`. -/
def registers_below (r r1 : Rewriter) (bound : Nat) : Prop :=
  (∀ k, search_processed_type r1 k ≠ none →
    search_processed_type r k ≠ none ∨ sizeOf k < bound) ∧
  r1.annotation_map = r.annotation_map ∧ r1.decls_map = r.decls_map

/-- The argument record of the examples. -/
def sample_args_type : Ty :=
  .RecordType (.cons .Int (.cons (.PtrType .AsGlobal .Int) .nil)) ["n", "data"] .NotSpecial

/-- The global of the examples: `args`, annotated `EntryPointArgs`, external. -/
def sample_args : Declaration :=
  .GlobalVariable [⟨"EntryPointArgs"⟩] sample_args_type "args" .AsExternal

/-- What the pass makes of a declaration keeps the mark `EntryPointArgs`, and
a marked global comes out in the push-constant address space. -/
def is_image (old new : Declaration) : Prop :=
  is_entry_point_args new = is_entry_point_args old ∧
  (is_entry_point_args old = true → new.address_space = some .AsPushConstant)

/-- The maps of a rewriter the pass has been running with: every annotation
is registered to itself, and every declaration to an image of it. -/
def Rewriter.consistent (r : Rewriter) : Prop :=
  (∀ p ∈ r.annotation_map, p.2 = p.1) ∧ (∀ p ∈ r.decls_map, is_image p.1 p.2)

/-- No global marked `EntryPointArgs` is registered. -/
def Rewriter.no_entry_point_args (r : Rewriter) : Prop :=
  ∀ p ∈ r.decls_map, is_entry_point_args p.1 = false

end MapEntrypointArgs

/-! # Theorems -/

namespace OptStack

/-! ## Straight-line regions under `process` -/

theorem process_lambda_mk (r : Rewriter) (state : List StackState) (params : List Nat)
    (body : Terminator) :
    process_lambda r state (.mk params body) =
      (.mk params (process r state body).1, (process r state body).2) := by
  simp [process_lambda]

theorem process_push (r : Rewriter) (state : List StackState) (operands : List Value)
    (tail : AnonLambda) :
    process r state (.Let (.PrimOp .push_stack_op operands) tail) =
      (.Let
          (if !(top_leaks (process_lambda r
              ({ leaks := false, value := rewrite_node r (first operands) } :: state) tail).2)
            then unit
            else .PrimOp .push_stack_op (rewrite_nodes r operands))
          (process_lambda r
            ({ leaks := false, value := rewrite_node r (first operands) } :: state) tail).1,
        (process_lambda r
          ({ leaks := false, value := rewrite_node r (first operands) } :: state) tail).2.tail) := by
  simp only [process]

theorem covers_refl (a : List StackState) : covers a a := by
  induction a with
  | nil => exact List.Forall₂.nil
  | cons x a ih => exact List.Forall₂.cons ⟨rfl, id⟩ ih

theorem covers_trans {a b c : List StackState} (h1 : covers a b) (h2 : covers b c) :
    covers a c := by
  induction h1 generalizing c with
  | nil => cases h2; exact List.Forall₂.nil
  | cons hxy _ ih =>
    cases h2 with
    | cons hyz h2 =>
      exact List.Forall₂.cons ⟨hyz.1.trans hxy.1, fun h => hyz.2 (hxy.2 h)⟩ (ih h2)

theorem covers_tag_leaks (a : List StackState) : covers a (tag_leaks a) := by
  induction a with
  | nil => exact List.Forall₂.nil
  | cons x a ih => exact List.Forall₂.cons ⟨rfl, fun _ => rfl⟩ ih

theorem tag_leaks_idem (a : List StackState) : tag_leaks (tag_leaks a) = tag_leaks a := by
  simp [tag_leaks]

mutual
theorem process_covers (r : Rewriter) :
    ∀ (t : Terminator) (state : List StackState), covers state (process r state t).2
  | .Let i tail, state => by
    cases i with
    | PrimOp op operands =>
      cases op with
      | push_stack_op =>
        have h := process_lambda_covers r tail
          ({ leaks := false, value := rewrite_node r (first operands) } :: state)
        simp only [process]
        generalize (process_lambda r
          ({ leaks := false, value := rewrite_node r (first operands) } :: state) tail).2 = q
          at h
        cases h with
        | cons _ h => simpa using h
      | pop_stack_op =>
        cases state with
        | nil =>
          simp only [process]
          exact process_lambda_covers r tail []
        | cons top prev =>
          simp only [process]
          exact List.Forall₂.cons ⟨rfl, id⟩ (process_lambda_covers r tail prev)
      | quote_op => simp only [process]; exact process_lambda_covers r tail state
      | add_op => simp only [process]; exact process_lambda_covers r tail state
      | other_op code => simp only [process]; exact process_lambda_covers r tail state
    | LeafCall c a =>
      simp only [process]
      exact covers_trans (covers_tag_leaks state) (recreate_covers r (.LeafCall c a) _)
    | IndirectCall c a =>
      simp only [process]
      exact covers_trans (covers_tag_leaks state) (recreate_covers r (.IndirectCall c a) _)
    | If c t f =>
      simp only [process]
      exact covers_trans (covers_tag_leaks state) (recreate_covers r (.If c t f) _)
    | Match i l c d =>
      simp only [process]
      exact covers_trans (covers_tag_leaks state) (recreate_covers r (.Match i l c d) _)
    | Loop a b =>
      simp only [process]
      exact covers_trans (covers_tag_leaks state) (recreate_covers r (.Loop a b) _)
    | Control b =>
      simp only [process]
      exact covers_trans (covers_tag_leaks state) (recreate_covers r (.Control b) _)
  | .Unreachable, state => by simp only [process]; exact covers_refl state
  | .Return _, state => by simp only [process]; exact covers_tag_leaks state
  | .TailCall _ _, state => by simp only [process]; exact covers_tag_leaks state
  | .Join _ _, state => by simp only [process]; exact covers_tag_leaks state
  | .MergeSelection _, state => by simp only [process]; exact covers_tag_leaks state
  | .MergeContinue _, state => by simp only [process]; exact covers_tag_leaks state
  | .MergeBreak _, state => by simp only [process]; exact covers_tag_leaks state
theorem process_lambda_covers (r : Rewriter) :
    ∀ (l : AnonLambda) (state : List StackState), covers state (process_lambda r state l).2
  | .mk _ body, state => by
    simp only [process_lambda]
    exact process_covers r body state
theorem process_opt_lambda_covers (r : Rewriter) :
    ∀ (l : Option AnonLambda) (state : List StackState),
      covers state (process_opt_lambda r state l).2
  | none, state => by simp only [process_opt_lambda]; exact covers_refl state
  | some l, state => by
    simp only [process_opt_lambda]
    exact process_lambda_covers r l state
theorem process_lambdas_covers (r : Rewriter) :
    ∀ (ls : List AnonLambda) (state : List StackState),
      covers state (process_lambdas r state ls).2
  | [], state => by simp only [process_lambdas]; exact covers_refl state
  | l :: ls, state => by
    simp only [process_lambdas]
    exact covers_trans (process_lambda_covers r l state) (process_lambdas_covers r ls _)
theorem recreate_covers (r : Rewriter) :
    ∀ (i : Instruction) (state : List StackState),
      covers state (recreate_node_identity r state i).2
  | .PrimOp _ _, state => by simp only [recreate_node_identity]; exact covers_refl state
  | .LeafCall _ _, state => by simp only [recreate_node_identity]; exact covers_refl state
  | .IndirectCall _ _, state => by simp only [recreate_node_identity]; exact covers_refl state
  | .If _ t f, state => by
    simp only [recreate_node_identity]
    exact covers_trans (process_lambda_covers r t state) (process_opt_lambda_covers r f _)
  | .Match _ _ cs d, state => by
    simp only [recreate_node_identity]
    exact covers_trans (process_lambdas_covers r cs state) (process_lambda_covers r d _)
  | .Loop _ b, state => by
    simp only [recreate_node_identity]
    exact process_lambda_covers r b state
  | .Control b, state => by
    simp only [recreate_node_identity]
    exact process_lambda_covers r b state
end

/-- C1 (fails on the code): behaviour is not preserved when a pop inside the
body of an `If` meets a frame pushed before the `If`.  In
`push_stack 7; If true { x = pop_stack; MergeSelection }; Return` the push is
kept (the `If` tags its frame as leaking) while the pop inside the body, which
is recreated under the state the `If` was met in, becomes `quote 7`; the
rewritten function shows the stack `[7]` at the merge and at the return, where
the original shows the empty stack. -/
theorem opt_stack_pop_inside_if_behavior :
    (opt_stack ⟨[]⟩ pop_inside_if).body =
      .Let (.PrimOp .push_stack_op [.int_literal 7]) (.mk []
        (.Let (.If .true_lit
            (.mk [] (.Let (quote_single (.int_literal 7)) (.mk [1] (.MergeSelection []))))
            none) (.mk []
          (.Return []))))
    ∧ behavior [] pop_inside_if =
      [.at_control [.int_literal 7], .bound [1] [.int_literal 7], .at_terminator [],
        .at_terminator []]
    ∧ behavior [] (opt_stack ⟨[]⟩ pop_inside_if) =
      [.at_control [.int_literal 7], .bound [1] [.int_literal 7],
        .at_terminator [.int_literal 7], .at_terminator [.int_literal 7]]
    ∧ behavior [] (opt_stack ⟨[]⟩ pop_inside_if) ≠ behavior [] pop_inside_if := by
  refine ⟨by rfl, by decide, by decide, by decide⟩

/-- C19 (fails on the code): in
`push_stack 7; If true { x = pop_stack; MergeSelection }; Return` the `If` tags
the frame of the push as leaking, and its body is then recreated under that
state: the pop in the body is replaced by `quote 7` while the frame it reads
has its `leaks` bit set, and the push that created the frame is kept. -/
theorem opt_stack_removes_pop_keeps_push :
    process ⟨[]⟩ [] pop_inside_if.body =
      (.Let (.PrimOp .push_stack_op [.int_literal 7]) (.mk []
        (.Let (.If .true_lit
            (.mk [] (.Let (quote_single (.int_literal 7)) (.mk [1] (.MergeSelection []))))
            none) (.mk []
          (.Return [])))), [])
    ∧ process ⟨[]⟩ [{ leaks := true, value := .int_literal 7 }]
        (.Let (.PrimOp .pop_stack_op []) (.mk [1] (.MergeSelection []))) =
      (.Let (quote_single (.int_literal 7)) (.mk [1] (.MergeSelection [])),
        [{ leaks := true, value := .int_literal 7 }])
    ∧ recreate_node_identity ⟨[]⟩ (tag_leaks [{ leaks := false, value := .int_literal 7 }])
        (.If .true_lit
          (.mk [] (.Let (.PrimOp .pop_stack_op []) (.mk [1] (.MergeSelection [])))) none) =
      (.If .true_lit
          (.mk [] (.Let (quote_single (.int_literal 7)) (.mk [1] (.MergeSelection [])))) none,
        [{ leaks := true, value := .int_literal 7 }]) := by
  refine ⟨by rfl, by rfl, by rfl⟩

/-! ## A push without a pop -/

theorem drop_tail_eq {α : Type} (l : List α) (n : Nat) : l.tail.drop n = l.drop (n + 1) := by
  cases l <;> simp

/-- Below the frames a region may pop, the state a chain returns is the one
its continuation returns below the frames the region leaves. -/
theorem process_chain_state (r : Rewriter) :
    ∀ (region : List (Instruction × List Nat)) (pend state : List StackState)
      (k : Terminator) (d : Nat),
      balanced_from pend.length region = some d →
      (process r (pend ++ state) (chain region k)).2.drop pend.length =
        (process r (frames_after r pend region ++ state) k).2.drop
          (frames_after r pend region).length := by
  intro region
  induction region with
  | nil => intro pend state k d _; simp [chain, frames_after]
  | cons head region ih =>
    intro pend state k d h
    obtain ⟨i, ps⟩ := head
    cases i with
    | PrimOp op operands =>
      cases op with
      | push_stack_op =>
        simp only [balanced_from] at h
        have ih' := ih ({ leaks := false, value := rewrite_node r (first operands) } :: pend)
          state k d (by simpa using h)
        simp only [chain, process_push, process_lambda_mk, frames_after, drop_tail_eq]
        simpa using ih'
      | pop_stack_op =>
        cases pend with
        | nil => simp [balanced_from] at h
        | cons top pend =>
          simp only [List.length_cons, balanced_from] at h
          have ih' := ih pend state k d h
          simp only [chain, List.cons_append, process, process_lambda_mk, frames_after,
            List.length_cons, List.drop_succ_cons, List.tail_cons]
          exact ih'
      | quote_op =>
        have h' : balanced_from pend.length region = some d := by
          cases hp : pend.length <;> simpa [balanced_from, hp] using h
        have ih' := ih pend state k d h'
        simp only [chain, process, process_lambda_mk]
        cases pend <;> simpa [frames_after] using ih'
      | add_op =>
        have h' : balanced_from pend.length region = some d := by
          cases hp : pend.length <;> simpa [balanced_from, hp] using h
        have ih' := ih pend state k d h'
        simp only [chain, process, process_lambda_mk]
        cases pend <;> simpa [frames_after] using ih'
      | other_op code =>
        have h' : balanced_from pend.length region = some d := by
          cases hp : pend.length <;> simpa [balanced_from, hp] using h
        have ih' := ih pend state k d h'
        simp only [chain, process, process_lambda_mk]
        cases pend <;> simpa [frames_after] using ih'
    | LeafCall _ _ => simp [balanced_from] at h
    | IndirectCall _ _ => simp [balanced_from] at h
    | If _ _ _ => simp [balanced_from] at h
    | Match _ _ _ _ => simp [balanced_from] at h
    | Loop _ _ => simp [balanced_from] at h
    | Control _ => simp [balanced_from] at h

theorem process_leaking_terminator (r : Rewriter) (state : List StackState) (t : Terminator)
    (ht : is_leaking_terminator t = true) : (process r state t).2 = tag_leaks state := by
  cases t <;> first | (simp [is_leaking_terminator] at ht; done) | simp [process]

theorem tag_leaks_append (a b : List StackState) :
    tag_leaks (a ++ b) = tag_leaks a ++ tag_leaks b := by
  simp [tag_leaks]

theorem tag_leaks_length (a : List StackState) : (tag_leaks a).length = a.length := by
  simp [tag_leaks]

/-- On a first visit, a `push_stack` followed by a region of primops that
never pops its frame (pushes and pops of the region are its own) and by no
call or structured construct is recreated, with rewritten operands, when the
chain ends in a terminator other than `Unreachable`, which tags every frame,
the one of the push included; it is replaced by `unit` when the chain ends in
`Unreachable`, which tags nothing. -/
theorem opt_stack_unmatched_push (r : Rewriter) (state : List StackState)
    (operands : List Value) (ps : List Nat) (region : List (Instruction × List Nat))
    (terminator : Terminator) (d : Nat) (hregion : balanced_from 0 region = some d) :
    (is_leaking_terminator terminator = true →
      process r state
          (.Let (.PrimOp .push_stack_op operands) (.mk ps (chain region terminator))) =
        (.Let (.PrimOp .push_stack_op (rewrite_nodes r operands))
            (.mk ps (process r
              ({ leaks := false, value := rewrite_node r (first operands) } :: state)
              (chain region terminator)).1),
          tag_leaks state))
    ∧ (terminator = .Unreachable →
      process r state
          (.Let (.PrimOp .push_stack_op operands) (.mk ps (chain region terminator))) =
        (.Let unit
            (.mk ps (process r
              ({ leaks := false, value := rewrite_node r (first operands) } :: state)
              (chain region terminator)).1),
          state)) := by
  have h := process_chain_state r region []
    ({ leaks := false, value := rewrite_node r (first operands) } :: state) terminator d
    (by simpa using hregion)
  simp only [List.nil_append, List.length_nil, List.drop_zero] at h
  refine ⟨?_, ?_⟩
  · intro ht
    rw [process_leaking_terminator r _ _ ht, tag_leaks_append,
      List.drop_left' (tag_leaks_length _)] at h
    rw [process_push, process_lambda_mk, h]
    simp [top_leaks, tag_leaks]
  · intro ht
    subst ht
    simp only [process, List.drop_left] at h
    rw [process_push, process_lambda_mk, h]
    simp [top_leaks]

/-- First visits of `push_stack 7; add; Return` and of
`push_stack 7; add; Unreachable`. -/
theorem opt_stack_unmatched_push_witness :
    balanced_from 0 [(.PrimOp .add_op [.variable 5], [6])] = some 0
    ∧ process ⟨[]⟩ []
        (.Let (.PrimOp .push_stack_op [.int_literal 7]) (.mk []
          (chain [(.PrimOp .add_op [.variable 5], [6])] (.Return [.variable 6])))) =
      (.Let (.PrimOp .push_stack_op [.int_literal 7]) (.mk []
          (.Let (.PrimOp .add_op [.variable 5]) (.mk [6] (.Return [.variable 6])))), [])
    ∧ process ⟨[]⟩ []
        (.Let (.PrimOp .push_stack_op [.int_literal 7]) (.mk []
          (chain [(.PrimOp .add_op [.variable 5], [6])] .Unreachable))) =
      (.Let unit (.mk []
          (.Let (.PrimOp .add_op [.variable 5]) (.mk [6] .Unreachable))), []) :=
  ⟨by decide,
    (opt_stack_unmatched_push ⟨[]⟩ [] [.int_literal 7] [] [(.PrimOp .add_op [.variable 5], [6])]
      (.Return [.variable 6]) 0 (by decide)).1 rfl,
    (opt_stack_unmatched_push ⟨[]⟩ [] [.int_literal 7] [] [(.PrimOp .add_op [.variable 5], [6])]
      .Unreachable 0 (by decide)).2 rfl⟩

/-! ## Stack-free code -/

mutual
theorem process_stack_free (r : Rewriter) :
    ∀ (t : Terminator) (state : List StackState), t.stack_free = true →
      (process r state t).1 = recreate_terminator r t
  | .Let i tail, state, h => by
    simp only [Terminator.stack_free, Bool.and_eq_true] at h
    obtain ⟨hi, ht⟩ := h
    have htail := fun st => process_lambda_stack_free r tail st ht
    have hrec := fun st => recreate_stack_free r i st hi
    cases i with
    | PrimOp op operands =>
      cases op with
      | push_stack_op => simp [Instruction.stack_free] at hi
      | pop_stack_op => simp [Instruction.stack_free] at hi
      | quote_op => simp only [process, recreate_terminator, recreate_instruction, htail]
      | add_op => simp only [process, recreate_terminator, recreate_instruction, htail]
      | other_op code => simp only [process, recreate_terminator, recreate_instruction, htail]
    | LeafCall c a => simp only [process, recreate_terminator, htail, hrec]
    | IndirectCall c a => simp only [process, recreate_terminator, htail, hrec]
    | If c t f => simp only [process, recreate_terminator, htail, hrec]
    | Match i l c d => simp only [process, recreate_terminator, htail, hrec]
    | Loop a b => simp only [process, recreate_terminator, htail, hrec]
    | Control b => simp only [process, recreate_terminator, htail, hrec]
  | .Unreachable, _, _ => by simp only [process, recreate_terminator]
  | .Return _, _, _ => by simp only [process, recreate_terminator]
  | .TailCall _ _, _, _ => by simp only [process, recreate_terminator]
  | .Join _ _, _, _ => by simp only [process, recreate_terminator]
  | .MergeSelection _, _, _ => by simp only [process, recreate_terminator]
  | .MergeContinue _, _, _ => by simp only [process, recreate_terminator]
  | .MergeBreak _, _, _ => by simp only [process, recreate_terminator]
theorem process_lambda_stack_free (r : Rewriter) :
    ∀ (l : AnonLambda) (state : List StackState), l.stack_free = true →
      (process_lambda r state l).1 = recreate_lambda r l
  | .mk ps body, state, h => by
    simp only [AnonLambda.stack_free] at h
    simp only [process_lambda, recreate_lambda, process_stack_free r body state h]
theorem process_opt_lambda_stack_free (r : Rewriter) :
    ∀ (l : Option AnonLambda) (state : List StackState), opt_lambda_stack_free l = true →
      (process_opt_lambda r state l).1 = recreate_opt_lambda r l
  | none, _, _ => by simp only [process_opt_lambda, recreate_opt_lambda]
  | some l, state, h => by
    simp only [opt_lambda_stack_free] at h
    simp only [process_opt_lambda, recreate_opt_lambda, process_lambda_stack_free r l state h]
theorem process_lambdas_stack_free (r : Rewriter) :
    ∀ (ls : List AnonLambda) (state : List StackState), lambdas_stack_free ls = true →
      (process_lambdas r state ls).1 = recreate_lambdas r ls
  | [], _, _ => by simp only [process_lambdas, recreate_lambdas]
  | l :: ls, state, h => by
    simp only [lambdas_stack_free, Bool.and_eq_true] at h
    simp only [process_lambdas, recreate_lambdas, process_lambda_stack_free r l state h.1,
      process_lambdas_stack_free r ls _ h.2]
theorem recreate_stack_free (r : Rewriter) :
    ∀ (i : Instruction) (state : List StackState), i.stack_free = true →
      (recreate_node_identity r state i).1 = recreate_instruction r i
  | .PrimOp _ _, _, _ => by simp only [recreate_node_identity, recreate_instruction]
  | .LeafCall _ _, _, _ => by simp only [recreate_node_identity, recreate_instruction]
  | .IndirectCall _ _, _, _ => by simp only [recreate_node_identity, recreate_instruction]
  | .If c t f, state, h => by
    simp only [Instruction.stack_free, Bool.and_eq_true] at h
    simp only [recreate_node_identity, recreate_instruction,
      process_lambda_stack_free r t state h.1, process_opt_lambda_stack_free r f _ h.2]
  | .Match i l cs d, state, h => by
    simp only [Instruction.stack_free, Bool.and_eq_true] at h
    simp only [recreate_node_identity, recreate_instruction,
      process_lambdas_stack_free r cs state h.1, process_lambda_stack_free r d _ h.2]
  | .Loop a b, state, h => by
    simp only [Instruction.stack_free] at h
    simp only [recreate_node_identity, recreate_instruction,
      process_lambda_stack_free r b state h]
  | .Control b, state, h => by
    simp only [Instruction.stack_free] at h
    simp only [recreate_node_identity, recreate_instruction,
      process_lambda_stack_free r b state h]
end

theorem recreate_terminator_chain (r : Rewriter) :
    ∀ (region : List (Instruction × List Nat)) (k : Terminator),
      recreate_terminator r (chain region k)
        = chain (recreate_chain r region) (recreate_terminator r k)
  | [], k => by simp only [chain, recreate_chain, List.map_nil]
  | (i, ps) :: region, k => by
    have ih := recreate_terminator_chain r region k
    simp only [recreate_chain] at ih
    simp only [chain, recreate_chain, List.map_cons, recreate_terminator, recreate_lambda, ih]

/-- C24. `opt_stack` is the identity on stack-free code.  A chain that holds
no `push_stack` and no `pop_stack`, the bodies of its structured constructs
included, is rewritten, from any state, to its identity-style recreation; so
a chain of `Let`s over a region becomes the chain over the region of the same
length whose instructions are the recreations of the old ones, in order,
followed by the recreation of the old terminator; and `opt_stack` recreates
the body of a function whose body is stack-free. -/
theorem opt_stack_identity_on_stack_free (r : Rewriter) (state : List StackState)
    (region : List (Instruction × List Nat)) (k : Terminator)
    (h : (chain region k).stack_free = true) :
    (process r state (chain region k)).1 = recreate_terminator r (chain region k)
    ∧ (process r state (chain region k)).1
        = chain (recreate_chain r region) (recreate_terminator r k)
    ∧ (recreate_chain r region).length = region.length
    ∧ ∀ (name : String) (params : List Nat),
        (opt_stack r { name := name, params := params, body := chain region k }).body
          = chain (recreate_chain r region) (recreate_terminator r k) := by
  have h1 := fun st => process_stack_free r (chain region k) st h
  refine ⟨h1 state, ?_, by simp [recreate_chain], ?_⟩
  · rw [h1 state, recreate_terminator_chain]
  · intro name params
    simp only [opt_stack, process_function, h1, recreate_terminator_chain]

/-- C24 at a chain of a primop, a call and an `If`, ended by `Return`, from a
state of one frame. -/
theorem opt_stack_identity_on_stack_free_witness :
    (process ⟨[]⟩ [{ leaks := false, value := .int_literal 9 }] stack_free_sample).1
      = stack_free_sample :=
  (opt_stack_identity_on_stack_free ⟨[]⟩ [{ leaks := false, value := .int_literal 9 }]
    [(.PrimOp .add_op [.variable 1, .int_literal 2], [3]),
      (.LeafCall (.fn_addr "g") [.variable 3], [4]),
      (.If .true_lit
          (.mk [] (.Let (.PrimOp .add_op [.variable 4, .variable 4])
            (.mk [5] (.MergeSelection [.variable 5]))))
          none, [6])]
    (.Return [.variable 6]) (by decide)).1

/-! ## Function boundaries -/

end OptStack

namespace OptStack

/-! ## Node identity -/

mutual
theorem instruction_eq_of_beq : ∀ (a b : Instruction), a.beq b = true → a = b
  | .PrimOp op operands, b, h => by
    cases b <;> simp only [Instruction.beq, Bool.and_eq_true, beq_iff_eq, Bool.false_eq_true] at h
    obtain ⟨rfl, rfl⟩ := h; rfl
  | .LeafCall callee args, b, h => by
    cases b <;> simp only [Instruction.beq, Bool.and_eq_true, beq_iff_eq, Bool.false_eq_true] at h
    obtain ⟨rfl, rfl⟩ := h; rfl
  | .IndirectCall callee args, b, h => by
    cases b <;> simp only [Instruction.beq, Bool.and_eq_true, beq_iff_eq, Bool.false_eq_true] at h
    obtain ⟨rfl, rfl⟩ := h; rfl
  | .If condition if_true if_false, b, h => by
    have iht := lambda_eq_of_beq if_true
    have ihf := opt_lambda_eq_of_beq if_false
    cases b <;> simp only [Instruction.beq, Bool.and_eq_true, beq_iff_eq, Bool.false_eq_true] at h
    obtain ⟨⟨rfl, ht⟩, hf⟩ := h
    rw [iht _ ht, ihf _ hf]
  | .Match inspect literals cases default_case, b, h => by
    have ihc := lambdas_eq_of_beq cases
    have ihd := lambda_eq_of_beq default_case
    cases b <;> simp only [Instruction.beq, Bool.and_eq_true, beq_iff_eq, Bool.false_eq_true] at h
    obtain ⟨⟨⟨rfl, rfl⟩, hc⟩, hd⟩ := h
    rw [ihc _ hc, ihd _ hd]
  | .Loop initial_args body, b, h => by
    have ihb := lambda_eq_of_beq body
    cases b <;> simp only [Instruction.beq, Bool.and_eq_true, beq_iff_eq, Bool.false_eq_true] at h
    obtain ⟨rfl, hb⟩ := h
    rw [ihb _ hb]
  | .Control inside, b, h => by
    have ihb := lambda_eq_of_beq inside
    cases b <;> simp only [Instruction.beq, Bool.false_eq_true] at h
    rw [ihb _ h]
theorem terminator_eq_of_beq : ∀ (a b : Terminator), a.beq b = true → a = b
  | .Let instruction tail, b, h => by
    have ihi := instruction_eq_of_beq instruction
    have iht := lambda_eq_of_beq tail
    cases b <;> simp only [Terminator.beq, Bool.and_eq_true, Bool.false_eq_true] at h
    rw [ihi _ h.1, iht _ h.2]
  | .Return values, b, h => by
    cases b <;> simp only [Terminator.beq, beq_iff_eq, Bool.false_eq_true] at h
    rw [h]
  | .Unreachable, b, h => by
    cases b <;> simp only [Terminator.beq, Bool.false_eq_true] at h
    rfl
  | .TailCall target args, b, h => by
    cases b <;> simp only [Terminator.beq, Bool.and_eq_true, beq_iff_eq, Bool.false_eq_true] at h
    obtain ⟨rfl, rfl⟩ := h; rfl
  | .Join join_point args, b, h => by
    cases b <;> simp only [Terminator.beq, Bool.and_eq_true, beq_iff_eq, Bool.false_eq_true] at h
    obtain ⟨rfl, rfl⟩ := h; rfl
  | .MergeSelection args, b, h => by
    cases b <;> simp only [Terminator.beq, beq_iff_eq, Bool.false_eq_true] at h
    rw [h]
  | .MergeContinue args, b, h => by
    cases b <;> simp only [Terminator.beq, beq_iff_eq, Bool.false_eq_true] at h
    rw [h]
  | .MergeBreak args, b, h => by
    cases b <;> simp only [Terminator.beq, beq_iff_eq, Bool.false_eq_true] at h
    rw [h]
theorem lambda_eq_of_beq : ∀ (a b : AnonLambda), a.beq b = true → a = b
  | .mk params body, .mk params1 body1, h => by
    have ihb := terminator_eq_of_beq body
    simp only [AnonLambda.beq, Bool.and_eq_true, beq_iff_eq] at h
    rw [h.1, ihb _ h.2]
theorem opt_lambda_eq_of_beq :
    ∀ (a b : Option AnonLambda), opt_lambda_beq a b = true → a = b
  | none, b, h => by
    cases b <;> simp [opt_lambda_beq] at h
    rfl
  | some l, b, h => by
    have ih := lambda_eq_of_beq l
    cases b <;> simp only [opt_lambda_beq, Bool.false_eq_true] at h
    rw [ih _ h]
theorem lambdas_eq_of_beq :
    ∀ (a b : List AnonLambda), lambdas_beq a b = true → a = b
  | [], b, h => by
    cases b <;> simp [lambdas_beq] at h
    rfl
  | l :: ls, b, h => by
    have ih := lambda_eq_of_beq l
    have ihs := lambdas_eq_of_beq ls
    cases b <;> simp only [lambdas_beq, Bool.and_eq_true, Bool.false_eq_true] at h
    rw [ih _ h.1, ihs _ h.2]
end

mutual
theorem instruction_beq_self : ∀ (a : Instruction), a.beq a = true
  | .PrimOp _ _ => by simp [Instruction.beq]
  | .LeafCall _ _ => by simp [Instruction.beq]
  | .IndirectCall _ _ => by simp [Instruction.beq]
  | .If _ t f => by
    simp [Instruction.beq, lambda_beq_self t, opt_lambda_beq_self f]
  | .Match _ _ cs d => by
    simp [Instruction.beq, lambdas_beq_self cs, lambda_beq_self d]
  | .Loop _ b => by simp [Instruction.beq, lambda_beq_self b]
  | .Control b => by simp [Instruction.beq, lambda_beq_self b]
theorem terminator_beq_self : ∀ (a : Terminator), a.beq a = true
  | .Let i t => by simp [Terminator.beq, instruction_beq_self i, lambda_beq_self t]
  | .Return _ => by simp [Terminator.beq]
  | .Unreachable => by simp [Terminator.beq]
  | .TailCall _ _ => by simp [Terminator.beq]
  | .Join _ _ => by simp [Terminator.beq]
  | .MergeSelection _ => by simp [Terminator.beq]
  | .MergeContinue _ => by simp [Terminator.beq]
  | .MergeBreak _ => by simp [Terminator.beq]
theorem lambda_beq_self : ∀ (a : AnonLambda), a.beq a = true
  | .mk _ body => by simp [AnonLambda.beq, terminator_beq_self body]
theorem opt_lambda_beq_self : ∀ (a : Option AnonLambda), opt_lambda_beq a a = true
  | none => by simp [opt_lambda_beq]
  | some l => by simp [opt_lambda_beq, lambda_beq_self l]
theorem lambdas_beq_self : ∀ (a : List AnonLambda), lambdas_beq a a = true
  | [] => by simp [lambdas_beq]
  | l :: ls => by simp [lambdas_beq, lambda_beq_self l, lambdas_beq_self ls]
end

/-- The comparison of terminators is equality: the map finds a node under
every node structurally equal to it, and under no other. -/
theorem terminator_beq_iff (a b : Terminator) : (a == b) = true ↔ a = b :=
  ⟨terminator_eq_of_beq a b, fun h => h ▸ terminator_beq_self a⟩

/-- The comparison of lambdas is equality. -/
theorem lambda_beq_iff (a b : AnonLambda) : (a == b) = true ↔ a = b :=
  ⟨lambda_eq_of_beq a b, fun h => h ▸ lambda_beq_self a⟩

/-! ## The pass with the map on first visits -/

theorem same_values_of_value_map {m m1 : Memo.Rewriter} {r : Rewriter}
    (h : m1.value_map = m.value_map) (hs : Memo.same_values m r) : Memo.same_values m1 r := by
  intro v
  have := hs v
  simpa [Memo.search_processed_value, h] using this

theorem memo_rewrite_node {m : Memo.Rewriter} {r : Rewriter} (hs : Memo.same_values m r)
    (v : Value) :
    ∃ m1, Memo.rewrite_node m v = .ok (rewrite_node r v, m1) ∧ Memo.same_values m1 r ∧
      m1.lambda_map = m.lambda_map ∧ m1.terminator_map = m.terminator_map := by
  have hv := hs v
  unfold Memo.rewrite_node
  cases hf : Memo.search_processed_value m v with
  | some found =>
    rw [hf] at hv
    exact ⟨m, by simp only [← hv, Option.getD_some], hs, rfl, rfl⟩
  | none =>
    rw [hf] at hv
    simp only [Option.getD_none] at hv
    refine ⟨{ m with value_map := (v, v) :: m.value_map }, ?_, ?_, rfl, rfl⟩
    · simp only [Memo.register_processed_value, hf, bind, Except.bind, ← hv]
    · intro w
      by_cases hw : w = v
      · subst hw
        simp [Memo.search_processed_value, List.lookup, ← hv]
      · have hne : (w == v) = false := by simpa using hw
        have := hs w
        simpa [Memo.search_processed_value, List.lookup, hne] using this

theorem memo_rewrite_nodes {r : Rewriter} :
    ∀ (vs : List Value) (m : Memo.Rewriter), Memo.same_values m r →
      ∃ m1, Memo.rewrite_nodes m vs = .ok (rewrite_nodes r vs, m1) ∧ Memo.same_values m1 r ∧
        m1.lambda_map = m.lambda_map ∧ m1.terminator_map = m.terminator_map
  | [], m, hs => ⟨m, by simp [Memo.rewrite_nodes, rewrite_nodes], hs, rfl, rfl⟩
  | v :: vs, m, hs => by
    obtain ⟨m1, h1, hs1, hl1, ht1⟩ := memo_rewrite_node hs v
    obtain ⟨m2, h2, hs2, hl2, ht2⟩ := memo_rewrite_nodes vs m1 hs1
    refine ⟨m2, ?_, hs2, hl2.trans hl1, ht2.trans ht1⟩
    simp only [rewrite_nodes] at h2
    simp only [Memo.rewrite_nodes, h1, h2, bind, Except.bind, rewrite_nodes, List.map_cons]

theorem memo_size_of_maps {m m1 : Memo.Rewriter} (hl : m1.lambda_map = m.lambda_map)
    (ht : m1.terminator_map = m.terminator_map) : m1.size = m.size := by
  simp only [Memo.Rewriter.size, hl, ht]

theorem memo_register_terminator {m m1 : Memo.Rewriter} {old new : Terminator}
    (h : Memo.register_processed_terminator m old new = .ok m1) :
    m1.value_map = m.value_map ∧ m1.size ≤ m.size + 1 := by
  unfold Memo.register_processed_terminator at h
  cases hf : Memo.search_processed_terminator m old with
  | none =>
    simp only [hf, Except.ok.injEq] at h
    subst h
    exact ⟨rfl, by simp [Memo.Rewriter.size]; omega⟩
  | some found =>
    simp only [hf] at h
    split at h
    · simp only [Except.ok.injEq] at h
      subst h
      exact ⟨rfl, by omega⟩
    · cases h

theorem memo_register_lambda {m m1 : Memo.Rewriter} {old new : AnonLambda}
    (h : Memo.register_processed_lambda m old new = .ok m1) :
    m1.value_map = m.value_map ∧ m1.size ≤ m.size + 1 := by
  unfold Memo.register_processed_lambda at h
  cases hf : Memo.search_processed_lambda m old with
  | none =>
    simp only [hf, Except.ok.injEq] at h
    subst h
    exact ⟨rfl, by simp [Memo.Rewriter.size]; omega⟩
  | some found =>
    simp only [hf] at h
    split at h
    · simp only [Except.ok.injEq] at h
      subst h
      exact ⟨rfl, by omega⟩
    · cases h

/-- One lookup and registration around `process` on a terminator. -/
theorem memo_terminator_step {m : Memo.Rewriter} {r : Rewriter} {state : List StackState}
    {old : Terminator} {processed : Except String (Terminator × List StackState × Memo.Rewriter)}
    {n : Nat} {expected : Terminator × List StackState}
    {res : Terminator × List StackState × Memo.Rewriter}
    (hs : Memo.same_values m r)
    (hproc : ∀ new state1 m1, processed = .ok (new, state1, m1) →
      Memo.same_values m1 r ∧ m1.size ≤ m.size + n ∧
        (m1.size = m.size + n → (new, state1) = expected))
    (h : Memo.rewrite_terminator_with m state old processed = .ok res) :
    Memo.same_values res.2.2 r ∧ res.2.2.size ≤ m.size + (n + 1) ∧
      (res.2.2.size = m.size + (n + 1) → (res.1, res.2.1) = expected) := by
  unfold Memo.rewrite_terminator_with at h
  cases hf : Memo.search_processed_terminator m old with
  | some found =>
    simp only [hf, Except.ok.injEq] at h
    subst h
    refine ⟨hs, by simp only; omega, fun hc => ?_⟩
    simp only at hc
    omega
  | none =>
    simp only [hf] at h
    cases hp : processed with
    | error e => simp [hp, bind, Except.bind] at h
    | ok p =>
      obtain ⟨new, state1, m1⟩ := p
      obtain ⟨hs1, hle, heq⟩ := hproc new state1 m1 hp
      simp only [hp, bind, Except.bind] at h
      cases hr : Memo.register_processed_terminator m1 old new with
      | error e => simp [hr] at h
      | ok m2 =>
        simp only [hr, Except.ok.injEq] at h
        subst h
        obtain ⟨hv, hle2⟩ := memo_register_terminator hr
        refine ⟨same_values_of_value_map hv hs1, by simp only; omega, fun hc => ?_⟩
        simp only at hc ⊢
        exact heq (by omega)

/-- One lookup and registration around `process` on a lambda. -/
theorem memo_lambda_step {m : Memo.Rewriter} {r : Rewriter} {state : List StackState}
    {old : AnonLambda} {processed : Except String (AnonLambda × List StackState × Memo.Rewriter)}
    {n : Nat} {expected : AnonLambda × List StackState}
    {res : AnonLambda × List StackState × Memo.Rewriter}
    (hs : Memo.same_values m r)
    (hproc : ∀ new state1 m1, processed = .ok (new, state1, m1) →
      Memo.same_values m1 r ∧ m1.size ≤ m.size + n ∧
        (m1.size = m.size + n → (new, state1) = expected))
    (h : Memo.rewrite_lambda_with m state old processed = .ok res) :
    Memo.same_values res.2.2 r ∧ res.2.2.size ≤ m.size + (n + 1) ∧
      (res.2.2.size = m.size + (n + 1) → (res.1, res.2.1) = expected) := by
  unfold Memo.rewrite_lambda_with at h
  cases hf : Memo.search_processed_lambda m old with
  | some found =>
    simp only [hf, Except.ok.injEq] at h
    subst h
    refine ⟨hs, by simp only; omega, fun hc => ?_⟩
    simp only at hc
    omega
  | none =>
    simp only [hf] at h
    cases hp : processed with
    | error e => simp [hp, bind, Except.bind] at h
    | ok p =>
      obtain ⟨new, state1, m1⟩ := p
      obtain ⟨hs1, hle, heq⟩ := hproc new state1 m1 hp
      simp only [hp, bind, Except.bind] at h
      cases hr : Memo.register_processed_lambda m1 old new with
      | error e => simp [hr] at h
      | ok m2 =>
        simp only [hr, Except.ok.injEq] at h
        subst h
        obtain ⟨hv, hle2⟩ := memo_register_lambda hr
        refine ⟨same_values_of_value_map hv hs1, by simp only; omega, fun hc => ?_⟩
        simp only at hc ⊢
        exact heq (by omega)

mutual
theorem memo_process_bound :
    ∀ (t : Terminator) (m : Memo.Rewriter) (r : Rewriter) (state : List StackState)
      (res : Terminator × List StackState × Memo.Rewriter),
      Memo.same_values m r → Memo.process m state t = .ok res →
      Memo.same_values res.2.2 r ∧ res.2.2.size ≤ m.size + t.count_nodes ∧
        (res.2.2.size = m.size + t.count_nodes → (res.1, res.2.1) = process r state t)
  | .Let i tail, m, r, state, res, hs, h => by
    have iht := memo_process_lambda_bound tail
    have ihi := memo_recreate_bound i
    cases i with
    | PrimOp op operands =>
      cases op with
      | push_stack_op =>
        simp only [Memo.process] at h
        simp only [Terminator.count_nodes, Instruction.count_nodes]
        refine memo_terminator_step hs ?_ h
        intro new st1 mfin hp
        obtain ⟨m1, h1, hs1, hl1, ht1⟩ := memo_rewrite_node hs (first operands)
        simp only [h1, bind, Except.bind] at hp
        cases hl : Memo.process_lambda m1
            ({ leaks := false, value := rewrite_node r (first operands) } :: state) tail with
        | error e => simp [hl] at hp
        | ok p =>
          obtain ⟨ntail, state1, m2⟩ := p
          obtain ⟨hs2, hle2, heq2⟩ := iht m1 r _ _ hs1 hl
          have hsz1 := memo_size_of_maps hl1 ht1
          simp only [hl] at hp
          simp only at hs2 hle2 heq2
          cases hleak : top_leaks state1 with
          | false =>
            simp only [hleak, Bool.not_false, if_true, Except.ok.injEq, Prod.mk.injEq] at hp
            obtain ⟨rfl, rfl, rfl⟩ := hp
            refine ⟨hs2, by omega, fun hc => ?_⟩
            have he := heq2 (by omega)
            simp only [process, ← he, hleak, Bool.not_false, if_true]
          | true =>
            obtain ⟨m3, h3, hs3, hl3, ht3⟩ := memo_rewrite_nodes operands m2 hs2
            have hsz3 := memo_size_of_maps hl3 ht3
            simp only [hleak, Bool.not_true, Bool.false_eq_true, if_false, h3, Except.ok.injEq,
              Prod.mk.injEq] at hp
            obtain ⟨rfl, rfl, rfl⟩ := hp
            refine ⟨hs3, by omega, fun hc => ?_⟩
            have he := heq2 (by omega)
            simp only [process, ← he, hleak, Bool.not_true, Bool.false_eq_true, if_false]
      | pop_stack_op =>
        simp only [Memo.process] at h
        simp only [Terminator.count_nodes, Instruction.count_nodes]
        refine memo_terminator_step hs ?_ h
        intro new st1 mfin hp
        cases state with
        | nil =>
          simp only [bind, Except.bind] at hp
          cases hl : Memo.process_lambda m [] tail with
          | error e => simp [hl] at hp
          | ok p =>
            obtain ⟨ntail, state1, m2⟩ := p
            obtain ⟨hs2, hle2, heq2⟩ := iht m r _ _ hs hl
            simp only [hl] at hp
            simp only at hs2 hle2 heq2
            obtain ⟨m3, h3, hs3, hl3, ht3⟩ := memo_rewrite_nodes operands m2 hs2
            have hsz3 := memo_size_of_maps hl3 ht3
            simp only [h3, Except.ok.injEq, Prod.mk.injEq] at hp
            obtain ⟨rfl, rfl, rfl⟩ := hp
            refine ⟨hs3, by omega, fun hc => ?_⟩
            have he := heq2 (by omega)
            simp only [process, ← he]
        | cons top prev =>
          simp only [bind, Except.bind] at hp
          cases hl : Memo.process_lambda m prev tail with
          | error e => simp [hl] at hp
          | ok p =>
            obtain ⟨ntail, state1, m2⟩ := p
            obtain ⟨hs2, hle2, heq2⟩ := iht m r _ _ hs hl
            simp only [hl, Except.ok.injEq, Prod.mk.injEq] at hp
            simp only at hs2 hle2 heq2
            obtain ⟨rfl, rfl, rfl⟩ := hp
            refine ⟨hs2, by omega, fun hc => ?_⟩
            have he := heq2 (by omega)
            simp only [process, ← he]
      | quote_op =>
        simp only [Memo.process] at h
        simp only [Terminator.count_nodes, Instruction.count_nodes]
        refine memo_terminator_step hs ?_ h
        intro new st1 mfin hp
        simp only [bind, Except.bind] at hp
        cases hl : Memo.process_lambda m state tail with
        | error e => simp [hl] at hp
        | ok p =>
          obtain ⟨ntail, state1, m2⟩ := p
          obtain ⟨hs2, hle2, heq2⟩ := iht m r _ _ hs hl
          simp only [hl] at hp
          simp only at hs2 hle2 heq2
          obtain ⟨m3, h3, hs3, hl3, ht3⟩ := memo_rewrite_nodes operands m2 hs2
          have hsz3 := memo_size_of_maps hl3 ht3
          simp only [h3, Except.ok.injEq, Prod.mk.injEq] at hp
          obtain ⟨rfl, rfl, rfl⟩ := hp
          refine ⟨hs3, by omega, fun hc => ?_⟩
          have he := heq2 (by omega)
          simp only [process, ← he]
      | add_op =>
        simp only [Memo.process] at h
        simp only [Terminator.count_nodes, Instruction.count_nodes]
        refine memo_terminator_step hs ?_ h
        intro new st1 mfin hp
        simp only [bind, Except.bind] at hp
        cases hl : Memo.process_lambda m state tail with
        | error e => simp [hl] at hp
        | ok p =>
          obtain ⟨ntail, state1, m2⟩ := p
          obtain ⟨hs2, hle2, heq2⟩ := iht m r _ _ hs hl
          simp only [hl] at hp
          simp only at hs2 hle2 heq2
          obtain ⟨m3, h3, hs3, hl3, ht3⟩ := memo_rewrite_nodes operands m2 hs2
          have hsz3 := memo_size_of_maps hl3 ht3
          simp only [h3, Except.ok.injEq, Prod.mk.injEq] at hp
          obtain ⟨rfl, rfl, rfl⟩ := hp
          refine ⟨hs3, by omega, fun hc => ?_⟩
          have he := heq2 (by omega)
          simp only [process, ← he]
      | other_op code =>
        simp only [Memo.process] at h
        simp only [Terminator.count_nodes, Instruction.count_nodes]
        refine memo_terminator_step hs ?_ h
        intro new st1 mfin hp
        simp only [bind, Except.bind] at hp
        cases hl : Memo.process_lambda m state tail with
        | error e => simp [hl] at hp
        | ok p =>
          obtain ⟨ntail, state1, m2⟩ := p
          obtain ⟨hs2, hle2, heq2⟩ := iht m r _ _ hs hl
          simp only [hl] at hp
          simp only at hs2 hle2 heq2
          obtain ⟨m3, h3, hs3, hl3, ht3⟩ := memo_rewrite_nodes operands m2 hs2
          have hsz3 := memo_size_of_maps hl3 ht3
          simp only [h3, Except.ok.injEq, Prod.mk.injEq] at hp
          obtain ⟨rfl, rfl, rfl⟩ := hp
          refine ⟨hs3, by omega, fun hc => ?_⟩
          have he := heq2 (by omega)
          simp only [process, ← he]
    | LeafCall callee args =>
      simp only [Memo.process] at h
      simp only [Terminator.count_nodes]
      refine memo_terminator_step hs ?_ h
      intro new st1 mfin hp
      simp only [bind, Except.bind] at hp
      cases hl : Memo.process_lambda m [] tail with
      | error e => simp [hl] at hp
      | ok p =>
        obtain ⟨ntail, state1, m2⟩ := p
        obtain ⟨hs2, hle2, heq2⟩ := iht m r _ _ hs hl
        simp only [hl] at hp
        simp only at hs2 hle2 heq2
        cases hi : Memo.recreate_node_identity m2 (tag_leaks state) (.LeafCall callee args) with
        | error e => simp [hi] at hp
        | ok q =>
          obtain ⟨ninstruction, state2, m3⟩ := q
          obtain ⟨hs3, hle3, heq3⟩ := ihi m2 r _ _ hs2 hi
          simp only [hi, Except.ok.injEq, Prod.mk.injEq] at hp
          simp only at hs3 hle3 heq3
          obtain ⟨rfl, rfl, rfl⟩ := hp
          refine ⟨hs3, by omega, fun hc => ?_⟩
          have he := heq2 (by omega)
          have hei := heq3 (by omega)
          simp only [process, ← he, ← hei]
    | IndirectCall callee args =>
      simp only [Memo.process] at h
      simp only [Terminator.count_nodes]
      refine memo_terminator_step hs ?_ h
      intro new st1 mfin hp
      simp only [bind, Except.bind] at hp
      cases hl : Memo.process_lambda m [] tail with
      | error e => simp [hl] at hp
      | ok p =>
        obtain ⟨ntail, state1, m2⟩ := p
        obtain ⟨hs2, hle2, heq2⟩ := iht m r _ _ hs hl
        simp only [hl] at hp
        simp only at hs2 hle2 heq2
        cases hi : Memo.recreate_node_identity m2 (tag_leaks state) (.IndirectCall callee args) with
        | error e => simp [hi] at hp
        | ok q =>
          obtain ⟨ninstruction, state2, m3⟩ := q
          obtain ⟨hs3, hle3, heq3⟩ := ihi m2 r _ _ hs2 hi
          simp only [hi, Except.ok.injEq, Prod.mk.injEq] at hp
          simp only at hs3 hle3 heq3
          obtain ⟨rfl, rfl, rfl⟩ := hp
          refine ⟨hs3, by omega, fun hc => ?_⟩
          have he := heq2 (by omega)
          have hei := heq3 (by omega)
          simp only [process, ← he, ← hei]
    | If condition if_true if_false =>
      simp only [Memo.process] at h
      simp only [Terminator.count_nodes]
      refine memo_terminator_step hs ?_ h
      intro new st1 mfin hp
      simp only [bind, Except.bind] at hp
      cases hl : Memo.process_lambda m [] tail with
      | error e => simp [hl] at hp
      | ok p =>
        obtain ⟨ntail, state1, m2⟩ := p
        obtain ⟨hs2, hle2, heq2⟩ := iht m r _ _ hs hl
        simp only [hl] at hp
        simp only at hs2 hle2 heq2
        cases hi : Memo.recreate_node_identity m2 (tag_leaks state) (.If condition if_true if_false) with
        | error e => simp [hi] at hp
        | ok q =>
          obtain ⟨ninstruction, state2, m3⟩ := q
          obtain ⟨hs3, hle3, heq3⟩ := ihi m2 r _ _ hs2 hi
          simp only [hi, Except.ok.injEq, Prod.mk.injEq] at hp
          simp only at hs3 hle3 heq3
          obtain ⟨rfl, rfl, rfl⟩ := hp
          refine ⟨hs3, by omega, fun hc => ?_⟩
          have he := heq2 (by omega)
          have hei := heq3 (by omega)
          simp only [process, ← he, ← hei]
    | Match inspect literals cases default_case =>
      simp only [Memo.process] at h
      simp only [Terminator.count_nodes]
      refine memo_terminator_step hs ?_ h
      intro new st1 mfin hp
      simp only [bind, Except.bind] at hp
      cases hl : Memo.process_lambda m [] tail with
      | error e => simp [hl] at hp
      | ok p =>
        obtain ⟨ntail, state1, m2⟩ := p
        obtain ⟨hs2, hle2, heq2⟩ := iht m r _ _ hs hl
        simp only [hl] at hp
        simp only at hs2 hle2 heq2
        cases hi : Memo.recreate_node_identity m2 (tag_leaks state) (.Match inspect literals cases default_case) with
        | error e => simp [hi] at hp
        | ok q =>
          obtain ⟨ninstruction, state2, m3⟩ := q
          obtain ⟨hs3, hle3, heq3⟩ := ihi m2 r _ _ hs2 hi
          simp only [hi, Except.ok.injEq, Prod.mk.injEq] at hp
          simp only at hs3 hle3 heq3
          obtain ⟨rfl, rfl, rfl⟩ := hp
          refine ⟨hs3, by omega, fun hc => ?_⟩
          have he := heq2 (by omega)
          have hei := heq3 (by omega)
          simp only [process, ← he, ← hei]
    | Loop initial_args body =>
      simp only [Memo.process] at h
      simp only [Terminator.count_nodes]
      refine memo_terminator_step hs ?_ h
      intro new st1 mfin hp
      simp only [bind, Except.bind] at hp
      cases hl : Memo.process_lambda m [] tail with
      | error e => simp [hl] at hp
      | ok p =>
        obtain ⟨ntail, state1, m2⟩ := p
        obtain ⟨hs2, hle2, heq2⟩ := iht m r _ _ hs hl
        simp only [hl] at hp
        simp only at hs2 hle2 heq2
        cases hi : Memo.recreate_node_identity m2 (tag_leaks state) (.Loop initial_args body) with
        | error e => simp [hi] at hp
        | ok q =>
          obtain ⟨ninstruction, state2, m3⟩ := q
          obtain ⟨hs3, hle3, heq3⟩ := ihi m2 r _ _ hs2 hi
          simp only [hi, Except.ok.injEq, Prod.mk.injEq] at hp
          simp only at hs3 hle3 heq3
          obtain ⟨rfl, rfl, rfl⟩ := hp
          refine ⟨hs3, by omega, fun hc => ?_⟩
          have he := heq2 (by omega)
          have hei := heq3 (by omega)
          simp only [process, ← he, ← hei]
    | Control inside =>
      simp only [Memo.process] at h
      simp only [Terminator.count_nodes]
      refine memo_terminator_step hs ?_ h
      intro new st1 mfin hp
      simp only [bind, Except.bind] at hp
      cases hl : Memo.process_lambda m [] tail with
      | error e => simp [hl] at hp
      | ok p =>
        obtain ⟨ntail, state1, m2⟩ := p
        obtain ⟨hs2, hle2, heq2⟩ := iht m r _ _ hs hl
        simp only [hl] at hp
        simp only at hs2 hle2 heq2
        cases hi : Memo.recreate_node_identity m2 (tag_leaks state) (.Control inside) with
        | error e => simp [hi] at hp
        | ok q =>
          obtain ⟨ninstruction, state2, m3⟩ := q
          obtain ⟨hs3, hle3, heq3⟩ := ihi m2 r _ _ hs2 hi
          simp only [hi, Except.ok.injEq, Prod.mk.injEq] at hp
          simp only at hs3 hle3 heq3
          obtain ⟨rfl, rfl, rfl⟩ := hp
          refine ⟨hs3, by omega, fun hc => ?_⟩
          have he := heq2 (by omega)
          have hei := heq3 (by omega)
          simp only [process, ← he, ← hei]
  | .Unreachable, m, r, state, res, hs, h => by
    simp only [Memo.process] at h
    refine @memo_terminator_step m r state _ _ 0 _ res hs ?_ h
    intro new st1 mfin hp
    simp only [Except.ok.injEq, Prod.mk.injEq] at hp
    obtain ⟨rfl, rfl, rfl⟩ := hp
    exact ⟨hs, by omega, fun _ => by simp only [process]⟩
  | .Return values, m, r, state, res, hs, h => by
    simp only [Memo.process] at h
    refine @memo_terminator_step m r state _ _ 0 _ res hs ?_ h
    intro new st1 mfin hp
    obtain ⟨m1, h1, hs1, hl1, ht1⟩ := memo_rewrite_nodes values m hs
    have hsz1 := memo_size_of_maps hl1 ht1
    simp only [h1, bind, Except.bind, Except.ok.injEq, Prod.mk.injEq] at hp
    obtain ⟨rfl, rfl, rfl⟩ := hp
    exact ⟨hs1, by omega, fun _ => by simp only [process]⟩
  | .MergeSelection args, m, r, state, res, hs, h => by
    simp only [Memo.process] at h
    refine @memo_terminator_step m r state _ _ 0 _ res hs ?_ h
    intro new st1 mfin hp
    obtain ⟨m1, h1, hs1, hl1, ht1⟩ := memo_rewrite_nodes args m hs
    have hsz1 := memo_size_of_maps hl1 ht1
    simp only [h1, bind, Except.bind, Except.ok.injEq, Prod.mk.injEq] at hp
    obtain ⟨rfl, rfl, rfl⟩ := hp
    exact ⟨hs1, by omega, fun _ => by simp only [process]⟩
  | .MergeContinue args, m, r, state, res, hs, h => by
    simp only [Memo.process] at h
    refine @memo_terminator_step m r state _ _ 0 _ res hs ?_ h
    intro new st1 mfin hp
    obtain ⟨m1, h1, hs1, hl1, ht1⟩ := memo_rewrite_nodes args m hs
    have hsz1 := memo_size_of_maps hl1 ht1
    simp only [h1, bind, Except.bind, Except.ok.injEq, Prod.mk.injEq] at hp
    obtain ⟨rfl, rfl, rfl⟩ := hp
    exact ⟨hs1, by omega, fun _ => by simp only [process]⟩
  | .MergeBreak args, m, r, state, res, hs, h => by
    simp only [Memo.process] at h
    refine @memo_terminator_step m r state _ _ 0 _ res hs ?_ h
    intro new st1 mfin hp
    obtain ⟨m1, h1, hs1, hl1, ht1⟩ := memo_rewrite_nodes args m hs
    have hsz1 := memo_size_of_maps hl1 ht1
    simp only [h1, bind, Except.bind, Except.ok.injEq, Prod.mk.injEq] at hp
    obtain ⟨rfl, rfl, rfl⟩ := hp
    exact ⟨hs1, by omega, fun _ => by simp only [process]⟩
  | .TailCall target args, m, r, state, res, hs, h => by
    simp only [Memo.process] at h
    refine @memo_terminator_step m r state _ _ 0 _ res hs ?_ h
    intro new st1 mfin hp
    obtain ⟨m1, h1, hs1, hl1, ht1⟩ := memo_rewrite_node hs target
    obtain ⟨m2, h2, hs2, hl2, ht2⟩ := memo_rewrite_nodes args m1 hs1
    have hsz1 := memo_size_of_maps hl1 ht1
    have hsz2 := memo_size_of_maps hl2 ht2
    simp only [h1, h2, bind, Except.bind, Except.ok.injEq, Prod.mk.injEq] at hp
    obtain ⟨rfl, rfl, rfl⟩ := hp
    exact ⟨hs2, by omega, fun _ => by simp only [process]⟩
  | .Join join_point args, m, r, state, res, hs, h => by
    simp only [Memo.process] at h
    refine @memo_terminator_step m r state _ _ 0 _ res hs ?_ h
    intro new st1 mfin hp
    obtain ⟨m1, h1, hs1, hl1, ht1⟩ := memo_rewrite_node hs join_point
    obtain ⟨m2, h2, hs2, hl2, ht2⟩ := memo_rewrite_nodes args m1 hs1
    have hsz1 := memo_size_of_maps hl1 ht1
    have hsz2 := memo_size_of_maps hl2 ht2
    simp only [h1, h2, bind, Except.bind, Except.ok.injEq, Prod.mk.injEq] at hp
    obtain ⟨rfl, rfl, rfl⟩ := hp
    exact ⟨hs2, by omega, fun _ => by simp only [process]⟩
theorem memo_process_lambda_bound :
    ∀ (l : AnonLambda) (m : Memo.Rewriter) (r : Rewriter) (state : List StackState)
      (res : AnonLambda × List StackState × Memo.Rewriter),
      Memo.same_values m r → Memo.process_lambda m state l = .ok res →
      Memo.same_values res.2.2 r ∧ res.2.2.size ≤ m.size + l.count_nodes ∧
        (res.2.2.size = m.size + l.count_nodes →
          (res.1, res.2.1) = process_lambda r state l)
  | .mk params body, m, r, state, res, hs, h => by
    have ihb := memo_process_bound body
    simp only [Memo.process_lambda] at h
    simp only [AnonLambda.count_nodes]
    refine memo_lambda_step hs ?_ h
    intro new st1 mfin hp
    simp only [bind, Except.bind] at hp
    cases hb : Memo.process m state body with
    | error e => simp [hb] at hp
    | ok p =>
      obtain ⟨nbody, state1, m2⟩ := p
      obtain ⟨hs2, hle2, heq2⟩ := ihb m r _ _ hs hb
      simp only [hb, Except.ok.injEq, Prod.mk.injEq] at hp
      simp only at hs2 hle2 heq2
      obtain ⟨rfl, rfl, rfl⟩ := hp
      refine ⟨hs2, hle2, fun hc => ?_⟩
      have he := heq2 hc
      simp only [process_lambda, ← he]
theorem memo_process_opt_lambda_bound :
    ∀ (l : Option AnonLambda) (m : Memo.Rewriter) (r : Rewriter) (state : List StackState)
      (res : Option AnonLambda × List StackState × Memo.Rewriter),
      Memo.same_values m r → Memo.process_opt_lambda m state l = .ok res →
      Memo.same_values res.2.2 r ∧ res.2.2.size ≤ m.size + opt_lambda_count_nodes l ∧
        (res.2.2.size = m.size + opt_lambda_count_nodes l →
          (res.1, res.2.1) = process_opt_lambda r state l)
  | none, m, r, state, res, hs, h => by
    simp only [Memo.process_opt_lambda, Except.ok.injEq] at h
    subst h
    exact ⟨hs, by simp only [opt_lambda_count_nodes]; omega,
      fun _ => by simp only [process_opt_lambda]⟩
  | some l, m, r, state, res, hs, h => by
    have ihl := memo_process_lambda_bound l
    simp only [Memo.process_opt_lambda, bind, Except.bind] at h
    cases hl : Memo.process_lambda m state l with
    | error e => simp [hl] at h
    | ok p =>
      obtain ⟨nl, state1, m2⟩ := p
      obtain ⟨hs2, hle2, heq2⟩ := ihl m r _ _ hs hl
      simp only [hl, Except.ok.injEq] at h
      simp only at hs2 hle2 heq2
      subst h
      refine ⟨hs2, by simp only [opt_lambda_count_nodes]; exact hle2, fun hc => ?_⟩
      have he := heq2 (by simpa only [opt_lambda_count_nodes] using hc)
      simp only [process_opt_lambda, ← he]
theorem memo_process_lambdas_bound :
    ∀ (ls : List AnonLambda) (m : Memo.Rewriter) (r : Rewriter) (state : List StackState)
      (res : List AnonLambda × List StackState × Memo.Rewriter),
      Memo.same_values m r → Memo.process_lambdas m state ls = .ok res →
      Memo.same_values res.2.2 r ∧ res.2.2.size ≤ m.size + lambdas_count_nodes ls ∧
        (res.2.2.size = m.size + lambdas_count_nodes ls →
          (res.1, res.2.1) = process_lambdas r state ls)
  | [], m, r, state, res, hs, h => by
    simp only [Memo.process_lambdas, Except.ok.injEq] at h
    subst h
    exact ⟨hs, by simp only [lambdas_count_nodes]; omega,
      fun _ => by simp only [process_lambdas]⟩
  | l :: ls, m, r, state, res, hs, h => by
    have ihl := memo_process_lambda_bound l
    have ihs := memo_process_lambdas_bound ls
    simp only [Memo.process_lambdas, bind, Except.bind] at h
    cases hl : Memo.process_lambda m state l with
    | error e => simp [hl] at h
    | ok p =>
      obtain ⟨nl, state1, m2⟩ := p
      obtain ⟨hs2, hle2, heq2⟩ := ihl m r _ _ hs hl
      simp only [hl] at h
      simp only at hs2 hle2 heq2
      cases hrest : Memo.process_lambdas m2 state1 ls with
      | error e => simp [hrest] at h
      | ok q =>
        obtain ⟨nls, state2, m3⟩ := q
        obtain ⟨hs3, hle3, heq3⟩ := ihs m2 r _ _ hs2 hrest
        simp only [hrest, Except.ok.injEq] at h
        simp only at hs3 hle3 heq3
        subst h
        simp only [lambdas_count_nodes]
        refine ⟨hs3, by omega, fun hc => ?_⟩
        have he := heq2 (by omega)
        have hes := heq3 (by omega)
        have he1 : nl = (process_lambda r state l).1 := by rw [← he]
        have he2 : state1 = (process_lambda r state l).2 := by rw [← he]
        subst he1 he2
        simp only [process_lambdas, ← hes]
theorem memo_recreate_bound :
    ∀ (i : Instruction) (m : Memo.Rewriter) (r : Rewriter) (state : List StackState)
      (res : Instruction × List StackState × Memo.Rewriter),
      Memo.same_values m r → Memo.recreate_node_identity m state i = .ok res →
      Memo.same_values res.2.2 r ∧ res.2.2.size ≤ m.size + i.count_nodes ∧
        (res.2.2.size = m.size + i.count_nodes →
          (res.1, res.2.1) = recreate_node_identity r state i)
  | .PrimOp op operands, m, r, state, res, hs, h => by
    obtain ⟨m1, h1, hs1, hl1, ht1⟩ := memo_rewrite_nodes operands m hs
    have hsz1 := memo_size_of_maps hl1 ht1
    simp only [Memo.recreate_node_identity, h1, bind, Except.bind, Except.ok.injEq] at h
    subst h
    exact ⟨hs1, by simp only [Instruction.count_nodes]; omega,
      fun _ => by simp only [recreate_node_identity]⟩
  | .LeafCall callee args, m, r, state, res, hs, h => by
    obtain ⟨m1, h1, hs1, hl1, ht1⟩ := memo_rewrite_node hs callee
    obtain ⟨m2, h2, hs2, hl2, ht2⟩ := memo_rewrite_nodes args m1 hs1
    have hsz1 := memo_size_of_maps hl1 ht1
    have hsz2 := memo_size_of_maps hl2 ht2
    simp only [Memo.recreate_node_identity, h1, h2, bind, Except.bind, Except.ok.injEq] at h
    subst h
    exact ⟨hs2, by simp only [Instruction.count_nodes]; omega,
      fun _ => by simp only [recreate_node_identity]⟩
  | .IndirectCall callee args, m, r, state, res, hs, h => by
    obtain ⟨m1, h1, hs1, hl1, ht1⟩ := memo_rewrite_node hs callee
    obtain ⟨m2, h2, hs2, hl2, ht2⟩ := memo_rewrite_nodes args m1 hs1
    have hsz1 := memo_size_of_maps hl1 ht1
    have hsz2 := memo_size_of_maps hl2 ht2
    simp only [Memo.recreate_node_identity, h1, h2, bind, Except.bind, Except.ok.injEq] at h
    subst h
    exact ⟨hs2, by simp only [Instruction.count_nodes]; omega,
      fun _ => by simp only [recreate_node_identity]⟩
  | .If condition if_true if_false, m, r, state, res, hs, h => by
    have iht := memo_process_lambda_bound if_true
    have ihf := memo_process_opt_lambda_bound if_false
    obtain ⟨m1, h1, hs1, hl1, ht1⟩ := memo_rewrite_node hs condition
    have hsz1 := memo_size_of_maps hl1 ht1
    simp only [Memo.recreate_node_identity, h1, bind, Except.bind] at h
    cases hl : Memo.process_lambda m1 state if_true with
    | error e => simp [hl] at h
    | ok p =>
      obtain ⟨t, state1, m2⟩ := p
      obtain ⟨hs2, hle2, heq2⟩ := iht m1 r _ _ hs1 hl
      simp only [hl] at h
      simp only at hs2 hle2 heq2
      cases hf : Memo.process_opt_lambda m2 state1 if_false with
      | error e => simp [hf] at h
      | ok q =>
        obtain ⟨f, state2, m3⟩ := q
        obtain ⟨hs3, hle3, heq3⟩ := ihf m2 r _ _ hs2 hf
        simp only [hf, Except.ok.injEq] at h
        simp only at hs3 hle3 heq3
        subst h
        simp only [Instruction.count_nodes]
        refine ⟨hs3, by omega, fun hc => ?_⟩
        have he := heq2 (by omega)
        have hef := heq3 (by omega)
        have he1 : t = (process_lambda r state if_true).1 := by rw [← he]
        have he2 : state1 = (process_lambda r state if_true).2 := by rw [← he]
        subst he1 he2
        simp only [recreate_node_identity, ← hef]
  | .Match inspect literals cases default_case, m, r, state, res, hs, h => by
    have ihc := memo_process_lambdas_bound cases
    have ihd := memo_process_lambda_bound default_case
    obtain ⟨m1, h1, hs1, hl1, ht1⟩ := memo_rewrite_node hs inspect
    obtain ⟨m1b, h1b, hs1b, hl1b, ht1b⟩ := memo_rewrite_nodes literals m1 hs1
    have hsz1 := memo_size_of_maps hl1 ht1
    have hsz1b := memo_size_of_maps hl1b ht1b
    simp only [Memo.recreate_node_identity, h1, h1b, bind, Except.bind] at h
    cases hl : Memo.process_lambdas m1b state cases with
    | error e => simp [hl] at h
    | ok p =>
      obtain ⟨cs, state1, m2⟩ := p
      obtain ⟨hs2, hle2, heq2⟩ := ihc m1b r _ _ hs1b hl
      simp only [hl] at h
      simp only at hs2 hle2 heq2
      cases hd : Memo.process_lambda m2 state1 default_case with
      | error e => simp [hd] at h
      | ok q =>
        obtain ⟨d, state2, m3⟩ := q
        obtain ⟨hs3, hle3, heq3⟩ := ihd m2 r _ _ hs2 hd
        simp only [hd, Except.ok.injEq] at h
        simp only at hs3 hle3 heq3
        subst h
        simp only [Instruction.count_nodes]
        refine ⟨hs3, by omega, fun hc => ?_⟩
        have he := heq2 (by omega)
        have hed := heq3 (by omega)
        have he1 : cs = (process_lambdas r state cases).1 := by rw [← he]
        have he2 : state1 = (process_lambdas r state cases).2 := by rw [← he]
        subst he1 he2
        simp only [recreate_node_identity, ← hed]
  | .Loop initial_args body, m, r, state, res, hs, h => by
    have ihb := memo_process_lambda_bound body
    obtain ⟨m1, h1, hs1, hl1, ht1⟩ := memo_rewrite_nodes initial_args m hs
    have hsz1 := memo_size_of_maps hl1 ht1
    simp only [Memo.recreate_node_identity, h1, bind, Except.bind] at h
    cases hl : Memo.process_lambda m1 state body with
    | error e => simp [hl] at h
    | ok p =>
      obtain ⟨b, state1, m2⟩ := p
      obtain ⟨hs2, hle2, heq2⟩ := ihb m1 r _ _ hs1 hl
      simp only [hl, Except.ok.injEq] at h
      simp only at hs2 hle2 heq2
      subst h
      simp only [Instruction.count_nodes]
      refine ⟨hs2, by omega, fun hc => ?_⟩
      have he := heq2 (by omega)
      simp only [recreate_node_identity, ← he]
  | .Control inside, m, r, state, res, hs, h => by
    have ihb := memo_process_lambda_bound inside
    simp only [Memo.recreate_node_identity, bind, Except.bind] at h
    cases hl : Memo.process_lambda m state inside with
    | error e => simp [hl] at h
    | ok p =>
      obtain ⟨b, state1, m2⟩ := p
      obtain ⟨hs2, hle2, heq2⟩ := ihb m r _ _ hs hl
      simp only [hl, Except.ok.injEq] at h
      simp only at hs2 hle2 heq2
      subst h
      simp only [Instruction.count_nodes]
      refine ⟨hs2, by omega, fun hc => ?_⟩
      have he := heq2 (by omega)
      simp only [recreate_node_identity, ← he]
end

theorem create_rewriter_same_values : Memo.same_values Memo.create_rewriter ⟨[]⟩ := by
  intro v
  simp [Memo.search_processed_value, Memo.create_rewriter, rewrite_node, search_processed]

/-- The pass with the map on first visits.  A run of `Memo.process` adds at
most one entry to the map for each terminator and lambda of the chain; when it
adds them all, so that no lookup hit and every node was rewritten by lines
34-123, it returns the chain and the state that `process` returns, for every
value map that rewrites the values as the map does. -/
theorem memo_process_first_visit (m : Memo.Rewriter) (r : Rewriter) (state : List StackState)
    (t : Terminator) (res : Terminator × List StackState × Memo.Rewriter)
    (hs : Memo.same_values m r) (h : Memo.process m state t = .ok res) :
    res.2.2.size ≤ m.size + t.count_nodes ∧
      (res.2.2.size = m.size + t.count_nodes → (res.1, res.2.1) = process r state t) :=
  (memo_process_bound t m r state res hs h).2

/-- `Memo.opt_stack` on a function none of whose nodes is met twice is
`opt_stack`. -/
theorem memo_opt_stack_first_visit (f : Function)
    (res : Function × List StackState × Memo.Rewriter)
    (h : Memo.process_function Memo.create_rewriter [] f = .ok res)
    (hsize : res.2.2.size = f.body.count_nodes) :
    Memo.opt_stack f = .ok (opt_stack ⟨[]⟩ f) := by
  simp only [Memo.process_function, bind, Except.bind] at h
  cases hb : Memo.process Memo.create_rewriter [] f.body with
  | error e => simp [hb] at h
  | ok p =>
    obtain ⟨nbody, state1, m1⟩ := p
    simp only [hb, Except.ok.injEq] at h
    subst h
    have hfv := (memo_process_first_visit Memo.create_rewriter ⟨[]⟩ [] f.body _
      create_rewriter_same_values hb).2
      (by simpa [Memo.Rewriter.size, Memo.create_rewriter] using hsize)
    have hbody : nbody = (process ⟨[]⟩ [] f.body).1 := by rw [← hfv]
    simp only [Memo.opt_stack, Memo.process_function, hb, bind, Except.bind, opt_stack,
      process_function, hbody]

/-! ## A tail met a second time -/

theorem memo_rewrite_node_ok (m : Memo.Rewriter) (v : Value) :
    ∃ v1 m1, Memo.rewrite_node m v = .ok (v1, m1) ∧ m1.lambda_map = m.lambda_map ∧
      m1.terminator_map = m.terminator_map := by
  unfold Memo.rewrite_node
  cases hf : Memo.search_processed_value m v with
  | some found => exact ⟨found, m, rfl, rfl, rfl⟩
  | none =>
    exact ⟨v, { m with value_map := (v, v) :: m.value_map },
      by simp only [Memo.register_processed_value, hf, bind, Except.bind], rfl, rfl⟩

/-- A `push_stack` whose tail was rewritten before is replaced by `unit`,
whatever terminator the tail ends in: the lookup of the tail hits, the
registered tail is returned and no frame is tagged. -/
theorem memo_process_push_registered_tail (m : Memo.Rewriter) (state : List StackState)
    (operands : List Value) (tail found : AnonLambda)
    (hlet : Memo.search_processed_terminator m (.Let (.PrimOp .push_stack_op operands) tail)
      = none)
    (htail : Memo.search_processed_lambda m tail = some found) :
    ∃ m1, Memo.process m state (.Let (.PrimOp .push_stack_op operands) tail)
      = .ok (.Let unit found, state, m1) := by
  obtain ⟨v1, m1, h1, hl1, ht1⟩ := memo_rewrite_node_ok m (first operands)
  have htail1 : Memo.search_processed_lambda m1 tail = some found := by
    simpa only [Memo.search_processed_lambda, hl1] using htail
  have hlet1 : Memo.search_processed_terminator m1
      (.Let (.PrimOp .push_stack_op operands) tail) = none := by
    simpa only [Memo.search_processed_terminator, ht1] using hlet
  have hlam : Memo.process_lambda m1 ({ leaks := false, value := v1 } :: state) tail
      = .ok (found, { leaks := false, value := v1 } :: state, m1) := by
    cases tail with
    | mk params body =>
      simp only [Memo.process_lambda, Memo.rewrite_lambda_with, htail1]
  refine ⟨{ m1 with terminator_map :=
    (.Let (.PrimOp .push_stack_op operands) tail, .Let unit found) :: m1.terminator_map }, ?_⟩
  simp only [Memo.process, Memo.rewrite_terminator_with, hlet, h1, hlam, bind, Except.bind,
    top_leaks, Bool.not_false, if_true, List.tail_cons, Memo.register_processed_terminator, hlet1]

/-- C17 (fails on the code): a `push_stack` without a matching `pop_stack`,
followed by no call and no structured construct, whose chain ends in
`MergeSelection`, is replaced by `unit` when the tail after it was rewritten
before.  In
`If c { push_stack 7; MergeSelection } else { push_stack 8; MergeSelection };
Return` the tail `MergeSelection` of the two pushes is one node.  The first
branch is a first visit: the terminator tags the frame of `push_stack 7`, the
push is kept, and the tail is registered.  In the second branch the lookup of
the tail hits, `process` returns at line 32 before `tag_leaks`, the frame of
`push_stack 8` stays clean and the push becomes `unit`.  Alone, from empty
maps, `push_stack 8; MergeSelection` keeps its push.  The function showed the
stack `[8]` at the merge of the second branch and at the `Return`, and shows
the empty stack after the pass.  The same happens to `push_stack 8; Return`
after a tail `Return` was rewritten. -/
theorem opt_stack_shared_tail_drops_push :
    Memo.opt_stack push_in_both_branches =
      .ok ⟨"f", [0],
        .Let (.If (.variable 0)
            (.mk [] (.Let (.PrimOp .push_stack_op [.int_literal 7])
              (.mk [] (.MergeSelection []))))
            (some (.mk [] (.Let unit (.mk [] (.MergeSelection [])))))) (.mk []
          (.Return []))⟩
    ∧ (Memo.process Memo.create_rewriter []
          (.Let (.PrimOp .push_stack_op [.int_literal 8]) (.mk [] (.MergeSelection [])))).map
        (fun p => (p.1, p.2.1)) =
      .ok (.Let (.PrimOp .push_stack_op [.int_literal 8]) (.mk [] (.MergeSelection [])), [])
    ∧ (Memo.process_lambda Memo.create_rewriter []
          (.mk [] (.Let (.PrimOp .push_stack_op [.int_literal 7])
            (.mk [] (.MergeSelection []))))).map
        (fun p => Memo.search_processed_lambda p.2.2 (.mk [] (.MergeSelection []))) =
      .ok (some (.mk [] (.MergeSelection [])))
    ∧ behavior [] push_in_both_branches =
      [.at_control [], .at_terminator [.int_literal 8], .at_terminator [.int_literal 8]]
    ∧ (Memo.opt_stack push_in_both_branches).map (behavior []) =
      .ok [.at_control [], .at_terminator [], .at_terminator []]
    ∧ Memo.opt_stack push_before_early_return =
      .ok ⟨"g", [0],
        .Let (.If (.variable 0) (.mk [] (.Let unit (.mk [] (.Return [])))) none) (.mk []
          (.Return []))⟩ := by
  refine ⟨by rfl, by rfl, by rfl, by decide, by rfl, by rfl⟩

/-! ## Runs without a second visit -/

/-- On `push_stack 7; If true { x = pop_stack; MergeSelection }; Return` no
node is met twice, and the pass with the map rewrites the function as the
pass on first visits does. -/
theorem memo_opt_stack_pop_inside_if :
    Memo.opt_stack pop_inside_if = .ok (opt_stack ⟨[]⟩ pop_inside_if) := by
  rfl

/-- On `push_stack 7; x = pop_stack; Return x` and on
`push_stack 7; LeafCall f(); x = pop_stack; Return x` no node is met twice,
and the pass with the map rewrites the chains as the pass on first visits
does. -/
theorem memo_process_scenarios :
    (Memo.process Memo.create_rewriter []
          (.Let (.PrimOp .push_stack_op [.int_literal 7]) (.mk []
            (.Let (.PrimOp .pop_stack_op []) (.mk [1] (.Return [.variable 1])))))).map
        (fun p => (p.1, p.2.1)) =
      .ok (process ⟨[]⟩ []
          (.Let (.PrimOp .push_stack_op [.int_literal 7]) (.mk []
            (.Let (.PrimOp .pop_stack_op []) (.mk [1] (.Return [.variable 1]))))))
    ∧ (Memo.process Memo.create_rewriter []
          (.Let (.PrimOp .push_stack_op [.int_literal 7]) (.mk []
            (.Let (.LeafCall (.fn_addr "f") []) (.mk []
              (.Let (.PrimOp .pop_stack_op []) (.mk [1] (.Return [.variable 1])))))))).map
        (fun p => (p.1, p.2.1)) =
      .ok (process ⟨[]⟩ []
          (.Let (.PrimOp .push_stack_op [.int_literal 7]) (.mk []
            (.Let (.LeafCall (.fn_addr "f") []) (.mk []
              (.Let (.PrimOp .pop_stack_op []) (.mk [1] (.Return [.variable 1]))))))))  := by
  refine ⟨by rfl, by rfl⟩

end OptStack

namespace LowerMask

/-! ## The `processed` map only grows -/

theorem includes_refl (ctx : Context) : ctx.includes ctx := fun _ _ h => h

theorem includes_trans {a b c : Context} (h1 : c.includes b) (h2 : b.includes a) :
    c.includes a := fun old new h => h1 old new (h2 old new h)

theorem includes_of_processed_eq {a b : Context} (h : b.processed = a.processed) :
    b.includes a := by
  intro old new hl
  simpa [search_processed, h] using hl

theorem register_processed_includes {ctx ctx1 : Context} {old new : Value}
    (h : register_processed ctx old new = some ctx1) : ctx1.includes ctx := by
  unfold register_processed at h
  cases hs : search_processed ctx old with
  | none =>
    simp only [hs, Option.some.injEq] at h
    subst h
    intro k v hk
    have hne : (k == old) = false := by
      by_cases hko : k = old
      · subst hko; rw [hs] at hk; cases hk
      · simpa using hko
    simpa [search_processed, List.lookup, hne] using hk
  | some found =>
    simp only [hs] at h
    split at h
    · simp only [Option.some.injEq] at h; subst h; exact includes_refl ctx
    · cases h

theorem register_processed_search {ctx ctx1 : Context} {old new : Value}
    (h : register_processed ctx old new = some ctx1) : search_processed ctx1 old = some new := by
  unfold register_processed at h
  cases hs : search_processed ctx old with
  | none =>
    simp only [hs, Option.some.injEq] at h
    subst h
    simp [search_processed, List.lookup]
  | some found =>
    simp only [hs] at h
    split at h
    · rename_i hf
      simp only [Option.some.injEq] at h; subst h; rw [hs, hf]
    · cases h

theorem register_step {ctx c0 ctx1 : Context} {bb bb1 : BlockBuilder} {r v : Value}
    (hp : c0.processed = ctx.processed)
    (h : (match register_processed c0 r v with
        | some c => some (c, bb)
        | none => none) = some (ctx1, bb1)) :
    ctx1.includes ctx ∧ search_processed ctx1 r = some v ∧ bb1 = bb := by
  split at h
  · rename_i c hreg
    simp only [Option.some.injEq, Prod.mk.injEq] at h
    obtain ⟨h, hb⟩ := h
    subst h hb
    exact ⟨includes_trans (register_processed_includes hreg) (includes_of_processed_eq hp),
      register_processed_search hreg, rfl⟩
  · cases h

theorem lower_ballot_includes {arena : IrArena} {ctx ctx1 : Context} {bb bb1 : BlockBuilder}
    {vars : List Value} {operands : List Operand}
    (h : lower_ballot arena ctx bb vars operands = some (ctx1, bb1)) : ctx1.includes ctx := by
  unfold lower_ballot at h
  cases vars with
  | nil => cases hrep : arena.subgroup_mask_representation <;> simp [hrep, gen_primop] at h
  | cons r vars =>
    cases hrep : arena.subgroup_mask_representation <;>
      simp only [hrep, gen_primop] at h <;>
      exact (register_step rfl h).1

theorem lower_is_thread_active_includes {arena : IrArena} {ctx ctx1 : Context}
    {bb bb1 : BlockBuilder} {vars : List Value} {old_nodes : List Operand}
    (h : lower_is_thread_active arena ctx bb vars old_nodes = some (ctx1, bb1)) :
    ctx1.includes ctx := by
  unfold lower_is_thread_active at h
  split at h
  · cases vars with
    | nil => simp [gen_primop] at h
    | cons r vars =>
      simp only [gen_primop] at h
      exact (register_step rfl h).1
  · cases h

mutual
theorem recreate_instruction_includes (arena : IrArena) :
    ∀ (i : ActualInstruction) (ctx : Context) (i1 : ActualInstruction) (ctx1 : Context),
      recreate_instruction arena ctx i = some (i1, ctx1) → ctx1.includes ctx
  | .PrimOp _ _, ctx, i1, ctx1, h => by
    simp only [recreate_instruction, Option.some.injEq, Prod.mk.injEq] at h
    obtain ⟨_, rfl⟩ := h
    exact includes_refl ctx
  | .Call _ _, ctx, i1, ctx1, h => by
    simp only [recreate_instruction, Option.some.injEq, Prod.mk.injEq] at h
    obtain ⟨_, rfl⟩ := h
    exact includes_refl ctx
  | .If _ t f, ctx, i1, ctx1, h => by
    have iht := process_block_includes arena t ctx
    simp only [recreate_instruction] at h
    cases h1 : process_block arena ctx t with
    | none => simp [h1] at h
    | some p1 =>
      obtain ⟨t1, c1⟩ := p1
      have ihf := process_block_includes arena f c1
      cases h2 : process_block arena c1 f with
      | none => simp [h1, h2] at h
      | some p2 =>
        obtain ⟨f1, c2⟩ := p2
        simp only [h1, h2, Option.bind_eq_bind, Option.some_bind, Option.some.injEq,
          Prod.mk.injEq] at h
        obtain ⟨_, rfl⟩ := h
        exact includes_trans (ihf _ _ h2) (iht _ _ h1)
  | .Loop _ b, ctx, i1, ctx1, h => by
    have ihb := process_block_includes arena b ctx
    simp only [recreate_instruction] at h
    cases h1 : process_block arena ctx b with
    | none => simp [h1] at h
    | some p1 =>
      obtain ⟨b1, c1⟩ := p1
      simp only [h1, Option.bind_eq_bind, Option.some_bind, Option.some.injEq,
        Prod.mk.injEq] at h
      obtain ⟨_, rfl⟩ := h
      exact ihb _ _ h1
theorem rewrite_instruction_includes (arena : IrArena) :
    ∀ (i : Instruction) (ctx : Context) (i1 : Instruction) (ctx1 : Context),
      rewrite_instruction arena ctx i = some (i1, ctx1) → ctx1.includes ctx
  | .Let _ a, ctx, i1, ctx1, h => by
    have iha := recreate_instruction_includes arena a ctx
    simp only [rewrite_instruction] at h
    cases h1 : recreate_instruction arena ctx a with
    | none => simp [h1] at h
    | some p1 =>
      obtain ⟨a1, c1⟩ := p1
      simp only [h1, Option.bind_eq_bind, Option.some_bind, Option.some.injEq,
        Prod.mk.injEq] at h
      obtain ⟨_, rfl⟩ := h
      exact iha _ _ h1
  | .Plain a, ctx, i1, ctx1, h => by
    have iha := recreate_instruction_includes arena a ctx
    simp only [rewrite_instruction] at h
    cases h1 : recreate_instruction arena ctx a with
    | none => simp [h1] at h
    | some p1 =>
      obtain ⟨a1, c1⟩ := p1
      simp only [h1, Option.bind_eq_bind, Option.some_bind, Option.some.injEq,
        Prod.mk.injEq] at h
      obtain ⟨_, rfl⟩ := h
      exact iha _ _ h1
theorem process_block_includes (arena : IrArena) :
    ∀ (b : Block) (ctx : Context) (b1 : Block) (ctx1 : Context),
      process_block arena ctx b = some (b1, ctx1) → ctx1.includes ctx
  | .mk is _, ctx, b1, ctx1, h => by
    have ihis := process_instructions_includes arena is ctx begin_block
    simp only [process_block] at h
    cases h1 : process_instructions arena ctx begin_block is with
    | none => simp [h1] at h
    | some p1 =>
      obtain ⟨c1, bb1⟩ := p1
      simp only [h1, Option.bind_eq_bind, Option.some_bind, Option.some.injEq,
        Prod.mk.injEq] at h
      obtain ⟨_, rfl⟩ := h
      exact ihis _ _ h1
theorem process_instructions_includes (arena : IrArena) :
    ∀ (is : List Instruction) (ctx : Context) (bb : BlockBuilder) (ctx1 : Context)
      (bb1 : BlockBuilder),
      process_instructions arena ctx bb is = some (ctx1, bb1) → ctx1.includes ctx
  | [], ctx, bb, ctx1, bb1, h => by
    simp only [process_instructions, Option.some.injEq, Prod.mk.injEq] at h
    obtain ⟨rfl, _⟩ := h
    exact includes_refl ctx
  | old_instruction :: rest, ctx, bb, ctx1, bb1, h => by
    have ihrest := process_instructions_includes arena rest
    have ihold := rewrite_instruction_includes arena old_instruction ctx
    have hdefault : ∀ (_ : (match rewrite_instruction arena ctx old_instruction with
          | some (instruction, ctx) =>
            process_instructions arena ctx (append_block bb instruction) rest
          | none => none) = some (ctx1, bb1)), ctx1.includes ctx := by
      intro h
      cases h1 : rewrite_instruction arena ctx old_instruction with
      | none => simp [h1] at h
      | some p1 =>
        obtain ⟨i1, c1⟩ := p1
        simp only [h1] at h
        exact includes_trans (ihrest _ _ _ _ h) (ihold _ _ h1)
    have hballot : ∀ (vars : List Value) (operands : List Operand)
        (_ : (match lower_ballot arena ctx bb vars operands with
          | some (ctx, bb) => process_instructions arena ctx bb rest
          | none => none) = some (ctx1, bb1)), ctx1.includes ctx := by
      intro vars operands h
      cases h1 : lower_ballot arena ctx bb vars operands with
      | none => simp [h1] at h
      | some p1 =>
        obtain ⟨c1, b1⟩ := p1
        simp only [h1] at h
        exact includes_trans (ihrest _ _ _ _ h) (lower_ballot_includes h1)
    cases old_instruction with
    | Let vars a =>
      cases a with
      | PrimOp op operands =>
        cases op with
        | empty_mask_op =>
          simp only [process_instructions] at h
          cases vars with
          | nil => simp at h
          | cons m vars =>
            simp only at h
            cases h1 : register_processed ctx m (int_literal .IntTy64 0) with
            | none => simp [h1] at h
            | some c1 =>
              simp only [h1] at h
              exact includes_trans (ihrest _ _ _ _ h) (register_processed_includes h1)
        | mask_is_thread_active_op =>
          simp only [process_instructions] at h
          cases h1 : lower_is_thread_active arena ctx bb vars operands with
          | none => simp [h1] at h
          | some p1 =>
            obtain ⟨c1, b1⟩ := p1
            simp only [h1] at h
            exact includes_trans (ihrest _ _ _ _ h) (lower_is_thread_active_includes h1)
        | subgroup_active_mask_op =>
          simp only [process_instructions] at h
          exact hballot _ _ h
        | subgroup_ballot_op =>
          simp only [process_instructions] at h
          exact hballot _ _ h
        | add_op => simp only [process_instructions] at h; exact hdefault h
        | and_op => simp only [process_instructions] at h; exact hdefault h
        | or_op => simp only [process_instructions] at h; exact hdefault h
        | eq_op => simp only [process_instructions] at h; exact hdefault h
        | lshift_op => simp only [process_instructions] at h; exact hdefault h
        | rshift_logical_op => simp only [process_instructions] at h; exact hdefault h
        | extract_op => simp only [process_instructions] at h; exact hdefault h
        | reinterpret_op => simp only [process_instructions] at h; exact hdefault h
        | load_op => simp only [process_instructions] at h; exact hdefault h
      | Call _ _ => simp only [process_instructions] at h; exact hdefault h
      | If _ _ _ => simp only [process_instructions] at h; exact hdefault h
      | Loop _ _ => simp only [process_instructions] at h; exact hdefault h
    | Plain a =>
      cases a with
      | PrimOp op operands =>
        cases op with
        | empty_mask_op => simp [process_instructions] at h
        | mask_is_thread_active_op => simp [process_instructions] at h
        | subgroup_active_mask_op =>
          simp only [process_instructions] at h; exact ihrest _ _ _ _ h
        | subgroup_ballot_op =>
          simp only [process_instructions] at h; exact ihrest _ _ _ _ h
        | add_op => simp only [process_instructions] at h; exact hdefault h
        | and_op => simp only [process_instructions] at h; exact hdefault h
        | or_op => simp only [process_instructions] at h; exact hdefault h
        | eq_op => simp only [process_instructions] at h; exact hdefault h
        | lshift_op => simp only [process_instructions] at h; exact hdefault h
        | rshift_logical_op => simp only [process_instructions] at h; exact hdefault h
        | extract_op => simp only [process_instructions] at h; exact hdefault h
        | reinterpret_op => simp only [process_instructions] at h; exact hdefault h
        | load_op => simp only [process_instructions] at h; exact hdefault h
      | Call _ _ => simp only [process_instructions] at h; exact hdefault h
      | If _ _ _ => simp only [process_instructions] at h; exact hdefault h
      | Loop _ _ => simp only [process_instructions] at h; exact hdefault h
end

/-! ## The three lowerings, one instruction at a time -/

/-- C5: at `Let{[r], mask_is_thread_active(mask, idx)}` with `r` not yet
registered, the loop of `process_block` appends exactly the four primops
`reinterpret(int64, idx')`, `rshift_logical(mask', _)`, `and(_, 1 as i64)`,
`eq(_, 1 as i64)`, each consuming the fresh variable bound by the one before,
registers `r` to the variable bound by the `eq`, and goes on with the rest;
the `Let` itself is not emitted, so a block of this one instruction becomes a
block of the four primops. -/
theorem process_block_lowers_is_thread_active (arena : IrArena) (ctx : Context)
    (bb : BlockBuilder) (r : Value) (vars : List Value) (mask idx : Operand)
    (more : List Operand) (rest : List Instruction) (terminator : Terminator)
    (hr : search_processed ctx r = none) :
    let index := Value.Variable "" ctx.next_id
      (arena.check_type .reinterpret_op [.type int64_type, process_operand ctx idx])
    let shifted := Value.Variable "" (ctx.next_id + 1)
      (arena.check_type .rshift_logical_op [process_operand ctx mask, .value index])
    let masked := Value.Variable "" (ctx.next_id + 2)
      (arena.check_type .and_op [.value shifted, .value (int_literal .IntTy64 1)])
    let result := Value.Variable "" (ctx.next_id + 3)
      (arena.check_type .eq_op [.value masked, .value (int_literal .IntTy64 1)])
    let lowered : List Instruction :=
      [.Let [index] (.PrimOp .reinterpret_op [.type int64_type, process_operand ctx idx]),
        .Let [shifted] (.PrimOp .rshift_logical_op [process_operand ctx mask, .value index]),
        .Let [masked] (.PrimOp .and_op [.value shifted, .value (int_literal .IntTy64 1)]),
        .Let [result] (.PrimOp .eq_op [.value masked, .value (int_literal .IntTy64 1)])]
    let ctx1 : Context :=
      { processed := (r, result) :: ctx.processed, next_id := ctx.next_id + 4 }
    process_instructions arena ctx bb
        (.Let (r :: vars) (.PrimOp .mask_is_thread_active_op (mask :: idx :: more)) :: rest) =
      process_instructions arena ctx1 (bb ++ lowered) rest
    ∧ search_processed ctx1 r = some result
    ∧ process_block arena ctx
        (.mk [.Let (r :: vars) (.PrimOp .mask_is_thread_active_op (mask :: idx :: more))]
          terminator) =
      some (.mk lowered (process_terminator ctx1 terminator), ctx1) := by
  simp only [search_processed] at hr
  refine ⟨?_, ?_, ?_⟩
  · simp [process_instructions, lower_is_thread_active, gen_primop, register_processed,
      search_processed, hr, append_block]
  · simp [search_processed, List.lookup]
  · simp [process_block, process_instructions, lower_is_thread_active, gen_primop,
      register_processed, search_processed, hr, append_block, begin_block, finish_block]

/-- C5, at `Let{[r], mask_is_thread_active(m, idx)}` followed by `Return r`. -/
theorem process_block_lowers_is_thread_active_witness :
    search_processed { processed := [], next_id := 10 }
        (.Variable "r" 3 .Bool) = none
    ∧ process_block (sample_arena .SubgroupMaskI64) { processed := [], next_id := 10 }
        (.mk [.Let [.Variable "r" 3 .Bool] (.PrimOp .mask_is_thread_active_op
            [.value (.Variable "m" 1 .MaskType), .value (.Variable "idx" 2 (.Int .IntTy32))])]
          (.Return [.Variable "r" 3 .Bool])) =
      some (.mk
        [.Let [.Variable "" 10 int64_type] (.PrimOp .reinterpret_op
            [.type int64_type, .value (.Variable "idx" 2 (.Int .IntTy32))]),
          .Let [.Variable "" 11 int64_type] (.PrimOp .rshift_logical_op
            [.value (.Variable "m" 1 int64_type), .value (.Variable "" 10 int64_type)]),
          .Let [.Variable "" 12 int64_type] (.PrimOp .and_op
            [.value (.Variable "" 11 int64_type), .value (int_literal .IntTy64 1)]),
          .Let [.Variable "" 13 .Bool] (.PrimOp .eq_op
            [.value (.Variable "" 12 int64_type), .value (int_literal .IntTy64 1)])]
        (.Return [.Variable "" 13 .Bool]),
        { processed := [(.Variable "r" 3 .Bool, .Variable "" 13 .Bool)], next_id := 14 }) :=
  ⟨by decide,
    (process_block_lowers_is_thread_active (sample_arena .SubgroupMaskI64)
      { processed := [], next_id := 10 } [] (.Variable "r" 3 .Bool) []
      (.value (.Variable "m" 1 .MaskType)) (.value (.Variable "idx" 2 (.Int .IntTy32))) [] []
      (.Return [.Variable "r" 3 .Bool]) (by decide)).2.2⟩

/-- C6: at `Let{[r], subgroup_ballot(p)}` with `r` not yet registered, the
loop of `process_block` appends, when the arena packs masks as
`SubgroupMaskSpvKHRBallot`, exactly the seven primops `subgroup_ballot(p')`,
`extract(b, 0 as i32)`, `extract(b, 1 as i32)`, `reinterpret(int64, lo)`,
`reinterpret(int64, hi)`, `lshift(hi, 32 as i64)`, `or(lo, hi)` and registers
`r` to the variable bound by the `or`; when the representation is
`SubgroupMaskI64` it appends `subgroup_ballot(p')` alone and registers `r` to
the variable it binds. -/
theorem process_block_lowers_ballot (arena : IrArena) (ctx : Context) (bb : BlockBuilder)
    (r : Value) (vars : List Value) (operands : List Operand) (rest : List Instruction)
    (hr : search_processed ctx r = none) :
    let operands1 := operands.map (process_operand ctx)
    let b := Value.Variable "" ctx.next_id (arena.check_type .subgroup_ballot_op operands1)
    let lo := Value.Variable "" (ctx.next_id + 1)
      (arena.check_type .extract_op [.value b, .value (int_literal .IntTy32 0)])
    let hi := Value.Variable "" (ctx.next_id + 2)
      (arena.check_type .extract_op [.value b, .value (int_literal .IntTy32 1)])
    let lo64 := Value.Variable "" (ctx.next_id + 3)
      (arena.check_type .reinterpret_op [.type int64_type, .value lo])
    let hi64 := Value.Variable "" (ctx.next_id + 4)
      (arena.check_type .reinterpret_op [.type int64_type, .value hi])
    let shifted := Value.Variable "" (ctx.next_id + 5)
      (arena.check_type .lshift_op [.value hi64, .value (int_literal .IntTy64 32)])
    let merged := Value.Variable "" (ctx.next_id + 6)
      (arena.check_type .or_op [.value lo64, .value shifted])
    (arena.subgroup_mask_representation = .SubgroupMaskSpvKHRBallot →
      process_instructions arena ctx bb
          (.Let (r :: vars) (.PrimOp .subgroup_ballot_op operands) :: rest) =
        process_instructions arena
          { processed := (r, merged) :: ctx.processed, next_id := ctx.next_id + 7 }
          (bb ++
            [.Let [b] (.PrimOp .subgroup_ballot_op operands1),
              .Let [lo] (.PrimOp .extract_op [.value b, .value (int_literal .IntTy32 0)]),
              .Let [hi] (.PrimOp .extract_op [.value b, .value (int_literal .IntTy32 1)]),
              .Let [lo64] (.PrimOp .reinterpret_op [.type int64_type, .value lo]),
              .Let [hi64] (.PrimOp .reinterpret_op [.type int64_type, .value hi]),
              .Let [shifted] (.PrimOp .lshift_op
                [.value hi64, .value (int_literal .IntTy64 32)]),
              .Let [merged] (.PrimOp .or_op [.value lo64, .value shifted])])
          rest)
    ∧ (arena.subgroup_mask_representation = .SubgroupMaskI64 →
      process_instructions arena ctx bb
          (.Let (r :: vars) (.PrimOp .subgroup_ballot_op operands) :: rest) =
        process_instructions arena
          { processed := (r, b) :: ctx.processed, next_id := ctx.next_id + 1 }
          (bb ++ [.Let [b] (.PrimOp .subgroup_ballot_op operands1)]) rest) := by
  simp only [search_processed] at hr
  refine ⟨?_, ?_⟩
  · intro hrep
    simp [process_instructions, lower_ballot, gen_primop, register_processed,
      search_processed, hr, append_block, hrep]
  · intro hrep
    simp [process_instructions, lower_ballot, gen_primop, register_processed,
      search_processed, hr, append_block, hrep]

/-- C6, at `Let{[r], subgroup_ballot(p)}` in an arena that packs masks as four
lanes. -/
theorem process_block_lowers_ballot_witness :
    search_processed { processed := [], next_id := 10 } (.Variable "r" 3 .MaskType) = none
    ∧ (sample_arena .SubgroupMaskSpvKHRBallot).subgroup_mask_representation =
        .SubgroupMaskSpvKHRBallot
    ∧ process_instructions (sample_arena .SubgroupMaskSpvKHRBallot)
        { processed := [], next_id := 10 } []
        [.Let [.Variable "r" 3 .MaskType]
          (.PrimOp .subgroup_ballot_op [.value (.Variable "p" 1 .Bool)])] =
      some ({ processed := [(.Variable "r" 3 .MaskType, .Variable "" 16 int64_type)],
              next_id := 17 },
        [.Let [.Variable "" 10 (.RecordType (.cons (.Int .IntTy32) (.cons (.Int .IntTy32)
              (.cons (.Int .IntTy32) (.cons (.Int .IntTy32) .nil)))))]
            (.PrimOp .subgroup_ballot_op [.value (.Variable "p" 1 .Bool)]),
          .Let [.Variable "" 11 (.Int .IntTy32)] (.PrimOp .extract_op
            [.value (.Variable "" 10 (.RecordType (.cons (.Int .IntTy32)
              (.cons (.Int .IntTy32) (.cons (.Int .IntTy32) (.cons (.Int .IntTy32) .nil)))))),
              .value (int_literal .IntTy32 0)]),
          .Let [.Variable "" 12 (.Int .IntTy32)] (.PrimOp .extract_op
            [.value (.Variable "" 10 (.RecordType (.cons (.Int .IntTy32)
              (.cons (.Int .IntTy32) (.cons (.Int .IntTy32) (.cons (.Int .IntTy32) .nil)))))),
              .value (int_literal .IntTy32 1)]),
          .Let [.Variable "" 13 int64_type] (.PrimOp .reinterpret_op
            [.type int64_type, .value (.Variable "" 11 (.Int .IntTy32))]),
          .Let [.Variable "" 14 int64_type] (.PrimOp .reinterpret_op
            [.type int64_type, .value (.Variable "" 12 (.Int .IntTy32))]),
          .Let [.Variable "" 15 int64_type] (.PrimOp .lshift_op
            [.value (.Variable "" 14 int64_type), .value (int_literal .IntTy64 32)]),
          .Let [.Variable "" 16 int64_type] (.PrimOp .or_op
            [.value (.Variable "" 13 int64_type), .value (.Variable "" 15 int64_type)])]) :=
  ⟨by decide, rfl,
    (process_block_lowers_ballot (sample_arena .SubgroupMaskSpvKHRBallot)
      { processed := [], next_id := 10 } [] (.Variable "r" 3 .MaskType) []
      [.value (.Variable "p" 1 .Bool)] [] (by decide)).1 rfl⟩

/-- C7: at `Let{[m], empty_mask}` with `m` not yet registered, the loop of
`process_block` appends nothing and registers `m` to the i64 literal `0`; from
then on, in every state the loop reaches over the later instructions of the
block, the rewrite of `m` is that literal, and so it is in the terminator. -/
theorem process_block_lowers_empty_mask (arena : IrArena) (ctx : Context) (bb : BlockBuilder)
    (m : Value) (vars : List Value) (operands : List Operand) (rest : List Instruction)
    (hm : search_processed ctx m = none) :
    let ctx1 : Context :=
      { processed := (m, int_literal .IntTy64 0) :: ctx.processed, next_id := ctx.next_id }
    process_instructions arena ctx bb
        (.Let (m :: vars) (.PrimOp .empty_mask_op operands) :: rest) =
      process_instructions arena ctx1 bb rest
    ∧ process_value ctx1 m = int_literal .IntTy64 0
    ∧ ∀ (later : List Instruction) (bb1 bb2 : BlockBuilder) (ctx2 : Context),
        process_instructions arena ctx1 bb1 later = some (ctx2, bb2) →
        process_value ctx2 m = int_literal .IntTy64 0
        ∧ process_terminator ctx2 (.Return [m]) = .Return [int_literal .IntTy64 0] := by
  have hs : search_processed
      { processed := (m, int_literal .IntTy64 0) :: ctx.processed, next_id := ctx.next_id } m =
      some (int_literal .IntTy64 0) := by
    simp [search_processed, List.lookup]
  refine ⟨?_, ?_, ?_⟩
  · simp [process_instructions, register_processed, hm]
  · simp [process_value, hs]
  · intro later bb1 bb2 ctx2 h
    have h2 := process_instructions_includes arena later _ bb1 ctx2 bb2 h _ _ hs
    simp [process_value, process_terminator, h2]

/-- C7, at `Let{[m], empty_mask}` followed by a use of `m` and `Return m`. -/
theorem process_block_lowers_empty_mask_witness :
    search_processed { processed := [], next_id := 10 } (.Variable "m" 1 .MaskType) = none
    ∧ process_block (sample_arena .SubgroupMaskI64) { processed := [], next_id := 10 }
        (.mk [.Let [.Variable "m" 1 .MaskType] (.PrimOp .empty_mask_op []),
            .Let [.Variable "x" 2 (.Int .IntTy64)]
              (.PrimOp .or_op [.value (.Variable "m" 1 .MaskType),
                .value (.Variable "m" 1 .MaskType)])]
          (.Return [.Variable "m" 1 .MaskType])) =
      some (.mk
        [.Let [.Variable "x" 2 (.Int .IntTy64)]
          (.PrimOp .or_op [.value (int_literal .IntTy64 0), .value (int_literal .IntTy64 0)])]
        (.Return [int_literal .IntTy64 0]),
        { processed := [(.Variable "m" 1 .MaskType, int_literal .IntTy64 0)], next_id := 10 }) := by
  refine ⟨by decide, ?_⟩
  have h := (process_block_lowers_empty_mask (sample_arena .SubgroupMaskI64)
    { processed := [], next_id := 10 } begin_block (.Variable "m" 1 .MaskType) []
    [] [.Let [.Variable "x" 2 (.Int .IntTy64)]
        (.PrimOp .or_op [.value (.Variable "m" 1 .MaskType),
          .value (.Variable "m" 1 .MaskType)])] (by decide)).1
  simp only [process_block, h]
  rfl

/-! ## No mask survives the pass -/

mutual
theorem process_type_mask_free : ∀ (t : Ty), (process_type t).mask_free = true
  | .MaskType => by simp [process_type, int64_type, Ty.mask_free]
  | .Int _ => by simp [process_type, Ty.mask_free]
  | .Bool => by simp [process_type, Ty.mask_free]
  | .PtrType _ t => by simp [process_type, Ty.mask_free, process_type_mask_free t]
  | .RecordType ms => by simp [process_type, Ty.mask_free, process_types_mask_free ms]
  | .FnType ps rs => by
    simp [process_type, Ty.mask_free, process_types_mask_free ps, process_types_mask_free rs]
  | .QualifiedType _ t => by simp [process_type, Ty.mask_free, process_type_mask_free t]
theorem process_types_mask_free : ∀ (ts : Tys), (process_types ts).mask_free = true
  | .nil => by simp [process_types, Tys.mask_free]
  | .cons t ts => by
    simp [process_types, Tys.mask_free, process_type_mask_free t, process_types_mask_free ts]
end

theorem lookup_mem {k v : Value} : ∀ {l : List (Value × Value)}, l.lookup k = some v → (k, v) ∈ l
  | [], h => by simp [List.lookup] at h
  | (a, b) :: l, h => by
    by_cases hk : k = a
    · subst hk
      simp [List.lookup] at h
      subst h
      exact List.mem_cons_self _ _
    · have hne : (k == a) = false := by simpa using hk
      simp only [List.lookup, hne] at h
      exact List.mem_cons_of_mem _ (lookup_mem h)

theorem process_value_mask_free {ctx : Context} (hctx : ctx.mask_free) (v : Value) :
    (process_value ctx v).mask_free = true := by
  unfold process_value
  cases h : search_processed ctx v with
  | some found => exact hctx (v, found) (lookup_mem h)
  | none => cases v <;> simp [recreate_value, Value.mask_free, process_type_mask_free]

theorem process_values_mask_free {ctx : Context} (hctx : ctx.mask_free) (vs : List Value) :
    (vs.map (process_value ctx)).all Value.mask_free = true := by
  simp [List.all_eq_true, process_value_mask_free hctx]

theorem process_operand_mask_free {ctx : Context} (hctx : ctx.mask_free) (o : Operand) :
    (process_operand ctx o).mask_free = true := by
  cases o <;>
    simp [process_operand, Operand.mask_free, process_type_mask_free,
      process_value_mask_free hctx]

theorem process_operands_mask_free {ctx : Context} (hctx : ctx.mask_free)
    (os : List Operand) : (os.map (process_operand ctx)).all Operand.mask_free = true := by
  simp [List.all_eq_true, process_operand_mask_free hctx]

theorem process_terminator_mask_free {ctx : Context} (hctx : ctx.mask_free)
    (t : Terminator) : (process_terminator ctx t).mask_free = true := by
  cases t <;>
    simp [process_terminator, Terminator.mask_free, process_value_mask_free hctx]

theorem instructions_mask_free_append (bb : List Instruction) (i : Instruction) :
    instructions_mask_free (bb ++ [i]) = (instructions_mask_free bb && i.mask_free) := by
  induction bb with
  | nil => simp [instructions_mask_free]
  | cons j bb ih => simp [instructions_mask_free, ih, Bool.and_assoc]

theorem register_processed_mask_free {ctx ctx1 : Context} {old new : Value}
    (hctx : ctx.mask_free) (hnew : new.mask_free = true)
    (h : register_processed ctx old new = some ctx1) : ctx1.mask_free := by
  unfold register_processed at h
  cases hs : search_processed ctx old with
  | none =>
    simp only [hs, Option.some.injEq] at h
    subst h
    intro p hp
    simp only [List.mem_cons] at hp
    rcases hp with hp | hp
    · subst hp; exact hnew
    · exact hctx p hp
  | some found =>
    simp only [hs] at h
    split at h
    · simp only [Option.some.injEq] at h; subst h; exact hctx
    · cases h

theorem register_step_mask_free {ctx c0 ctx1 : Context} {bb bb1 : BlockBuilder} {r v : Value}
    (hctx : ctx.mask_free) (hp : c0.processed = ctx.processed) (hv : v.mask_free = true)
    (hbb : instructions_mask_free bb = true)
    (h : (match register_processed c0 r v with
        | some c => some (c, bb)
        | none => none) = some (ctx1, bb1)) :
    ctx1.mask_free ∧ instructions_mask_free bb1 = true := by
  split at h
  · rename_i c hreg
    simp only [Option.some.injEq, Prod.mk.injEq] at h
    obtain ⟨h, hb⟩ := h
    subst h hb
    have hc0 : c0.mask_free := by
      intro p hp1
      rw [hp] at hp1
      exact hctx p hp1
    exact ⟨register_processed_mask_free hc0 hv hreg, hbb⟩
  · cases h

theorem all_mask_free_cons {o : Operand} {os : List Operand} (ho : o.mask_free = true)
    (hos : os.all Operand.mask_free = true) : (o :: os).all Operand.mask_free = true := by
  simp [List.all_cons, ho, hos]

theorem fresh_value_mask_free {arena : IrArena}
    (hct : ∀ op operands, operands.all Operand.mask_free = true →
      (arena.check_type op operands).mask_free = true)
    (n : Nat) (op : Op) (ops : List Operand) (h : ops.all Operand.mask_free = true) :
    (Value.Variable "" n (arena.check_type op ops)).mask_free = true := by
  simp [Value.mask_free, hct op ops h]

theorem fresh_operand_mask_free {arena : IrArena}
    (hct : ∀ op operands, operands.all Operand.mask_free = true →
      (arena.check_type op operands).mask_free = true)
    (n : Nat) (op : Op) (ops : List Operand) (h : ops.all Operand.mask_free = true) :
    (Operand.value (Value.Variable "" n (arena.check_type op ops))).mask_free = true := by
  simp [Operand.mask_free, Value.mask_free, hct op ops h]

theorem literal_operand_mask_free (w : IntSizes) (k : Int) :
    (Operand.value (int_literal w k)).mask_free = true := rfl

theorem int64_operand_mask_free : (Operand.type int64_type).mask_free = true := rfl

theorem generated_let_mask_free {arena : IrArena}
    (hct : ∀ op operands, operands.all Operand.mask_free = true →
      (arena.check_type op operands).mask_free = true)
    (n : Nat) (op : Op) (ops : List Operand) (hop : is_mask_op op = false)
    (h : ops.all Operand.mask_free = true) :
    (Instruction.Let [Value.Variable "" n (arena.check_type op ops)]
      (.PrimOp op ops)).mask_free = true := by
  simp [Instruction.mask_free, ActualInstruction.mask_free, Value.mask_free, hct op ops h, hop,
    h]

theorem append_block_mask_free {bb : BlockBuilder} {i : Instruction}
    (hbb : instructions_mask_free bb = true) (hi : i.mask_free = true) :
    instructions_mask_free (append_block bb i) = true := by
  simp [append_block, instructions_mask_free_append, hbb, hi]

theorem lower_ballot_mask_free {arena : IrArena}
    (hct : ∀ op operands, operands.all Operand.mask_free = true →
      (arena.check_type op operands).mask_free = true)
    {ctx ctx1 : Context} {bb bb1 : BlockBuilder} {vars : List Value} {operands : List Operand}
    (hctx : ctx.mask_free) (hbb : instructions_mask_free bb = true)
    (hops : operands.all Operand.mask_free = true)
    (h : lower_ballot arena ctx bb vars operands = some (ctx1, bb1)) :
    ctx1.mask_free ∧ instructions_mask_free bb1 = true := by
  unfold lower_ballot at h
  cases vars with
  | nil => cases hrep : arena.subgroup_mask_representation <;> simp [hrep, gen_primop] at h
  | cons r vars =>
    cases hrep : arena.subgroup_mask_representation <;>
      simp only [hrep, gen_primop] at h <;>
      refine register_step_mask_free hctx ?_ ?_ ?_ h <;>
      repeat' first
        | exact hops
        | exact hbb
        | rfl
        | apply append_block_mask_free
        | apply generated_let_mask_free hct
        | apply fresh_value_mask_free hct
        | apply fresh_operand_mask_free hct
        | apply literal_operand_mask_free
        | exact int64_operand_mask_free
        | apply all_mask_free_cons
        | exact (0 : Nat)

theorem lower_is_thread_active_mask_free {arena : IrArena}
    (hct : ∀ op operands, operands.all Operand.mask_free = true →
      (arena.check_type op operands).mask_free = true)
    {ctx ctx1 : Context} {bb bb1 : BlockBuilder} {vars : List Value}
    {old_nodes : List Operand}
    (hctx : ctx.mask_free) (hbb : instructions_mask_free bb = true)
    (h : lower_is_thread_active arena ctx bb vars old_nodes = some (ctx1, bb1)) :
    ctx1.mask_free ∧ instructions_mask_free bb1 = true := by
  unfold lower_is_thread_active at h
  split at h
  · cases vars with
    | nil => simp [gen_primop] at h
    | cons r vars =>
      simp only [gen_primop] at h
      refine register_step_mask_free hctx ?_ ?_ ?_ h <;>
      repeat' first
        | exact hbb
        | rfl
        | apply process_operand_mask_free hctx
        | apply append_block_mask_free
        | apply generated_let_mask_free hct
        | apply fresh_value_mask_free hct
        | apply fresh_operand_mask_free hct
        | apply literal_operand_mask_free
        | exact int64_operand_mask_free
        | apply all_mask_free_cons
        | exact (0 : Nat)
  · cases h

mutual
theorem recreate_instruction_mask_free (arena : IrArena)
    (hct : ∀ op operands, operands.all Operand.mask_free = true →
      (arena.check_type op operands).mask_free = true) :
    ∀ (i : ActualInstruction) (ctx : Context) (i1 : ActualInstruction) (ctx1 : Context),
      ctx.mask_free → i.is_mask_primop = false →
      recreate_instruction arena ctx i = some (i1, ctx1) →
      i1.mask_free = true ∧ ctx1.mask_free
  | .PrimOp op operands, ctx, i1, ctx1, hctx, hi, h => by
    simp only [recreate_instruction, Option.some.injEq, Prod.mk.injEq] at h
    obtain ⟨rfl, rfl⟩ := h
    simp only [ActualInstruction.is_mask_primop] at hi
    simp [ActualInstruction.mask_free, hi, hctx, process_operand_mask_free hctx]
  | .Call callee args, ctx, i1, ctx1, hctx, _, h => by
    simp only [recreate_instruction, Option.some.injEq, Prod.mk.injEq] at h
    obtain ⟨rfl, rfl⟩ := h
    simp [ActualInstruction.mask_free, hctx, process_value_mask_free hctx]
  | .If c t f, ctx, i1, ctx1, hctx, _, h => by
    have iht := process_block_mask_free arena hct t ctx
    simp only [recreate_instruction] at h
    cases h1 : process_block arena ctx t with
    | none => simp [h1] at h
    | some p1 =>
      obtain ⟨t1, c1⟩ := p1
      have ihf := process_block_mask_free arena hct f c1
      cases h2 : process_block arena c1 f with
      | none => simp [h1, h2] at h
      | some p2 =>
        obtain ⟨f1, c2⟩ := p2
        simp only [h1, h2, Option.bind_eq_bind, Option.some_bind, Option.some.injEq,
          Prod.mk.injEq] at h
        obtain ⟨rfl, rfl⟩ := h
        have r1 := iht _ _ hctx h1
        have r2 := ihf _ _ r1.2 h2
        simp [ActualInstruction.mask_free, r1.1, r2.1, r2.2, process_value_mask_free hctx]
  | .Loop a b, ctx, i1, ctx1, hctx, _, h => by
    have ihb := process_block_mask_free arena hct b ctx
    simp only [recreate_instruction] at h
    cases h1 : process_block arena ctx b with
    | none => simp [h1] at h
    | some p1 =>
      obtain ⟨b1, c1⟩ := p1
      simp only [h1, Option.bind_eq_bind, Option.some_bind, Option.some.injEq,
        Prod.mk.injEq] at h
      obtain ⟨rfl, rfl⟩ := h
      have r1 := ihb _ _ hctx h1
      simp [ActualInstruction.mask_free, r1.1, r1.2, process_value_mask_free hctx]
theorem rewrite_instruction_mask_free (arena : IrArena)
    (hct : ∀ op operands, operands.all Operand.mask_free = true →
      (arena.check_type op operands).mask_free = true) :
    ∀ (i : Instruction) (ctx : Context) (i1 : Instruction) (ctx1 : Context),
      ctx.mask_free → i.is_mask_primop = false →
      rewrite_instruction arena ctx i = some (i1, ctx1) →
      i1.mask_free = true ∧ ctx1.mask_free
  | .Let vars a, ctx, i1, ctx1, hctx, hi, h => by
    have iha := recreate_instruction_mask_free arena hct a ctx
    simp only [rewrite_instruction] at h
    cases h1 : recreate_instruction arena ctx a with
    | none => simp [h1] at h
    | some p1 =>
      obtain ⟨a1, c1⟩ := p1
      simp only [h1, Option.bind_eq_bind, Option.some_bind, Option.some.injEq,
        Prod.mk.injEq] at h
      obtain ⟨rfl, rfl⟩ := h
      have r1 := iha _ _ hctx (by simpa [Instruction.is_mask_primop] using hi) h1
      simp [Instruction.mask_free, r1.1, r1.2, process_value_mask_free hctx]
  | .Plain a, ctx, i1, ctx1, hctx, hi, h => by
    have iha := recreate_instruction_mask_free arena hct a ctx
    simp only [rewrite_instruction] at h
    cases h1 : recreate_instruction arena ctx a with
    | none => simp [h1] at h
    | some p1 =>
      obtain ⟨a1, c1⟩ := p1
      simp only [h1, Option.bind_eq_bind, Option.some_bind, Option.some.injEq,
        Prod.mk.injEq] at h
      obtain ⟨rfl, rfl⟩ := h
      have r1 := iha _ _ hctx (by simpa [Instruction.is_mask_primop] using hi) h1
      simp [Instruction.mask_free, r1.1, r1.2]
theorem process_block_mask_free (arena : IrArena)
    (hct : ∀ op operands, operands.all Operand.mask_free = true →
      (arena.check_type op operands).mask_free = true) :
    ∀ (b : Block) (ctx : Context) (b1 : Block) (ctx1 : Context),
      ctx.mask_free → process_block arena ctx b = some (b1, ctx1) →
      b1.mask_free = true ∧ ctx1.mask_free
  | .mk is t, ctx, b1, ctx1, hctx, h => by
    have ihis := process_instructions_mask_free arena hct is ctx begin_block
    simp only [process_block] at h
    cases h1 : process_instructions arena ctx begin_block is with
    | none => simp [h1] at h
    | some p1 =>
      obtain ⟨c1, bb1⟩ := p1
      simp only [h1, Option.bind_eq_bind, Option.some_bind, Option.some.injEq,
        Prod.mk.injEq] at h
      obtain ⟨rfl, rfl⟩ := h
      have r1 := ihis _ _ hctx rfl h1
      simp [finish_block, Block.mask_free, r1.1, r1.2, process_terminator_mask_free r1.1]
theorem process_instructions_mask_free (arena : IrArena)
    (hct : ∀ op operands, operands.all Operand.mask_free = true →
      (arena.check_type op operands).mask_free = true) :
    ∀ (is : List Instruction) (ctx : Context) (bb : BlockBuilder) (ctx1 : Context)
      (bb1 : BlockBuilder),
      ctx.mask_free → instructions_mask_free bb = true →
      process_instructions arena ctx bb is = some (ctx1, bb1) →
      ctx1.mask_free ∧ instructions_mask_free bb1 = true
  | [], ctx, bb, ctx1, bb1, hctx, hbb, h => by
    simp only [process_instructions, Option.some.injEq, Prod.mk.injEq] at h
    obtain ⟨rfl, rfl⟩ := h
    exact ⟨hctx, hbb⟩
  | old_instruction :: rest, ctx, bb, ctx1, bb1, hctx, hbb, h => by
    have ihrest := process_instructions_mask_free arena hct rest
    have ihold := rewrite_instruction_mask_free arena hct old_instruction ctx
    have hdefault : old_instruction.is_mask_primop = false →
        ∀ (_ : (match rewrite_instruction arena ctx old_instruction with
          | some (instruction, ctx) =>
            process_instructions arena ctx (append_block bb instruction) rest
          | none => none) = some (ctx1, bb1)),
          ctx1.mask_free ∧ instructions_mask_free bb1 = true := by
      intro hi h
      cases h1 : rewrite_instruction arena ctx old_instruction with
      | none => simp [h1] at h
      | some p1 =>
        obtain ⟨i1, c1⟩ := p1
        simp only [h1] at h
        have r1 := ihold _ _ hctx hi h1
        exact ihrest _ _ _ _ r1.2 (append_block_mask_free hbb r1.1) h
    have hballot : ∀ (vars : List Value) (operands : List Operand),
        operands.all Operand.mask_free = true →
        ∀ (_ : (match lower_ballot arena ctx bb vars operands with
          | some (ctx, bb) => process_instructions arena ctx bb rest
          | none => none) = some (ctx1, bb1)),
          ctx1.mask_free ∧ instructions_mask_free bb1 = true := by
      intro vars operands hops h
      cases h1 : lower_ballot arena ctx bb vars operands with
      | none => simp [h1] at h
      | some p1 =>
        obtain ⟨c1, b1⟩ := p1
        simp only [h1] at h
        have r1 := lower_ballot_mask_free hct hctx hbb hops h1
        exact ihrest _ _ _ _ r1.1 r1.2 h
    cases old_instruction with
    | Let vars a =>
      cases a with
      | PrimOp op operands =>
        cases op with
        | empty_mask_op =>
          simp only [process_instructions] at h
          cases vars with
          | nil => simp at h
          | cons m vars =>
            simp only at h
            cases h1 : register_processed ctx m (int_literal .IntTy64 0) with
            | none => simp [h1] at h
            | some c1 =>
              simp only [h1] at h
              exact ihrest _ _ _ _
                (@register_processed_mask_free ctx c1 m (int_literal .IntTy64 0) hctx rfl h1) hbb h
        | mask_is_thread_active_op =>
          simp only [process_instructions] at h
          cases h1 : lower_is_thread_active arena ctx bb vars operands with
          | none => simp [h1] at h
          | some p1 =>
            obtain ⟨c1, b1⟩ := p1
            simp only [h1] at h
            have r1 := lower_is_thread_active_mask_free hct hctx hbb h1
            exact ihrest _ _ _ _ r1.1 r1.2 h
        | subgroup_active_mask_op =>
          simp only [process_instructions] at h
          exact hballot _ _
            (by simp [Operand.mask_free, process_value_mask_free hctx]) h
        | subgroup_ballot_op =>
          simp only [process_instructions] at h
          exact hballot _ _ (process_operands_mask_free hctx operands) h
        | add_op => simp only [process_instructions] at h; exact hdefault rfl h
        | and_op => simp only [process_instructions] at h; exact hdefault rfl h
        | or_op => simp only [process_instructions] at h; exact hdefault rfl h
        | eq_op => simp only [process_instructions] at h; exact hdefault rfl h
        | lshift_op => simp only [process_instructions] at h; exact hdefault rfl h
        | rshift_logical_op => simp only [process_instructions] at h; exact hdefault rfl h
        | extract_op => simp only [process_instructions] at h; exact hdefault rfl h
        | reinterpret_op => simp only [process_instructions] at h; exact hdefault rfl h
        | load_op => simp only [process_instructions] at h; exact hdefault rfl h
      | Call _ _ => simp only [process_instructions] at h; exact hdefault rfl h
      | If _ _ _ => simp only [process_instructions] at h; exact hdefault rfl h
      | Loop _ _ => simp only [process_instructions] at h; exact hdefault rfl h
    | Plain a =>
      cases a with
      | PrimOp op operands =>
        cases op with
        | empty_mask_op => simp [process_instructions] at h
        | mask_is_thread_active_op => simp [process_instructions] at h
        | subgroup_active_mask_op =>
          simp only [process_instructions] at h; exact ihrest _ _ _ _ hctx hbb h
        | subgroup_ballot_op =>
          simp only [process_instructions] at h; exact ihrest _ _ _ _ hctx hbb h
        | add_op => simp only [process_instructions] at h; exact hdefault rfl h
        | and_op => simp only [process_instructions] at h; exact hdefault rfl h
        | or_op => simp only [process_instructions] at h; exact hdefault rfl h
        | eq_op => simp only [process_instructions] at h; exact hdefault rfl h
        | lshift_op => simp only [process_instructions] at h; exact hdefault rfl h
        | rshift_logical_op => simp only [process_instructions] at h; exact hdefault rfl h
        | extract_op => simp only [process_instructions] at h; exact hdefault rfl h
        | reinterpret_op => simp only [process_instructions] at h; exact hdefault rfl h
        | load_op => simp only [process_instructions] at h; exact hdefault rfl h
      | Call _ _ => simp only [process_instructions] at h; exact hdefault rfl h
      | If _ _ _ => simp only [process_instructions] at h; exact hdefault rfl h
      | Loop _ _ => simp only [process_instructions] at h; exact hdefault rfl h
end

theorem process_declaration_mask_free (arena : IrArena)
    (hct : ∀ op operands, operands.all Operand.mask_free = true →
      (arena.check_type op operands).mask_free = true)
    (d d1 : Declaration) (ctx ctx1 : Context) (hctx : ctx.mask_free)
    (h : process_declaration arena ctx d = some (d1, ctx1)) :
    d1.mask_free = true ∧ ctx1.mask_free := by
  cases d with
  | Function name params return_types block =>
    simp only [process_declaration] at h
    cases h1 : process_block arena ctx block with
    | none => simp [h1] at h
    | some p1 =>
      obtain ⟨b1, c1⟩ := p1
      simp only [h1, Option.some.injEq, Prod.mk.injEq] at h
      obtain ⟨rfl, rfl⟩ := h
      have r1 := process_block_mask_free arena hct _ _ _ _ hctx h1
      simp [Declaration.mask_free, r1.1, r1.2, process_value_mask_free hctx,
        process_type_mask_free]
  | GlobalVariable name type address_space =>
    simp only [process_declaration, Option.some.injEq, Prod.mk.injEq] at h
    obtain ⟨rfl, rfl⟩ := h
    simp [Declaration.mask_free, hctx, process_type_mask_free]
  | Constant name value =>
    simp only [process_declaration, Option.some.injEq, Prod.mk.injEq] at h
    obtain ⟨rfl, rfl⟩ := h
    simp [Declaration.mask_free, hctx, process_value_mask_free hctx]

theorem process_declarations_mask_free (arena : IrArena)
    (hct : ∀ op operands, operands.all Operand.mask_free = true →
      (arena.check_type op operands).mask_free = true) :
    ∀ (ds ds1 : List Declaration) (ctx ctx1 : Context), ctx.mask_free →
      process_declarations arena ctx ds = some (ds1, ctx1) →
      ds1.all Declaration.mask_free = true ∧ ctx1.mask_free
  | [], ds1, ctx, ctx1, hctx, h => by
    simp only [process_declarations, Option.some.injEq, Prod.mk.injEq] at h
    obtain ⟨rfl, rfl⟩ := h
    exact ⟨rfl, hctx⟩
  | d :: ds, ds1, ctx, ctx1, hctx, h => by
    simp only [process_declarations] at h
    cases h1 : process_declaration arena ctx d with
    | none => simp [h1] at h
    | some p1 =>
      obtain ⟨d1, c1⟩ := p1
      simp only [h1] at h
      have r1 := process_declaration_mask_free arena hct d d1 ctx c1 hctx h1
      cases h2 : process_declarations arena c1 ds with
      | none => simp [h2] at h
      | some p2 =>
        obtain ⟨ds2, c2⟩ := p2
        simp only [h2, Option.some.injEq, Prod.mk.injEq] at h
        obtain ⟨rfl, rfl⟩ := h
        have r2 := process_declarations_mask_free arena hct ds ds2 c1 c2 r1.2 h2
        exact ⟨by simp [List.all_cons, r1.1, r2.1], r2.2⟩

/-- C4: whatever program `lower_mask` is given, the program it returns holds
no `MaskType` node and no primop `empty_mask`, `mask_is_thread_active` or
`subgroup_active_mask`, provided the type checker of the destination arena
gives mask-free types to primops with mask-free operands; `MaskType` itself is
rewritten to the 64-bit integer type. -/
theorem lower_mask_output_mask_free (arena : IrArena) (next_id : Nat) (src out : Root)
    (hct : ∀ op operands, operands.all Operand.mask_free = true →
      (arena.check_type op operands).mask_free = true)
    (h : lower_mask arena next_id src = some out) :
    out.mask_free = true ∧ process_type .MaskType = .Int .IntTy64 := by
  refine ⟨?_, rfl⟩
  unfold lower_mask at h
  cases h1 : process_declarations arena { processed := [], next_id := next_id }
      src.declarations with
  | none => simp [h1] at h
  | some p1 =>
    obtain ⟨ds, c1⟩ := p1
    simp only [h1, Option.some.injEq] at h
    subst h
    exact (process_declarations_mask_free arena hct _ _ _ _
      (by intro p hp; simp at hp) h1).1

theorem sample_arena_check_type_mask_free (representation : SubgroupMaskRepresentation)
    (op : Op) (operands : List Operand) :
    ((sample_arena representation).check_type op operands).mask_free = true := by
  cases op <;> cases representation <;> rfl

/-- C4, at a function that uses the four mask operations and at a global of
pointer-to-mask type. -/
theorem lower_mask_output_mask_free_witness :
    lower_mask (sample_arena .SubgroupMaskI64) 10 sample_program = some sample_lowered
    ∧ sample_lowered.mask_free = true :=
  ⟨rfl, (lower_mask_output_mask_free (sample_arena .SubgroupMaskI64) 10 sample_program
    sample_lowered (fun op operands _ => sample_arena_check_type_mask_free _ op operands)
    rfl).1⟩

/-! ## The ballot and the active mask -/

/-- C20: `subgroup_active_mask()` is lowered as `subgroup_ballot(true_lit)`:
in every context, with every block builder, in both mask representations and
whatever follows in the block, the loop of `process_block` does at
`Let{vars, subgroup_active_mask}` what it does at
`Let{vars, subgroup_ballot(true_lit)}`, the same appended instructions and the
same registration; the same holds for the two primops outside a `Let`, and for
a block of the one instruction. -/
theorem process_block_active_mask_is_ballot_of_true (arena : IrArena) (ctx : Context)
    (bb : BlockBuilder) (vars : List Value) (operands : List Operand)
    (rest : List Instruction) (terminator : Terminator) :
    process_instructions arena ctx bb
        (.Let vars (.PrimOp .subgroup_active_mask_op operands) :: rest) =
      process_instructions arena ctx bb
        (.Let vars (.PrimOp .subgroup_ballot_op [.value true_lit]) :: rest)
    ∧ process_instructions arena ctx bb
        (.Plain (.PrimOp .subgroup_active_mask_op operands) :: rest) =
      process_instructions arena ctx bb
        (.Plain (.PrimOp .subgroup_ballot_op [.value true_lit]) :: rest)
    ∧ process_block arena ctx
        (.mk (.Let vars (.PrimOp .subgroup_active_mask_op operands) :: rest) terminator) =
      process_block arena ctx
        (.mk (.Let vars (.PrimOp .subgroup_ballot_op [.value true_lit]) :: rest)
          terminator) := by
  refine ⟨?_, ?_, ?_⟩
  · simp [process_instructions, process_operand]
  · simp [process_instructions]
  · simp [process_block, process_instructions, process_operand]

/-- C18 (as stated) fails: in the block `Let{[m], subgroup_ballot(p)}; Return`
the variable `m` is used nowhere, and the output block holds a
`subgroup_ballot`. -/
theorem process_block_keeps_dead_let_ballot :
    process_block (sample_arena .SubgroupMaskI64) { processed := [], next_id := 10 }
        (.mk [.Let [.Variable "m" 3 .MaskType]
            (.PrimOp .subgroup_ballot_op [.value (.Variable "p" 1 .Bool)])]
          (.Return [])) =
      some (.mk [.Let [.Variable "" 10 int64_type]
            (.PrimOp .subgroup_ballot_op [.value (.Variable "p" 1 .Bool)])]
          (.Return []),
        { processed := [(.Variable "m" 3 .MaskType, .Variable "" 10 int64_type)],
          next_id := 11 }) := by
  rfl

/-- C18 (as amended): a `subgroup_ballot` or a `subgroup_active_mask` that is
not wrapped in a `Let`, so that it binds no variable, is dropped: the loop of
`process_block` appends nothing for it and registers nothing; a block of the
one instruction becomes the empty block. -/
theorem process_block_drops_unbound_ballot (arena : IrArena) (ctx : Context)
    (bb : BlockBuilder) (operands : List Operand) (rest : List Instruction)
    (terminator : Terminator) :
    process_instructions arena ctx bb (.Plain (.PrimOp .subgroup_ballot_op operands) :: rest) =
      process_instructions arena ctx bb rest
    ∧ process_instructions arena ctx bb
        (.Plain (.PrimOp .subgroup_active_mask_op operands) :: rest) =
      process_instructions arena ctx bb rest
    ∧ process_block arena ctx (.mk [.Plain (.PrimOp .subgroup_ballot_op operands)] terminator) =
      some (.mk [] (process_terminator ctx terminator), ctx)
    ∧ process_block arena ctx
        (.mk [.Plain (.PrimOp .subgroup_active_mask_op operands)] terminator) =
      some (.mk [] (process_terminator ctx terminator), ctx) := by
  refine ⟨?_, ?_, ?_, ?_⟩
  · simp [process_instructions]
  · simp [process_instructions]
  · simp [process_block, process_instructions, begin_block, finish_block]
  · simp [process_block, process_instructions, begin_block, finish_block]

/-! ## The other instructions -/

theorem process_instructions_other (arena : IrArena) (ctx : Context) (bb : BlockBuilder)
    (i : Instruction) (rest : List Instruction) (h : i.is_other = true) :
    process_instructions arena ctx bb (i :: rest) =
      match rewrite_instruction arena ctx i with
      | some (i1, ctx1) => process_instructions arena ctx1 (append_block bb i1) rest
      | none => none := by
  cases i with
  | Let vars a =>
    cases a with
    | PrimOp op operands =>
      cases op <;> first
        | (simp [Instruction.is_other, Instruction.actual, is_lowered_op] at h; done)
        | simp only [process_instructions]
    | Call _ _ => simp only [process_instructions]
    | If _ _ _ => simp only [process_instructions]
    | Loop _ _ => simp only [process_instructions]
  | Plain a =>
    cases a with
    | PrimOp op operands =>
      cases op <;> first
        | (simp [Instruction.is_other, Instruction.actual, is_lowered_op] at h; done)
        | simp only [process_instructions]
    | Call _ _ => simp only [process_instructions]
    | If _ _ _ => simp only [process_instructions]
    | Loop _ _ => simp only [process_instructions]

theorem lower_ballot_append (arena : IrArena) (ctx : Context) (bb : BlockBuilder)
    (vars : List Value) (operands : List Operand) :
    lower_ballot arena ctx bb vars operands =
      (lower_ballot arena ctx [] vars operands).map fun p => (p.1, bb ++ p.2) := by
  cases vars with
  | nil =>
    cases hr : arena.subgroup_mask_representation <;>
      simp [lower_ballot, gen_primop, append_block, hr]
  | cons r vars =>
    cases hr : arena.subgroup_mask_representation <;>
      simp only [lower_ballot, gen_primop, append_block, hr] <;>
      split <;> simp_all

theorem lower_is_thread_active_append (arena : IrArena) (ctx : Context) (bb : BlockBuilder)
    (vars : List Value) (old_nodes : List Operand) :
    lower_is_thread_active arena ctx bb vars old_nodes =
      (lower_is_thread_active arena ctx [] vars old_nodes).map fun p => (p.1, bb ++ p.2) := by
  cases old_nodes with
  | nil => simp [lower_is_thread_active]
  | cons n0 t =>
    cases t with
    | nil => simp [lower_is_thread_active]
    | cons n1 t =>
      cases vars with
      | nil => simp [lower_is_thread_active, gen_primop, append_block]
      | cons r vars =>
        simp only [lower_is_thread_active, gen_primop, append_block]
        split <;> simp_all

theorem process_instructions_append (arena : IrArena) :
    ∀ (l : List Instruction) (ctx : Context) (bb : BlockBuilder),
      process_instructions arena ctx bb l =
        (process_instructions arena ctx [] l).map fun p => (p.1, bb ++ p.2)
  | [], ctx, bb => by simp [process_instructions]
  | i :: rest, ctx, bb => by
    have ih := process_instructions_append arena rest
    have hnext : ∀ (c : Context) (added : BlockBuilder),
        process_instructions arena c (bb ++ added) rest =
          (process_instructions arena c added rest).map fun p => (p.1, bb ++ p.2) := by
      intro c added
      rw [ih c (bb ++ added), ih c added]
      cases process_instructions arena c [] rest <;> simp
    have hdefault :
        (match rewrite_instruction arena ctx i with
          | some (i1, ctx1) => process_instructions arena ctx1 (append_block bb i1) rest
          | none => none) =
        (match rewrite_instruction arena ctx i with
          | some (i1, ctx1) => process_instructions arena ctx1 (append_block [] i1) rest
          | none => none).map fun (p : Context × BlockBuilder) => (p.1, bb ++ p.2) := by
      cases rewrite_instruction arena ctx i with
      | none => rfl
      | some p =>
        obtain ⟨i1, c1⟩ := p
        simp only [append_block, List.nil_append]
        exact hnext c1 [i1]
    have hballot : ∀ (vars : List Value) (operands : List Operand),
        (match lower_ballot arena ctx bb vars operands with
          | some (c, b) => process_instructions arena c b rest
          | none => none) =
        (match lower_ballot arena ctx [] vars operands with
          | some (c, b) => process_instructions arena c b rest
          | none => none).map fun (p : Context × BlockBuilder) => (p.1, bb ++ p.2) := by
      intro vars operands
      rw [lower_ballot_append arena ctx bb]
      cases lower_ballot arena ctx [] vars operands with
      | none => rfl
      | some p =>
        obtain ⟨c1, b1⟩ := p
        simp only [Option.map_some']
        exact hnext c1 b1
    have hactive : ∀ (vars : List Value) (operands : List Operand),
        (match lower_is_thread_active arena ctx bb vars operands with
          | some (c, b) => process_instructions arena c b rest
          | none => none) =
        (match lower_is_thread_active arena ctx [] vars operands with
          | some (c, b) => process_instructions arena c b rest
          | none => none).map fun (p : Context × BlockBuilder) => (p.1, bb ++ p.2) := by
      intro vars operands
      rw [lower_is_thread_active_append arena ctx bb]
      cases lower_is_thread_active arena ctx [] vars operands with
      | none => rfl
      | some p =>
        obtain ⟨c1, b1⟩ := p
        simp only [Option.map_some']
        exact hnext c1 b1
    cases i with
    | Let vars a =>
      cases a with
      | PrimOp op operands =>
        cases op with
        | empty_mask_op =>
          simp only [process_instructions]
          cases vars with
          | nil => rfl
          | cons m vars =>
            simp only
            cases register_processed ctx m (int_literal .IntTy64 0) with
            | none => rfl
            | some c1 => simpa using hnext c1 []
        | mask_is_thread_active_op => simp only [process_instructions]; exact hactive _ _
        | subgroup_active_mask_op => simp only [process_instructions]; exact hballot _ _
        | subgroup_ballot_op => simp only [process_instructions]; exact hballot _ _
        | add_op => simp only [process_instructions]; exact hdefault
        | and_op => simp only [process_instructions]; exact hdefault
        | or_op => simp only [process_instructions]; exact hdefault
        | eq_op => simp only [process_instructions]; exact hdefault
        | lshift_op => simp only [process_instructions]; exact hdefault
        | rshift_logical_op => simp only [process_instructions]; exact hdefault
        | extract_op => simp only [process_instructions]; exact hdefault
        | reinterpret_op => simp only [process_instructions]; exact hdefault
        | load_op => simp only [process_instructions]; exact hdefault
      | Call _ _ => simp only [process_instructions]; exact hdefault
      | If _ _ _ => simp only [process_instructions]; exact hdefault
      | Loop _ _ => simp only [process_instructions]; exact hdefault
    | Plain a =>
      cases a with
      | PrimOp op operands =>
        cases op with
        | empty_mask_op => simp only [process_instructions]; rfl
        | mask_is_thread_active_op => simp only [process_instructions]; rfl
        | subgroup_active_mask_op => simp only [process_instructions]; simpa using hnext ctx []
        | subgroup_ballot_op => simp only [process_instructions]; simpa using hnext ctx []
        | add_op => simp only [process_instructions]; exact hdefault
        | and_op => simp only [process_instructions]; exact hdefault
        | or_op => simp only [process_instructions]; exact hdefault
        | eq_op => simp only [process_instructions]; exact hdefault
        | lshift_op => simp only [process_instructions]; exact hdefault
        | rshift_logical_op => simp only [process_instructions]; exact hdefault
        | extract_op => simp only [process_instructions]; exact hdefault
        | reinterpret_op => simp only [process_instructions]; exact hdefault
        | load_op => simp only [process_instructions]; exact hdefault
      | Call _ _ => simp only [process_instructions]; exact hdefault
      | If _ _ _ => simp only [process_instructions]; exact hdefault
      | Loop _ _ => simp only [process_instructions]; exact hdefault

theorem rewrite_instructions_length (arena : IrArena) :
    ∀ (l : List Instruction) (ctx : Context) (l1 : List Instruction) (ctx1 : Context),
      rewrite_instructions arena ctx l = some (l1, ctx1) → l1.length = l.length
  | [], ctx, l1, ctx1, h => by
    simp only [rewrite_instructions, Option.some.injEq, Prod.mk.injEq] at h
    rw [← h.1]
  | i :: rest, ctx, l1, ctx1, h => by
    simp only [rewrite_instructions] at h
    cases h1 : rewrite_instruction arena ctx i with
    | none => simp [h1] at h
    | some p =>
      obtain ⟨i1, c1⟩ := p
      simp only [h1] at h
      cases h2 : rewrite_instructions arena c1 rest with
      | none => simp [h2] at h
      | some q =>
        obtain ⟨rest1, c2⟩ := q
        simp only [h2, Option.some.injEq, Prod.mk.injEq] at h
        rw [← h.1, List.length_cons, List.length_cons,
          rewrite_instructions_length arena rest c1 rest1 c2 h2]

theorem process_instructions_all_other (arena : IrArena) :
    ∀ (l : List Instruction) (ctx : Context) (bb : BlockBuilder),
      l.all Instruction.is_other = true →
      process_instructions arena ctx bb l =
        (rewrite_instructions arena ctx l).map fun p => (p.2, bb ++ p.1)
  | [], ctx, bb, _ => by simp [process_instructions, rewrite_instructions]
  | i :: rest, ctx, bb, h => by
    simp only [List.all_cons, Bool.and_eq_true] at h
    rw [process_instructions_other arena ctx bb i rest h.1]
    simp only [rewrite_instructions]
    cases rewrite_instruction arena ctx i with
    | none => rfl
    | some p =>
      obtain ⟨i1, c1⟩ := p
      simp only [append_block]
      rw [process_instructions_all_other arena rest c1 (bb ++ [i1]) h.2]
      cases rewrite_instructions arena c1 rest with
      | none => rfl
      | some q => simp

/-- C21 (as stated) fails for a primop that is not wrapped in a `Let`: in the
block `subgroup_ballot(p); add(1, 2); Return` the ballot is no `Let` of a mask
operation, and it contributes nothing to the output block. -/
theorem process_block_drops_plain_ballot :
    process_block (sample_arena .SubgroupMaskI64) { processed := [], next_id := 10 }
        (.mk [.Plain (.PrimOp .subgroup_ballot_op [.value (.Variable "p" 1 .Bool)]),
            .Plain (.PrimOp .add_op
              [.value (int_literal .IntTy64 1), .value (int_literal .IntTy64 2)])]
          (.Return [])) =
      some (.mk [.Plain (.PrimOp .add_op
            [.value (int_literal .IntTy64 1), .value (int_literal .IntTy64 2)])]
          (.Return []),
        { processed := [], next_id := 10 }) := by
  rfl

/-- C21 (as amended). An instruction whose actual instruction, the one a
`Let` wraps or the instruction itself, is not a primop of `empty_mask`,
`mask_is_thread_active`, `subgroup_active_mask` or `subgroup_ballot`
contributes exactly one instruction to the block builder, its rewrite, and the
loop goes on with the rest.  What the loop appends comes after what the
builder holds, so contributions keep the old order.  A block of such
instructions becomes the block of their rewrites, as many and in order, and
the terminator of every output block is the rewrite of the old terminator. -/
theorem process_block_keeps_other_instructions (arena : IrArena) (ctx : Context)
    (terminator : Terminator) :
    (∀ (bb : BlockBuilder) (i : Instruction) (rest : List Instruction), i.is_other = true →
      process_instructions arena ctx bb (i :: rest) =
        match rewrite_instruction arena ctx i with
        | some (i1, ctx1) => process_instructions arena ctx1 (bb ++ [i1]) rest
        | none => none)
    ∧ (∀ (bb : BlockBuilder) (l : List Instruction),
      process_instructions arena ctx bb l =
        (process_instructions arena ctx [] l).map fun p => (p.1, bb ++ p.2))
    ∧ (∀ (l : List Instruction), l.all Instruction.is_other = true →
      process_block arena ctx (.mk l terminator) =
        (rewrite_instructions arena ctx l).map fun p =>
          (Block.mk p.1 (process_terminator p.2 terminator), p.2))
    ∧ (∀ (l l1 : List Instruction) (ctx1 : Context),
      rewrite_instructions arena ctx l = some (l1, ctx1) → l1.length = l.length)
    ∧ (∀ (l : List Instruction) (b1 : Block) (ctx1 : Context),
      process_block arena ctx (.mk l terminator) = some (b1, ctx1) →
        ∃ l1, b1 = .mk l1 (process_terminator ctx1 terminator)) := by
  refine ⟨?_, ?_, ?_, ?_, ?_⟩
  · intro bb i rest h
    exact process_instructions_other arena ctx bb i rest h
  · intro bb l
    exact process_instructions_append arena l ctx bb
  · intro l h
    simp only [process_block, begin_block, process_instructions_all_other arena l ctx [] h,
      finish_block]
    cases rewrite_instructions arena ctx l with
    | none => rfl
    | some p => simp [bind, Option.bind]
  · intro l l1 ctx1 h
    exact rewrite_instructions_length arena l ctx l1 ctx1 h
  · intro l b1 ctx1 h
    simp only [process_block, begin_block, finish_block] at h
    cases h1 : process_instructions arena ctx [] l with
    | none => simp [h1, bind, Option.bind] at h
    | some p =>
      obtain ⟨c1, bb1⟩ := p
      simp only [h1, bind, Option.bind, Option.some.injEq, Prod.mk.injEq] at h
      obtain ⟨rfl, rfl⟩ := h
      exact ⟨bb1, rfl⟩

/-- C21 at the block `x = add(m, 1); load(x); Return x`, with `m` of mask
type: two instructions in, their rewrites out, in order. -/
theorem process_block_keeps_other_instructions_witness :
    process_block (sample_arena .SubgroupMaskI64) { processed := [], next_id := 10 }
        (.mk [.Let [.Variable "x" 2 .MaskType] (.PrimOp .add_op
              [.value (.Variable "m" 1 .MaskType), .value (int_literal .IntTy64 1)]),
            .Plain (.PrimOp .load_op [.value (.Variable "x" 2 .MaskType)])]
          (.Return [.Variable "x" 2 .MaskType])) =
      some (.mk [.Let [.Variable "x" 2 int64_type] (.PrimOp .add_op
              [.value (.Variable "m" 1 int64_type), .value (int_literal .IntTy64 1)]),
            .Plain (.PrimOp .load_op [.value (.Variable "x" 2 int64_type)])]
          (.Return [.Variable "x" 2 int64_type]),
        { processed := [], next_id := 10 }) :=
  (process_block_keeps_other_instructions (sample_arena .SubgroupMaskI64)
    { processed := [], next_id := 10 } (.Return [.Variable "x" 2 .MaskType])).2.2.1
    [.Let [.Variable "x" 2 .MaskType] (.PrimOp .add_op
        [.value (.Variable "m" 1 .MaskType), .value (int_literal .IntTy64 1)]),
      .Plain (.PrimOp .load_op [.value (.Variable "x" 2 .MaskType)])]
    (by decide)

/-! ## The bit test -/

theorem bit_test_u64 (m i : Nat) (hm : m < 2 ^ 64) :
    (((m >>> i) % 2 ^ 64 &&& 1) % 2 ^ 64 = 1) ↔ m.testBit i = true := by
  have h1 : m >>> i < 2 ^ 64 := by
    rw [Nat.shiftRight_eq_div_pow]
    exact lt_of_le_of_lt (Nat.div_le_self _ _) hm
  rw [Nat.mod_eq_of_lt h1, Nat.and_one_is_mod]
  have h2 : (m >>> i) % 2 < 2 ^ 64 := lt_of_lt_of_le (Nat.mod_lt _ (by decide)) (by decide)
  rw [Nat.mod_eq_of_lt h2, Nat.testBit_to_div_mod, Nat.shiftRight_eq_div_pow]
  simp

theorem eval_value_variable (env : Nat → Nat) (name : String) (id : Nat) (type : Ty) :
    eval_value env (.Variable name id type) = env id := rfl

theorem eval_value_literal (env : Nat → Nat) (width : IntSizes) (value : Int) :
    eval_value env (.IntLiteral width value) = value.toNat := rfl

theorem eval_value_update_of_ne (env : Nat → Nat) (n x : Nat) (v : Value)
    (h : v.variable_id ≠ some n) : eval_value (Function.update env n x) v = eval_value env v := by
  cases v with
  | Variable name id type =>
    have hne : id ≠ n := by
      intro hc; exact h (by rw [hc]; rfl)
    simp [eval_value, Function.update, hne]
  | IntLiteral _ _ => rfl
  | True => rfl
  | False => rfl

/-- C27. The code `process_block` generates for
`Let{[r], mask_is_thread_active(mask, idx)}` computes a bit test.  With the
primops read as operations on 64-bit unsigned integers, the rewritten mask
standing for `m < 2^64` and the rewritten index for `i < 64`, and the
rewritten mask not being the variable the arena creates next, the four
generated instructions run to the end, and the variable that `r` is
registered to holds 1 if bit `i` of `m` is set and 0 if it is not. -/
theorem lowered_is_thread_active_tests_bit (arena : IrArena) (ctx : Context) (r : Value)
    (vars : List Value) (mask idx : Value) (more : List Operand) (terminator : Terminator)
    (env : Nat → Nat) (m i : Nat) (hm : m < 2 ^ 64) (hi : i < 64)
    (hr : search_processed ctx r = none)
    (hmask : eval_value env (process_value ctx mask) = m)
    (hidx : eval_value env (process_value ctx idx) = i)
    (hfresh : (process_value ctx mask).variable_id ≠ some ctx.next_id) :
    let index := Value.Variable "" ctx.next_id
      (arena.check_type .reinterpret_op [.type int64_type, .value (process_value ctx idx)])
    let shifted := Value.Variable "" (ctx.next_id + 1)
      (arena.check_type .rshift_logical_op [.value (process_value ctx mask), .value index])
    let masked := Value.Variable "" (ctx.next_id + 2)
      (arena.check_type .and_op [.value shifted, .value (int_literal .IntTy64 1)])
    let result := Value.Variable "" (ctx.next_id + 3)
      (arena.check_type .eq_op [.value masked, .value (int_literal .IntTy64 1)])
    let lowered : List Instruction :=
      [.Let [index] (.PrimOp .reinterpret_op
          [.type int64_type, .value (process_value ctx idx)]),
        .Let [shifted] (.PrimOp .rshift_logical_op
          [.value (process_value ctx mask), .value index]),
        .Let [masked] (.PrimOp .and_op [.value shifted, .value (int_literal .IntTy64 1)]),
        .Let [result] (.PrimOp .eq_op [.value masked, .value (int_literal .IntTy64 1)])]
    let ctx1 : Context :=
      { processed := (r, result) :: ctx.processed, next_id := ctx.next_id + 4 }
    process_block arena ctx
        (.mk [.Let (r :: vars) (.PrimOp .mask_is_thread_active_op
          (.value mask :: .value idx :: more))] terminator)
      = some (.mk lowered (process_terminator ctx1 terminator), ctx1)
    ∧ search_processed ctx1 r = some result
    ∧ (eval_instructions env lowered).map (fun env1 => eval_value env1 result)
      = some (if m.testBit i then 1 else 0)
    ∧ ((eval_instructions env lowered).map (fun env1 => eval_value env1 result) = some 1
      ↔ m.testBit i = true) := by
  have hi64 : i % 2 ^ 64 = i := Nat.mod_eq_of_lt (lt_trans hi (by decide))
  have hbit := bit_test_u64 m i hm
  have heval : (eval_instructions env
      [.Let [Value.Variable "" ctx.next_id
            (arena.check_type .reinterpret_op
              [.type int64_type, .value (process_value ctx idx)])]
          (.PrimOp .reinterpret_op [.type int64_type, .value (process_value ctx idx)]),
        .Let [Value.Variable "" (ctx.next_id + 1)
            (arena.check_type .rshift_logical_op [.value (process_value ctx mask),
              .value (Value.Variable "" ctx.next_id
                (arena.check_type .reinterpret_op
                  [.type int64_type, .value (process_value ctx idx)]))])]
          (.PrimOp .rshift_logical_op [.value (process_value ctx mask),
            .value (Value.Variable "" ctx.next_id
              (arena.check_type .reinterpret_op
                [.type int64_type, .value (process_value ctx idx)]))]),
        .Let [Value.Variable "" (ctx.next_id + 2)
            (arena.check_type .and_op
              [.value (Value.Variable "" (ctx.next_id + 1)
                (arena.check_type .rshift_logical_op [.value (process_value ctx mask),
                  .value (Value.Variable "" ctx.next_id
                    (arena.check_type .reinterpret_op
                      [.type int64_type, .value (process_value ctx idx)]))])),
                .value (int_literal .IntTy64 1)])]
          (.PrimOp .and_op
            [.value (Value.Variable "" (ctx.next_id + 1)
              (arena.check_type .rshift_logical_op [.value (process_value ctx mask),
                .value (Value.Variable "" ctx.next_id
                  (arena.check_type .reinterpret_op
                    [.type int64_type, .value (process_value ctx idx)]))])),
              .value (int_literal .IntTy64 1)]),
        .Let [Value.Variable "" (ctx.next_id + 3)
            (arena.check_type .eq_op
              [.value (Value.Variable "" (ctx.next_id + 2)
                (arena.check_type .and_op
                  [.value (Value.Variable "" (ctx.next_id + 1)
                    (arena.check_type .rshift_logical_op [.value (process_value ctx mask),
                      .value (Value.Variable "" ctx.next_id
                        (arena.check_type .reinterpret_op
                          [.type int64_type, .value (process_value ctx idx)]))])),
                    .value (int_literal .IntTy64 1)])),
                .value (int_literal .IntTy64 1)])]
          (.PrimOp .eq_op
            [.value (Value.Variable "" (ctx.next_id + 2)
              (arena.check_type .and_op
                [.value (Value.Variable "" (ctx.next_id + 1)
                  (arena.check_type .rshift_logical_op [.value (process_value ctx mask),
                    .value (Value.Variable "" ctx.next_id
                      (arena.check_type .reinterpret_op
                        [.type int64_type, .value (process_value ctx idx)]))])),
                  .value (int_literal .IntTy64 1)])),
              .value (int_literal .IntTy64 1)])]).map
        (fun env1 => env1 (ctx.next_id + 3))
      = some (if m.testBit i then 1 else 0) := by
    simp only [eval_instructions, eval_primop, eval_value_variable, eval_value_literal, hidx,
      hi64, eval_value_update_of_ne env ctx.next_id i _ hfresh, hmask, int_literal,
      Function.update_same, Option.map_some']
    have h1 : (1 : Int).toNat = 1 := rfl
    rw [h1]
    by_cases hb : m.testBit i = true
    · rw [if_pos (hbit.mpr hb), if_pos hb]
    · have hne : ¬ ((m >>> i % 2 ^ 64 &&& 1) % 2 ^ 64 = 1) := fun hc => hb (hbit.mp hc)
      rw [if_neg hne, if_neg hb]
  simp only [search_processed] at hr
  refine ⟨?_, ?_, ?_, ?_⟩
  · simp [process_block, process_instructions, lower_is_thread_active, gen_primop,
      register_processed, search_processed, hr, append_block, begin_block, finish_block,
      process_operand]
  · simp [search_processed, List.lookup]
  · exact heval
  · have h1 := heval
    simp only [eval_value_variable] at h1 ⊢
    rw [h1]
    by_cases hb : m.testBit i = true <;> simp [hb]

/-- C27 at the mask `0b0101` and the indices 2 and 1: bit 2 is set, bit 1 is
not. -/
theorem lowered_is_thread_active_tests_bit_witness :
    ((eval_instructions (fun id => if id = 1 then 5 else 2)
        [.Let [.Variable "" 10 int64_type] (.PrimOp .reinterpret_op
            [.type int64_type, .value (.Variable "idx" 2 (.Int .IntTy32))]),
          .Let [.Variable "" 11 int64_type] (.PrimOp .rshift_logical_op
            [.value (.Variable "m" 1 int64_type), .value (.Variable "" 10 int64_type)]),
          .Let [.Variable "" 12 int64_type] (.PrimOp .and_op
            [.value (.Variable "" 11 int64_type), .value (int_literal .IntTy64 1)]),
          .Let [.Variable "" 13 .Bool] (.PrimOp .eq_op
            [.value (.Variable "" 12 int64_type), .value (int_literal .IntTy64 1)])]).map
        (fun env1 => eval_value env1 (.Variable "" 13 .Bool))
      = some (if Nat.testBit 5 2 then 1 else 0)) :=
  (lowered_is_thread_active_tests_bit (sample_arena .SubgroupMaskI64)
    { processed := [], next_id := 10 } (.Variable "r" 3 .Bool) []
    (.Variable "m" 1 .MaskType) (.Variable "idx" 2 (.Int .IntTy32)) []
    (.Return [.Variable "r" 3 .Bool]) (fun id => if id = 1 then 5 else 2) 5 2
    (by decide) (by decide) (by decide) rfl rfl (by decide)).2.2.1

end LowerMask

namespace Emit

/-! ## `emit_instruction` -/

theorem emit_type_int (emitter : SpvEmitter) :
    emit_type emitter int_type =
      match find_value_dict emitter.node_ids .Int with
      | some existing => .ok (existing, emitter)
      | none =>
        .ok (emitter.file_builder.bound,
          ({ emitter with
              file_builder := (spvb_int_type emitter.file_builder 32 true).2 }).insert
            .Int emitter.file_builder.bound) := by
  simp only [int_type, emit_type]
  cases find_value_dict emitter.node_ids Node.Int <;> rfl

theorem emit_type_int_ok (emitter : SpvEmitter) :
    ∃ r, emit_type emitter int_type = .ok r := by
  rw [emit_type_int]
  cases find_value_dict emitter.node_ids Node.Int <;> exact ⟨_, rfl⟩

theorem emit_values_length (ind : Nat → SpvId) :
    ∀ (ns : Nodes) (emitter : SpvEmitter) (ids : List SpvId) (emitter1 : SpvEmitter),
      emit_values ind emitter ns = .ok (ids, emitter1) → ids.length = ns.count
  | .nil, emitter, ids, emitter1, h => by
    simp only [emit_values, Except.ok.injEq, Prod.mk.injEq] at h
    obtain ⟨rfl, _⟩ := h
    rfl
  | .cons n ns, emitter, ids, emitter1, h => by
    simp only [emit_values] at h
    cases h1 : emit_value ind emitter n none with
    | error e => simp [h1, bind, Except.bind] at h
    | ok p1 =>
      obtain ⟨id, e1⟩ := p1
      cases h2 : emit_values ind e1 ns with
      | error e => simp [h1, h2, bind, Except.bind] at h
      | ok p2 =>
        obtain ⟨ids2, e2⟩ := p2
        simp only [h1, h2, bind, Except.bind, Except.ok.injEq, Prod.mk.injEq] at h
        obtain ⟨rfl, _⟩ := h
        have := emit_values_length ind ns e1 ids2 e2 h2
        simp [Nodes.count, Nodes.toList] at this ⊢
        exact this

theorem emit_values_cons (ind : Nat → SpvId) (emitter : SpvEmitter) (n : Node) (ns : Nodes) :
    emit_values ind emitter (.cons n ns) =
      match emit_value ind emitter n none with
      | .ok (id, emitter1) =>
        match emit_values ind emitter1 ns with
        | .ok (ids, emitter2) => .ok (id :: ids, emitter2)
        | .error e => .error e
      | .error e => .error e := by
  simp only [emit_values, bind, Except.bind]
  cases emit_value ind emitter n none with
  | error e => rfl
  | ok p =>
    obtain ⟨id, e1⟩ := p
    simp only
    cases emit_values ind e1 ns with
    | error e => rfl
    | ok q => rfl

/-- C8: on `Return{values}`, `emit_instruction` appends `OpReturn` when there is
no value; `OpReturnValue` of the id `emit_value` gives the value when there is
one; and, when there are two or more, one `OpCompositeConstruct` with a fresh
result id, the return type id of the function as its type and the ids of the
values, in order and as many as the values, as its constituents, followed by
`OpReturnValue` of that result id. -/
theorem emit_instruction_return (ind : Nat → SpvId) (emitter : SpvEmitter)
    (fnb : SpvFnBuilder) (bbb : SpvBasicBlockBuilder) :
    emit_instruction ind emitter fnb bbb (.Return .nil) =
      .ok (emitter, { bbb with instructions := bbb.instructions ++ [.OpReturn] })
    ∧ (∀ (v : Node) (id : SpvId) (emitter1 : SpvEmitter),
        emit_value ind emitter v none = .ok (id, emitter1) →
        emit_instruction ind emitter fnb bbb (.Return (.cons v .nil)) =
          .ok (emitter1,
            { bbb with instructions := bbb.instructions ++ [.OpReturnValue id] }))
    ∧ (∀ (v v1 : Node) (vs : Nodes) (ids : List SpvId) (emitter1 : SpvEmitter),
        emit_values ind emitter (.cons v (.cons v1 vs)) = .ok (ids, emitter1) →
        ids.length = (Nodes.cons v (.cons v1 vs)).count
        ∧ emit_instruction ind emitter fnb bbb (.Return (.cons v (.cons v1 vs))) =
          .ok ({ emitter1 with
                file_builder :=
                  { emitter1.file_builder with bound := emitter1.file_builder.bound + 1 } },
            { bbb with
                instructions := bbb.instructions ++
                  [.OpCompositeConstruct emitter1.file_builder.bound (fn_ret_type_id fnb) ids,
                    .OpReturnValue emitter1.file_builder.bound] })) := by
  refine ⟨?_, ?_, ?_⟩
  · simp [emit_instruction, spvb_return_void, SpvBasicBlockBuilder.write]
  · intro v id emitter1 h
    simp [emit_instruction, h, bind, Except.bind, spvb_return_value,
      SpvBasicBlockBuilder.write]
  · intro v v1 vs ids emitter1 h
    refine ⟨emit_values_length ind _ _ _ _ h, ?_⟩
    rw [emit_values_cons] at h
    cases h1 : emit_value ind emitter v none with
    | error e => simp [h1] at h
    | ok p1 =>
      obtain ⟨id, e1⟩ := p1
      simp only [h1] at h
      cases h2 : emit_values ind e1 (.cons v1 vs) with
      | error e => simp [h2] at h
      | ok p2 =>
        obtain ⟨ids2, e2⟩ := p2
        simp only [h2, Except.ok.injEq, Prod.mk.injEq] at h
        obtain ⟨rfl, rfl⟩ := h
        simp [emit_instruction, h1, h2, bind, Except.bind, spvb_return_value, spvb_composite,
          spvb_fresh_id, SpvBasicBlockBuilder.write]

/-- C8, at `Return` of two integer literals. -/
theorem emit_instruction_return_witness :
    emit_values (fun _ => 0) sample_emitter
        (.cons (.IntLiteral 5 .Int) (.cons (.IntLiteral 6 .Int) .nil)) =
      .ok ([2, 4],
        sample_emitter_after_literals)
    ∧ emit_instruction (fun _ => 0) sample_emitter sample_fn_builder (spvb_begin_bb 50)
        (.Return (.cons (.IntLiteral 5 .Int) (.cons (.IntLiteral 6 .Int) .nil))) =
      .ok (⟨⟨6, [.OpTypeVoid 1, .OpTypeInt 3 32 true, .OpConstant 2 3 [5],
            .OpConstant 4 3 [6]]⟩, 1,
          [(.IntLiteral 6 .Int, 4), (.Int, 3), (.IntLiteral 5 .Int, 2)]⟩,
        ⟨50, [.OpCompositeConstruct 5 102 [2, 4], .OpReturnValue 5]⟩) :=
  ⟨by rfl,
    ((emit_instruction_return (fun _ => 0) sample_emitter sample_fn_builder
      (spvb_begin_bb 50)).2.2 (.IntLiteral 5 .Int) (.IntLiteral 6 .Int) .nil [2, 4]
      sample_emitter_after_literals (by rfl)).2⟩

theorem find_insert_dict_of_some {node_ids : List (Node × SpvId)} {k : Node} {v : SpvId}
    (n : Node) (id : SpvId) (h : find_value_dict node_ids k = some v) :
    find_value_dict (insert_dict node_ids n id) k = some v := by
  unfold insert_dict
  cases hn : find_value_dict node_ids n with
  | some _ => exact h
  | none =>
    have hne : (k == n) = false := by
      by_cases hkn : k = n
      · subst hkn; rw [hn] at h; cases h
      · simpa using hkn
    simpa [find_value_dict, List.lookup, hne] using h

theorem find_insert_dict_of_none {node_ids : List (Node × SpvId)} (n : Node) (id : SpvId)
    (h : find_value_dict node_ids n = none) :
    find_value_dict (insert_dict node_ids n id) n = some id := by
  unfold insert_dict
  simp only [h]
  simp [find_value_dict, List.lookup]

theorem register_outputs_preserves (ind : Nat → SpvId) (out0 : SpvId) :
    ∀ (vs : Vars) (emitter : SpvEmitter) (i : Nat) (k : Node) (v : SpvId),
      find_value_dict emitter.node_ids k = some v →
      find_value_dict (register_outputs ind out0 emitter i vs).node_ids k = some v
  | .nil, emitter, i, k, v, h => by simpa [register_outputs] using h
  | .cons name id type vs, emitter, i, k, v, h => by
    simp only [register_outputs]
    apply register_outputs_preserves ind out0 vs
    simp only [SpvEmitter.insert]
    exact find_insert_dict_of_some _ _ h

/-- C9: on a `Let` of `PrimOp{add, [a, b]}`, whose operands are emitted to
`ida` and `idb`, `emit_instruction` appends exactly one instruction to the
block, an `OpIAdd` with a fresh result id, the id of the `Int` type as result
type and `ida`, `idb` as operands, in that order, whatever the `Let` binds.
An `add` yields one value, so the `Let` binds one variable `x`; `x` is bound
nowhere else, so it is not recorded when the `Let` reaches it.  The variable
is then named, and recorded in `node_ids` under the result id of the `OpIAdd`,
which is all `emit_instruction` adds to the dictionary; every bound variable
of the `Let` resolves to that id: `emit_value` on it returns the id and emits
nothing. -/
theorem emit_instruction_add (ind : Nat → SpvId) (emitter : SpvEmitter) (fnb : SpvFnBuilder)
    (bbb : SpvBasicBlockBuilder) (vars : Vars) (a b : Node) (ida idb i32_t : SpvId)
    (emitter1 emitter2 : SpvEmitter)
    (hargs : emit_values ind emitter (.cons a (.cons b .nil)) = .ok ([ida, idb], emitter1))
    (htype : emit_type emitter1 int_type = .ok (i32_t, emitter2)) :
    let out0 := emitter2.file_builder.bound
    let emitter3 : SpvEmitter :=
      { emitter2 with file_builder := { emitter2.file_builder with bound := out0 + 1 } }
    emit_instruction ind emitter fnb bbb
        (.Let vars (.PrimOp .add_op (.cons a (.cons b .nil)))) =
      .ok (register_outputs ind out0 emitter3 0 vars,
        { bbb with instructions := bbb.instructions ++ [.OpIAdd out0 i32_t ida idb] })
    ∧ ∀ (name : String) (id : Nat) (type : Node),
        vars = .cons name id type .nil →
        find_value_dict emitter2.node_ids (.Variable name id type) = none →
        let emitter4 : SpvEmitter :=
          { file_builder :=
              { bound := out0 + 1,
                words := emitter2.file_builder.words ++ [.OpName out0 name] },
            void_t := emitter2.void_t,
            node_ids := (.Variable name id type, out0) :: emitter2.node_ids }
        register_outputs ind out0 emitter3 0 vars = emitter4
        ∧ ∀ v ∈ vars.toList,
          find_value_dict emitter4.node_ids v = some out0
          ∧ emit_value ind emitter4 v none = .ok (out0, emitter4) := by
  intro out0 emitter3
  refine ⟨?_, ?_⟩
  · simp [emit_instruction, emit_primop_call, hargs, htype, bind, Except.bind, spvb_binop,
      spvb_fresh_id, read_ids, SpvBasicBlockBuilder.write, emitter3, out0]
  · intro name id type hvars hfresh emitter4
    subst hvars
    have hfind : find_value_dict emitter4.node_ids (.Variable name id type) = some out0 := by
      simp [emitter4, find_value_dict, List.lookup]
    refine ⟨?_, ?_⟩
    · simp [register_outputs, spvb_name, SpvFileBuilder.write, SpvEmitter.insert, insert_dict,
        hfresh, emitter4, emitter3, out0]
    · intro v hv
      simp only [Vars.toList, List.mem_singleton] at hv
      subst hv
      exact ⟨hfind, by simp [emit_value, hfind]⟩

/-- C9, at `Let x = add(5, 6)`: one `OpIAdd 5` of the type 3 over the ids 2 and
4 of the literals, `x` named and recorded under 5, and `x` resolved to 5. -/
theorem emit_instruction_add_witness :
    emit_values (fun _ => 0) sample_emitter
        (.cons (.IntLiteral 5 .Int) (.cons (.IntLiteral 6 .Int) .nil)) =
      .ok ([2, 4],
        sample_emitter_after_literals)
    ∧ emit_instruction (fun _ => 0) sample_emitter sample_fn_builder (spvb_begin_bb 50)
        (.Let (.cons "x" 1 .Int .nil)
          (.PrimOp .add_op (.cons (.IntLiteral 5 .Int) (.cons (.IntLiteral 6 .Int) .nil)))) =
      .ok (⟨⟨6, [.OpTypeVoid 1, .OpTypeInt 3 32 true, .OpConstant 2 3 [5],
            .OpConstant 4 3 [6], .OpName 5 "x"]⟩, 1,
          [(.Variable "x" 1 .Int, 5), (.IntLiteral 6 .Int, 4), (.Int, 3),
            (.IntLiteral 5 .Int, 2)]⟩,
        ⟨50, [.OpIAdd 5 3 2 4]⟩)
    ∧ emit_value (fun _ => 0)
        ⟨⟨6, [.OpTypeVoid 1, .OpTypeInt 3 32 true, .OpConstant 2 3 [5],
            .OpConstant 4 3 [6], .OpName 5 "x"]⟩, 1,
          [(.Variable "x" 1 .Int, 5), (.IntLiteral 6 .Int, 4), (.Int, 3),
            (.IntLiteral 5 .Int, 2)]⟩ (.Variable "x" 1 .Int) none =
      .ok (5, ⟨⟨6, [.OpTypeVoid 1, .OpTypeInt 3 32 true, .OpConstant 2 3 [5],
            .OpConstant 4 3 [6], .OpName 5 "x"]⟩, 1,
          [(.Variable "x" 1 .Int, 5), (.IntLiteral 6 .Int, 4), (.Int, 3),
            (.IntLiteral 5 .Int, 2)]⟩) :=
  ⟨by rfl,
    (emit_instruction_add (fun _ => 0) sample_emitter sample_fn_builder (spvb_begin_bb 50)
      (.cons "x" 1 .Int .nil) (.IntLiteral 5 .Int) (.IntLiteral 6 .Int) 2 4 3
      sample_emitter_after_literals sample_emitter_after_literals (by rfl) (by rfl)).1,
    (((emit_instruction_add (fun _ => 0) sample_emitter sample_fn_builder (spvb_begin_bb 50)
      (.cons "x" 1 .Int .nil) (.IntLiteral 5 .Int) (.IntLiteral 6 .Int) 2 4 3
      sample_emitter_after_literals sample_emitter_after_literals (by rfl) (by rfl)).2
        "x" 1 .Int rfl (by rfl)).2 (.Variable "x" 1 .Int) (by simp [Vars.toList])).2⟩

/-- C10: `emit_instruction` fails, with a message, on every instruction that
is neither a `Return` nor a `Let` of an `add` primop; on a `Return` it
succeeds exactly when its values are emitted without error, and on a `Let` of
an `add` primop exactly when the operands are. -/
theorem emit_instruction_unsupported (ind : Nat → SpvId) (emitter : SpvEmitter)
    (fnb : SpvFnBuilder) (bbb : SpvBasicBlockBuilder) :
    (∀ (instruction : Node), is_supported_instruction instruction = false →
      ∃ e, emit_instruction ind emitter fnb bbb instruction = .error e)
    ∧ (∀ (values : Nodes),
      (∃ r, emit_instruction ind emitter fnb bbb (.Return values) = .ok r) ↔
        ∃ r, emit_values ind emitter values = .ok r)
    ∧ (∀ (vars : Vars) (args : Nodes),
      (∃ r, emit_instruction ind emitter fnb bbb (.Let vars (.PrimOp .add_op args)) = .ok r) ↔
        ∃ r, emit_values ind emitter args = .ok r) := by
  refine ⟨?_, ?_, ?_⟩
  · intro instruction hi
    cases instruction with
    | Let vars target =>
      cases target with
      | PrimOp op args =>
        cases hargs : emit_values ind emitter args with
        | error e =>
          simp [emit_instruction, emit_primop_call, hargs, bind, Except.bind]
        | ok p =>
          obtain ⟨arr, e1⟩ := p
          obtain ⟨⟨t, e2⟩, ht⟩ := emit_type_int_ok e1
          cases op with
          | add_op => simp [is_supported_instruction] at hi
          | sub_op =>
            simp [emit_instruction, emit_primop_call, hargs, ht, bind, Except.bind]
          | mul_op =>
            simp [emit_instruction, emit_primop_call, hargs, ht, bind, Except.bind]
          | load_op =>
            simp [emit_instruction, emit_primop_call, hargs, ht, bind, Except.bind]
          | store_op =>
            simp [emit_instruction, emit_primop_call, hargs, ht, bind, Except.bind]
      | Call _ _ => simp [emit_instruction, emit_primop_call, bind, Except.bind]
      | Int => simp [emit_instruction, emit_primop_call, bind, Except.bind]
      | Float => simp [emit_instruction, emit_primop_call, bind, Except.bind]
      | PtrType _ _ =>
        simp [emit_instruction, emit_primop_call, bind, Except.bind]
      | RecordType _ =>
        simp [emit_instruction, emit_primop_call, bind, Except.bind]
      | FnType _ _ => simp [emit_instruction, emit_primop_call, bind, Except.bind]
      | QualifiedType _ _ =>
        simp [emit_instruction, emit_primop_call, bind, Except.bind]
      | Variable _ _ _ =>
        simp [emit_instruction, emit_primop_call, bind, Except.bind]
      | IntLiteral _ _ =>
        simp [emit_instruction, emit_primop_call, bind, Except.bind]
      | Function _ _ _ =>
        simp [emit_instruction, emit_primop_call, bind, Except.bind]
      | Let _ _ => simp [emit_instruction, emit_primop_call, bind, Except.bind]
      | Return _ => simp [emit_instruction, emit_primop_call, bind, Except.bind]
      | StructuredSelection _ _ _ =>
        simp [emit_instruction, emit_primop_call, bind, Except.bind]
    | Return _ => simp [is_supported_instruction] at hi
    | Int => simp [emit_instruction]
    | Float => simp [emit_instruction]
    | PtrType _ _ => simp [emit_instruction]
    | RecordType _ => simp [emit_instruction]
    | FnType _ _ => simp [emit_instruction]
    | QualifiedType _ _ => simp [emit_instruction]
    | Variable _ _ _ => simp [emit_instruction]
    | IntLiteral _ _ => simp [emit_instruction]
    | Function _ _ _ => simp [emit_instruction]
    | PrimOp _ _ => simp [emit_instruction]
    | Call _ _ => simp [emit_instruction]
    | StructuredSelection _ _ _ => simp [emit_instruction]
  · intro values
    cases values with
    | nil => simp [emit_instruction, emit_values]
    | cons v vs =>
      cases vs with
      | nil =>
        rw [emit_values_cons]
        cases h1 : emit_value ind emitter v none with
        | error e => simp [emit_instruction, h1, bind, Except.bind]
        | ok p =>
          obtain ⟨id, e1⟩ := p
          simp [emit_instruction, h1, bind, Except.bind, emit_values]
      | cons v1 vs =>
        rw [emit_values_cons]
        cases h1 : emit_value ind emitter v none with
        | error e => simp [emit_instruction, h1, bind, Except.bind]
        | ok p =>
          obtain ⟨id, e1⟩ := p
          cases h2 : emit_values ind e1 (.cons v1 vs) with
          | error e => simp [emit_instruction, h1, h2, bind, Except.bind]
          | ok q =>
            obtain ⟨ids, e2⟩ := q
            simp [emit_instruction, h1, h2, bind, Except.bind]
  · intro vars args
    cases hargs : emit_values ind emitter args with
    | error e => simp [emit_instruction, emit_primop_call, hargs, bind, Except.bind]
    | ok p =>
      obtain ⟨arr, e1⟩ := p
      obtain ⟨⟨t, e2⟩, ht⟩ := emit_type_int_ok e1
      simp [emit_instruction, emit_primop_call, hargs, ht, bind, Except.bind]

/-- C10, at a `Let` of `sub`, a `Let` of a call and a bare primop. -/
theorem emit_instruction_unsupported_witness :
    emit_instruction (fun _ => 0) sample_emitter sample_fn_builder (spvb_begin_bb 50)
        (.Let (.cons "x" 1 .Int .nil)
          (.PrimOp .sub_op (.cons (.IntLiteral 5 .Int) (.cons (.IntLiteral 6 .Int) .nil)))) =
      .error "TODO: unhandled op"
    ∧ emit_instruction (fun _ => 0) sample_emitter sample_fn_builder (spvb_begin_bb 50)
        (.Let (.cons "x" 1 .Int .nil) (.Call (.IntLiteral 5 .Int) .nil)) =
      .error "not implemented"
    ∧ emit_instruction (fun _ => 0) sample_emitter sample_fn_builder (spvb_begin_bb 50)
        (.PrimOp .add_op (.cons (.IntLiteral 5 .Int) (.cons (.IntLiteral 6 .Int) .nil))) =
      .error "TODO: emit instruction"
    ∧ ∃ e, emit_instruction (fun _ => 0) sample_emitter sample_fn_builder (spvb_begin_bb 50)
        (.StructuredSelection (.IntLiteral 5 .Int) .nil .nil) = .error e :=
  ⟨by rfl, by rfl, by rfl,
    (emit_instruction_unsupported (fun _ => 0) sample_emitter sample_fn_builder
      (spvb_begin_bb 50)).1 _ rfl⟩

/-! ## `emit_addr_space` -/

/-- C11: `emit_addr_space` is the address-space table: `Generic`, `Private`
and `Shared` map to `Generic`, `Private` and `CrossWorkgroup` whatever
`is_for_variable_decl` is; `Global` maps to `StorageBuffer` for a variable
declaration and to `PhysicalStorageBuffer` otherwise; every other address
space, `External` and `PushConstant`, is unreachable. -/
theorem emit_addr_space_table (is_for_variable_decl : Bool) :
    emit_addr_space .AsGeneric is_for_variable_decl = .ok .SpvStorageClassGeneric
    ∧ emit_addr_space .AsPrivate is_for_variable_decl = .ok .SpvStorageClassPrivate
    ∧ emit_addr_space .AsShared is_for_variable_decl = .ok .SpvStorageClassCrossWorkgroup
    ∧ emit_addr_space .AsGlobal true = .ok .SpvStorageClassStorageBuffer
    ∧ emit_addr_space .AsGlobal false = .ok .SpvStorageClassPhysicalStorageBuffer
    ∧ emit_addr_space .AsExternal is_for_variable_decl = .error "unreachable"
    ∧ emit_addr_space .AsPushConstant is_for_variable_decl = .error "unreachable"
    ∧ ∀ (address_space : AddressSpace),
        address_space ≠ .AsGeneric → address_space ≠ .AsPrivate →
        address_space ≠ .AsShared → address_space ≠ .AsGlobal →
        emit_addr_space address_space is_for_variable_decl = .error "unreachable" := by
  refine ⟨rfl, rfl, rfl, rfl, rfl, rfl, rfl, ?_⟩
  intro address_space h1 h2 h3 h4
  cases address_space <;> first | rfl | contradiction

/-- C11, at the address space `External`. -/
theorem emit_addr_space_table_witness :
    emit_addr_space .AsExternal true = .error "unreachable" :=
  (emit_addr_space_table true).2.2.2.2.2.2.2 .AsExternal (by decide) (by decide) (by decide)
    (by decide)

/-! ## The dictionary: a node is emitted once -/

theorem except_bind_ok {ε α β : Type} (x : Except ε α) (f : α → Except ε β) (r : β) :
    (x >>= f) = .ok r ↔ ∃ a, x = .ok a ∧ f a = .ok r := by
  cases x <;> simp [bind, Except.bind]

theorem find_insert_dict_ne {node_ids : List (Node × SpvId)} {k n : Node} (id : SpvId)
    (h : k ≠ n) : find_value_dict (insert_dict node_ids n id) k = find_value_dict node_ids k := by
  unfold insert_dict
  cases hn : find_value_dict node_ids n with
  | some _ => rfl
  | none =>
    have hne : (k == n) = false := by simpa using h
    simp [find_value_dict, List.lookup, hne]

theorem adds_below_refl (emitter : SpvEmitter) (b : Nat) : adds_below emitter emitter b :=
  fun _ h => Or.inl h

theorem adds_below_trans {e1 e2 e3 : SpvEmitter} {b1 b2 b : Nat}
    (h12 : adds_below e1 e2 b1) (h23 : adds_below e2 e3 b2) (hb1 : b1 ≤ b) (hb2 : b2 ≤ b) :
    adds_below e1 e3 b := by
  intro k hk
  rcases h23 k hk with h | h
  · rcases h12 k h with h | h
    · exact Or.inl h
    · exact Or.inr (by omega)
  · exact Or.inr (by omega)

theorem adds_below_insert {e1 e2 : SpvEmitter} {b : Nat} (fb : SpvFileBuilder) (n : Node)
    (id : SpvId) (h : adds_below e1 e2 b) (hn : sizeOf n < b) :
    adds_below e1 (({ e2 with file_builder := fb }).insert n id) b := by
  intro k hk
  by_cases hkn : k = n
  · subst hkn; exact Or.inr hn
  · simp only [SpvEmitter.insert] at hk
    rw [find_insert_dict_ne id hkn] at hk
    exact h k hk

theorem adds_below_insert_same {e1 e2 : SpvEmitter} {b : Nat} (n : Node)
    (id : SpvId) (h : adds_below e1 e2 b) (hn : sizeOf n < b) :
    adds_below e1 (e2.insert n id) b :=
  adds_below_insert e2.file_builder n id h hn

theorem adds_below_mono {e1 e2 : SpvEmitter} {b1 b : Nat} (h : adds_below e1 e2 b1)
    (hb : b1 ≤ b) : adds_below e1 e2 b :=
  adds_below_trans h (adds_below_refl e2 0) hb (Nat.zero_le b)

mutual
theorem emit_type_adds_below :
    ∀ (t : Node) (em : SpvEmitter) (id : SpvId) (em1 : SpvEmitter),
      emit_type em t = .ok (id, em1) → adds_below em em1 (sizeOf t + 1)
  | .Int, em, id, em1, h => by
    simp only [emit_type] at h
    split at h
    · simp only [Except.ok.injEq, Prod.mk.injEq] at h
      obtain ⟨_, rfl⟩ := h
      exact adds_below_refl _ _
    · simp only [spvb_int_type, spvb_fresh_id, Except.ok.injEq, Prod.mk.injEq] at h
      obtain ⟨_, rfl⟩ := h
      exact adds_below_insert _ _ _ (adds_below_refl _ _) (by simp_arith)
  | .PtrType a p, em, id, em1, h => by
    have ihp := emit_type_adds_below p em
    simp only [emit_type] at h
    split at h
    · simp only [Except.ok.injEq, Prod.mk.injEq] at h
      obtain ⟨_, rfl⟩ := h
      exact adds_below_refl _ _
    · rw [except_bind_ok] at h
      obtain ⟨⟨pointee, e1⟩, h1, h2⟩ := h
      simp only at h2
      rw [except_bind_ok] at h2
      obtain ⟨sc, _, h3⟩ := h2
      simp only [spvb_ptr_type, spvb_fresh_id, Except.ok.injEq, Prod.mk.injEq] at h3
      obtain ⟨_, rfl⟩ := h3
      exact adds_below_insert _ _ _ (adds_below_mono (ihp _ _ h1) (by simp_arith))
        (by simp_arith)
  | .RecordType ms, em, id, em1, h => by
    have ihm := emit_types_adds_below ms em
    simp only [emit_type] at h
    split at h
    · simp only [Except.ok.injEq, Prod.mk.injEq] at h
      obtain ⟨_, rfl⟩ := h
      exact adds_below_refl _ _
    · rw [except_bind_ok] at h
      obtain ⟨⟨ids, e1⟩, h1, h2⟩ := h
      simp only [spvb_struct_type, spvb_fresh_id, Except.ok.injEq, Prod.mk.injEq] at h2
      obtain ⟨_, rfl⟩ := h2
      exact adds_below_insert _ _ _ (adds_below_mono (ihm _ _ h1) (by simp_arith))
        (by simp_arith)
  | .FnType ps rs, em, id, em1, h => by
    have ihps := emit_types_adds_below ps em
    simp only [emit_type] at h
    split at h
    · simp only [Except.ok.injEq, Prod.mk.injEq] at h
      obtain ⟨_, rfl⟩ := h
      exact adds_below_refl _ _
    · rw [except_bind_ok] at h
      obtain ⟨⟨ids, e1⟩, h1, h2⟩ := h
      have ihrs := nodes2codom_adds_below rs e1
      simp only at h2
      rw [except_bind_ok] at h2
      obtain ⟨⟨codom, e2⟩, h3, h4⟩ := h2
      simp only [spvb_fn_type, spvb_fresh_id, Except.ok.injEq, Prod.mk.injEq] at h4
      obtain ⟨_, rfl⟩ := h4
      have hps : 1 ≤ sizeOf ps := by cases ps <;> simp_arith
      exact adds_below_insert _ _ _
        (adds_below_trans (ihps _ _ h1) (ihrs _ _ h3) (by simp_arith) (by simp_arith))
        (by simp_arith)
  | .QualifiedType u t, em, id, em1, h => by
    have iht := emit_type_adds_below t em
    simp only [emit_type] at h
    split at h
    · simp only [Except.ok.injEq, Prod.mk.injEq] at h
      obtain ⟨_, rfl⟩ := h
      exact adds_below_refl _ _
    · rw [except_bind_ok] at h
      obtain ⟨⟨new, e1⟩, h1, h2⟩ := h
      simp only [Except.ok.injEq, Prod.mk.injEq] at h2
      obtain ⟨_, rfl⟩ := h2
      exact adds_below_insert_same _ _ (adds_below_mono (iht _ _ h1) (by simp_arith))
        (by simp_arith)
  | .Float, em, id, em1, h => by
    simp only [emit_type] at h
    split at h
    · simp only [Except.ok.injEq, Prod.mk.injEq] at h
      obtain ⟨_, rfl⟩ := h
      exact adds_below_refl _ _
    · cases h
  | .Variable _ _ _, em, id, em1, h => by
    simp only [emit_type] at h
    split at h
    · simp only [Except.ok.injEq, Prod.mk.injEq] at h
      obtain ⟨_, rfl⟩ := h
      exact adds_below_refl _ _
    · cases h
  | .IntLiteral _ _, em, id, em1, h => by
    simp only [emit_type] at h
    split at h
    · simp only [Except.ok.injEq, Prod.mk.injEq] at h
      obtain ⟨_, rfl⟩ := h
      exact adds_below_refl _ _
    · cases h
  | .Function _ _ _, em, id, em1, h => by
    simp only [emit_type] at h
    split at h
    · simp only [Except.ok.injEq, Prod.mk.injEq] at h
      obtain ⟨_, rfl⟩ := h
      exact adds_below_refl _ _
    · cases h
  | .Let _ _, em, id, em1, h => by
    simp only [emit_type] at h
    split at h
    · simp only [Except.ok.injEq, Prod.mk.injEq] at h
      obtain ⟨_, rfl⟩ := h
      exact adds_below_refl _ _
    · cases h
  | .PrimOp _ _, em, id, em1, h => by
    simp only [emit_type] at h
    split at h
    · simp only [Except.ok.injEq, Prod.mk.injEq] at h
      obtain ⟨_, rfl⟩ := h
      exact adds_below_refl _ _
    · cases h
  | .Call _ _, em, id, em1, h => by
    simp only [emit_type] at h
    split at h
    · simp only [Except.ok.injEq, Prod.mk.injEq] at h
      obtain ⟨_, rfl⟩ := h
      exact adds_below_refl _ _
    · cases h
  | .Return _, em, id, em1, h => by
    simp only [emit_type] at h
    split at h
    · simp only [Except.ok.injEq, Prod.mk.injEq] at h
      obtain ⟨_, rfl⟩ := h
      exact adds_below_refl _ _
    · cases h
  | .StructuredSelection _ _ _, em, id, em1, h => by
    simp only [emit_type] at h
    split at h
    · simp only [Except.ok.injEq, Prod.mk.injEq] at h
      obtain ⟨_, rfl⟩ := h
      exact adds_below_refl _ _
    · cases h
theorem emit_types_adds_below :
    ∀ (ts : Nodes) (em : SpvEmitter) (ids : List SpvId) (em1 : SpvEmitter),
      emit_types em ts = .ok (ids, em1) → adds_below em em1 (sizeOf ts)
  | .nil, em, ids, em1, h => by
    simp only [emit_types, Except.ok.injEq, Prod.mk.injEq] at h
    obtain ⟨_, rfl⟩ := h
    exact adds_below_refl _ _
  | .cons t ts, em, ids, em1, h => by
    have iht := emit_type_adds_below t em
    simp only [emit_types] at h
    rw [except_bind_ok] at h
    obtain ⟨⟨id, e1⟩, h1, h2⟩ := h
    have ihts := emit_types_adds_below ts e1
    simp only at h2
    rw [except_bind_ok] at h2
    obtain ⟨⟨ids2, e2⟩, h3, h4⟩ := h2
    simp only [Except.ok.injEq, Prod.mk.injEq] at h4
    obtain ⟨_, rfl⟩ := h4
    exact adds_below_trans (iht _ _ h1) (ihts _ _ h3) (by simp_arith) (by simp_arith)
theorem nodes2codom_adds_below :
    ∀ (rs : Nodes) (em : SpvEmitter) (id : SpvId) (em1 : SpvEmitter),
      nodes2codom em rs = .ok (id, em1) → adds_below em em1 (sizeOf rs + 2)
  | .nil, em, id, em1, h => by
    simp only [nodes2codom, Except.ok.injEq, Prod.mk.injEq] at h
    obtain ⟨_, rfl⟩ := h
    exact adds_below_refl _ _
  | .cons t .nil, em, id, em1, h => by
    have iht := emit_type_adds_below t em
    simp only [nodes2codom] at h
    exact adds_below_mono (iht _ _ h) (by simp_arith)
  | .cons t (.cons t1 ts), em, id, em1, h => by
    have iht := emit_type_adds_below t em
    simp only [nodes2codom] at h
    split at h
    · simp only [Except.ok.injEq, Prod.mk.injEq] at h
      obtain ⟨_, rfl⟩ := h
      exact adds_below_refl _ _
    · rw [except_bind_ok] at h
      obtain ⟨⟨id1, e1⟩, h1, h2⟩ := h
      have ihts := emit_types_adds_below (.cons t1 ts) e1
      simp only at h2
      rw [except_bind_ok] at h2
      obtain ⟨⟨ids2, e2⟩, h3, h4⟩ := h2
      simp only [spvb_struct_type, spvb_fresh_id, Except.ok.injEq, Prod.mk.injEq] at h4
      obtain ⟨_, rfl⟩ := h4
      exact adds_below_insert _ _ _
        (adds_below_trans (iht _ _ h1) (ihts _ _ h3) (by simp_arith) (by simp_arith))
        (by simp_arith)
end

theorem adds_below_none {e1 e2 : SpvEmitter} {b : Nat} {k : Node} (h : adds_below e1 e2 b)
    (hk : find_value_dict e1.node_ids k = none) (hb : b ≤ sizeOf k) :
    find_value_dict e2.node_ids k = none := by
  by_contra hne
  rcases h k hne with h1 | h1
  · exact h1 hk
  · omega

/-- A recorded node: `emit_type` answers from the dictionary. -/
theorem emit_type_hit (emitter : SpvEmitter) (type : Node) (id : SpvId)
    (h : find_value_dict emitter.node_ids type = some id) :
    emit_type emitter type = .ok (id, emitter) := by
  cases type <;> simp only [emit_type, h]

/-- A recorded node: `emit_value` answers from the dictionary. -/
theorem emit_value_hit (indeterminate : Nat → SpvId) (emitter : SpvEmitter) (node : Node)
    (use_id : Option SpvId) (id : SpvId)
    (h : find_value_dict emitter.node_ids node = some id) :
    emit_value indeterminate emitter node use_id = .ok (id, emitter) := by
  cases node <;> simp only [emit_value, h]

/-- The type `emit_type` returns an id for is recorded under that id. -/
theorem emit_type_records (t : Node) (em : SpvEmitter) (id : SpvId) (em1 : SpvEmitter)
    (h : emit_type em t = .ok (id, em1)) : find_value_dict em1.node_ids t = some id := by
  cases t with
  | Int =>
    simp only [emit_type] at h
    split at h
    · next existing heq =>
      simp only [Except.ok.injEq, Prod.mk.injEq] at h
      obtain ⟨rfl, rfl⟩ := h
      exact heq
    · next heq =>
      simp only [spvb_int_type, spvb_fresh_id, Except.ok.injEq, Prod.mk.injEq] at h
      obtain ⟨rfl, rfl⟩ := h
      exact find_insert_dict_of_none _ _ heq
  | PtrType a p =>
    simp only [emit_type] at h
    split at h
    · next existing heq =>
      simp only [Except.ok.injEq, Prod.mk.injEq] at h
      obtain ⟨rfl, rfl⟩ := h
      exact heq
    · next heq =>
      rw [except_bind_ok] at h
      obtain ⟨⟨pointee, e1⟩, h1, h2⟩ := h
      simp only at h2
      rw [except_bind_ok] at h2
      obtain ⟨sc, _, h3⟩ := h2
      simp only [spvb_ptr_type, spvb_fresh_id, Except.ok.injEq, Prod.mk.injEq] at h3
      obtain ⟨rfl, rfl⟩ := h3
      have hn : find_value_dict e1.node_ids _ = none :=
        adds_below_none (emit_type_adds_below _ _ _ _ h1) heq (by simp_arith)
      exact find_insert_dict_of_none _ _ hn
  | RecordType ms =>
    simp only [emit_type] at h
    split at h
    · next existing heq =>
      simp only [Except.ok.injEq, Prod.mk.injEq] at h
      obtain ⟨rfl, rfl⟩ := h
      exact heq
    · next heq =>
      rw [except_bind_ok] at h
      obtain ⟨⟨ids, e1⟩, h1, h2⟩ := h
      simp only [spvb_struct_type, spvb_fresh_id, Except.ok.injEq, Prod.mk.injEq] at h2
      obtain ⟨rfl, rfl⟩ := h2
      have hn : find_value_dict e1.node_ids _ = none :=
        adds_below_none (emit_types_adds_below _ _ _ _ h1) heq (by simp_arith)
      exact find_insert_dict_of_none _ _ hn
  | FnType ps rs =>
    simp only [emit_type] at h
    split at h
    · next existing heq =>
      simp only [Except.ok.injEq, Prod.mk.injEq] at h
      obtain ⟨rfl, rfl⟩ := h
      exact heq
    · next heq =>
      rw [except_bind_ok] at h
      obtain ⟨⟨ids, e1⟩, h1, h2⟩ := h
      simp only at h2
      rw [except_bind_ok] at h2
      obtain ⟨⟨codom, e2⟩, h3, h4⟩ := h2
      simp only [spvb_fn_type, spvb_fresh_id, Except.ok.injEq, Prod.mk.injEq] at h4
      obtain ⟨rfl, rfl⟩ := h4
      have hps : 1 ≤ sizeOf ps := by cases ps <;> simp_arith
      have hb : adds_below em e2 (sizeOf (Node.FnType ps rs)) :=
        adds_below_trans (emit_types_adds_below _ _ _ _ h1)
          (nodes2codom_adds_below _ _ _ _ h3) (by simp_arith) (by simp_arith; omega)
      have hn : find_value_dict e2.node_ids _ = none := adds_below_none hb heq (Nat.le_refl _)
      exact find_insert_dict_of_none _ _ hn
  | QualifiedType u t =>
    simp only [emit_type] at h
    split at h
    · next existing heq =>
      simp only [Except.ok.injEq, Prod.mk.injEq] at h
      obtain ⟨rfl, rfl⟩ := h
      exact heq
    · next heq =>
      rw [except_bind_ok] at h
      obtain ⟨⟨new, e1⟩, h1, h2⟩ := h
      simp only [Except.ok.injEq, Prod.mk.injEq] at h2
      obtain ⟨rfl, rfl⟩ := h2
      have hn : find_value_dict e1.node_ids _ = none :=
        adds_below_none (emit_type_adds_below _ _ _ _ h1) heq (by simp_arith)
      exact find_insert_dict_of_none _ _ hn
  | _ =>
    simp only [emit_type] at h
    split at h
    · next existing heq =>
      simp only [Except.ok.injEq, Prod.mk.injEq] at h
      obtain ⟨rfl, rfl⟩ := h
      exact heq
    · cases h

/-- C16. Every node is emitted at most once.  For a type or value node that
the dictionary `node_ids` records under `id`, `emit_type` and `emit_value`
(whatever `use_id`) return `id` and leave the emitter, hence the instruction
stream and the next free id, unchanged.  Consequently, when `emit_type`
returns `id` for a type, a second call on the emitter it left returns the same
`id` and changes nothing. -/
theorem emit_node_at_most_once (indeterminate : Nat → SpvId) (emitter : SpvEmitter)
    (node : Node) :
    (∀ id, find_value_dict emitter.node_ids node = some id →
      emit_type emitter node = .ok (id, emitter) ∧
      ∀ use_id, emit_value indeterminate emitter node use_id = .ok (id, emitter)) ∧
    (∀ id emitter1, emit_type emitter node = .ok (id, emitter1) →
      emit_type emitter1 node = .ok (id, emitter1)) :=
  ⟨fun id h => ⟨emit_type_hit emitter node id h,
      fun use_id => emit_value_hit indeterminate emitter node use_id id h⟩,
    fun id emitter1 h => emit_type_hit emitter1 node id (emit_type_records node emitter id emitter1 h)⟩

/-- C16 at the literal 5 recorded under id 2, and at the type of pointers to
`Int`, emitted twice from the empty dictionary. -/
theorem emit_node_at_most_once_witness :
    (emit_type sample_emitter_after_literals (.IntLiteral 5 .Int)
        = .ok (2, sample_emitter_after_literals) ∧
      ∀ use_id, emit_value (fun _ => 0) sample_emitter_after_literals (.IntLiteral 5 .Int) use_id
        = .ok (2, sample_emitter_after_literals)) ∧
    emit_type sample_emitter_after_pointer (.PtrType .AsGlobal .Int)
      = .ok (3, sample_emitter_after_pointer) :=
  ⟨(emit_node_at_most_once (fun _ => 0) sample_emitter_after_literals
      (.IntLiteral 5 .Int)).1 2 rfl,
    (emit_node_at_most_once (fun _ => 0) sample_emitter (.PtrType .AsGlobal .Int)).2 3
      sample_emitter_after_pointer rfl⟩

/-! ## Top-level declarations -/

theorem find_value_dict_nil (n : Node) : find_value_dict [] n = none := rfl

theorem find_value_dict_cons (k : Node) (v : SpvId) (d : List (Node × SpvId)) (n : Node) :
    find_value_dict ((k, v) :: d) n = if n = k then some v else find_value_dict d n := by
  unfold find_value_dict
  by_cases h : n = k
  · subst h; simp [List.lookup]
  · have hne : (n == k) = false := by simpa using h
    simp [List.lookup, hne, h]

/-- C14. Two top-level constants `a` and `b` defined as the same literal:
`emit` reserves the ids 2 and 3 and names them, then emits one `OpConstant`
whose result is the id 2 of `a`.  The definition of `b` is found in the
dictionary, recorded there by `a`, and nothing is emitted for it: no
instruction of the module defines the id 3 reserved for `b`. -/
theorem emit_twin_constants_defines_first_only (indeterminate : Nat → SpvId) (value : Nat) :
    ∃ fb, emit indeterminate (twin_constants value) = .ok fb ∧
      fb.words = [.OpTypeVoid 1, .OpCapability .SpvCapabilityShader,
        .OpCapability .SpvCapabilityLinkage,
        .OpCapability .SpvCapabilityPhysicalStorageBufferAddresses,
        .OpName 2 "a", .OpName 3 "b", .OpTypeInt 4 32 true, .OpConstant 2 4 [value]] ∧
      fb.words.any (SpvInstruction.defines 2) = true ∧
      fb.words.any (SpvInstruction.defines 3) = false := by
  refine ⟨⟨5, [.OpTypeVoid 1, .OpCapability .SpvCapabilityShader,
        .OpCapability .SpvCapabilityLinkage,
        .OpCapability .SpvCapabilityPhysicalStorageBufferAddresses,
        .OpName 2 "a", .OpName 3 "b", .OpTypeInt 4 32 true, .OpConstant 2 4 [value]]⟩,
    ?_, rfl, ?_, ?_⟩
  · simp [emit, twin_constants, spvb_begin, spvb_void_type, spvb_capability, spvb_fresh_id,
      SpvFileBuilder.write, reserve_ids, SpvEmitter.insert, insert_dict, find_value_dict_cons,
      find_value_dict_nil, spvb_name, emit_definitions, strip_qualifier, emit_value,
      emit_value_id, emit_type, spvb_int_type, spvb_constant, bind, Except.bind]
  · simp [SpvInstruction.defines]
  · simp [SpvInstruction.defines]

/-- C15, as stated, fails for the external address space: `emit` on a single
global without definition whose type is a uniform pointer to `Int` in
`AsExternal` reaches the unreachable default of `emit_addr_space` and no
`OpVariable` is produced. -/
theorem emit_external_global_unreachable :
    emit (fun _ => 0) external_global = .error "unreachable" := by
  simp [emit, external_global, spvb_begin, spvb_void_type, spvb_capability, spvb_fresh_id,
    SpvFileBuilder.write, reserve_ids, SpvEmitter.insert, insert_dict, find_value_dict_cons,
    find_value_dict_nil, spvb_name, emit_definitions, strip_qualifier, emit_type,
    spvb_int_type, emit_addr_space, bind, Except.bind]

/-- C15, amended. A top-level declaration with no definition, reserved id
`id`.  When its type strips to a uniform pointer in address space `a`, the
pointer type is emitted under `type_id` and `emit_addr_space a true` is the
storage class `sc` (so `a` is generic, private, shared or global), the
second loop of `emit` appends exactly `OpVariable id type_id sc` after the
instructions of the type and goes on with the next declaration.  When
`emit_addr_space a true` is unreachable, or the qualifier is not uniform, or
the stripped type is not a pointer, the loop stops with an error and nothing
is emitted. -/
theorem emit_definitions_global_variable (indeterminate : Nat → SpvId) (emitter : SpvEmitter)
    (name : String) (var_id : Nat) (var_type : Node) (vs : Vars) (id : SpvId)
    (ids : List SpvId) (definitions : List (Option Node)) :
    (∀ a pointee type_id emitter1 sc,
      strip_qualifier var_type = (.PtrType a pointee, .Uniform) →
      emit_type emitter (.PtrType a pointee) = .ok (type_id, emitter1) →
      emit_addr_space a true = .ok sc →
      emit_definitions indeterminate emitter (.cons name var_id var_type vs) (id :: ids)
          (none :: definitions)
        = emit_definitions indeterminate
            { emitter1 with
              file_builder := emitter1.file_builder.write (.OpVariable id type_id sc) }
            vs ids definitions) ∧
    (∀ a pointee e,
      strip_qualifier var_type = (.PtrType a pointee, .Uniform) →
      emit_addr_space a true = .error e →
      ∃ e1, emit_definitions indeterminate emitter (.cons name var_id var_type vs) (id :: ids)
          (none :: definitions) = .error e1) ∧
    ((strip_qualifier var_type).2 ≠ .Uniform →
      emit_definitions indeterminate emitter (.cons name var_id var_type vs) (id :: ids)
          (none :: definitions) = .error "assertion failed: qual == Uniform") ∧
    ((strip_qualifier var_type).2 = .Uniform →
      (∀ a pointee, (strip_qualifier var_type).1 ≠ .PtrType a pointee) →
      emit_definitions indeterminate emitter (.cons name var_id var_type vs) (id :: ids)
          (none :: definitions) = .error "assertion failed: type->tag == PtrType_TAG") := by
  refine ⟨?_, ?_, ?_, ?_⟩
  · intro a pointee type_id emitter1 sc hs ht hsc
    simp only [emit_definitions, hs, ht, hsc, ne_eq, not_true_eq_false, if_false, bind,
      Except.bind, spvb_global_variable]
  · intro a pointee e hs hsc
    simp only [emit_definitions, hs, hsc, ne_eq, not_true_eq_false, if_false, bind,
      Except.bind]
    cases emit_type emitter (.PtrType a pointee) with
    | error e1 => exact ⟨e1, rfl⟩
    | ok r => exact ⟨e, rfl⟩
  · intro hq
    rcases hsq : strip_qualifier var_type with ⟨type, qual⟩
    rw [hsq] at hq
    simp only [emit_definitions, hsq]
    simp only [ne_eq] at hq
    simp [hq]
  · intro hq hp
    rcases hsq : strip_qualifier var_type with ⟨type, qual⟩
    rw [hsq] at hq hp
    simp only at hq hp
    subst hq
    simp only [emit_definitions, hsq]
    cases type <;> first | exact absurd rfl (hp _ _) | rfl

/-- C15 at a uniform pointer to `Int` in the global address space, reserved
id 7: the pointer type is emitted under id 3 and `OpVariable 7 3
StorageBuffer` follows it. -/
theorem emit_definitions_global_variable_witness :
    emit_definitions (fun _ => 0) sample_emitter global_buffer [7] [none] = .ok
      { sample_emitter_after_pointer with
        file_builder := sample_emitter_after_pointer.file_builder.write
          (.OpVariable 7 3 .SpvStorageClassStorageBuffer) } :=
  (emit_definitions_global_variable (fun _ => 0) sample_emitter "buffer" 0
    (.QualifiedType true (.PtrType .AsGlobal .Int)) .nil 7 [] []).1
    .AsGlobal .Int 3 sample_emitter_after_pointer .SpvStorageClassStorageBuffer rfl rfl rfl

/-! ## Storage classes of a global and of its pointer type -/

/-- C25 (as stated) fails in the global address space: for the global
`buffer`, a uniform pointer to `Int` in `AsGlobal`, `emit` writes the pointer
type with storage class `PhysicalStorageBuffer` and the variable with storage
class `StorageBuffer`. -/
theorem emit_global_buffer_storage_classes :
    emit (fun _ => 0) global_buffer_root = .ok
      { bound := 5,
        words := [.OpTypeVoid 1, .OpCapability .SpvCapabilityShader,
          .OpCapability .SpvCapabilityLinkage,
          .OpCapability .SpvCapabilityPhysicalStorageBufferAddresses,
          .OpName 2 "buffer", .OpTypeInt 3 32 true,
          .OpTypePointer 4 .SpvStorageClassPhysicalStorageBuffer 3,
          .OpVariable 2 4 .SpvStorageClassStorageBuffer] } := by
  simp [emit, global_buffer_root, global_buffer, spvb_begin, spvb_void_type, spvb_capability,
    spvb_fresh_id, SpvFileBuilder.write, reserve_ids, SpvEmitter.insert, insert_dict,
    find_value_dict_cons, find_value_dict_nil, spvb_name, emit_definitions, strip_qualifier,
    emit_type, spvb_int_type, spvb_ptr_type, spvb_global_variable, emit_addr_space, bind,
    Except.bind]

/-- C25 (as amended). A top-level declaration with no definition whose type
strips to a uniform pointer in address space `a`, the pointer type not yet
recorded and its pointee emitted under `pointee_id`: the second loop of
`emit` appends `OpTypePointer` with storage class `emit_addr_space a false`
and then `OpVariable`, of that type, with storage class
`emit_addr_space a true`.  The two classes are equal exactly when `a` is not
the global address space, that is for generic, private and shared; for
global the variable is in `StorageBuffer` and its pointer type in
`PhysicalStorageBuffer`. -/
theorem emit_definitions_storage_classes (indeterminate : Nat → SpvId) (emitter : SpvEmitter)
    (name : String) (var_id : Nat) (var_type : Node) (vs : Vars) (id : SpvId)
    (ids : List SpvId) (definitions : List (Option Node)) (a : AddressSpace) (pointee : Node)
    (pointee_id : SpvId) (emitter1 : SpvEmitter) (sc_pointer sc_variable : SpvStorageClass)
    (hstrip : strip_qualifier var_type = (.PtrType a pointee, .Uniform))
    (hfind : find_value_dict emitter.node_ids (.PtrType a pointee) = none)
    (hpointee : emit_type emitter pointee = .ok (pointee_id, emitter1))
    (hpointer : emit_addr_space a false = .ok sc_pointer)
    (hvariable : emit_addr_space a true = .ok sc_variable) :
    emit_definitions indeterminate emitter (.cons name var_id var_type vs) (id :: ids)
        (none :: definitions)
      = emit_definitions indeterminate
          { file_builder :=
              { bound := emitter1.file_builder.bound + 1,
                words := emitter1.file_builder.words ++
                  [.OpTypePointer emitter1.file_builder.bound sc_pointer pointee_id] ++
                  [.OpVariable id emitter1.file_builder.bound sc_variable] },
            void_t := emitter1.void_t,
            node_ids := insert_dict emitter1.node_ids (.PtrType a pointee)
              emitter1.file_builder.bound }
          vs ids definitions
    ∧ (sc_variable = sc_pointer ↔ a ≠ .AsGlobal)
    ∧ (a = .AsGlobal → sc_variable = .SpvStorageClassStorageBuffer ∧
        sc_pointer = .SpvStorageClassPhysicalStorageBuffer) := by
  refine ⟨?_, ?_, ?_⟩
  · simp only [emit_definitions, hstrip, ne_eq, not_true_eq_false, if_false, emit_type, hfind,
      hpointee, hpointer, hvariable, bind, Except.bind, spvb_ptr_type, spvb_fresh_id,
      SpvFileBuilder.write, SpvEmitter.insert, spvb_global_variable]
  · cases a <;> simp [emit_addr_space] at hpointer hvariable <;>
      simp [← hpointer, ← hvariable]
  · intro ha
    subst ha
    simp [emit_addr_space] at hpointer hvariable
    exact ⟨hvariable.symm, hpointer.symm⟩

/-- C25 at a uniform pointer to `Int` in the private address space, reserved
id 7: pointer type and variable are both in `Private`. -/
theorem emit_definitions_storage_classes_witness :
    emit_definitions (fun _ => 0) sample_emitter
        (.cons "p" 0 (.QualifiedType true (.PtrType .AsPrivate .Int)) .nil) [7] [none]
      = .ok
          { file_builder :=
              { bound := 4,
                words := [.OpTypeVoid 1, .OpTypeInt 2 32 true,
                  .OpTypePointer 3 .SpvStorageClassPrivate 2,
                  .OpVariable 7 3 .SpvStorageClassPrivate] },
            void_t := 1,
            node_ids := [(.PtrType .AsPrivate .Int, 3), (.Int, 2)] } :=
  (emit_definitions_storage_classes (fun _ => 0) sample_emitter "p" 0
    (.QualifiedType true (.PtrType .AsPrivate .Int)) .nil 7 [] [] .AsPrivate .Int 2
    { file_builder := { bound := 3, words := [.OpTypeVoid 1, .OpTypeInt 2 32 true] },
      void_t := 1, node_ids := [(.Int, 2)] }
    .SpvStorageClassPrivate .SpvStorageClassPrivate rfl rfl rfl rfl rfl).1

/-! ## Return types -/

theorem grows_refl (emitter : SpvEmitter) : grows emitter emitter :=
  ⟨fun _ _ h => h, fun _ h => h, rfl, id, fun _ h => h⟩

theorem grows_trans {e1 e2 e3 : SpvEmitter} (h12 : grows e1 e2) (h23 : grows e2 e3) :
    grows e1 e3 :=
  ⟨fun k v h => h23.1 k v (h12.1 k v h), fun w h => h23.2.1 w (h12.2.1 w h),
    h23.2.2.1.trans h12.2.2.1, fun h => h23.2.2.2.1 (h12.2.2.2.1 h),
    fun hc ht => h23.2.2.2.2 (h12.2.2.2.1 hc) (h12.2.2.2.2 hc ht)⟩

theorem recorded_codom_mono {e e1 : SpvEmitter}
    (hd : ∀ k v, find_value_dict e.node_ids k = some v → find_value_dict e1.node_ids k = some v)
    (hv : e1.void_t = e.void_t) (rs : Nodes) (c : SpvId) (h : recorded_codom e rs = some c) :
    recorded_codom e1 rs = some c := by
  cases rs with
  | nil => simpa [recorded_codom, hv] using h
  | cons t ts =>
    cases ts with
    | nil => exact hd _ _ h
    | cons t1 ts => exact hd _ _ h

theorem functions_typed_of_new {words words1 : List SpvInstruction}
    (hw : ∀ w ∈ words, w ∈ words1)
    (hnew : ∀ w ∈ words1, w ∈ words ∨ w.is_function = false)
    (h : functions_typed words) : functions_typed words1 := by
  intro f ft ret hmem
  rcases hnew _ hmem with hold | hnot
  · obtain ⟨params, hp⟩ := h f ft ret hold
    exact ⟨params, hw _ hp⟩
  · simp [SpvInstruction.is_function] at hnot

theorem grows_write (e : SpvEmitter) (fb : SpvFileBuilder)
    (hw : ∀ w ∈ e.file_builder.words, w ∈ fb.words)
    (hnew : ∀ w ∈ fb.words, w ∈ e.file_builder.words ∨ w.is_function = false) :
    grows e { e with file_builder := fb } := by
  refine ⟨fun _ _ h => h, hw, rfl, ?_, fun _ ht => functions_typed_of_new hw hnew ht⟩
  intro hc ps rs fid hf
  obtain ⟨codom, params, hmem, hrec⟩ := hc ps rs fid hf
  exact ⟨codom, params, hw _ hmem,
    @recorded_codom_mono e { e with file_builder := fb } (fun _ _ h => h) rfl rs codom hrec⟩

theorem grows_insert (e : SpvEmitter) (k : Node) (id : SpvId)
    (h : ∀ ps rs, k = .FnType ps rs → find_value_dict e.node_ids k = none →
      ∃ codom params,
        SpvInstruction.OpTypeFunction id codom params ∈ e.file_builder.words ∧
        recorded_codom e rs = some codom) :
    grows e (e.insert k id) := by
  have hd : ∀ q v, find_value_dict e.node_ids q = some v →
      find_value_dict (e.insert k id).node_ids q = some v :=
    fun q v hq => find_insert_dict_of_some k id hq
  refine ⟨hd, fun _ hw => hw, rfl, ?_, fun _ ht => ht⟩
  intro hc ps rs fid hf
  simp only [SpvEmitter.insert] at hf
  by_cases hk : Node.FnType ps rs = k
  · subst hk
    cases hfind : find_value_dict e.node_ids (.FnType ps rs) with
    | none =>
      rw [find_insert_dict_of_none _ id hfind] at hf
      simp only [Option.some.injEq] at hf
      subst hf
      obtain ⟨codom, params, hmem, hrec⟩ := h ps rs rfl hfind
      exact ⟨codom, params, hmem, recorded_codom_mono hd rfl rs codom hrec⟩
    | some v =>
      rw [find_insert_dict_of_some _ id hfind] at hf
      simp only [Option.some.injEq] at hf
      subst hf
      obtain ⟨codom, params, hmem, hrec⟩ := hc ps rs v hfind
      exact ⟨codom, params, hmem, recorded_codom_mono hd rfl rs codom hrec⟩
  · rw [find_insert_dict_ne id hk] at hf
    obtain ⟨codom, params, hmem, hrec⟩ := hc ps rs fid hf
    exact ⟨codom, params, hmem, recorded_codom_mono hd rfl rs codom hrec⟩

theorem mem_write (fb : SpvFileBuilder) (i w : SpvInstruction) (h : w ∈ fb.words) :
    w ∈ (fb.write i).words := by
  simp only [SpvFileBuilder.write, List.mem_append]
  exact Or.inl h

theorem new_write (fb : SpvFileBuilder) (i : SpvInstruction) (hi : i.is_function = false)
    (w : SpvInstruction) (h : w ∈ (fb.write i).words) :
    w ∈ fb.words ∨ w.is_function = false := by
  simp only [SpvFileBuilder.write, List.mem_append, List.mem_singleton] at h
  rcases h with h | rfl
  · exact Or.inl h
  · exact Or.inr hi

/-- One instruction that is no `OpFunction` is written, perhaps after a fresh
id is drawn. -/
theorem grows_write_one (e : SpvEmitter) (bound : SpvId) (i : SpvInstruction)
    (hi : i.is_function = false) :
    grows e { e with file_builder :=
      { bound := bound, words := e.file_builder.words ++ [i] } } :=
  grows_write e _ (fun w h => List.mem_append_left _ h) (fun w h => by
    simp only [List.mem_append, List.mem_singleton] at h
    rcases h with h | rfl
    · exact Or.inl h
    · exact Or.inr hi)

theorem grows_bound (e : SpvEmitter) (bound : SpvId) :
    grows e { e with file_builder := { e.file_builder with bound := bound } } :=
  grows_write e _ (fun _ h => h) (fun _ h => Or.inl h)

theorem grows_write_insert (e : SpvEmitter) (bound : SpvId) (i : SpvInstruction) (k : Node)
    (id : SpvId) (hi : i.is_function = false) (hk : ∀ ps rs, k ≠ .FnType ps rs) :
    grows e (({ e with file_builder :=
      { bound := bound, words := e.file_builder.words ++ [i] } }).insert k id) :=
  grows_trans (grows_write_one e bound i hi)
    (grows_insert _ k id (fun ps rs hc => absurd hc (hk ps rs)))

theorem emit_types_cons (emitter : SpvEmitter) (t : Node) (rest : Nodes) :
    emit_types emitter (.cons t rest) =
      match emit_type emitter t with
      | .ok (id, emitter1) =>
        match emit_types emitter1 rest with
        | .ok (ids, emitter2) => .ok (id :: ids, emitter2)
        | .error e => .error e
      | .error e => .error e := by
  simp only [emit_types, bind, Except.bind]
  cases emit_type emitter t with
  | error e => rfl
  | ok p =>
    obtain ⟨id, e1⟩ := p
    simp only
    cases emit_types e1 rest with
    | error e => rfl
    | ok q => rfl

theorem nodes2codom_eq_emit_type (emitter : SpvEmitter) (t t1 : Node) (ts : Nodes) :
    nodes2codom emitter (.cons t (.cons t1 ts))
      = emit_type emitter (.RecordType (.cons t (.cons t1 ts))) := by
  simp only [nodes2codom, emit_type]
  cases find_value_dict emitter.node_ids (.RecordType (.cons t (.cons t1 ts))) with
  | some existing => rfl
  | none =>
    simp only
    rw [emit_types_cons emitter t (.cons t1 ts)]
    simp only [bind, Except.bind]
    cases emit_type emitter t with
    | error e => rfl
    | ok p =>
      obtain ⟨id, e1⟩ := p
      simp only
      generalize emit_types e1 (.cons t1 ts) = x
      cases x with
      | error e => rfl
      | ok q => rfl

theorem nodes2codom_records (emitter emitter1 : SpvEmitter) (rs : Nodes) (c : SpvId)
    (h : nodes2codom emitter rs = .ok (c, emitter1)) : recorded_codom emitter1 rs = some c := by
  cases rs with
  | nil =>
    simp only [nodes2codom, Except.ok.injEq, Prod.mk.injEq] at h
    obtain ⟨rfl, rfl⟩ := h
    rfl
  | cons t ts =>
    cases ts with
    | nil =>
      simp only [nodes2codom] at h
      exact emit_type_records t emitter c emitter1 h
    | cons t1 ts =>
      rw [nodes2codom_eq_emit_type] at h
      exact emit_type_records _ emitter c emitter1 h

theorem nodes2codom_of_recorded (emitter : SpvEmitter) (rs : Nodes) (c : SpvId)
    (h : recorded_codom emitter rs = some c) : nodes2codom emitter rs = .ok (c, emitter) := by
  cases rs with
  | nil =>
    simp only [recorded_codom, Option.some.injEq] at h
    simp only [nodes2codom, h]
  | cons t ts =>
    cases ts with
    | nil =>
      simp only [nodes2codom]
      exact emit_type_hit emitter t c h
    | cons t1 ts =>
      rw [nodes2codom_eq_emit_type]
      exact emit_type_hit emitter _ c h

mutual
theorem emit_type_grows :
    ∀ (t : Node) (em : SpvEmitter) (id : SpvId) (em1 : SpvEmitter),
      emit_type em t = .ok (id, em1) → grows em em1
  | .Int, em, id, em1, h => by
    simp only [emit_type] at h
    split at h
    · simp only [Except.ok.injEq, Prod.mk.injEq] at h
      obtain ⟨_, rfl⟩ := h
      exact grows_refl _
    · simp only [spvb_int_type, spvb_fresh_id, SpvFileBuilder.write, Except.ok.injEq,
        Prod.mk.injEq] at h
      obtain ⟨_, rfl⟩ := h
      exact grows_write_insert em _ _ _ _ rfl (fun _ _ hc => by cases hc)
  | .PtrType a p, em, id, em1, h => by
    have ihp := emit_type_grows p em
    simp only [emit_type] at h
    split at h
    · simp only [Except.ok.injEq, Prod.mk.injEq] at h
      obtain ⟨_, rfl⟩ := h
      exact grows_refl _
    · rw [except_bind_ok] at h
      obtain ⟨⟨pointee, e1⟩, h1, h2⟩ := h
      simp only at h2
      rw [except_bind_ok] at h2
      obtain ⟨sc, _, h3⟩ := h2
      simp only [spvb_ptr_type, spvb_fresh_id, SpvFileBuilder.write, Except.ok.injEq,
        Prod.mk.injEq] at h3
      obtain ⟨_, rfl⟩ := h3
      exact grows_trans (ihp _ _ h1)
        (grows_write_insert e1 _ _ _ _ rfl (fun _ _ hc => by cases hc))
  | .RecordType ms, em, id, em1, h => by
    have ihm := emit_types_grows ms em
    simp only [emit_type] at h
    split at h
    · simp only [Except.ok.injEq, Prod.mk.injEq] at h
      obtain ⟨_, rfl⟩ := h
      exact grows_refl _
    · rw [except_bind_ok] at h
      obtain ⟨⟨ids, e1⟩, h1, h2⟩ := h
      simp only [spvb_struct_type, spvb_fresh_id, SpvFileBuilder.write, Except.ok.injEq,
        Prod.mk.injEq] at h2
      obtain ⟨_, rfl⟩ := h2
      exact grows_trans (ihm _ _ h1)
        (grows_write_insert e1 _ _ _ _ rfl (fun _ _ hc => by cases hc))
  | .FnType ps rs, em, id, em1, h => by
    have ihps := emit_types_grows ps em
    simp only [emit_type] at h
    split at h
    · simp only [Except.ok.injEq, Prod.mk.injEq] at h
      obtain ⟨_, rfl⟩ := h
      exact grows_refl _
    · rw [except_bind_ok] at h
      obtain ⟨⟨ids, e1⟩, h1, h2⟩ := h
      have ihrs := nodes2codom_grows rs e1
      simp only at h2
      rw [except_bind_ok] at h2
      obtain ⟨⟨codom, e2⟩, h3, h4⟩ := h2
      simp only [spvb_fn_type, spvb_fresh_id, SpvFileBuilder.write, Except.ok.injEq,
        Prod.mk.injEq] at h4
      obtain ⟨_, rfl⟩ := h4
      have hrec := nodes2codom_records e1 e2 rs codom h3
      refine grows_trans (ihps _ _ h1) (grows_trans (ihrs _ _ h3)
        (grows_trans (grows_write_one e2 (e2.file_builder.bound + 1)
          (.OpTypeFunction e2.file_builder.bound codom ids) rfl) (grows_insert _ _ _ ?_)))
      intro ps1 rs1 hk _
      cases hk
      refine ⟨codom, ids, ?_, ?_⟩
      · simp
      · exact @recorded_codom_mono e2 _ (fun _ _ hq => hq) rfl rs codom hrec
  | .QualifiedType u t, em, id, em1, h => by
    have iht := emit_type_grows t em
    simp only [emit_type] at h
    split at h
    · simp only [Except.ok.injEq, Prod.mk.injEq] at h
      obtain ⟨_, rfl⟩ := h
      exact grows_refl _
    · rw [except_bind_ok] at h
      obtain ⟨⟨new, e1⟩, h1, h2⟩ := h
      simp only [Except.ok.injEq, Prod.mk.injEq] at h2
      obtain ⟨_, rfl⟩ := h2
      exact grows_trans (iht _ _ h1)
        (grows_insert e1 _ _ (fun _ _ hc => by cases hc))
  | .Float, em, id, em1, h => by
    simp only [emit_type] at h
    split at h
    · simp only [Except.ok.injEq, Prod.mk.injEq] at h
      obtain ⟨_, rfl⟩ := h
      exact grows_refl _
    · cases h
  | .Variable _ _ _, em, id, em1, h => by
    simp only [emit_type] at h
    split at h
    · simp only [Except.ok.injEq, Prod.mk.injEq] at h
      obtain ⟨_, rfl⟩ := h
      exact grows_refl _
    · cases h
  | .IntLiteral _ _, em, id, em1, h => by
    simp only [emit_type] at h
    split at h
    · simp only [Except.ok.injEq, Prod.mk.injEq] at h
      obtain ⟨_, rfl⟩ := h
      exact grows_refl _
    · cases h
  | .Function _ _ _, em, id, em1, h => by
    simp only [emit_type] at h
    split at h
    · simp only [Except.ok.injEq, Prod.mk.injEq] at h
      obtain ⟨_, rfl⟩ := h
      exact grows_refl _
    · cases h
  | .Let _ _, em, id, em1, h => by
    simp only [emit_type] at h
    split at h
    · simp only [Except.ok.injEq, Prod.mk.injEq] at h
      obtain ⟨_, rfl⟩ := h
      exact grows_refl _
    · cases h
  | .PrimOp _ _, em, id, em1, h => by
    simp only [emit_type] at h
    split at h
    · simp only [Except.ok.injEq, Prod.mk.injEq] at h
      obtain ⟨_, rfl⟩ := h
      exact grows_refl _
    · cases h
  | .Call _ _, em, id, em1, h => by
    simp only [emit_type] at h
    split at h
    · simp only [Except.ok.injEq, Prod.mk.injEq] at h
      obtain ⟨_, rfl⟩ := h
      exact grows_refl _
    · cases h
  | .Return _, em, id, em1, h => by
    simp only [emit_type] at h
    split at h
    · simp only [Except.ok.injEq, Prod.mk.injEq] at h
      obtain ⟨_, rfl⟩ := h
      exact grows_refl _
    · cases h
  | .StructuredSelection _ _ _, em, id, em1, h => by
    simp only [emit_type] at h
    split at h
    · simp only [Except.ok.injEq, Prod.mk.injEq] at h
      obtain ⟨_, rfl⟩ := h
      exact grows_refl _
    · cases h
theorem emit_types_grows :
    ∀ (ts : Nodes) (em : SpvEmitter) (ids : List SpvId) (em1 : SpvEmitter),
      emit_types em ts = .ok (ids, em1) → grows em em1
  | .nil, em, ids, em1, h => by
    simp only [emit_types, Except.ok.injEq, Prod.mk.injEq] at h
    obtain ⟨_, rfl⟩ := h
    exact grows_refl _
  | .cons t ts, em, ids, em1, h => by
    have iht := emit_type_grows t em
    simp only [emit_types] at h
    rw [except_bind_ok] at h
    obtain ⟨⟨id, e1⟩, h1, h2⟩ := h
    have ihts := emit_types_grows ts e1
    simp only at h2
    rw [except_bind_ok] at h2
    obtain ⟨⟨ids2, e2⟩, h3, h4⟩ := h2
    simp only [Except.ok.injEq, Prod.mk.injEq] at h4
    obtain ⟨_, rfl⟩ := h4
    exact grows_trans (iht _ _ h1) (ihts _ _ h3)
theorem nodes2codom_grows :
    ∀ (rs : Nodes) (em : SpvEmitter) (id : SpvId) (em1 : SpvEmitter),
      nodes2codom em rs = .ok (id, em1) → grows em em1
  | .nil, em, id, em1, h => by
    simp only [nodes2codom, Except.ok.injEq, Prod.mk.injEq] at h
    obtain ⟨_, rfl⟩ := h
    exact grows_refl _
  | .cons t .nil, em, id, em1, h => by
    have iht := emit_type_grows t em
    simp only [nodes2codom] at h
    exact iht _ _ h
  | .cons t (.cons t1 ts), em, id, em1, h => by
    have iht := emit_type_grows t em
    simp only [nodes2codom] at h
    split at h
    · simp only [Except.ok.injEq, Prod.mk.injEq] at h
      obtain ⟨_, rfl⟩ := h
      exact grows_refl _
    · rw [except_bind_ok] at h
      obtain ⟨⟨id1, e1⟩, h1, h2⟩ := h
      have ihts := emit_types_grows (.cons t1 ts) e1
      simp only at h2
      rw [except_bind_ok] at h2
      obtain ⟨⟨ids2, e2⟩, h3, h4⟩ := h2
      simp only [spvb_struct_type, spvb_fresh_id, SpvFileBuilder.write, Except.ok.injEq,
        Prod.mk.injEq] at h4
      obtain ⟨_, rfl⟩ := h4
      exact grows_trans (iht _ _ h1) (grows_trans (ihts _ _ h3)
        (grows_write_insert e2 _ _ _ _ rfl (fun _ _ hc => by cases hc)))
end

theorem grows_emit_value_id (em : SpvEmitter) (node : Node) (use_id : Option SpvId)
    (hk : ∀ ps rs, node ≠ .FnType ps rs) : grows em (emit_value_id em node use_id).2 := by
  cases use_id with
  | some id =>
    simp only [emit_value_id]
    exact grows_trans (grows_bound em em.file_builder.bound)
      (grows_insert _ node id (fun ps rs hc => absurd hc (hk ps rs)))
  | none =>
    simp only [emit_value_id, spvb_fresh_id]
    exact grows_trans (grows_bound em (em.file_builder.bound + 1))
      (grows_insert _ node _ (fun ps rs hc => absurd hc (hk ps rs)))

theorem register_outputs_grows (ind : Nat → SpvId) (out0 : SpvId) :
    ∀ (vs : Vars) (em : SpvEmitter) (i : Nat), grows em (register_outputs ind out0 em i vs)
  | .nil, em, i => by simp only [register_outputs]; exact grows_refl em
  | .cons name id type vs, em, i => by
    simp only [register_outputs, spvb_name, SpvFileBuilder.write]
    exact grows_trans
      (grows_write_insert em em.file_builder.bound _ (.Variable name id type) _ (by rfl)
        (fun _ _ hc => by cases hc))
      (register_outputs_grows ind out0 vs _ (i + 1))

theorem emit_params_grows :
    ∀ (ps : Vars) (em : SpvEmitter) (fnb : SpvFnBuilder) (em1 : SpvEmitter)
      (fnb1 : SpvFnBuilder),
      emit_params em fnb ps = .ok (em1, fnb1) →
      grows em em1 ∧ fnb1.fn_id = fnb.fn_id ∧ fnb1.fn_type = fnb.fn_type ∧
      fnb1.fn_ret_type = fnb.fn_ret_type ∧ fnb1.bbs = fnb.bbs ∧
      ((∀ w ∈ fnb.params, w.is_function = false) → ∀ w ∈ fnb1.params, w.is_function = false)
  | .nil, em, fnb, em1, fnb1, h => by
    simp only [emit_params, Except.ok.injEq, Prod.mk.injEq] at h
    obtain ⟨rfl, rfl⟩ := h
    exact ⟨grows_refl _, rfl, rfl, rfl, rfl, id⟩
  | .cons name id type ps, em, fnb, em1, fnb1, h => by
    simp only [emit_params] at h
    rw [except_bind_ok] at h
    obtain ⟨⟨type_id, e1⟩, h1, h2⟩ := h
    simp only [spvb_parameter, spvb_fresh_id] at h2
    obtain ⟨hg, hid, hty, hret, hbbs, hpar⟩ := emit_params_grows ps _ _ em1 fnb1 h2
    refine ⟨grows_trans (emit_type_grows _ _ _ _ h1)
      (grows_trans (grows_trans (grows_bound e1 (e1.file_builder.bound + 1))
        (grows_insert _ (.Variable name id type) _ (fun _ _ hc => by cases hc))) hg),
      hid, hty, hret, hbbs, ?_⟩
    intro hclean
    apply hpar
    intro w hw
    simp only [List.mem_append, List.mem_singleton] at hw
    rcases hw with hw | rfl
    · exact hclean w hw
    · rfl

theorem grows_define_function (e : SpvEmitter) (fnb : SpvFnBuilder) (hclean : fnb.clean)
    (htyped : fn_types_consistent e → ∃ params,
      SpvInstruction.OpTypeFunction fnb.fn_type fnb.fn_ret_type params
        ∈ e.file_builder.words) :
    grows e { e with file_builder := spvb_define_function e.file_builder fnb } := by
  have hw : ∀ w ∈ e.file_builder.words,
      w ∈ (spvb_define_function e.file_builder fnb).words := by
    intro w h
    simp only [spvb_define_function, List.mem_append]
    exact Or.inl (Or.inl (Or.inl (Or.inl h)))
  refine ⟨fun _ _ h => h, hw, rfl, ?_, ?_⟩
  · intro hc ps rs fid hf
    obtain ⟨codom, params, hmem, hrec⟩ := hc ps rs fid hf
    exact ⟨codom, params, hw _ hmem,
      @recorded_codom_mono e { e with file_builder := spvb_define_function e.file_builder fnb }
        (fun _ _ h => h) rfl rs codom hrec⟩
  · intro hc ht f ft ret hmem
    simp only [spvb_define_function, List.mem_append, List.mem_singleton, List.mem_flatten,
      List.mem_map] at hmem
    rcases hmem with (((hold | hnew) | hpar) | hbb) | hend
    · obtain ⟨params, hp⟩ := ht f ft ret hold
      exact ⟨params, hw _ hp⟩
    · simp only [SpvInstruction.OpFunction.injEq] at hnew
      obtain ⟨_, rfl, rfl⟩ := hnew
      obtain ⟨params, hp⟩ := htyped hc
      exact ⟨params, hw _ hp⟩
    · have := hclean.1 _ hpar
      simp [SpvInstruction.is_function] at this
    · obtain ⟨l, ⟨bb, hbb1, rfl⟩, hl⟩ := hbb
      simp only [List.mem_cons] at hl
      rcases hl with hl | hl
      · cases hl
      · have := hclean.2 bb hbb1 _ hl
        simp [SpvInstruction.is_function] at this
    · cases hend

theorem clean_write (bbb : SpvBasicBlockBuilder) (i : SpvInstruction)
    (hi : i.is_function = false) (h : bbb.clean) : (bbb.write i).clean := by
  intro w hw
  simp only [SpvBasicBlockBuilder.write, List.mem_append, List.mem_singleton] at hw
  rcases hw with hw | rfl
  · exact h w hw
  · exact hi

mutual
theorem emit_value_grows (ind : Nat → SpvId) :
    ∀ (node : Node) (em : SpvEmitter) (use_id : Option SpvId) (id : SpvId) (em1 : SpvEmitter),
      emit_value ind em node use_id = .ok (id, em1) → grows em em1
  | .IntLiteral value yields, em, use_id, id, em1, h => by
    simp only [emit_value] at h
    split at h
    · simp only [Except.ok.injEq, Prod.mk.injEq] at h
      obtain ⟨_, rfl⟩ := h
      exact grows_refl _
    · have hg0 := grows_emit_value_id em (.IntLiteral value yields) use_id
        (fun _ _ hc => by cases hc)
      generalize emit_value_id em (.IntLiteral value yields) use_id = p at h hg0
      obtain ⟨new, e0⟩ := p
      simp only at h hg0
      rw [except_bind_ok] at h
      obtain ⟨⟨ty, e1⟩, h1, h2⟩ := h
      simp only [spvb_constant, SpvFileBuilder.write, Except.ok.injEq, Prod.mk.injEq] at h2
      obtain ⟨_, rfl⟩ := h2
      exact grows_trans hg0 (grows_trans (emit_type_grows _ _ _ _ h1)
        (grows_write_one e1 _ _ (by rfl)))
  | .Function params return_types instructions, em, use_id, id, em1, h => by
    have ihi := emit_instructions_grows ind instructions
    simp only [emit_value] at h
    split at h
    · simp only [Except.ok.injEq, Prod.mk.injEq] at h
      obtain ⟨_, rfl⟩ := h
      exact grows_refl _
    · have hg0 := grows_emit_value_id em (.Function params return_types instructions) use_id
        (fun _ _ hc => by cases hc)
      generalize emit_value_id em (.Function params return_types instructions) use_id = p
        at h hg0
      obtain ⟨new, e0⟩ := p
      simp only at h hg0
      rw [except_bind_ok] at h
      obtain ⟨⟨fn_type_id, e1⟩, h1, h2⟩ := h
      simp only at h2
      rw [except_bind_ok] at h2
      obtain ⟨⟨codom, e2⟩, h3, h4⟩ := h2
      simp only at h4
      rw [except_bind_ok] at h4
      obtain ⟨⟨e3, fnb1⟩, h5, h6⟩ := h4
      simp only [spvb_fresh_id] at h6
      rw [except_bind_ok] at h6
      obtain ⟨⟨e4, bbb1⟩, h7, h8⟩ := h6
      simp only [Except.ok.injEq, Prod.mk.injEq] at h8
      obtain ⟨_, rfl⟩ := h8
      have hg1 := emit_type_grows _ _ _ _ h1
      have hg2 := nodes2codom_grows _ _ _ _ h3
      obtain ⟨hg3, _, hty, hret, hbbs, hpar⟩ := emit_params_grows _ _ _ _ _ h5
      obtain ⟨hg4, hclean⟩ := ihi _ _ _ _ _ h7
      have hg34 : grows e3 e4 :=
        grows_trans (grows_bound e3 (e3.file_builder.bound + 1)) hg4
      have hrec1 := emit_type_records _ _ _ _ h1
      have hrec2 := nodes2codom_records _ _ _ _ h3
      refine grows_trans hg0 (grows_trans hg1 (grows_trans hg2 (grows_trans hg3
        (grows_trans hg34 (grows_define_function e4 _ ?_ ?_)))))
      · refine ⟨hpar (fun w hw => by simp [spvb_begin_fn] at hw), ?_⟩
        intro bb hbb
        simp only [hbbs, spvb_begin_fn, List.nil_append, List.mem_singleton] at hbb
        subst hbb
        exact hclean (fun w hw => by simp [spvb_begin_bb] at hw)
      · intro hc
        have hfind := hg34.1 _ _ (hg3.1 _ _ (hg2.1 _ _ hrec1))
        obtain ⟨codom1, ps1, hmem, hrc⟩ := hc _ _ _ hfind
        have hrc2 := recorded_codom_mono (fun k v hk => hg34.1 k v (hg3.1 k v hk))
          (hg34.2.2.1.trans hg3.2.2.1) _ _ hrec2
        rw [hrc2] at hrc
        simp only [Option.some.injEq] at hrc
        subst hrc
        simp only [hty, hret, spvb_begin_fn]
        exact ⟨ps1, hmem⟩
  | .Variable _ _ _, em, use_id, id, em1, h => by
    simp only [emit_value] at h
    split at h
    · simp only [Except.ok.injEq, Prod.mk.injEq] at h
      obtain ⟨_, rfl⟩ := h
      exact grows_refl _
    · cases h
  | .Int, em, use_id, id, em1, h => by
    simp only [emit_value] at h
    split at h
    · simp only [Except.ok.injEq, Prod.mk.injEq] at h
      obtain ⟨_, rfl⟩ := h
      exact grows_refl _
    · cases h
  | .Float, em, use_id, id, em1, h => by
    simp only [emit_value] at h
    split at h
    · simp only [Except.ok.injEq, Prod.mk.injEq] at h
      obtain ⟨_, rfl⟩ := h
      exact grows_refl _
    · cases h
  | .PtrType _ _, em, use_id, id, em1, h => by
    simp only [emit_value] at h
    split at h
    · simp only [Except.ok.injEq, Prod.mk.injEq] at h
      obtain ⟨_, rfl⟩ := h
      exact grows_refl _
    · cases h
  | .RecordType _, em, use_id, id, em1, h => by
    simp only [emit_value] at h
    split at h
    · simp only [Except.ok.injEq, Prod.mk.injEq] at h
      obtain ⟨_, rfl⟩ := h
      exact grows_refl _
    · cases h
  | .FnType _ _, em, use_id, id, em1, h => by
    simp only [emit_value] at h
    split at h
    · simp only [Except.ok.injEq, Prod.mk.injEq] at h
      obtain ⟨_, rfl⟩ := h
      exact grows_refl _
    · cases h
  | .QualifiedType _ _, em, use_id, id, em1, h => by
    simp only [emit_value] at h
    split at h
    · simp only [Except.ok.injEq, Prod.mk.injEq] at h
      obtain ⟨_, rfl⟩ := h
      exact grows_refl _
    · cases h
  | .Let _ _, em, use_id, id, em1, h => by
    simp only [emit_value] at h
    split at h
    · simp only [Except.ok.injEq, Prod.mk.injEq] at h
      obtain ⟨_, rfl⟩ := h
      exact grows_refl _
    · cases h
  | .PrimOp _ _, em, use_id, id, em1, h => by
    simp only [emit_value] at h
    split at h
    · simp only [Except.ok.injEq, Prod.mk.injEq] at h
      obtain ⟨_, rfl⟩ := h
      exact grows_refl _
    · cases h
  | .Call _ _, em, use_id, id, em1, h => by
    simp only [emit_value] at h
    split at h
    · simp only [Except.ok.injEq, Prod.mk.injEq] at h
      obtain ⟨_, rfl⟩ := h
      exact grows_refl _
    · cases h
  | .Return _, em, use_id, id, em1, h => by
    simp only [emit_value] at h
    split at h
    · simp only [Except.ok.injEq, Prod.mk.injEq] at h
      obtain ⟨_, rfl⟩ := h
      exact grows_refl _
    · cases h
  | .StructuredSelection _ _ _, em, use_id, id, em1, h => by
    simp only [emit_value] at h
    split at h
    · simp only [Except.ok.injEq, Prod.mk.injEq] at h
      obtain ⟨_, rfl⟩ := h
      exact grows_refl _
    · cases h
theorem emit_values_grows (ind : Nat → SpvId) :
    ∀ (ns : Nodes) (em : SpvEmitter) (ids : List SpvId) (em1 : SpvEmitter),
      emit_values ind em ns = .ok (ids, em1) → grows em em1
  | .nil, em, ids, em1, h => by
    simp only [emit_values, Except.ok.injEq, Prod.mk.injEq] at h
    obtain ⟨_, rfl⟩ := h
    exact grows_refl _
  | .cons n ns, em, ids, em1, h => by
    have ihn := emit_value_grows ind n em none
    simp only [emit_values] at h
    rw [except_bind_ok] at h
    obtain ⟨⟨id, e1⟩, h1, h2⟩ := h
    have ihns := emit_values_grows ind ns e1
    simp only at h2
    rw [except_bind_ok] at h2
    obtain ⟨⟨ids2, e2⟩, h3, h4⟩ := h2
    simp only [Except.ok.injEq, Prod.mk.injEq] at h4
    obtain ⟨_, rfl⟩ := h4
    exact grows_trans (ihn _ _ h1) (ihns _ _ h3)
theorem emit_primop_call_grows (ind : Nat → SpvId) :
    ∀ (node : Node) (em : SpvEmitter) (bbb : SpvBasicBlockBuilder) (id : SpvId)
      (em1 : SpvEmitter) (bbb1 : SpvBasicBlockBuilder),
      emit_primop_call ind em bbb node = .ok (id, em1, bbb1) →
      grows em em1 ∧ (bbb.clean → bbb1.clean)
  | .PrimOp op args, em, bbb, id, em1, bbb1, h => by
    have iha := emit_values_grows ind args em
    simp only [emit_primop_call] at h
    rw [except_bind_ok] at h
    obtain ⟨⟨arr, e1⟩, h1, h2⟩ := h
    simp only at h2
    rw [except_bind_ok] at h2
    obtain ⟨⟨i32_t, e2⟩, h3, h4⟩ := h2
    cases op with
    | add_op =>
      simp only [spvb_binop, spvb_fresh_id, Except.ok.injEq, Prod.mk.injEq] at h4
      obtain ⟨_, rfl, rfl⟩ := h4
      exact ⟨grows_trans (iha _ _ h1) (grows_trans (emit_type_grows _ _ _ _ h3)
        (grows_bound e2 (e2.file_builder.bound + 1))),
        fun hc => clean_write _ _ (by rfl) hc⟩
    | _ => simp at h4
  | .Call _ _, em, bbb, id, em1, bbb1, h => by
    simp only [emit_primop_call] at h
    cases h
  | .Int, em, bbb, id, em1, bbb1, h => by
    simp only [emit_primop_call] at h
    cases h
  | .Float, em, bbb, id, em1, bbb1, h => by
    simp only [emit_primop_call] at h
    cases h
  | .PtrType _ _, em, bbb, id, em1, bbb1, h => by
    simp only [emit_primop_call] at h
    cases h
  | .RecordType _, em, bbb, id, em1, bbb1, h => by
    simp only [emit_primop_call] at h
    cases h
  | .FnType _ _, em, bbb, id, em1, bbb1, h => by
    simp only [emit_primop_call] at h
    cases h
  | .QualifiedType _ _, em, bbb, id, em1, bbb1, h => by
    simp only [emit_primop_call] at h
    cases h
  | .Variable _ _ _, em, bbb, id, em1, bbb1, h => by
    simp only [emit_primop_call] at h
    cases h
  | .IntLiteral _ _, em, bbb, id, em1, bbb1, h => by
    simp only [emit_primop_call] at h
    cases h
  | .Function _ _ _, em, bbb, id, em1, bbb1, h => by
    simp only [emit_primop_call] at h
    cases h
  | .Let _ _, em, bbb, id, em1, bbb1, h => by
    simp only [emit_primop_call] at h
    cases h
  | .Return _, em, bbb, id, em1, bbb1, h => by
    simp only [emit_primop_call] at h
    cases h
  | .StructuredSelection _ _ _, em, bbb, id, em1, bbb1, h => by
    simp only [emit_primop_call] at h
    cases h
theorem emit_instruction_grows (ind : Nat → SpvId) :
    ∀ (node : Node) (em : SpvEmitter) (fnb : SpvFnBuilder) (bbb : SpvBasicBlockBuilder)
      (em1 : SpvEmitter) (bbb1 : SpvBasicBlockBuilder),
      emit_instruction ind em fnb bbb node = .ok (em1, bbb1) →
      grows em em1 ∧ (bbb.clean → bbb1.clean)
  | .Let vars target, em, fnb, bbb, em1, bbb1, h => by
    have iht := emit_primop_call_grows ind target em bbb
    simp only [emit_instruction] at h
    rw [except_bind_ok] at h
    obtain ⟨⟨out0, e1, b1⟩, h1, h2⟩ := h
    simp only [Except.ok.injEq, Prod.mk.injEq] at h2
    obtain ⟨rfl, rfl⟩ := h2
    obtain ⟨hg, hc⟩ := iht _ _ _ h1
    exact ⟨grows_trans hg (register_outputs_grows ind out0 vars e1 0), hc⟩
  | .Return ret_values, em, fnb, bbb, em1, bbb1, h => by
    cases ret_values with
    | nil =>
      simp only [emit_instruction, Except.ok.injEq, Prod.mk.injEq] at h
      obtain ⟨rfl, rfl⟩ := h
      exact ⟨grows_refl _, fun hc => clean_write _ _ (by rfl) hc⟩
    | cons v vs =>
      have ihv := emit_value_grows ind v em none
      cases vs with
      | nil =>
        simp only [emit_instruction] at h
        rw [except_bind_ok] at h
        obtain ⟨⟨id, e1⟩, h1, h2⟩ := h
        simp only [Except.ok.injEq, Prod.mk.injEq] at h2
        obtain ⟨rfl, rfl⟩ := h2
        exact ⟨ihv _ _ h1, fun hc => clean_write _ _ (by rfl) hc⟩
      | cons v1 vs =>
        simp only [emit_instruction] at h
        rw [except_bind_ok] at h
        obtain ⟨⟨id, e1⟩, h1, h2⟩ := h
        have ihvs := emit_values_grows ind (.cons v1 vs) e1
        simp only at h2
        rw [except_bind_ok] at h2
        obtain ⟨⟨ids, e2⟩, h3, h4⟩ := h2
        simp only [spvb_composite, spvb_fresh_id, Except.ok.injEq, Prod.mk.injEq] at h4
        obtain ⟨rfl, rfl⟩ := h4
        exact ⟨grows_trans (ihv _ _ h1) (grows_trans (ihvs _ _ h3)
          (grows_bound e2 (e2.file_builder.bound + 1))),
          fun hc => clean_write _ _ (by rfl) (clean_write _ _ (by rfl) hc)⟩
  | .Int, em, fnb, bbb, em1, bbb1, h => by
    simp only [emit_instruction] at h
    cases h
  | .Float, em, fnb, bbb, em1, bbb1, h => by
    simp only [emit_instruction] at h
    cases h
  | .PtrType _ _, em, fnb, bbb, em1, bbb1, h => by
    simp only [emit_instruction] at h
    cases h
  | .RecordType _, em, fnb, bbb, em1, bbb1, h => by
    simp only [emit_instruction] at h
    cases h
  | .FnType _ _, em, fnb, bbb, em1, bbb1, h => by
    simp only [emit_instruction] at h
    cases h
  | .QualifiedType _ _, em, fnb, bbb, em1, bbb1, h => by
    simp only [emit_instruction] at h
    cases h
  | .Variable _ _ _, em, fnb, bbb, em1, bbb1, h => by
    simp only [emit_instruction] at h
    cases h
  | .IntLiteral _ _, em, fnb, bbb, em1, bbb1, h => by
    simp only [emit_instruction] at h
    cases h
  | .Function _ _ _, em, fnb, bbb, em1, bbb1, h => by
    simp only [emit_instruction] at h
    cases h
  | .PrimOp _ _, em, fnb, bbb, em1, bbb1, h => by
    simp only [emit_instruction] at h
    cases h
  | .Call _ _, em, fnb, bbb, em1, bbb1, h => by
    simp only [emit_instruction] at h
    cases h
  | .StructuredSelection _ _ _, em, fnb, bbb, em1, bbb1, h => by
    simp only [emit_instruction] at h
    cases h
theorem emit_instructions_grows (ind : Nat → SpvId) :
    ∀ (is : Nodes) (em : SpvEmitter) (fnb : SpvFnBuilder) (bbb : SpvBasicBlockBuilder)
      (em1 : SpvEmitter) (bbb1 : SpvBasicBlockBuilder),
      emit_instructions ind em fnb bbb is = .ok (em1, bbb1) →
      grows em em1 ∧ (bbb.clean → bbb1.clean)
  | .nil, em, fnb, bbb, em1, bbb1, h => by
    simp only [emit_instructions, Except.ok.injEq, Prod.mk.injEq] at h
    obtain ⟨rfl, rfl⟩ := h
    exact ⟨grows_refl _, id⟩
  | .cons i rest, em, fnb, bbb, em1, bbb1, h => by
    have ihi := emit_instruction_grows ind i em fnb bbb
    simp only [emit_instructions] at h
    rw [except_bind_ok] at h
    obtain ⟨⟨e1, b1⟩, h1, h2⟩ := h
    obtain ⟨hg1, hc1⟩ := ihi _ _ h1
    obtain ⟨hg2, hc2⟩ := emit_instructions_grows ind rest e1 fnb b1 em1 bbb1 h2
    exact ⟨grows_trans hg1 hg2, fun hc => hc2 (hc1 hc)⟩
end

theorem reserve_ids_grows :
    ∀ (vs : Vars) (em : SpvEmitter), grows em (reserve_ids em vs).2
  | .nil, em => by simp only [reserve_ids]; exact grows_refl em
  | .cons name id type vs, em => by
    simp only [reserve_ids, spvb_fresh_id, spvb_name, SpvFileBuilder.write]
    exact grows_trans
      (grows_trans (grows_trans (grows_bound em (em.file_builder.bound + 1))
        (grows_insert _ (.Variable name id type) em.file_builder.bound
          (fun _ _ hc => by cases hc)))
        (grows_write_one _ _ _ (by rfl)))
      (reserve_ids_grows vs _)

theorem emit_definitions_grows (ind : Nat → SpvId) :
    ∀ (vs : Vars) (em : SpvEmitter) (ids : List SpvId) (definitions : List (Option Node))
      (em1 : SpvEmitter),
      emit_definitions ind em vs ids definitions = .ok em1 → grows em em1
  | .nil, em, ids, definitions, em1, h => by
    simp only [emit_definitions, Except.ok.injEq] at h
    subst h
    exact grows_refl _
  | .cons name vid var_type vs, em, [], definitions, em1, h => by
    simp only [emit_definitions] at h
    cases h
  | .cons name vid var_type vs, em, id :: ids, [], em1, h => by
    simp only [emit_definitions] at h
    cases h
  | .cons name vid var_type vs, em, id :: ids, none :: definitions, em1, h => by
    simp only [emit_definitions] at h
    split at h
    · cases h
    · split at h
      · rw [except_bind_ok] at h
        obtain ⟨⟨type_id, e1⟩, h1, h2⟩ := h
        simp only at h2
        rw [except_bind_ok] at h2
        obtain ⟨sc, _, h3⟩ := h2
        simp only [spvb_global_variable, SpvFileBuilder.write] at h3
        exact grows_trans (emit_type_grows _ _ _ _ h1)
          (grows_trans (grows_write_one e1 e1.file_builder.bound _ (by rfl))
            (emit_definitions_grows ind vs _ ids definitions em1 h3))
      · cases h
  | .cons name vid var_type vs, em, id :: ids, some definition :: definitions, em1, h => by
    simp only [emit_definitions] at h
    rw [except_bind_ok] at h
    obtain ⟨⟨_, e1⟩, h1, h2⟩ := h
    exact grows_trans (emit_value_grows ind _ _ _ _ _ h1)
      (emit_definitions_grows ind vs e1 ids definitions em1 h2)

/-- In a module `emit` writes, every `OpFunction` has the `OpTypeFunction` of
its function type in the module, and its result type is the return type of
that `OpTypeFunction`. -/
theorem emit_functions_typed (ind : Nat → SpvId) (root : Root) (fb : SpvFileBuilder)
    (h : emit ind root = .ok fb) : functions_typed fb.words := by
  simp only [emit, spvb_begin, spvb_void_type, spvb_fresh_id, spvb_capability,
    SpvFileBuilder.write] at h
  split at h
  · next em1 heq =>
    simp only [Except.ok.injEq] at h
    subst h
    have hg := grows_trans (reserve_ids_grows root.vars _)
      (emit_definitions_grows ind _ _ _ _ _ heq)
    refine hg.2.2.2.2 ?_ ?_
    · intro ps rs fid hf
      simp [find_value_dict_nil] at hf
    · intro f ft ret hmem
      simp at hmem
  · cases h

/-- C22. `nodes2codom` models the return types of a function as a record.
For no return type it returns the void type id, for one the id `emit_type`
gives that type, and for two or more what `emit_type` gives the record of
them: on a miss, one `OpTypeStruct` whose members are the ids of the return
types in order.  The result is memoized: a second call on the emitter the
first one left returns the same id and writes nothing.  So in every module
`emit` writes, the result type of each `OpFunction` is the return type of the
`OpTypeFunction` of its function type. -/
theorem nodes2codom_record_of_returns (indeterminate : Nat → SpvId) (emitter : SpvEmitter) :
    nodes2codom emitter .nil = .ok (emitter.void_t, emitter)
    ∧ (∀ t, nodes2codom emitter (.cons t .nil) = emit_type emitter t)
    ∧ (∀ t t1 ts, nodes2codom emitter (.cons t (.cons t1 ts))
        = emit_type emitter (.RecordType (.cons t (.cons t1 ts))))
    ∧ (∀ t t1 ts ids emitter1,
        find_value_dict emitter.node_ids (.RecordType (.cons t (.cons t1 ts))) = none →
        emit_types emitter (.cons t (.cons t1 ts)) = .ok (ids, emitter1) →
        nodes2codom emitter (.cons t (.cons t1 ts))
          = .ok (emitter1.file_builder.bound,
              { file_builder :=
                  { bound := emitter1.file_builder.bound + 1,
                    words := emitter1.file_builder.words ++
                      [.OpTypeStruct emitter1.file_builder.bound ids] },
                void_t := emitter1.void_t,
                node_ids := insert_dict emitter1.node_ids
                  (.RecordType (.cons t (.cons t1 ts))) emitter1.file_builder.bound }))
    ∧ (∀ rs id emitter1, nodes2codom emitter rs = .ok (id, emitter1) →
        nodes2codom emitter1 rs = .ok (id, emitter1))
    ∧ (∀ root fb, emit indeterminate root = .ok fb → functions_typed fb.words) := by
  refine ⟨by simp only [nodes2codom], fun t => by simp only [nodes2codom],
    nodes2codom_eq_emit_type emitter, ?_, ?_, emit_functions_typed indeterminate⟩
  · intro t t1 ts ids emitter1 hfind hts
    rw [nodes2codom_eq_emit_type]
    simp only [emit_type, hfind, hts, bind, Except.bind, spvb_struct_type, spvb_fresh_id,
      SpvFileBuilder.write, SpvEmitter.insert]
  · intro rs id emitter1 h
    exact nodes2codom_of_recorded emitter1 rs id (nodes2codom_records emitter emitter1 rs id h)

theorem emit_pair_function :
    emit (fun _ => 0) pair_function_root = .ok pair_function_module := by
  simp [emit, pair_function_root, pair_function_module, spvb_begin, spvb_void_type,
    spvb_capability, spvb_fresh_id, SpvFileBuilder.write, reserve_ids, SpvEmitter.insert,
    insert_dict, find_value_dict_cons, find_value_dict_nil, spvb_name, emit_definitions,
    strip_qualifier, emit_value, emit_value_id, emit_type, emit_types, nodes2codom,
    derive_fn_type, param_types, spvb_int_type, spvb_struct_type, spvb_fn_type, spvb_constant,
    spvb_begin_fn, emit_params, spvb_begin_bb, emit_instructions, emit_instruction,
    emit_values, spvb_composite, fn_ret_type_id, spvb_return_value,
    SpvBasicBlockBuilder.write, spvb_define_function, bind, Except.bind]

/-- C22 at the function `pair`, which returns two integers: the module holds
one `OpTypeStruct 4 [3, 3]`, and `OpTypeFunction 5 4 []` and `OpFunction 2 5 4`
agree on the return type 4. -/
theorem nodes2codom_record_of_returns_witness :
    emit (fun _ => 0) pair_function_root = .ok pair_function_module
    ∧ functions_typed pair_function_module.words :=
  ⟨emit_pair_function, (nodes2codom_record_of_returns (fun _ => 0) sample_emitter).2.2.2.2.2
    pair_function_root pair_function_module emit_pair_function⟩

end Emit

namespace MapEntrypointArgs

/-! ## The rewriter never fails on a type -/

theorem registers_below_refl (r : Rewriter) (b : Nat) : registers_below r r b :=
  ⟨fun _ h => Or.inl h, rfl, rfl⟩

theorem registers_below_trans {r1 r2 r3 : Rewriter} {b1 b2 b : Nat}
    (h12 : registers_below r1 r2 b1) (h23 : registers_below r2 r3 b2) (hb1 : b1 ≤ b)
    (hb2 : b2 ≤ b) : registers_below r1 r3 b := by
  refine ⟨fun k hk => ?_, h23.2.1.trans h12.2.1, h23.2.2.trans h12.2.2⟩
  rcases h23.1 k hk with h | h
  · rcases h12.1 k h with h | h
    · exact Or.inl h
    · exact Or.inr (by omega)
  · exact Or.inr (by omega)

theorem registers_below_mono {r1 r2 : Rewriter} {b1 b : Nat} (h : registers_below r1 r2 b1)
    (hb : b1 ≤ b) : registers_below r1 r2 b :=
  registers_below_trans h (registers_below_refl r2 0) hb (Nat.zero_le b)

theorem registers_below_miss {r r1 : Rewriter} {b : Nat} {k : Ty}
    (h : registers_below r r1 b) (hk : search_processed_type r k = none)
    (hb : b ≤ sizeOf k) : search_processed_type r1 k = none := by
  by_contra hne
  rcases h.1 k hne with h1 | h1
  · exact h1 hk
  · omega

theorem search_processed_type_cons (r : Rewriter) (old new k : Ty) :
    search_processed_type { r with map := (old, new) :: r.map } k
      = if k = old then some new else search_processed_type r k := by
  unfold search_processed_type
  by_cases h : k = old
  · subst h; simp [List.lookup]
  · have hne : (k == old) = false := by simpa using h
    simp [List.lookup, hne, h]

theorem search_processed_cons (r : Rewriter) (old new k : Declaration) :
    search_processed { r with decls_map := (old, new) :: r.decls_map } k
      = if k = old then some new else search_processed r k := by
  unfold search_processed
  by_cases h : k = old
  · subst h; simp [List.lookup]
  · have hne : (k == old) = false := by simpa using h
    simp [List.lookup, hne, h]

theorem register_processed_type_miss (r : Rewriter) (old new : Ty)
    (h : search_processed_type r old = none) :
    register_processed_type r old new = .ok { r with map := (old, new) :: r.map } := by
  simp only [register_processed_type, h]

theorem register_processed_miss (r : Rewriter) (old new : Declaration)
    (h : search_processed r old = none) :
    register_processed r old new = .ok { r with decls_map := (old, new) :: r.decls_map } := by
  simp only [register_processed, h]

theorem registers_below_cons {r r1 : Rewriter} {b : Nat} (old new : Ty)
    (h : registers_below r r1 b) (hb : sizeOf old < b) :
    registers_below r { r1 with map := (old, new) :: r1.map } b := by
  refine ⟨fun k hk => ?_, h.2.1, h.2.2⟩
  rw [search_processed_type_cons] at hk
  by_cases hko : k = old
  · subst hko; exact Or.inr hb
  · rw [if_neg hko] at hk
    exact h.1 k hk

theorem rewrite_node_with_ok {r r1 : Rewriter} {old new : Ty} {b : Nat}
    (processed : Except String (Ty × Rewriter)) (hp : processed = .ok (new, r1))
    (h : registers_below r r1 b) (hb : b ≤ sizeOf old) :
    ∃ t1 r2, rewrite_node_with r old processed = .ok (t1, r2) ∧
      registers_below r r2 (sizeOf old + 1) := by
  unfold rewrite_node_with
  cases hs : search_processed_type r old with
  | some found => exact ⟨found, r, rfl, registers_below_refl _ _⟩
  | none =>
    have hm := registers_below_miss h hs hb
    refine ⟨new, { r1 with map := (old, new) :: r1.map }, ?_, ?_⟩
    · simp only [hp, bind, Except.bind, register_processed_type_miss r1 old new hm]
    · exact registers_below_cons old new (registers_below_mono h (by omega)) (by omega)

mutual
theorem rewrite_type_ok :
    ∀ (t : Ty) (r : Rewriter), ∃ t1 r1, rewrite_type r t = .ok (t1, r1) ∧
      registers_below r r1 (sizeOf t + 1)
  | .Int, r => by
    simp only [rewrite_type]
    exact rewrite_node_with_ok _ rfl (registers_below_refl r 0) (Nat.zero_le _)
  | .MaskType, r => by
    simp only [rewrite_type]
    exact rewrite_node_with_ok _ rfl (registers_below_refl r 0) (Nat.zero_le _)
  | .PtrType a p, r => by
    obtain ⟨p1, r1, h1, hb1⟩ := rewrite_type_ok p r
    simp only [rewrite_type]
    refine @rewrite_node_with_ok r r1 _ (Ty.PtrType a p1) _ _ ?_ hb1 (by simp_arith)
    simp only [h1, bind, Except.bind]
  | .RecordType ms names special, r => by
    obtain ⟨ms1, r1, h1, hb1⟩ := rewrite_types_ok ms r
    simp only [rewrite_type]
    refine @rewrite_node_with_ok r r1 _ (Ty.RecordType ms1 names special) _ _ ?_ hb1
      (by simp_arith)
    simp only [h1, bind, Except.bind]
  | .FnType ps rs, r => by
    obtain ⟨ps1, r1, h1, hb1⟩ := rewrite_types_ok ps r
    obtain ⟨rs1, r2, h2, hb2⟩ := rewrite_types_ok rs r1
    simp only [rewrite_type]
    refine @rewrite_node_with_ok r r2 _ (Ty.FnType ps1 rs1) _ _ ?_
      (@registers_below_trans r r1 r2 _ _ (sizeOf (Ty.FnType ps rs)) hb1 hb2
        (by simp_arith) (by simp_arith))
      (Nat.le_refl _)
    simp only [h1, h2, bind, Except.bind]
  | .QualifiedType u t, r => by
    obtain ⟨t1, r1, h1, hb1⟩ := rewrite_type_ok t r
    simp only [rewrite_type]
    refine @rewrite_node_with_ok r r1 _ (Ty.QualifiedType u t1) _ _ ?_ hb1 (by simp_arith)
    simp only [h1, bind, Except.bind]
theorem rewrite_types_ok :
    ∀ (ts : Tys) (r : Rewriter), ∃ ts1 r1, rewrite_types r ts = .ok (ts1, r1) ∧
      registers_below r r1 (sizeOf ts)
  | .nil, r => ⟨.nil, r, by simp only [rewrite_types], registers_below_refl _ _⟩
  | .cons t ts, r => by
    obtain ⟨t1, r1, h1, hb1⟩ := rewrite_type_ok t r
    obtain ⟨ts1, r2, h2, hb2⟩ := rewrite_types_ok ts r1
    refine ⟨.cons t1 ts1, r2, ?_, registers_below_trans hb1 hb2 (by simp_arith) (by simp_arith)⟩
    simp only [rewrite_types, h1, h2, bind, Except.bind]
end

theorem rewrite_annotation_maps (r : Rewriter) (a : Annotation) :
    ( rewrite_annotation r a).2.map = r.map ∧
    ( rewrite_annotation r a).2.decls_map = r.decls_map := by
  unfold rewrite_annotation
  cases r.annotation_map.lookup a <;> exact ⟨rfl, rfl⟩

theorem rewrite_annotations_maps :
    ∀ (annotations : List Annotation) (r : Rewriter),
      (rewrite_annotations r annotations).2.map = r.map ∧
      (rewrite_annotations r annotations).2.decls_map = r.decls_map
  | [], r => ⟨rfl, rfl⟩
  | a :: rest, r => by
    have h1 := rewrite_annotation_maps r a
    have h2 := rewrite_annotations_maps rest ( rewrite_annotation r a).2
    simp only [rewrite_annotations]
    exact ⟨h2.1.trans h1.1, h2.2.trans h1.2⟩

/-! ## The entry-point arguments -/

theorem search_processed_of_decls_map {r r1 : Rewriter} (h : r1.decls_map = r.decls_map)
    (k : Declaration) : search_processed r1 k = search_processed r k := by
  simp only [search_processed, h]

theorem register_processed_type_maps (r r1 : Rewriter) (old new : Ty)
    (h : register_processed_type r old new = .ok r1) :
    r1.annotation_map = r.annotation_map ∧ r1.decls_map = r.decls_map := by
  unfold register_processed_type at h
  cases hs : search_processed_type r old with
  | none =>
    simp only [hs, Except.ok.injEq] at h
    subst h
    exact ⟨rfl, rfl⟩
  | some found =>
    simp only [hs] at h
    by_cases hf : found = new
    · simp only [hf, if_true, Except.ok.injEq] at h
      subst h
      exact ⟨rfl, rfl⟩
    · simp [hf] at h

theorem rewrite_args_type_maps (r r1 : Rewriter) (t t1 : Ty)
    (h : rewrite_args_type r t = .ok (t1, r1)) :
    r1.annotation_map = r.annotation_map ∧ r1.decls_map = r.decls_map := by
  cases t with
  | RecordType members names special =>
    cases special with
    | NotSpecial =>
      obtain ⟨ms1, r2, h2, hb⟩ := rewrite_types_ok members r
      simp only [rewrite_args_type, h2, bind, Except.bind] at h
      cases hreg : register_processed_type r2 (.RecordType members names .NotSpecial)
          (.RecordType ms1 names .DecorateBlock) with
      | error e => simp [hreg] at h
      | ok r3 =>
        simp only [hreg, Except.ok.injEq, Prod.mk.injEq] at h
        obtain ⟨_, rfl⟩ := h
        have h3 := register_processed_type_maps _ _ _ _ hreg
        exact ⟨h3.1.trans hb.2.1, h3.2.trans hb.2.2⟩
    | DecorateBlock => cases h
  | _ => cases h

/-- `recreate_node_identity` never fails on a declaration that is not
registered yet. -/
theorem recreate_node_identity_ok (r : Rewriter) (node : Declaration)
    (hnode : search_processed r node = none) :
    ∃ new r1, recreate_node_identity r node = .ok (new, r1) := by
  cases node with
  | GlobalVariable annotations type name address_space =>
    have hmaps := rewrite_annotations_maps annotations r
    obtain ⟨t1, r2, h1, hb1⟩ := rewrite_type_ok type (rewrite_annotations r annotations).2
    have hnode2 : search_processed r2
        (.GlobalVariable annotations type name address_space) = none := by
      simp only [search_processed] at hnode ⊢
      rw [hb1.2.2, hmaps.2]; exact hnode
    simp only [recreate_node_identity, h1, bind, Except.bind,
      register_processed_miss _ _ _ hnode2]
    exact ⟨_, _, rfl⟩
  | Constant annotations name type_hint value =>
    have hmaps := rewrite_annotations_maps annotations r
    obtain ⟨t1, r2, h1, hb1⟩ := rewrite_type_ok type_hint (rewrite_annotations r annotations).2
    have hnode2 : search_processed r2
        (.Constant annotations name type_hint value) = none := by
      simp only [search_processed] at hnode ⊢
      rw [hb1.2.2, hmaps.2]; exact hnode
    simp only [recreate_node_identity, h1, bind, Except.bind,
      register_processed_miss _ _ _ hnode2]
    exact ⟨_, _, rfl⟩

theorem process_not_annotated (r : Rewriter) (node : Declaration)
    (hnode : search_processed r node = none) (h : is_entry_point_args node = false) :
    process r node = recreate_node_identity r node := by
  cases node with
  | GlobalVariable annotations type name address_space =>
    simp only [is_entry_point_args] at h
    simp only [process, hnode, h, Bool.false_eq_true, if_false]
  | Constant annotations name type_hint value =>
    simp only [process, hnode]

theorem process_bad_address_space (r : Rewriter) (node : Declaration)
    (hnode : search_processed r node = none) (h : is_entry_point_args node = true)
    (ha : node.address_space ≠ some .AsExternal) :
    process r node = .error "EntryPointArgs address space must be extern" := by
  cases node with
  | GlobalVariable annotations type name address_space =>
    simp only [is_entry_point_args] at h
    have ha1 : address_space ≠ .AsExternal := by
      intro hc; exact ha (by rw [hc]; rfl)
    simp only [process, hnode, h, if_true, ne_eq, ha1, not_false_eq_true]
  | Constant annotations name type_hint value =>
    simp [is_entry_point_args] at h

theorem lookup_mem_of_some {α β : Type} [DecidableEq α] {k : α} {v : β} :
    ∀ {l : List (α × β)}, l.lookup k = some v → (k, v) ∈ l
  | [], h => by simp [List.lookup] at h
  | (a, b) :: l, h => by
    by_cases hk : k = a
    · subst hk
      simp [List.lookup] at h
      subst h
      exact List.mem_cons_self _ _
    · have hne : (k == a) = false := by simpa using hk
      simp only [List.lookup, hne] at h
      exact List.mem_cons_of_mem _ (lookup_mem_of_some h)

theorem bind_eq_ok {ε α β : Type} (x : Except ε α) (f : α → Except ε β) (b : β) :
    (x >>= f) = .ok b ↔ ∃ a, x = .ok a ∧ f a = .ok b := by
  cases x <;> simp [bind, Except.bind]

theorem rewrite_annotation_identity (r : Rewriter) (a : Annotation)
    (h : ∀ p ∈ r.annotation_map, p.2 = p.1) :
    ( rewrite_annotation r a).1 = a ∧
    ∀ p ∈ ( rewrite_annotation r a).2.annotation_map, p.2 = p.1 := by
  unfold rewrite_annotation
  cases hl : r.annotation_map.lookup a with
  | some found =>
    exact ⟨h (a, found) (lookup_mem_of_some hl), h⟩
  | none =>
    refine ⟨rfl, ?_⟩
    intro p hp
    simp only [List.mem_cons] at hp
    rcases hp with rfl | hp
    · rfl
    · exact h p hp

theorem rewrite_annotations_identity :
    ∀ (annotations : List Annotation) (r : Rewriter),
      (∀ p ∈ r.annotation_map, p.2 = p.1) →
      (rewrite_annotations r annotations).1 = annotations ∧
      ∀ p ∈ (rewrite_annotations r annotations).2.annotation_map, p.2 = p.1
  | [], r, h => ⟨rfl, h⟩
  | a :: rest, r, h => by
    have h1 := rewrite_annotation_identity r a h
    have h2 := rewrite_annotations_identity rest ( rewrite_annotation r a).2 h1.2
    simp only [rewrite_annotations]
    exact ⟨by rw [h1.1, h2.1], h2.2⟩

theorem rewrite_type_maps (r r1 : Rewriter) (t t1 : Ty)
    (h : rewrite_type r t = .ok (t1, r1)) :
    r1.annotation_map = r.annotation_map ∧ r1.decls_map = r.decls_map := by
  obtain ⟨t2, r2, h2, hb⟩ := rewrite_type_ok t r
  rw [h2] at h
  simp only [Except.ok.injEq, Prod.mk.injEq] at h
  obtain ⟨_, rfl⟩ := h
  exact hb.2

theorem register_processed_maps (r r1 : Rewriter) (old new : Declaration)
    (h : register_processed r old new = .ok r1) :
    r1.annotation_map = r.annotation_map ∧
    (r1.decls_map = r.decls_map ∨ r1.decls_map = (old, new) :: r.decls_map) := by
  unfold register_processed at h
  cases hs : search_processed r old with
  | none =>
    simp only [hs, Except.ok.injEq] at h
    subst h
    exact ⟨rfl, Or.inr rfl⟩
  | some found =>
    simp only [hs] at h
    by_cases hf : found = new
    · simp only [hf, if_true, Except.ok.injEq] at h
      subst h
      exact ⟨rfl, Or.inl rfl⟩
    · simp [hf] at h

theorem consistent_of_maps {r r1 : Rewriter} {old new : Declaration} (h : r.consistent)
    (ha : ∀ p ∈ r1.annotation_map, p.2 = p.1)
    (hd : r1.decls_map = r.decls_map ∨ r1.decls_map = (old, new) :: r.decls_map)
    (himage : is_image old new) : r1.consistent := by
  refine ⟨ha, ?_⟩
  intro p hp
  rcases hd with hd | hd
  · rw [hd] at hp; exact h.2 p hp
  · rw [hd, List.mem_cons] at hp
    rcases hp with rfl | hp
    · exact himage
    · exact h.2 p hp

theorem is_image_global (annotations : List Annotation) (type type1 : Ty) (name : String)
    (address_space address_space1 : AddressSpace)
    (h : is_entry_point_args (.GlobalVariable annotations type name address_space) = true →
      address_space1 = .AsPushConstant) :
    is_image (.GlobalVariable annotations type name address_space)
      (.GlobalVariable annotations type1 name address_space1) := by
  refine ⟨rfl, fun ha => ?_⟩
  rw [h ha]; rfl

theorem process_image (r r1 : Rewriter) (node new : Declaration) (hr : r.consistent)
    (h : process r node = .ok (new, r1)) :
    is_image node new ∧ r1.consistent ∧
    (r1.decls_map = r.decls_map ∨ r1.decls_map = (node, new) :: r.decls_map) := by
  unfold process at h
  cases hs : search_processed r node with
  | some found =>
    simp only [hs, Except.ok.injEq, Prod.mk.injEq] at h
    obtain ⟨rfl, rfl⟩ := h
    exact ⟨hr.2 (node, found) (lookup_mem_of_some hs), hr, Or.inl rfl⟩
  | none =>
    simp only [hs] at h
    cases node with
    | GlobalVariable annotations type name address_space =>
      have hid := rewrite_annotations_identity annotations r hr.1
      have hmaps := rewrite_annotations_maps annotations r
      by_cases hann : ( lookup_annotation (.GlobalVariable annotations type name address_space)
          "EntryPointArgs").isSome = true
      · by_cases ha : address_space = .AsExternal
        · subst ha
          simp only [hann, if_true, ne_eq, not_true_eq_false, if_false] at h
          cases hargs : rewrite_args_type (rewrite_annotations r annotations).2 type with
          | error e => simp [hargs, bind, Except.bind] at h
          | ok p =>
            obtain ⟨type1, r2⟩ := p
            have hm2 := rewrite_args_type_maps _ _ _ _ hargs
            simp only [hargs, bind, Except.bind] at h
            cases hreg : register_processed r2
                (.GlobalVariable annotations type name .AsExternal)
                (.GlobalVariable (rewrite_annotations r annotations).1 type1 name
                  .AsPushConstant) with
            | error e => simp [hreg] at h
            | ok r3 =>
              simp only [hreg, Except.ok.injEq, Prod.mk.injEq] at h
              obtain ⟨rfl, rfl⟩ := h
              have hm3 := register_processed_maps _ _ _ _ hreg
              rw [hid.1] at hm3 ⊢
              have himage := is_image_global annotations type type1 name .AsExternal
                .AsPushConstant (fun _ => rfl)
              have hd := hm3.2
              rw [hm2.2, hmaps.2] at hd
              refine ⟨himage, consistent_of_maps hr ?_ hd himage, hd⟩
              rw [hm3.1, hm2.1]; exact hid.2
        · simp [hann, ha] at h
      · simp only [hann, Bool.false_eq_true, if_false, recreate_node_identity] at h
        cases hty : rewrite_type (rewrite_annotations r annotations).2 type with
        | error e => simp [hty, bind, Except.bind] at h
        | ok p =>
          obtain ⟨type1, r2⟩ := p
          have hm2 := rewrite_type_maps _ _ _ _ hty
          simp only [hty, bind, Except.bind] at h
          cases hreg : register_processed r2
              (.GlobalVariable annotations type name address_space)
              (.GlobalVariable (rewrite_annotations r annotations).1 type1 name
                address_space) with
          | error e => simp [hreg] at h
          | ok r3 =>
            simp only [hreg, Except.ok.injEq, Prod.mk.injEq] at h
            obtain ⟨rfl, rfl⟩ := h
            have hm3 := register_processed_maps _ _ _ _ hreg
            rw [hid.1] at hm3 ⊢
            have himage := is_image_global annotations type type1 name address_space
              address_space (fun hc => by
                simp only [is_entry_point_args] at hc
                exact absurd hc hann)
            have hd := hm3.2
            rw [hm2.2, hmaps.2] at hd
            refine ⟨himage, consistent_of_maps hr ?_ hd himage, hd⟩
            rw [hm3.1, hm2.1]; exact hid.2
    | Constant annotations name type_hint value =>
      have hid := rewrite_annotations_identity annotations r hr.1
      have hmaps := rewrite_annotations_maps annotations r
      simp only [recreate_node_identity] at h
      cases hty : rewrite_type (rewrite_annotations r annotations).2 type_hint with
      | error e => simp [hty, bind, Except.bind] at h
      | ok p =>
        obtain ⟨type1, r2⟩ := p
        have hm2 := rewrite_type_maps _ _ _ _ hty
        simp only [hty, bind, Except.bind] at h
        cases hreg : register_processed r2
            (.Constant annotations name type_hint value)
            (.Constant (rewrite_annotations r annotations).1 name type1 value) with
        | error e => simp [hreg] at h
        | ok r3 =>
          simp only [hreg, Except.ok.injEq, Prod.mk.injEq] at h
          obtain ⟨rfl, rfl⟩ := h
          have hm3 := register_processed_maps _ _ _ _ hreg
          have himage : is_image (.Constant annotations name type_hint value)
              (.Constant (rewrite_annotations r annotations).1 name type1 value) :=
            ⟨rfl, fun hc => by simp [is_entry_point_args] at hc⟩
          have hd := hm3.2
          rw [hm2.2, hmaps.2] at hd
          rw [hid.1] at hd himage ⊢
          refine ⟨himage, consistent_of_maps hr ?_ hd himage, hd⟩
          rw [hm3.1, hm2.1]; exact hid.2

theorem rewrite_declarations_image :
    ∀ (src out : List Declaration) (r r1 : Rewriter), r.consistent →
      rewrite_declarations r src = .ok (out, r1) → List.Forall₂ is_image src out
  | [], out, r, r1, _, h => by
    simp only [rewrite_declarations, Except.ok.injEq, Prod.mk.injEq] at h
    obtain ⟨rfl, _⟩ := h
    exact .nil
  | d :: ds, out, r, r1, hr, h => by
    simp only [rewrite_declarations] at h
    cases hp : process r d with
    | error e => simp [hp, bind, Except.bind] at h
    | ok p =>
      obtain ⟨d1, r2⟩ := p
      simp only [hp, bind, Except.bind] at h
      cases hrest : rewrite_declarations r2 ds with
      | error e => simp [hrest] at h
      | ok q =>
        obtain ⟨ds1, r3⟩ := q
        simp only [hrest, Except.ok.injEq, Prod.mk.injEq] at h
        obtain ⟨rfl, rfl⟩ := h
        have him := process_image r r2 d d1 hr hp
        exact .cons him.1 (rewrite_declarations_image ds ds1 r2 r3 him.2.1 hrest)

theorem search_processed_of_no_entry_point_args (r : Rewriter) (d : Declaration)
    (hn : r.no_entry_point_args) (hd : is_entry_point_args d = true) :
    search_processed r d = none := by
  cases hs : search_processed r d with
  | none => rfl
  | some found =>
    have := hn (d, found) (lookup_mem_of_some hs)
    simp only at this
    rw [hd] at this
    cases this

theorem process_without_mark_ok (r : Rewriter) (d : Declaration)
    (hd : is_entry_point_args d = false) : ∃ d1 r1, process r d = .ok (d1, r1) := by
  cases hs : search_processed r d with
  | some found => exact ⟨found, r, by simp only [process, hs]⟩
  | none =>
    rw [process_not_annotated r d hs hd]
    exact recreate_node_identity_ok r d hs

theorem rewrite_declarations_fails :
    ∀ (out : List Declaration) (r : Rewriter), r.consistent → r.no_entry_point_args →
      (∀ d ∈ out, is_entry_point_args d = true → d.address_space = some .AsPushConstant) →
      (∃ d ∈ out, is_entry_point_args d = true) →
      rewrite_declarations r out = .error "EntryPointArgs address space must be extern"
  | [], _, _, _, _, hex => by
    obtain ⟨d, hd, _⟩ := hex
    cases hd
  | d :: ds, r, hc, hn, hall, hex => by
    cases hd : is_entry_point_args d with
    | true =>
      have hs := search_processed_of_no_entry_point_args r d hn hd
      have hbad := process_bad_address_space r d hs hd (by
        rw [hall d (List.mem_cons_self _ _) hd]; decide)
      simp only [rewrite_declarations, hbad, bind, Except.bind]
    | false =>
      obtain ⟨d1, r1, hp⟩ := process_without_mark_ok r d hd
      have him := process_image r r1 d d1 hc hp
      have hn1 : r1.no_entry_point_args := by
        intro p hp1
        rcases him.2.2 with hm | hm
        · rw [hm] at hp1; exact hn p hp1
        · rw [hm, List.mem_cons] at hp1
          rcases hp1 with rfl | hp1
          · exact hd
          · exact hn p hp1
      have hex1 : ∃ x ∈ ds, is_entry_point_args x = true := by
        obtain ⟨x, hx, hxa⟩ := hex
        rw [List.mem_cons] at hx
        rcases hx with rfl | hx
        · rw [hd] at hxa; cases hxa
        · exact ⟨x, hx, hxa⟩
      have ih := rewrite_declarations_fails ds r1 him.2.1 hn1
        (fun x hx => hall x (List.mem_cons_of_mem _ hx)) hex1
      simp only [rewrite_declarations, hp, bind, Except.bind, ih]

theorem forall₂_image_left {R : Declaration → Declaration → Prop} :
    ∀ {l1 l2 : List Declaration}, List.Forall₂ R l1 l2 → ∀ a ∈ l1, ∃ b ∈ l2, R a b
  | _, _, .nil, a, ha => by cases ha
  | _, _, .cons hab hrest, a, ha => by
    rw [List.mem_cons] at ha
    rcases ha with rfl | ha
    · exact ⟨_, List.mem_cons_self _ _, hab⟩
    · obtain ⟨b, hb, hr⟩ := forall₂_image_left hrest a ha
      exact ⟨b, List.mem_cons_of_mem _ hb, hr⟩

theorem forall₂_image_right {R : Declaration → Declaration → Prop} :
    ∀ {l1 l2 : List Declaration}, List.Forall₂ R l1 l2 → ∀ b ∈ l2, ∃ a ∈ l1, R a b
  | _, _, .nil, b, hb => by cases hb
  | _, _, .cons hab hrest, b, hb => by
    rw [List.mem_cons] at hb
    rcases hb with rfl | hb
    · exact ⟨_, List.mem_cons_self _ _, hab⟩
    · obtain ⟨a, ha, hr⟩ := forall₂_image_right hrest b hb
      exact ⟨a, List.mem_cons_of_mem _ ha, hr⟩

theorem create_rewriter_consistent :
    create_rewriter.consistent ∧ create_rewriter.no_entry_point_args :=
  ⟨⟨fun _ h => (by cases h), fun _ h => (by cases h)⟩, fun _ h => (by cases h)⟩

/-- C26. The pass cannot be applied to its own output.  When
`spirv_map_entrypoint_args` accepts a module that holds a global annotated
`EntryPointArgs`, the output module holds an annotated global too, every
annotated global of the output is in the push-constant address space, and
the pass applied to the output fails with the address-space error. -/
theorem spirv_map_entrypoint_args_rejects_own_output (src out : List Declaration)
    (h : spirv_map_entrypoint_args src = .ok out)
    (hargs : ∃ d ∈ src, is_entry_point_args d = true) :
    (∃ d ∈ out, is_entry_point_args d = true)
    ∧ (∀ d ∈ out, is_entry_point_args d = true → d.address_space = some .AsPushConstant)
    ∧ spirv_map_entrypoint_args out = .error "EntryPointArgs address space must be extern" := by
  unfold spirv_map_entrypoint_args at h
  cases hr : rewrite_declarations create_rewriter src with
  | error e => simp [hr] at h
  | ok p =>
    obtain ⟨dst, r1⟩ := p
    simp only [hr, Except.ok.injEq] at h
    subst h
    have himage := rewrite_declarations_image src dst create_rewriter r1
      create_rewriter_consistent.1 hr
    have hex : ∃ d ∈ dst, is_entry_point_args d = true := by
      obtain ⟨d, hd, hda⟩ := hargs
      obtain ⟨b, hb, hi⟩ := forall₂_image_left himage d hd
      exact ⟨b, hb, by rw [hi.1, hda]⟩
    have hall : ∀ d ∈ dst, is_entry_point_args d = true →
        d.address_space = some .AsPushConstant := by
      intro b hb hba
      obtain ⟨a, _, hi⟩ := forall₂_image_right himage b hb
      exact hi.2 (by rw [← hi.1, hba])
    refine ⟨hex, hall, ?_⟩
    have hfail := rewrite_declarations_fails dst create_rewriter
      create_rewriter_consistent.1 create_rewriter_consistent.2 hall hex
    simp only [spirv_map_entrypoint_args, hfail]

/-- C26 at the module of the one global `args`. -/
theorem spirv_map_entrypoint_args_rejects_own_output_witness :
    spirv_map_entrypoint_args [sample_args]
      = .ok [.GlobalVariable [⟨"EntryPointArgs"⟩]
          (.RecordType (.cons .Int (.cons (.PtrType .AsGlobal .Int) .nil)) ["n", "data"]
            .DecorateBlock) "args" .AsPushConstant]
    ∧ spirv_map_entrypoint_args [.GlobalVariable [⟨"EntryPointArgs"⟩]
          (.RecordType (.cons .Int (.cons (.PtrType .AsGlobal .Int) .nil)) ["n", "data"]
            .DecorateBlock) "args" .AsPushConstant]
      = .error "EntryPointArgs address space must be extern" :=
  ⟨rfl,
    (spirv_map_entrypoint_args_rejects_own_output [sample_args]
      [.GlobalVariable [⟨"EntryPointArgs"⟩]
        (.RecordType (.cons .Int (.cons (.PtrType .AsGlobal .Int) .nil)) ["n", "data"]
          .DecorateBlock) "args" .AsPushConstant]
      rfl ⟨sample_args, List.mem_cons_self _ _, by decide⟩).2.2⟩

end MapEntrypointArgs
